import Mathlib

/-!
# Two-pass assembler: shallow embedding and verified properties

The C sources (`general_functions.c`, `first_pass.c`, `second_pass.c`, `headers.h`) are
embedded function by function, keeping the C names.

Conventions of the embedding

* A C `short` is an `Int` in `[-32768, 32767]`; every store into a `short` goes through
  `toShort` (two's-complement wrap-around), bitwise operators act on the 16-bit pattern.
* A C string is a `List Char` (the characters before the terminating NUL).
* The linked lists are Lean lists in link order; `malloc` always succeeds, so the
  `FATAL_ERROR` paths for allocation failure are not part of the model.
* A result of `none` stands for a run the C standard leaves without meaning: a loop that
  never ends, a read of a buffer that was never written or a write behind the end of an
  array.
* An error buffer is a Lean string that holds the message in full; where the message is
  written with `sprintf` around a text of the input, the run has no meaning when the
  message does not fit the array `error_str[ERROR_MESSAGE_SIZE]`.
* A `double` is a value of IEEE 754 binary64, and `atof` is the `strtod` of the C library
  with its rounding.
-/

namespace Assembler

/-! ## Constants of `headers.h` -/

def MAX_LENGTH_OF_LINE : Nat := 82
def MAX_LENGTH_OF_LABEL : Nat := 32
def ERROR_MESSAGE_SIZE : Nat := 110
def MEMORY_CELLS : Int := 4095
def BITS_NUM : Int := 15
def IMMEDIATE_ADDRESSING : Int := 0
def DIRECT_ADDRESSING : Int := 1
def INDIRECT_REGISTER_ADDRESSING : Int := 2
def DIRECT_REGISTER_ADDRESSING : Int := 3
def OPCODE_START_POSITION : Int := 11
def SOURCE_START_POSITION : Int := 7
def TARGET_START_POSITION : Int := 3
def OPERAND_START_POSITION : Int := 3
def ADDRESS_START_POSITION : Int := 3
def SOURCE_REGISTER_START_POSITION : Int := 6
def TARGET_REGISTER_START_POSITION : Int := 3
def A_ADDRESSING_METHOD : Int := 2
def R_ADDRESSING_METHOD : Int := 1
def E_ADDRESSING_METHOD : Int := 0
def EXTERN_VALUE : Int := 1
def HAVE_BMC : Nat := 0
def FIRST_MEMORY_CELL : Int := 100
def NO_TYPE : Int := -1
def NO_OPCODE : Int := -1
def NO_REGISTER : Int := -1

/-! The enumeration `opcode`. -/

def MOV : Int := 0
def CMP : Int := 1
def ADD : Int := 2
def SUB : Int := 3
def LEA : Int := 4
def CLR : Int := 5
def NOT : Int := 6
def INC : Int := 7
def DEC : Int := 8
def JMP : Int := 9
def BNE : Int := 10
def RED : Int := 11
def PRN : Int := 12
def JSR : Int := 13
def RTS : Int := 14
def STOP : Int := 15

/-! The enumeration `instruction`. -/

def DATA : Int := 0
def STRING : Int := 1
def ENTRY : Int := 2
def EXTERN : Int := 3
def CODE : Int := 4

/-! ## Machine integers -/

/-- Conversion of an integer to `short`: the value modulo 2^16 in `[-32768, 32767]`. -/
def toShort (x : Int) : Int := (x + 32768) % 65536 - 32768

/-- The 16-bit two's-complement pattern of a `short`. -/
def bits16 (x : Int) : Nat := (x % 65536).toNat

/-- C `a | b` on two `short`s, stored back into a `short`. -/
def shortOr (a b : Int) : Int := toShort (Int.ofNat (bits16 a ||| bits16 b))

/-- C `a & b` on two `short`s, stored back into a `short`. -/
def shortAnd (a b : Int) : Int := toShort (Int.ofNat (bits16 a &&& bits16 b))

/-- The expression `(short)pow(2, start)`: the bit at index `start`. Every call site passes
`0 <= start <= 14`, where the power is exact and fits a `short`. -/
def powShort (start : Int) : Int := if start < 0 then 0 else toShort (2 ^ start.toNat)

/-- The mask `(short)(pow(2,16)-1)` of `insertBinaryValueByData`. The constant 65535 is
outside the range of `short`; the conversion of the out-of-range constant saturates to
`SHRT_MAX`, which is the mask the source comment describes: "it keeps over only 15 bits of
short". -/
def DATA_MASK : Int := 32767

/-! ## Characters and strings of the C library -/

/-- `isspace` in the C locale: space, `\t`, `\n`, `\v`, `\f`, `\r`. -/
def isspace (c : Char) : Bool := c.toNat == 32 || (9 ≤ c.toNat && c.toNat ≤ 13)

/-- `isdigit`. -/
def isdigit (c : Char) : Bool := 48 ≤ c.toNat && c.toNat ≤ 57

/-- `isalpha` in the C locale. -/
def isalpha (c : Char) : Bool :=
  (65 ≤ c.toNat && c.toNat ≤ 90) || (97 ≤ c.toNat && c.toNat ≤ 122)

/-- `isalnum` in the C locale. -/
def isalnum (c : Char) : Bool := isalpha c || isdigit c

/-- `isprint` in the C locale: the codes 32 to 126. -/
def isprint (c : Char) : Bool := 32 ≤ c.toNat && c.toNat ≤ 126

/-- The C string held by a buffer: the characters before the first NUL. -/
def cstr (buf : List Char) : List Char := buf.takeWhile fun c => c.toNat != 0

/-- `strchr(s, c)` for `c` other than NUL: the tail of `s` from the first `c` on. -/
def strchr : List Char → Char → Option (List Char)
  | [], _ => none
  | x :: xs, c => if x = c then some (x :: xs) else strchr xs c

/-- `strrchr(s, c)` for `c` other than NUL: the tail of `s` from the last `c` on. -/
def strrchr : List Char → Char → Option (List Char)
  | [], _ => none
  | x :: xs, c =>
    match strrchr xs c with
    | some t => some t
    | none => if x = c then some (x :: xs) else none

/-- The decimal digits at the head of a string, read as a number starting from `acc`. -/
def readDigits : List Char → Nat → Nat
  | [], acc => acc
  | c :: cs, acc => if isdigit c then readDigits cs (acc * 10 + (c.toNat - 48)) else acc

/-- `atoi(s)`: white space, an optional sign, decimal digits. -/
def atoi (s : List Char) : Int :=
  match s.dropWhile isspace with
  | '-' :: r => - Int.ofNat (readDigits r 0)
  | '+' :: r => Int.ofNat (readDigits r 0)
  | r => Int.ofNat (readDigits r 0)

/-- A value of the C type `double` (IEEE 754 binary64): the finite value `mant * 2 ^ exp`
with its sign, an infinity, or a NaN. -/
inductive Double where
  | finite (neg : Bool) (mant : Nat) (exp : Int)
  | infinite (neg : Bool)
  | nan
  deriving DecidableEq, Repr

/-- The test `!num` on a `double`. -/
def Double.isZero : Double → Bool
  | Double.finite _ mant _ => mant == 0
  | _ => false

/-- Whether a `double` is finite. -/
def Double.isFinite : Double → Bool
  | Double.finite _ _ _ => true
  | _ => false

/-- The integral part of a finite `double`, truncated toward zero. -/
def Double.trunc : Double → Int
  | Double.finite neg mant exp =>
    let m : Int :=
      if 0 ≤ exp then Int.ofNat (mant * 2 ^ exp.toNat)
      else Int.ofNat (mant / 2 ^ (-exp).toNat)
    if neg then -m else m
  | _ => 0

/-- Whether a `double` is finite and has no fractional part. -/
def Double.isIntegral : Double → Bool
  | Double.finite _ mant exp => decide (0 ≤ exp) || mant % 2 ^ (-exp).toNat == 0
  | _ => false

/-- The conversion `(int)num`. A value outside the range of `int`, an infinity and a NaN
have no defined result in C; the model returns `INT_MIN`, the result of the x86 conversion
instruction. -/
def Double.toInt (d : Double) : Int :=
  if d.isFinite = true ∧ -2147483648 ≤ d.trunc ∧ d.trunc ≤ 2147483647 then d.trunc
  else -2147483648

/-- The comparison `num != (int)num`. -/
def Double.neToInt (d : Double) : Bool :=
  !(d.isIntegral && d.trunc == d.toInt)

/-- The number of binary digits of `n` less one (0 for 0 and 1); `fuel` bounds the number
of halvings. -/
def log2Loop : Nat → Nat → Nat
  | 0, _ => 0
  | fuel + 1, n => if n < 2 then 0 else log2Loop fuel (n / 2) + 1

/-- The largest `e` with `2 ^ e ≤ num / den`, for `num` and `den` other than 0. -/
def floorLog2 (num den : Nat) : Int :=
  let e0 : Int := Int.ofNat (log2Loop num num) - Int.ofNat (log2Loop den den)
  if (if 0 ≤ e0 then den * 2 ^ e0.toNat ≤ num else den ≤ num * 2 ^ (-e0).toNat) then e0
  else e0 - 1

/-- The integer nearest to `n / d`, the even one of two that are equally near. -/
def roundHalfEven (n d : Nat) : Nat :=
  if 2 * (n % d) > d ∨ (2 * (n % d) = d ∧ (n / d) % 2 = 1) then n / d + 1 else n / d

/-- The `double` nearest to `num / den`, the one with the even mantissa of two that are
equally near (the rounding of `strtod`): 53 binary digits for a value of 2^-1022 and more,
multiples of 2^-1074 below, and an infinity from 2^1024 on. -/
def roundToDouble (neg : Bool) (num den : Nat) : Double :=
  if num = 0 then Double.finite neg 0 0
  else
    let e := floorLog2 num den
    let q : Int := (if e < -1022 then -1022 else e) - 52
    let m := if q < 0 then roundHalfEven (num * 2 ^ (-q).toNat) den
      else roundHalfEven num (den * 2 ^ q.toNat)
    if q > 971 ∨ (q = 971 ∧ m ≥ 2 ^ 53) then Double.infinite neg
    else Double.finite neg m q

/-- The `double` nearest to `mant * base ^ exp`. -/
def scaledDouble (neg : Bool) (mant base : Nat) (exp : Int) : Double :=
  if 0 ≤ exp then roundToDouble neg (mant * base ^ exp.toNat) 1
  else roundToDouble neg mant (base ^ (-exp).toNat)

/-- The exponent part of a decimal literal: `e` or `E`, an optional sign and at least one
digit; anything else contributes nothing. -/
def readExponent : List Char → Int
  | e :: r =>
    if e = 'e' ∨ e = 'E' then
      match r with
      | '-' :: d :: ds => if isdigit d then - Int.ofNat (readDigits (d :: ds) 0) else 0
      | '+' :: d :: ds => if isdigit d then Int.ofNat (readDigits (d :: ds) 0) else 0
      | d :: ds => if isdigit d then Int.ofNat (readDigits (d :: ds) 0) else 0
      | [] => 0
    else 0
  | [] => 0

/-- The unsigned part of a decimal literal: digits, an optional point with digits, an
optional exponent. Without any digit in the mantissa nothing is converted and the value
is zero. -/
def readDecimal (s : List Char) : Nat × Int :=
  let ip := s.takeWhile isdigit
  let r1 := s.dropWhile isdigit
  match r1 with
  | '.' :: r2 =>
    let fp := r2.takeWhile isdigit
    let r3 := r2.dropWhile isdigit
    if ip.isEmpty && fp.isEmpty then (0, 0)
    else (readDigits (ip ++ fp) 0, readExponent r3 - Int.ofNat fp.length)
  | _ => if ip.isEmpty then (0, 0) else (readDigits ip 0, readExponent r1)

/-- `isxdigit`. -/
def isxdigit (c : Char) : Bool :=
  isdigit c || (97 ≤ c.toNat && c.toNat ≤ 102) || (65 ≤ c.toNat && c.toNat ≤ 70)

/-- The hexadecimal digits at the head of a string, read as a number starting from
`acc`. -/
def readHexDigits : List Char → Nat → Nat
  | [], acc => acc
  | c :: cs, acc =>
    if isdigit c then readHexDigits cs (acc * 16 + (c.toNat - 48))
    else if 97 ≤ c.toNat ∧ c.toNat ≤ 102 then readHexDigits cs (acc * 16 + (c.toNat - 87))
    else if 65 ≤ c.toNat ∧ c.toNat ≤ 70 then readHexDigits cs (acc * 16 + (c.toNat - 55))
    else acc

/-- The binary exponent part of a hexadecimal literal: `p` or `P`, an optional sign and at
least one decimal digit; anything else contributes nothing. -/
def readBinaryExponent : List Char → Int
  | p :: r =>
    if p = 'p' ∨ p = 'P' then
      match r with
      | '-' :: d :: ds => if isdigit d then - Int.ofNat (readDigits (d :: ds) 0) else 0
      | '+' :: d :: ds => if isdigit d then Int.ofNat (readDigits (d :: ds) 0) else 0
      | d :: ds => if isdigit d then Int.ofNat (readDigits (d :: ds) 0) else 0
      | [] => 0
    else 0
  | [] => 0

/-- The part of a hexadecimal literal behind `0x`: hexadecimal digits, an optional point
with hexadecimal digits, an optional binary exponent; the mantissa and the exponent of 2.
Without any digit there is no hexadecimal literal: `none`. -/
def readHexadecimal (s : List Char) : Option (Nat × Int) :=
  let ip := s.takeWhile isxdigit
  let r1 := s.dropWhile isxdigit
  match r1 with
  | '.' :: r2 =>
    let fp := r2.takeWhile isxdigit
    let r3 := r2.dropWhile isxdigit
    if ip.isEmpty && fp.isEmpty then none
    else some (readHexDigits (ip ++ fp) 0, readBinaryExponent r3 - 4 * Int.ofNat fp.length)
  | _ => if ip.isEmpty then none else some (readHexDigits ip 0, readBinaryExponent r1)

/-- `tolower` in the C locale. -/
def tolower (c : Char) : Char :=
  if 65 ≤ c.toNat ∧ c.toNat ≤ 90 then Char.ofNat (c.toNat + 32) else c

/-- Whether a string starts with a word of small letters, compared without case. -/
def startsWithWord (word : String) (s : List Char) : Bool :=
  (s.take word.length).map tolower == word.toList

/-- The subject sequence of `strtod` behind the sign: `inf` or `infinity`, `nan`, a
hexadecimal literal behind `0x` (when no hexadecimal digit follows `0x` only the `0` is
read), or a decimal literal. Without a subject sequence the value is zero. -/
def strtodMagnitude (neg : Bool) (r : List Char) : Double :=
  if startsWithWord "inf" r then Double.infinite neg
  else if startsWithWord "nan" r then Double.nan
  else if r.head? = some '0' ∧ (r.tail.head? = some 'x' ∨ r.tail.head? = some 'X') then
    match readHexadecimal r.tail.tail with
    | some h => scaledDouble neg h.1 2 h.2
    | none => Double.finite neg 0 0
  else scaledDouble neg (readDecimal r).1 10 (readDecimal r).2

/-- `atof(s)`, which is `strtod(s, NULL)` in the C locale: white space, an optional sign,
the subject sequence, rounded to the nearest `double`. -/
def atof (s : List Char) : Double :=
  match s.dropWhile isspace with
  | '-' :: r => strtodMagnitude true r
  | '+' :: r => strtodMagnitude false r
  | r => strtodMagnitude false r

/-! ## Reserved keywords and string helpers of `general_functions.c` -/

/-- The index of `word` in a NULL-terminated table, or -1. -/
def lookupKeyword : List String → List Char → Int → Int
  | [], _, _ => -1
  | k :: ks, word, i => if word = k.toList then i else lookupKeyword ks word (i + 1)

/-- `isOpcode(word)`. -/
def isOpcode (word : List Char) : Int :=
  lookupKeyword ["mov", "cmp", "add", "sub", "lea", "clr", "not", "inc", "dec", "jmp", "bne",
    "red", "prn", "jsr", "rts", "stop"] word 0

/-- `isRegister(word)`. -/
def isRegister (word : List Char) : Int :=
  lookupKeyword ["r0", "r1", "r2", "r3", "r4", "r5", "r6", "r7", "PSW", "PC"] word 0

/-- `isInstruction(word)`. -/
def isInstruction (word : List Char) : Int :=
  lookupKeyword [".data", ".string", ".entry", ".extern"] word 0

/-- `isValidName(name, error_str)`: the flag and the message written on failure. -/
def isValidName (name : List Char) : Bool × String :=
  if isOpcode name ≠ NO_OPCODE then
    (false, "the word: " ++ String.mk name ++ " is used as an opcode.")
  else if isRegister name ≠ NO_REGISTER then
    (false, "the word: " ++ String.mk name ++ " is used as an register.")
  else if isInstruction name ≠ NO_TYPE then
    (false, "the word: " ++ String.mk name ++ " is used as an instruction.")
  else (true, "")

/-- `isWhiteSpaceString(line)`. -/
def isWhiteSpaceString (line : List Char) : Bool := line.all isspace

/-- `continueTo(line, i)`; returns the new content of `line`. -/
def continueTo (line : List Char) (i : Nat) : List Char := line.drop i

/-- `skipWhiteChar(line)`; returns the new content of `line`. -/
def skipWhiteChar (line : List Char) : List Char := line.dropWhile isspace

/-- `skipWord(line)`; returns the new content of `line`. -/
def skipWord (line : List Char) : List Char :=
  (skipWhiteChar line).dropWhile fun c => !isspace c

/-- `getWord(line, word)`; returns the new content of `line` and the word. -/
def getWord (line : List Char) : List Char × List Char :=
  let l := skipWhiteChar line
  (l.dropWhile fun c => !isspace c && c != '\n', l.takeWhile fun c => !isspace c && c != '\n')

/-! ## Bitwise functions of `general_functions.c` -/

/-- The `for` loop of `insertBinaryValueByKeyWords`; `fuel` bounds the number of rounds. The
loop ends when `decimal_value` reaches 0, which a negative value never does. -/
def insertBinaryValueLoop : Nat → Int → Int → Int → Option Int
  | 0, decimal_value, bmc, _ => if decimal_value = 0 then some bmc else none
  | fuel + 1, decimal_value, bmc, bit_position =>
    if decimal_value = 0 then some bmc
    else
      insertBinaryValueLoop fuel (decimal_value / 2)
        (if decimal_value % 2 = 1 then shortOr bmc bit_position else bmc)
        (toShort (bit_position * 2))

/-- `insertBinaryValueByKeyWords(decimal_value, bmc, start)`; returns the new `*bmc`. A
non-negative `short` is exhausted after at most 15 shifts. -/
def insertBinaryValueByKeyWords (decimal_value bmc start : Int) : Option Int :=
  insertBinaryValueLoop 16 decimal_value bmc (powShort start)

/-- `insertBinaryValueByData(decimal_value, bmc, start)`; returns the new `*bmc`. -/
def insertBinaryValueByData (decimal_value bmc start : Int) : Int :=
  let decimal_with_start := toShort (decimal_value * 2 ^ start.toNat)
  shortAnd (shortOr bmc decimal_with_start) DATA_MASK

/-- `turnOnBit(num, start)`; returns the new `*num`. -/
def turnOnBit (num start : Int) : Int := shortOr num (powShort start)

/-- `isAbsolute(bmc)`: is the A bit set. -/
def isAbsolute (bmc : Int) : Bool := shortAnd bmc (powShort A_ADDRESSING_METHOD) != 0

/-- `getFirstWordBMC(opcode, source_operand_type, target_operand_type, bmc)`; returns the
new `*bmc`. -/
def getFirstWordBMC (opcode source_operand_type target_operand_type bmc : Int) : Option Int :=
  (insertBinaryValueByKeyWords opcode bmc OPCODE_START_POSITION).map fun b1 =>
    let b2 := turnOnBit b1 A_ADDRESSING_METHOD
    let b3 := if target_operand_type ≠ NO_TYPE
      then turnOnBit b2 (TARGET_START_POSITION + target_operand_type) else b2
    if source_operand_type ≠ NO_TYPE
      then turnOnBit b3 (SOURCE_START_POSITION + source_operand_type) else b3

/-! ## Data structures of `headers.h` -/

/-- The union `type` of an instruction node: the machine code of the word, or the name of
the label the word refers to. -/
inductive wordType where
  | bmc (value : Int)
  | name (label : List Char)
  deriving DecidableEq, Repr

/-- The struct `instructionNode`; `line = 0` says that `type` holds the machine code. -/
structure instructionNode where
  ic : Int
  line : Nat
  type : wordType
  deriving DecidableEq, Repr

/-- The struct `dataNode`. -/
structure dataNode where
  dc : Int
  bmc : Int
  deriving DecidableEq, Repr

/-- The struct `declarationNode`. -/
structure declarationNode where
  decimal_address : Int
  label : List Char
  type : Int
  deriving DecidableEq, Repr

/-! ## Instruction node functions of `first_pass.c` -/

/-- `creatInstructionNode(current_ic, new_bmc, label, line_num, ...)`: the node appended to
the list. `label` is `none` for a NULL or unwritten buffer, which the copy of the label
must not read. -/
def creatInstructionNode (current_ic new_bmc : Int) (label : Option (List Char))
    (line_num : Nat) : Option instructionNode :=
  if isAbsolute new_bmc then some ⟨current_ic, 0, wordType.bmc new_bmc⟩
  else label.map fun l => ⟨current_ic, line_num, wordType.name l⟩

/-- `getImmediateBMC(operand, bmc)`; returns the new `*bmc`. -/
def getImmediateBMC (operand : List Char) (bmc : Int) : Int :=
  let operand_value := toShort (atof operand.tail).trunc
  turnOnBit (insertBinaryValueByData operand_value bmc OPERAND_START_POSITION)
    A_ADDRESSING_METHOD

/-- `getSourceRegisterBMC(source_register, bmc)`; returns the new `*bmc`. -/
def getSourceRegisterBMC (source_register : List Char) (bmc : Int) : Option Int :=
  let operand_value := toShort (atoi source_register.tail)
  (insertBinaryValueByKeyWords operand_value bmc SOURCE_REGISTER_START_POSITION).map fun b =>
    turnOnBit b A_ADDRESSING_METHOD

/-- `getTargetRegisterBMC(target_register, bmc)`; returns the new `*bmc`. -/
def getTargetRegisterBMC (target_register : List Char) (bmc : Int) : Option Int :=
  let operand_value := toShort (atoi target_register.tail)
  (insertBinaryValueByKeyWords operand_value bmc TARGET_REGISTER_START_POSITION).map fun b =>
    if !isAbsolute b then turnOnBit b A_ADDRESSING_METHOD else b

/-- `checkBitException(num, max_bits)`. -/
def checkBitException (num max_bits : Int) : Bool :=
  let max_value : Int := 2 ^ max_bits.toNat - 1
  let min_value : Int := -(2 ^ max_bits.toNat)
  decide (max_value ≥ num) && decide (num ≥ min_value)

/-- `getOperandAddressingType(operand, error_str)`: the type, the operand buffer (an
indirect register loses its asterisk) and the error buffer. -/
def getOperandAddressingType (operand : List Char) (error_str : String) :
    Int × List Char × String :=
  match operand with
  | '#' :: rest =>
    if rest ≠ [] then
      let num := atof rest
      if num.isZero then
        (NO_TYPE, operand,
          "Invalid operand, the character after the hash symbol is not a number.")
      else if num.neToInt then
        (NO_TYPE, operand, "Invalid operand, the number is not an integer.")
      else if !checkBitException num.toInt (BITS_NUM - OPERAND_START_POSITION - 1) then
        (NO_TYPE, operand, "Invalid operand, the number is too large or too small.")
      else (IMMEDIATE_ADDRESSING, operand, error_str)
    else
      (NO_TYPE, operand, "Invalid operand, no number detected after the hash symbol.")
  | '*' :: rest =>
    if rest ≠ [] then
      if isRegister rest = NO_REGISTER then
        (NO_TYPE, operand,
          "Invalid operand, the register name does not exist in the system.")
      else (INDIRECT_REGISTER_ADDRESSING, continueTo operand 1, error_str)
    else
      (NO_TYPE, operand, "Invalid operand, missing register name after the asterisk symbol.")
  | _ =>
    if isRegister operand ≠ NO_REGISTER then (DIRECT_REGISTER_ADDRESSING, operand, error_str)
    else if !(isValidName operand).1 then
      (NO_TYPE, operand, "Invalid operand, " ++ (isValidName operand).2)
    else (DIRECT_ADDRESSING, operand, error_str)

/-- `isValidTargetOperandType(opcode, target_operand, error_str)`: the type, the operand
buffer and the error buffer. -/
def isValidTargetOperandType (opcode : Int) (target_operand : List Char) (error_str : String) :
    Int × List Char × String :=
  let r := getOperandAddressingType target_operand error_str
  let target_operand_type := r.1
  if target_operand_type = NO_TYPE then (NO_TYPE, r.2.1, r.2.2)
  else if target_operand_type ≥ IMMEDIATE_ADDRESSING ∧ (opcode = CMP ∨ opcode = PRN) then
    (target_operand_type, r.2.1, r.2.2)
  else if target_operand_type ≥ DIRECT_ADDRESSING ∧ (opcode ≤ DEC ∨ opcode = RED) then
    (target_operand_type, r.2.1, r.2.2)
  else if (target_operand_type = DIRECT_ADDRESSING ∨
      target_operand_type = INDIRECT_REGISTER_ADDRESSING) ∧ opcode ≤ JSR then
    (target_operand_type, r.2.1, r.2.2)
  else
    (NO_TYPE, r.2.1,
      "Invalid target operand type, the operand type does not match the opcode type.")

/-- `isValidSourceOperandType(opcode, source_operand, error_str)`: the type, the operand
buffer and the error buffer. -/
def isValidSourceOperandType (opcode : Int) (source_operand : List Char) (error_str : String) :
    Int × List Char × String :=
  let r := getOperandAddressingType source_operand error_str
  let source_operand_type := r.1
  if source_operand_type = NO_TYPE then (NO_TYPE, r.2.1, r.2.2)
  else if opcode ≤ LEA ∧ source_operand_type = DIRECT_ADDRESSING then
    (source_operand_type, r.2.1, r.2.2)
  else if opcode ≤ SUB ∧ source_operand_type ≥ IMMEDIATE_ADDRESSING then
    (source_operand_type, r.2.1, r.2.2)
  else
    (NO_TYPE, r.2.1,
      "Invalid source operand type, the operand type does not match the opcode type.")

/-- The outcome of `readTargetOperand` and `readTwoOperands`: the flag, the line buffer, the
operand buffers (`none` while never written) and the error buffer. -/
structure operandsResult where
  ok : Bool
  line : List Char
  source_operand : Option (List Char)
  target_operand : Option (List Char)
  error_str : String
  deriving DecidableEq, Repr

/-- `readTargetOperand(line, target_operand, error_str)`; `source_operand` is carried along
untouched. -/
def readTargetOperand (line : List Char) (source_operand target_operand : Option (List Char))
    (error_str : String) : operandsResult :=
  let extra := match strchr line ',' with
    | some temp => !isWhiteSpaceString temp.tail
    | none => false
  if extra then
    ⟨false, line, source_operand, target_operand,
      "The number of operands does not match the opcode type."⟩
  else
    let w := getWord line
    if w.2.length = 0 then
      ⟨false, w.1, source_operand, some w.2, "The target operand is missing."⟩
    else if !isWhiteSpaceString w.1 then
      ⟨false, w.1, source_operand, some w.2,
        "Extra characters was detected after the target operand."⟩
    else ⟨true, w.1, source_operand, some w.2, error_str⟩

/-- `readTwoOperands(line, source_operand, target_operand, error_str)`. -/
def readTwoOperands (line : List Char) (source_operand target_operand : Option (List Char))
    (error_str : String) : operandsResult :=
  let line1 := skipWhiteChar line
  match strchr line1 ',' with
  | none =>
    ⟨false, line1, source_operand, target_operand,
      "The number of operands does not match the opcode type."⟩
  | some _ =>
    let before := line1.takeWhile fun c => c != ','
    let source := before.filter fun c => !isspace c
    if source.length = 0 then
      ⟨false, line1, some source, target_operand, "The source operand is missing."⟩
    else
      let line2 := continueTo line1 (before.length + 1)
      match strchr line2 ',' with
      | some _ =>
        ⟨false, line2, some source, target_operand,
          "Two commas were detected on the command line."⟩
      | none => readTargetOperand line2 (some source) target_operand error_str

/-- `getOpcode(line)`: the opcode number and the line buffer after the first word. -/
def getOpcode (line : List Char) : Int × List Char :=
  (isOpcode (getWord line).2, (getWord line).1)

/-- The state `readNewInstruction` works on: `*ic`, the list of instruction nodes (the
pointer `curr_instruction` is NULL exactly when the list is empty) and the error buffer. -/
structure instructionState where
  ic : Int
  instructions_list : List instructionNode
  error_str : String
  deriving DecidableEq, Repr

/-- The machine code of an operand word that is alone in its word. -/
def operandBMC (is_source : Bool) (operand_type : Int) (operand : List Char) : Option Int :=
  let bmc := if operand_type = IMMEDIATE_ADDRESSING then getImmediateBMC operand 0 else 0
  if operand_type ≥ INDIRECT_REGISTER_ADDRESSING then
    (if is_source then getSourceRegisterBMC operand bmc else getTargetRegisterBMC operand bmc)
  else some bmc

/-- The part of `readNewInstruction` that builds the words of a two-operand instruction
once both operand types are known: the first word, then one shared word when both operands
are registers, else the source word and the target word. -/
def twoOperandWords (st : instructionState) (opcode source_operand_type
    target_operand_type : Int) (source_operand target_operand : List Char) (line_num : Nat)
    (error_str : String) : Option instructionState :=
  (getFirstWordBMC opcode source_operand_type target_operand_type 0).bind
    fun first_word_bmc =>
  (creatInstructionNode st.ic first_word_bmc none line_num).bind fun n1 =>
  if source_operand_type ≥ INDIRECT_REGISTER_ADDRESSING ∧
      target_operand_type ≥ INDIRECT_REGISTER_ADDRESSING then
    (getSourceRegisterBMC source_operand 0).bind fun b =>
    (getTargetRegisterBMC target_operand b).bind fun source_bmc =>
    (creatInstructionNode (toShort (st.ic + 1)) source_bmc (some source_operand)
      line_num).map fun n2 =>
    ⟨toShort (toShort (st.ic + 1) + 1), st.instructions_list ++ [n1, n2], error_str⟩
  else
    (operandBMC true source_operand_type source_operand).bind fun source_bmc =>
    (operandBMC false target_operand_type target_operand).bind fun target_bmc =>
    (creatInstructionNode (toShort (st.ic + 1)) source_bmc (some source_operand)
      line_num).bind fun n2 =>
    (creatInstructionNode (toShort (toShort (st.ic + 1) + 1)) target_bmc
      (some target_operand) line_num).map fun n3 =>
    ⟨toShort (toShort (toShort (st.ic + 1) + 1) + 1),
      st.instructions_list ++ [n1, n2, n3], error_str⟩

/-- The part of `readNewInstruction` that builds the words of a one-operand instruction
once the operand type is known: the first word and the target word. -/
def oneOperandWords (st : instructionState) (opcode target_operand_type : Int)
    (target_operand : List Char) (line_num : Nat) (error_str : String) :
    Option instructionState :=
  (getFirstWordBMC opcode NO_TYPE target_operand_type 0).bind fun first_word_bmc =>
  (operandBMC false target_operand_type target_operand).bind fun target_bmc =>
  (creatInstructionNode st.ic first_word_bmc none line_num).bind fun n1 =>
  (creatInstructionNode (toShort (st.ic + 1)) target_bmc (some target_operand)
    line_num).map fun n2 =>
  ⟨toShort (toShort (st.ic + 1) + 1), st.instructions_list ++ [n1, n2], error_str⟩

/-- The part of `readNewInstruction` that builds the single word of an instruction
without operands. -/
def noOperandWords (st : instructionState) (opcode : Int) (line_num : Nat)
    (error_str : String) : Option instructionState :=
  (getFirstWordBMC opcode NO_TYPE NO_TYPE 0).bind fun first_word_bmc =>
  (creatInstructionNode st.ic first_word_bmc none line_num).map fun n1 =>
  ⟨toShort (st.ic + 1), st.instructions_list ++ [n1], error_str⟩

/-- `readNewInstruction(ic, line, curr_instruction, instructions_list, line_num,
error_str)`. The operand buffers are local arrays that start unwritten. -/
def readNewInstruction (st : instructionState) (line : List Char) (line_num : Nat) :
    Option instructionState :=
  let opcode := (getOpcode line).1
  let line1 := (getOpcode line).2
  let curr_instruction : Bool := !st.instructions_list.isEmpty
  if opcode ≤ LEA then
    let r := readTwoOperands line1 none none st.error_str
    if !r.ok && curr_instruction then some { st with error_str := r.error_str }
    else
      r.source_operand.bind fun source_operand =>
      let s := isValidSourceOperandType opcode source_operand r.error_str
      r.target_operand.bind fun target_operand =>
      let t := isValidTargetOperandType opcode target_operand s.2.2
      if (s.1 = NO_TYPE || t.1 = NO_TYPE) && curr_instruction
      then some { st with error_str := t.2.2 }
      else twoOperandWords st opcode s.1 t.1 s.2.1 t.2.1 line_num t.2.2
  else if opcode ≤ JSR then
    let r := readTargetOperand line1 none none st.error_str
    if !r.ok && curr_instruction then some { st with error_str := r.error_str }
    else
      r.target_operand.bind fun target_operand =>
      let t := isValidTargetOperandType opcode target_operand r.error_str
      if t.1 = NO_TYPE && curr_instruction
      then some { st with error_str := t.2.2 }
      else oneOperandWords st opcode t.1 t.2.1 line_num t.2.2
  else
    noOperandWords st opcode line_num
      (if !isWhiteSpaceString line1
        then "The number of operands does not match the opcode type." else st.error_str)

/-! ## Data node functions of `first_pass.c` -/

/-- The tokens `strtok(line, ",")` returns in turn: the maximal comma-free pieces that are
not empty. `cur` holds the current piece in reverse. -/
def strtokTokens : List Char → List Char → List (List Char)
  | [], cur => if cur = [] then [] else [cur.reverse]
  | c :: cs, cur =>
    if c = ',' then (if cur = [] then strtokTokens cs [] else cur.reverse :: strtokTokens cs [])
    else strtokTokens cs (c :: cur)

/-- The scan of `dataLineCheck` for two commas with only white space between them; `j`
counts the commas seen since the last other character. -/
def consecutiveCommas : List Char → Nat → Bool
  | [], _ => false
  | c :: cs, j =>
    let j1 := if c = ',' then j + 1 else if !isspace c then 0 else j
    if j1 > 1 then true else consecutiveCommas cs j1

/-- `dataLineCheck(line, error_str)`: the flag, the line buffer and the error buffer. -/
def dataLineCheck (line : List Char) (error_str : String) : Bool × List Char × String :=
  let line1 := skipWhiteChar line
  if line1 = [] then
    (false, line1,
      "Invalid data instruction, no number was detected after the instruction name.")
  else if line1.head? = some ',' then
    (false, line1, "Invalid data instruction, a comma was detected before the first number.")
  else if (match strrchr line1 ',' with
      | some tail => isWhiteSpaceString tail.tail
      | none => false) then
    (false, line1,
      "Invalid data instruction, a comma was detected without a number following it.")
  else if consecutiveCommas line1 0 then
    (false, line1, "Invalid data instruction, two consecutive commas were detected without a digit between them.")
  else (true, line1, error_str)

/-- The `while(token)` loop of `readNumbers` over the remaining tokens: the words stored so
far, or the message of the first rejected token. -/
def readNumbersLoop : List (List Char) → List Int → Except String (List Int)
  | [], acc => Except.ok acc
  | token :: rest, acc =>
    let num := atof token
    if num.neToInt then
      Except.error "Invalid data instruction, a non-integer number was detected."
    else if !checkBitException num.toInt (BITS_NUM - 1) then
      Except.error "Invalid data instruction, a number that is too large or too small was detected."
    else readNumbersLoop rest (acc ++ [insertBinaryValueByData (toShort num.trunc) 0 0])

/-- `readNumbers(line, numbers_list, error_str)`: the words written to `numbers_list` (their
count is the returned length, 0 standing for FALSE) and the error buffer. -/
def readNumbers (line : List Char) (error_str : String) : List Int × String :=
  let c := dataLineCheck line error_str
  if !c.1 then ([], c.2.2)
  else
    match readNumbersLoop (strtokTokens c.2.1 []) [] with
    | Except.ok l => (l, c.2.2)
    | Except.error e => ([], e)

/-- `stringLineCheck(line, error_str)`: the flag and the error buffer. -/
def stringLineCheck (line : List Char) (error_str : String) : Bool × String :=
  match line with
  | '"' :: tail1 =>
    match strchr tail1 '"' with
    | none =>
      (false, "Invalid string instruction, no closing quotation marks were detected.")
    | some tail2 =>
      if !isWhiteSpaceString tail2.tail then
        (false, "Invalid string instruction, characters were detected after the second quotation mark.")
      else (true, error_str)
  | _ =>
    (false, "Invalid string instruction, a character was detected before the first quotation mark.")

/-- The `while(temp[length] != '"')` loop of `readString` on a text that holds a closing
quotation mark: the character codes stored, or `none` at a non-printable character. -/
def readStringLoop : List Char → Option (List Int)
  | [] => some []
  | c :: cs =>
    if c = '"' then some []
    else if !isprint c then none
    else (readStringLoop cs).map fun l => Int.ofNat c.toNat :: l

/-- `readString(line, char_list, error_str)`: the words written to `char_list` (their count
is the returned length, 0 standing for FALSE) and the error buffer. -/
def readString (line : List Char) (error_str : String) : List Int × String :=
  let line1 := skipWhiteChar line
  let c := stringLineCheck line1 error_str
  if !c.1 then ([], c.2)
  else
    match readStringLoop line1.tail with
    | some l => (l ++ [0], c.2)
    | none => ([], "Invalid string instruction, a non-printable character was detected.")

/-- The state `readNewData` works on: `*dc`, the list of data nodes (the pointer `curr_data`
is NULL exactly when the list is empty) and the error buffer. -/
structure dataState where
  dc : Int
  data_list : List dataNode
  error_str : String
  deriving DecidableEq, Repr

/-- The `while(i < length)` loop of `readNewData`: one `creatDataNode((*dc)++, ...)` per
word. -/
def creatDataNodes : List Int → Int → List dataNode → Int × List dataNode
  | [], dc, data_list => (dc, data_list)
  | w :: ws, dc, data_list => creatDataNodes ws (toShort (dc + 1)) (data_list ++ [⟨dc, w⟩])

/-- `readNewData(dc, type, line, curr_data, data_list, error_str)`. With nothing parsed and
no node in the list yet the C function returns a pointer it never set, and with a type
other than DATA or STRING it reads a length it never set: `none`. -/
def readNewData (st : dataState) (type : Int) (line : List Char) : Option dataState :=
  let line1 := skipWord line
  if type ≠ DATA ∧ type ≠ STRING then none
  else
    let r := if type = DATA then readNumbers line1 st.error_str
      else readString line1 st.error_str
    if r.1.length = 0 then
      if !st.data_list.isEmpty then some { st with error_str := r.2 } else none
    else
      let d := creatDataNodes r.1 st.dc st.data_list
      some ⟨d.1, d.2, r.2⟩

/-! ## Declaration node functions of `first_pass.c` -/

/-- The struct `macroNode` of the pre-processor. -/
structure macroNode where
  name : List Char
  commands : List (List Char)
  deriving DecidableEq, Repr

/-- `isMacroNameExists(variable_name, macros_list)`: the first macro of that name. -/
def isMacroNameExists (variable_name : List Char) : List macroNode → Option macroNode
  | [] => none
  | m :: ms => if variable_name = m.name then some m else isMacroNameExists variable_name ms

/-- `getInstructionType(line, error_str)`: the type, the line buffer and the error
buffer. The message for a first word that is no opcode and no directive is written with
`sprintf` around that word and is kept here in full; it fits `error_str` only for a word of
at most 45 characters, which the round of `firstPass` tests when it reports the message
(`reportedLine`). -/
def getInstructionType (line : List Char) (error_str : String) : Int × List Char × String :=
  let line1 := skipWhiteChar line
  let instruction_name := line1.takeWhile fun c => !isspace c && c != '\n'
  let instruction_type :=
    if isOpcode instruction_name ≠ NO_OPCODE then CODE else isInstruction instruction_name
  if instruction_type = NO_TYPE then
    (instruction_type, line1,
      "Invalid instruction, the word: " ++ String.mk instruction_name ++
        " is not recognized by the system.")
  else (instruction_type, line1, error_str)

/-- `checkLabelName(label_name, macros_list, error_str)`: the flag and the error buffer. -/
def checkLabelName (label_name : List Char) (macros_list : List macroNode)
    (error_str : String) : Bool × String :=
  if !(isValidName label_name).1 then
    (false, "Invalid label name, " ++ (isValidName label_name).2)
  else if (isMacroNameExists label_name macros_list).isSome then
    (false, "Invalid label name, the name: " ++ String.mk label_name ++
      " is already used as a macro name.")
  else if !(match label_name.head? with
      | some c => isalpha c
      | none => false) then
    (false, "Invalid label name, the label name: " ++ String.mk label_name ++
      " starts with an invalid character.")
  else if !label_name.tail.all isalnum then
    (false, "Invalid label name, the label name: " ++ String.mk label_name ++
      " contains an invalid character.")
  else (true, error_str)

/-- `checkIfLabelNameAlreadyDeclared(label_name, instruction_type, declarations_list,
error_str)`: the flag and the error buffer. -/
def checkIfLabelNameAlreadyDeclared (label_name : List Char) (instruction_type : Int) :
    List declarationNode → String → Bool × String
  | [], error_str => (true, error_str)
  | temp :: rest, error_str =>
    if label_name = temp.label then
      if instruction_type = EXTERN ∧ temp.type ≠ EXTERN then
        if temp.type = ENTRY then
          (false, "Invalid label, the label: " ++ String.mk label_name ++
            " has already been declared as an entry.")
        else
          (false, "Invalid label, the label: " ++ String.mk label_name ++
            " has already been defined in the current file.")
      else if instruction_type = ENTRY ∧ temp.type = EXTERN then
        (false, "Invalid label, the label: " ++ String.mk label_name ++
          " has already been declared as extern.")
      else if instruction_type ≠ EXTERN ∧ instruction_type ≠ ENTRY ∧ temp.type ≠ ENTRY then
        if temp.type = EXTERN then
          (false, "Invalid label, the label: " ++ String.mk label_name ++
            " has already been declared as extern.")
        else
          (false, "Invalid label, the label: " ++ String.mk label_name ++
            " has already been defined in the current file.")
      else checkIfLabelNameAlreadyDeclared label_name instruction_type rest error_str
    else checkIfLabelNameAlreadyDeclared label_name instruction_type rest error_str

/-- `creatDeclarationNode(current_num, label_name, instruction_type, ...)`: the node
appended to the list; `current_num` is stored as a `short`. -/
def creatDeclarationNode (current_num : Int) (label_name : List Char) (instruction_type : Int) :
    declarationNode :=
  ⟨toShort current_num, label_name, instruction_type⟩

/-- The state the declaration functions work on: the line buffer, the list of declaration
nodes (the pointer `curr_declaration` is NULL exactly when the list is empty) and the error
buffer. -/
structure declarationState where
  line : List Char
  declarations_list : List declarationNode
  error_str : String
  deriving DecidableEq, Repr

/-- `readNewDeclaration(line, line_num, macros_list, curr_declaration, declarations_list,
error_str)`. -/
def readNewDeclaration (st : declarationState) (line_num : Nat) (macros_list : List macroNode) :
    declarationState :=
  let curr_declaration : Bool := !st.declarations_list.isEmpty
  let g := getInstructionType st.line st.error_str
  let instruction_type := g.1
  let w := getWord (skipWord g.2.1)
  let line1 := w.1
  let long := decide (w.2.length > MAX_LENGTH_OF_LABEL - 1)
  let e1 := if long then "Invalid label name, label name contains more than 31 characters."
    else g.2.2
  let label_name := if long then w.2.take MAX_LENGTH_OF_LABEL else w.2
  let extra := !isWhiteSpaceString line1
  let e2 := if extra then
      "Invalid label declaration, additional characters after the label name: " ++
        String.mk label_name
    else e1
  if extra && curr_declaration then ⟨line1, st.declarations_list, e2⟩
  else
    let c := checkLabelName label_name macros_list e2
    if !c.1 && curr_declaration then ⟨line1, st.declarations_list, c.2⟩
    else
      let d := checkIfLabelNameAlreadyDeclared label_name instruction_type
        st.declarations_list c.2
      if !d.1 && curr_declaration then ⟨line1, st.declarations_list, d.2⟩
      else
        ⟨line1, st.declarations_list ++
          [creatDeclarationNode (Int.ofNat line_num) label_name instruction_type], d.2⟩

/-- `getLabelName(line, label_name, error_str, macros_list)` on a line that holds a colon:
the flag, the line buffer, the label and the error buffer. -/
def getLabelName (line : List Char) (error_str : String) (macros_list : List macroNode) :
    Bool × List Char × List Char × String :=
  let colon := (line.takeWhile fun c => c != ':').length
  let long := decide (colon ≥ MAX_LENGTH_OF_LABEL)
  let e1 := if long then "Invalid label name, label name contains more than 31 characters."
    else error_str
  let label_len := if long then MAX_LENGTH_OF_LABEL - 1 else colon
  let label_name := line.take label_len
  let c := checkLabelName label_name macros_list e1
  if !c.1 then (false, line, label_name, c.2)
  else if !(match line.get? (label_len + 1) with
      | some ch => isspace ch
      | none => false) then
    (false, line, label_name,
      "Invalid label definition, no space was detected after the colon.")
  else
    let line1 := skipWord line
    if isWhiteSpaceString line1 then
      (false, line1, label_name,
        "Invalid label definition, no instruction was detected after the label: " ++
          String.mk label_name)
    else (true, line1, label_name, c.2)

/-- `readNewLabel(line, line_num, macros_list, dc, ic, curr_declaration, declarations_list,
error_str)`. The two warnings printed for a label before `.entry` or `.extern` are not
diagnostics and leave no trace in the state. -/
def readNewLabel (st : declarationState) (line_num : Nat) (macros_list : List macroNode)
    (dc ic : Int) : declarationState :=
  let curr_declaration : Bool := !st.declarations_list.isEmpty
  let l := getLabelName st.line st.error_str macros_list
  let label_name := l.2.2.1
  if !l.1 && curr_declaration then ⟨l.2.1, st.declarations_list, l.2.2.2⟩
  else
    let g := getInstructionType l.2.1 l.2.2.2
    let instruction_type := g.1
    if instruction_type = NO_TYPE && curr_declaration then
      ⟨g.2.1, st.declarations_list, g.2.2⟩
    else
      let d := checkIfLabelNameAlreadyDeclared label_name instruction_type
        st.declarations_list g.2.2
      if !d.1 && curr_declaration then ⟨g.2.1, st.declarations_list, d.2⟩
      else if instruction_type = CODE then
        ⟨skipWhiteChar g.2.1,
          st.declarations_list ++ [creatDeclarationNode ic label_name instruction_type], d.2⟩
      else if instruction_type ≥ ENTRY then
        let r := readNewDeclaration ⟨g.2.1, st.declarations_list, d.2⟩ line_num macros_list
        ⟨skipWhiteChar r.line, r.declarations_list, r.error_str⟩
      else
        ⟨skipWhiteChar g.2.1,
          st.declarations_list ++ [creatDeclarationNode dc label_name instruction_type], d.2⟩

/-! ## The main loop of `first_pass.c` -/

/-- `UpdateDataCounter`, the loop over the data nodes: the flag and the list, in which the
nodes up to the one that failed have been moved. -/
def updateDataNodes (ic : Int) : List dataNode → Bool × List dataNode
  | [] => (true, [])
  | temp_data :: rest =>
    let moved : dataNode := { temp_data with dc := toShort (temp_data.dc + ic) }
    if moved.dc > MEMORY_CELLS then (false, moved :: rest)
    else ((updateDataNodes ic rest).1, moved :: (updateDataNodes ic rest).2)

/-- `UpdateDataCounter`, the loop over the declaration nodes. -/
def updateDeclarationNodes (ic : Int) (declarations_list : List declarationNode) :
    List declarationNode :=
  declarations_list.map fun temp_declaration =>
    if temp_declaration.type = DATA ∨ temp_declaration.type = STRING then
      { temp_declaration with
        decimal_address := toShort (temp_declaration.decimal_address + ic) }
    else temp_declaration

/-- The outcome of `UpdateDataCounter`: the returned flag, the array `ic_dc_counter` and
the two lists. -/
structure updateResult where
  ok : Bool
  ic_dc_counter : Int × Int
  data_list : List dataNode
  declarations_list : List declarationNode
  deriving DecidableEq, Repr

/-- `UpdateDataCounter(data_list, declarations_list, ic_dc_counter, ic, dc)`. -/
def UpdateDataCounter (data_list : List dataNode) (declarations_list : List declarationNode)
    (ic dc : Int) : updateResult :=
  let counter : Int × Int := (toShort (ic - FIRST_MEMORY_CELL), dc)
  let d := updateDataNodes ic data_list
  if !d.1 then ⟨false, counter, d.2, declarations_list⟩
  else ⟨true, counter, d.2, updateDeclarationNodes ic declarations_list⟩

/-- The variables of `firstPass` that live across the lines, with the diagnostics printed by
`generalError` (line number and message). -/
structure firstPassState where
  ic : Int
  dc : Int
  line_num : Nat
  indicator : Bool
  instructions_list : List instructionNode
  data_list : List dataNode
  declarations_list : List declarationNode
  errors : List (Int × String)
  deriving DecidableEq, Repr

/-- The start of `firstPass`. -/
def firstPassInit : firstPassState := ⟨FIRST_MEMORY_CELL, 0, 1, true, [], [], [], []⟩

/-- The end of one round of the `while(fgets(...))` loop: the report of the error buffer and
the advance of the line counter, an `unsigned int` of 32 bits. -/
def endOfLine (st : firstPassState) (error_str : String) : firstPassState :=
  let st1 := if error_str ≠ "" then
      { st with indicator := false,
                errors := st.errors ++ [(toShort (Int.ofNat st.line_num), error_str)] }
    else st
  { st1 with line_num := (st.line_num + 1) % 4294967296 }

/-- The end of one round on the error buffer `error_str[ERROR_MESSAGE_SIZE]` of
`firstPass`. A message of ERROR_MESSAGE_SIZE characters or more does not fit the array with
its NUL: the `sprintf` that wrote it (the one of `getInstructionType`, around a first word
of 46 characters or more) went behind the end of the array, and the round has no
meaning. Every other message of the first pass is shorter. -/
def reportedLine (st : firstPassState) (error_str : String) : Option firstPassState :=
  if error_str.length ≥ ERROR_MESSAGE_SIZE then none else some (endOfLine st error_str)

/-- One round of the `while(fgets(...))` loop of `firstPass` on the buffer `fgets`
filled. -/
def firstPassLine (macros_list : List macroNode) (st : firstPassState) (buf : List Char) :
    Option firstPassState :=
  let line0 := cstr buf
  let l : declarationState :=
    if (strchr line0 ':').isSome then
      readNewLabel ⟨line0, st.declarations_list, ""⟩ st.line_num macros_list st.dc st.ic
    else ⟨line0, st.declarations_list, ""⟩
  let st1 := { st with declarations_list := l.declarations_list }
  if l.error_str = "" ∧ l.line ≠ [] ∧ l.line.head? ≠ some '\n' then
    let g := getInstructionType l.line l.error_str
    let instruction_type := g.1
    if instruction_type = CODE then
      (readNewInstruction ⟨st.ic, st.instructions_list, g.2.2⟩ g.2.1 st.line_num).bind fun r =>
        reportedLine { st1 with ic := r.ic, instructions_list := r.instructions_list }
          r.error_str
    else if instruction_type ≥ ENTRY then
      let r := readNewDeclaration ⟨g.2.1, l.declarations_list, g.2.2⟩ st.line_num macros_list
      reportedLine { st1 with declarations_list := r.declarations_list } r.error_str
    else if instruction_type ≥ DATA then
      (readNewData ⟨st.dc, st.data_list, g.2.2⟩ instruction_type g.2.1).bind fun r =>
        reportedLine { st1 with dc := r.dc, data_list := r.data_list } r.error_str
    else reportedLine st1 g.2.2
  else reportedLine st1 l.error_str

/-- The `while(fgets(...))` loop of `firstPass` over the buffers `fgets` fills in turn. -/
def firstPassLoop (macros_list : List macroNode) :
    List (List Char) → firstPassState → Option firstPassState
  | [], st => some st
  | buf :: rest, st => (firstPassLine macros_list st buf).bind (firstPassLoop macros_list rest)

/-- What `firstPass` hands to the caller: the returned indicator, `ic_dc_counter`, the three
lists and the diagnostics printed. -/
structure firstPassResult where
  indicator : Bool
  ic_dc_counter : Int × Int
  instructions_list : List instructionNode
  data_list : List dataNode
  declarations_list : List declarationNode
  errors : List (Int × String)
  deriving DecidableEq, Repr

/-- The part of `firstPass` after the loop: `UpdateDataCounter` and the capacity error. -/
def firstPassFinish (st : firstPassState) : firstPassResult :=
  let u := UpdateDataCounter st.data_list st.declarations_list st.ic st.dc
  if !u.ok then
    ⟨false, u.ic_dc_counter, st.instructions_list, u.data_list, u.declarations_list,
      st.errors ++ [(toShort (Int.ofNat st.line_num),
        "The system cannot proceed due to insufficient available memory.")]⟩
  else
    ⟨st.indicator, u.ic_dc_counter, st.instructions_list, u.data_list, u.declarations_list,
      st.errors⟩

/-- `firstPass(input_file, ..., macros_list, ...)` on the sequence of buffers `fgets`
delivers for the input file. -/
def firstPass (macros_list : List macroNode) (lines : List (List Char)) :
    Option firstPassResult :=
  (firstPassLoop macros_list lines firstPassInit).map firstPassFinish

/-! ## `second_pass.c` -/

/-- The search of `isEntriesDefined` for the first declaration that has the name of the
entry and is not an entry itself. -/
def findDefinition (label : List Char) : List declarationNode → Option declarationNode
  | [] => none
  | temp :: rest =>
    if label = temp.label ∧ temp.type ≠ ENTRY then some temp else findDefinition label rest

/-- The outer loop of `isEntriesDefined` over the nodes still to visit; `all` is the whole
list, whose nodes that are not entries never change. Returns the visited nodes and the
diagnostics printed. -/
def entriesLoop (all : List declarationNode) :
    List declarationNode → List declarationNode × List (Int × String)
  | [] => ([], [])
  | curr_dec :: rest =>
    let r := entriesLoop all rest
    if curr_dec.type = ENTRY then
      match findDefinition curr_dec.label all with
      | some temp => ({ curr_dec with decimal_address := temp.decimal_address } :: r.1, r.2)
      | none =>
        (curr_dec :: r.1,
          (curr_dec.decimal_address,
            "No definition was found for the entry: " ++ String.mk curr_dec.label) :: r.2)
    else (curr_dec :: r.1, r.2)

/-- `isEntriesDefined(file_name, declarations_list)`: the flag, the list and the diagnostics
printed. -/
def isEntriesDefined (declarations_list : List declarationNode) :
    Bool × List declarationNode × List (Int × String) :=
  let r := entriesLoop declarations_list declarations_list
  (r.2.isEmpty, r.1, r.2)

/-- `getRelocatableBMC(decimal_value, bmc)`; returns the new `*bmc`. -/
def getRelocatableBMC (decimal_value : Int) : Int :=
  insertBinaryValueByData decimal_value (turnOnBit 0 R_ADDRESSING_METHOD)
    ADDRESS_START_POSITION

/-- The variables the inner loop of `fillingMissingBMCofLabel` reads and writes. -/
structure lookupState where
  found_label_name : Bool
  curr_declared_entry : Bool
  curr_declared_extern : Bool
  curr_declared_dsc : Bool
  curr_ins_da : Int
  line : Nat
  ent_is_length : Int × Int
  ext_is_length : Int × Int
  deriving DecidableEq, Repr

/-- The update `if(x_is_length[1] < strlen(label)) x_is_length[1] = strlen(label)` together
with `x_is_length[0] = TRUE`. -/
def noteLength (is_length : Int × Int) (label : List Char) : Int × Int :=
  (1, if is_length.2 < Int.ofNat label.length then toShort (Int.ofNat label.length)
    else is_length.2)

/-- The inner `while(curr_dec && ...)` loop of `fillingMissingBMCofLabel` for the label
`name`. -/
def declarationLoop (name : List Char) : List declarationNode → lookupState → lookupState
  | [], s => s
  | curr_dec :: rest, s =>
    if s.curr_declared_extern || (s.curr_declared_entry && s.curr_declared_dsc) then s
    else if name = curr_dec.label then
      if curr_dec.type = EXTERN then
        declarationLoop name rest
          { s with found_label_name := true, curr_declared_extern := true,
                   line := EXTERN.toNat, ext_is_length := noteLength s.ext_is_length
                     curr_dec.label }
      else if !s.curr_declared_entry ∧ curr_dec.type = ENTRY then
        declarationLoop name rest
          { s with found_label_name := true, curr_declared_entry := true,
                   ent_is_length := noteLength s.ent_is_length curr_dec.label }
      else if !s.curr_declared_dsc then
        declarationLoop name rest
          { s with found_label_name := true, curr_declared_dsc := true,
                   curr_ins_da := curr_dec.decimal_address }
      else declarationLoop name rest { s with found_label_name := true }
    else declarationLoop name rest s

/-- The variables of `fillingMissingBMCofLabel` that live across the instruction nodes, with
the diagnostics printed. `curr_ins_da` starts with whatever the stack holds. -/
structure fillState where
  curr_ins_da : Int
  ent_is_length : Int × Int
  ext_is_length : Int × Int
  no_error : Bool
  errors : List (Int × String)
  deriving DecidableEq, Repr

/-- The message `fillingMissingBMCofLabel` writes with `sprintf` for a label that has no
declaration. -/
def undefinedLabelMessage (name : List Char) : String :=
  "The label: " ++ String.mk name ++
    " is illegal, it was not defined or declared as extern."

/-- One round of the outer loop of `fillingMissingBMCofLabel` for the node `curr_ins`: the
node and the variables after the round. A node whose `line` is not zero holds a label
name; reading a name out of a node that holds machine code has no meaning: `none`. The
message for a label without a declaration is written into `error_str[ERROR_MESSAGE_SIZE]`;
for a name of 45 characters or more it does not fit the array with its NUL, and the round
has no meaning: `none`. -/
def fillNode (declarations_list : List declarationNode) (curr_ins : instructionNode)
    (s : fillState) : Option (instructionNode × fillState) :=
  if curr_ins.line ≠ 0 then
    match curr_ins.type with
    | wordType.bmc _ => none
    | wordType.name name =>
      let l := declarationLoop name declarations_list
        ⟨false, false, false, false, s.curr_ins_da, curr_ins.line, s.ent_is_length,
          s.ext_is_length⟩
      if !l.found_label_name ∧ (undefinedLabelMessage name).length ≥ ERROR_MESSAGE_SIZE then
        none
      else some
        (if not l.curr_declared_extern then
            ⟨curr_ins.ic, HAVE_BMC, wordType.bmc (getRelocatableBMC l.curr_ins_da)⟩
          else ⟨curr_ins.ic, l.line, wordType.name name⟩,
          { curr_ins_da := l.curr_ins_da, ent_is_length := l.ent_is_length,
            ext_is_length := l.ext_is_length,
            no_error := s.no_error && l.found_label_name,
            errors := if !l.found_label_name then
                s.errors ++ [(toShort (Int.ofNat l.line), undefinedLabelMessage name)]
              else s.errors })
  else some (curr_ins, s)

/-- The outer loop of `fillingMissingBMCofLabel` over the instruction nodes. -/
def fillingLoop (declarations_list : List declarationNode) :
    List instructionNode → fillState → Option (List instructionNode × fillState)
  | [], s => some ([], s)
  | curr_ins :: rest, s =>
    (fillNode declarations_list curr_ins s).bind fun r =>
      (fillingLoop declarations_list rest r.2).map fun q => (r.1 :: q.1, q.2)

/-- `fillingMissingBMCofLabel(file_name, instructions_list, declarations_list,
ent_is_length, ext_is_length)`; `garbage` is the value the unset local `curr_ins_da` holds
on entry. -/
def fillingMissingBMCofLabel (garbage : Int) (instructions_list : List instructionNode)
    (declarations_list : List declarationNode) (ent_is_length ext_is_length : Int × Int) :
    Option (List instructionNode × fillState) :=
  fillingLoop declarations_list instructions_list
    ⟨garbage, ent_is_length, ext_is_length, true, []⟩

/-- One line of the entry or external file: the name, the number of spaces and the address
printed with `%04d`. -/
structure outputLine where
  name : List Char
  spaces : Nat
  address : Int
  deriving DecidableEq, Repr

/-- The number of rounds of `for(i=0 ; i < (x_is_length[1]-strlen(name)+extra) ; i++)`. The
bound is computed in `size_t` (64 bits) and `i` is compared as `size_t`; `bits` is the width
of `i` (16 in `printfEntOutputLine`, 32 in `printfExtOutputLine`), which wraps around from
its largest value to its smallest. -/
def spacesCount (bits : Nat) (longest : Int) (name : List Char) (extra : Int) : Nat :=
  let bound := ((longest - Int.ofNat name.length + extra) % 18446744073709551616).toNat
  if bound ≤ 2 ^ (bits - 1) then bound
  else if bound ≤ 18446744073709551616 - 2 ^ (bits - 1) then 2 ^ (bits - 1)
  else bound + 2 ^ bits - 18446744073709551616

/-- The loop of `createObAndExtFiles` over the instruction nodes: the lines of the object
file, the lines of the external file and the nodes after `printfExtOutputLine`. Writing to
the external file when it was never opened has no meaning: `none`. -/
def printInstructions (ext_is_length : Int × Int) :
    List instructionNode → Option (List (Int × Int) × List outputLine × List instructionNode)
  | [] => some ([], [], [])
  | curr_ins :: rest =>
    (printInstructions ext_is_length rest).bind fun r =>
      match curr_ins.type with
      | wordType.bmc v =>
        if curr_ins.line ≠ 0 then none
        else some ((curr_ins.ic, v) :: r.1, r.2.1, curr_ins :: r.2.2)
      | wordType.name name =>
        if curr_ins.line ≠ 0 ∧ ext_is_length.1 ≠ 0 then
          some ((curr_ins.ic, EXTERN_VALUE) :: r.1,
            ⟨name, spacesCount 32 ext_is_length.2 name 2, curr_ins.ic⟩ :: r.2.1,
            ⟨curr_ins.ic, HAVE_BMC, wordType.bmc EXTERN_VALUE⟩ :: r.2.2)
        else none

/-- Whether `fopen(..., "w")` succeeds for the object file, for the external file and for
the entry file. -/
structure outputFiles where
  ob : Bool
  ext : Bool
  ent : Bool
  deriving DecidableEq, Repr

/-- The files `createObAndExtFiles` writes: the header line and the lines of the object
file, and the lines of the external file when that file is created. -/
structure obAndExtFiles where
  header : Int × Int
  ob : List (Int × Int)
  ext : Option (List outputLine)
  instructions_list : List instructionNode
  deriving DecidableEq, Repr

/-- `createObAndExtFiles(file_name, ic_dc_counter, instructions_list, data_list,
ext_is_length)`; `files` says which files `fopen` can create. The inner `none` is the
return value FATAL_ERROR: the object file, or the external file when there is one to
write, could not be opened, and nothing was printed (in the second case the object file is
left behind empty). The buffers of the file names have the size of the name with its
suffix and NUL. -/
def createObAndExtFiles (files : outputFiles) (ic_dc_counter : Int × Int)
    (instructions_list : List instructionNode) (data_list : List dataNode)
    (ext_is_length : Int × Int) : Option (Option obAndExtFiles) :=
  if files.ob = false ∨ (ext_is_length.1 ≠ 0 ∧ files.ext = false) then some none
  else
    (printInstructions ext_is_length instructions_list).map fun r =>
      some ⟨ic_dc_counter,
        r.1 ++ data_list.map (fun curr_data => (curr_data.dc, curr_data.bmc)),
        if ext_is_length.1 ≠ 0 then some r.2.1 else none, r.2.2⟩

/-- `createEntFile(file_name, declarations_list, ent_is_length)`: the lines of the entry
file, or `none` for the return value FATAL_ERROR when the file cannot be opened. -/
def createEntFile (files : outputFiles) (declarations_list : List declarationNode)
    (ent_is_length : Int × Int) : Option (List outputLine) :=
  if files.ent = false then none
  else
    some ((declarations_list.filter fun curr_dec => curr_dec.type = ENTRY).map fun curr_dec =>
      ⟨curr_dec.label, spacesCount 16 ent_is_length.2 curr_dec.label 1,
        curr_dec.decimal_address⟩)

/-- What `secondPass` leaves behind: whether it returned TRUE, the diagnostics printed, the
lists, the three output files (`none` for a file that is not written) and whether it
returned FATAL_ERROR; with both flags off it returned FALSE. -/
structure secondPassResult where
  indicator : Bool
  errors : List (Int × String)
  instructions_list : List instructionNode
  declarations_list : List declarationNode
  ob : Option ((Int × Int) × List (Int × Int))
  ext : Option (List outputLine)
  ent : Option (List outputLine)
  fatal : Bool
  deriving DecidableEq, Repr

/-- `secondPass(files_name, error_file_name, ic_dc_counter, instructions_list, data_list,
declarations_list, indicator)`; `files` says which output files `fopen` can create and
`garbage` is the value the unset local `curr_ins_da` of `fillingMissingBMCofLabel` holds on
entry. -/
def secondPass (files : outputFiles) (garbage : Int) (ic_dc_counter : Int × Int)
    (instructions_list : List instructionNode) (data_list : List dataNode)
    (declarations_list : List declarationNode) (indicator : Bool) : Option secondPassResult :=
  let e := isEntriesDefined declarations_list
  (fillingMissingBMCofLabel garbage instructions_list e.2.1 (0, 0) (0, 0)).bind fun f =>
    let indicator1 := indicator && e.1 && f.2.no_error
    if indicator1 then
      (createObAndExtFiles files ic_dc_counter f.1 data_list f.2.ext_is_length).map fun c =>
        match c with
        | none => ⟨false, e.2.2 ++ f.2.errors, f.1, e.2.1, none, none, none, true⟩
        | some o =>
          if f.2.ent_is_length.1 ≠ 0 then
            match createEntFile files e.2.1 f.2.ent_is_length with
            | some lines =>
              ⟨true, e.2.2 ++ f.2.errors, o.instructions_list, e.2.1, some (o.header, o.ob),
                o.ext, some lines, false⟩
            | none =>
              ⟨false, e.2.2 ++ f.2.errors, o.instructions_list, e.2.1,
                some (o.header, o.ob), o.ext, none, true⟩
          else
            ⟨true, e.2.2 ++ f.2.errors, o.instructions_list, e.2.1, some (o.header, o.ob),
              o.ext, none, false⟩
    else some ⟨false, e.2.2 ++ f.2.errors, f.1, e.2.1, none, none, none, false⟩

/-- The stages 3 and 4 of `main` for one file whose output files can all be created:
`firstPass` on the expanded file, then `secondPass` on what it built. -/
def assemble (garbage : Int) (macros_list : List macroNode) (lines : List (List Char)) :
    Option secondPassResult :=
  (firstPass macros_list lines).bind fun r =>
    secondPass ⟨true, true, true⟩ garbage r.ic_dc_counter r.instructions_list r.data_list
      r.declarations_list r.indicator

/-! ## `pre_processor.c`

The input file is the sequence of buffers `fgets` fills in turn; a function that reads
on hands back the buffers it left. `fgets` at the end of the file leaves the line buffer as
it is. -/

/-- The value TRUE of `headers.h`. -/
def TRUE : Int := 1

/-- The value FALSE of `headers.h`. -/
def FALSE : Int := 0

/-- The value FATAL_ERROR of `headers.h`. -/
def FATAL_ERROR : Int := -1

/-- `strstr(line, word)`: the rest of `line` from the first place where `word` stands. -/
def strstr : List Char → List Char → Option (List Char)
  | [], word => if word = [] then some [] else none
  | c :: cs, word => if word.isPrefixOf (c :: cs) then some (c :: cs) else strstr cs word

/-- `isValidLine(line, error_str)`: the flag, the line buffer and the error buffer. -/
def isValidLine (line : List Char) (error_str : String) : Bool × List Char × String :=
  if line.length = MAX_LENGTH_OF_LINE - 1 ∧
      line.get? (MAX_LENGTH_OF_LINE - 2) ≠ some '\n' then
    (false, line, "The line contains more than 80 characters.")
  else if (strchr line ';').isSome ∧ strchr line ';' ≠ some line then
    (false, line, "Extra characters were detected before the character: ';'")
  else (true, skipWhiteChar line, error_str)

/-- `isStartMacroDeclaration(line, error_str)`: the value returned (a signed `char`) and the
error buffer. -/
def isStartMacroDeclaration (line : List Char) (error_str : String) : Int × String :=
  match strstr line "macr ".toList with
  | some temp =>
    if temp ≠ line then
      (-1, "Extra characters were detected before the start of the macro declaration line.")
    else (TRUE, error_str)
  | none => (FALSE, error_str)

/-- `isEndMacroDeclaration(line, error_str)`: the value returned (a signed `char`), the
line buffer and the error buffer. -/
def isEndMacroDeclaration (line : List Char) (error_str : String) :
    Int × List Char × String :=
  match strstr line "endmacr".toList with
  | some temp =>
    if temp ≠ line then
      (-1, line,
        "Extra characters were detected before the end of the macro declaration line.")
    else if !isWhiteSpaceString (skipWord line) then
      (-1, skipWord line,
        "Extra characters were detected after the end of the macro declaration line.")
    else (TRUE, skipWord line, error_str)
  | none => (FALSE, line, error_str)

/-- `getMacroName(line, macro_name, error_str)`: the flag, the line buffer, the name
(`none` while the buffer of the name was never written) and the error buffer. -/
def getMacroName (line : List Char) (error_str : String) :
    Bool × List Char × Option (List Char) × String :=
  let w := getWord line
  if w.2.length ≥ MAX_LENGTH_OF_LABEL then
    (false, w.1, none, "A too long macro name was detected.")
  else if !isWhiteSpaceString w.1 then
    (false, w.1, some w.2, "Characters were detected after the macro name")
  else (true, w.1, some w.2, error_str)

/-- What `getMacroData` and `getCommands` leave behind: the value returned (TRUE or
FALSE; allocation always succeeds), the rest of the input file, the line counter, the name
and the commands of the new macro (the name is written when TRUE is returned) and the error
buffer. -/
structure macroData where
  indicator : Bool
  input_file : List (List Char)
  line_num : Nat
  name : List Char
  commands : List (List Char)
  error_str : String
  deriving DecidableEq, Repr

/-- `getCommands(line, input_file, line_num, new_macro, error_str)`; `commands` holds the
lines stored so far. At the end of the file `fgets` leaves the line as it is: a line that
passes `isValidLine` once more is stored again in every further round, neither test changes
its outcome, and the loop never ends (`none`). -/
def getCommands (name : List Char) : List Char → List (List Char) → Nat →
    List (List Char) → String → Option macroData
  | line, input_file, line_num, commands, error_str =>
    let e := isEndMacroDeclaration line error_str
    if e.1 = 0 then
      match input_file with
      | [] =>
        if !(isValidLine e.2.1 e.2.2).1 then
          some ⟨false, [], (line_num + 1) % 4294967296, name, commands ++ [e.2.1],
            (isValidLine e.2.1 e.2.2).2.2⟩
        else none
      | buf :: rest =>
        let v := isValidLine (cstr buf) e.2.2
        if !v.1 then
          some ⟨false, rest, (line_num + 1) % 4294967296, name, commands ++ [e.2.1], v.2.2⟩
        else
          getCommands name v.2.1 rest ((line_num + 1) % 4294967296) (commands ++ [e.2.1])
            v.2.2
    else
      let e2 := isEndMacroDeclaration e.2.1 e.2.2
      if e2.1 < 0 then some ⟨false, input_file, line_num, name, commands, e2.2.2⟩
      else some ⟨true, input_file, line_num, name, commands, e2.2.2⟩

/-- `getMacroData(line, line_num, input_file, new_macro, macros_list, error_str)`. -/
def getMacroData (line : List Char) (line_num : Nat) (input_file : List (List Char))
    (macros_list : List macroNode) (error_str : String) : Option macroData :=
  let n := getMacroName (skipWord line) error_str
  match n.2.2.1, n.1 with
  | some name, true =>
    if !(isValidName name).1 then
      some ⟨false, input_file, line_num, name, [],
        "Invalid macro name, " ++ (isValidName name).2⟩
    else if (isMacroNameExists name macros_list).isSome then
      some ⟨false, input_file, line_num, name, [],
        "The macro name has already been defined in the current file."⟩
    else
      let line1 := match input_file with
        | [] => n.2.1
        | buf :: _ => cstr buf
      let v := isValidLine line1 n.2.2.2
      if !v.1 then
        some ⟨false, input_file.tail, (line_num + 1) % 4294967296, name, [], v.2.2⟩
      else
        getCommands name v.2.1 input_file.tail ((line_num + 1) % 4294967296) [] v.2.2
  | _, _ => some ⟨false, input_file, line_num, [], [], n.2.2.2⟩

/-- What `readNewMacro` leaves behind: the list of the macros that are complete, whether
the list ends with a node that was linked although `getMacroData` failed (its array of
commands has no NULL at its end), the rest of the input file, the line counter and the
error buffer. -/
structure macroScan where
  macros_list : List macroNode
  broken : Bool
  input_file : List (List Char)
  line_num : Nat
  error_str : String
  deriving DecidableEq, Repr

/-- `readNewMacro(line, line_num, input_file, curr_macro, macros_list, error_str)`; the
pointer `curr_macro` is NULL exactly when the list is empty. -/
def readNewMacro (line : List Char) (line_num : Nat) (input_file : List (List Char))
    (macros_list : List macroNode) (error_str : String) : Option macroScan :=
  (getMacroData line line_num input_file macros_list error_str).map fun d =>
    if !d.indicator && !macros_list.isEmpty then
      ⟨macros_list, false, d.input_file, d.line_num, d.error_str⟩
    else if !d.indicator then ⟨macros_list, true, d.input_file, d.line_num, d.error_str⟩
    else ⟨macros_list ++ [⟨d.name, d.commands⟩], false, d.input_file, d.line_num, d.error_str⟩

/-- What the first scan of `macrosLayout` leaves behind: whether it reached the end of the
file, the list of macros, the flag of `macroScan` and the diagnostic printed. -/
structure firstScan where
  ok : Bool
  macros_list : List macroNode
  broken : Bool
  errors : List (Int × String)
  deriving DecidableEq, Repr

/-- The first `while(fgets(...))` loop of `macrosLayout`. Every round reads at least one
buffer, so `fuel` rounds are enough for a file of `fuel` buffers; the line counter is an
`unsigned int` of 32 bits and is printed as a `short`. -/
def firstScanLoop : Nat → List (List Char) → Nat → List macroNode → Option firstScan
  | _, [], _, macros_list => some ⟨true, macros_list, false, []⟩
  | 0, _ :: _, _, _ => none
  | fuel + 1, buf :: rest, line_num, macros_list =>
    let v := isValidLine (cstr buf) ""
    if v.1 then
      let s := isStartMacroDeclaration v.2.1 v.2.2
      if s.1 = TRUE then
        (readNewMacro v.2.1 line_num rest macros_list s.2).bind fun r =>
          if r.error_str ≠ "" then
            some ⟨false, r.macros_list, r.broken,
              [(toShort (Int.ofNat r.line_num), r.error_str)]⟩
          else
            firstScanLoop fuel r.input_file ((r.line_num + 1) % 4294967296) r.macros_list
      else if s.2 ≠ "" then
        some ⟨false, macros_list, false, [(toShort (Int.ofNat line_num), s.2)]⟩
      else firstScanLoop fuel rest ((line_num + 1) % 4294967296) macros_list
    else some ⟨false, macros_list, false, [(toShort (Int.ofNat line_num), v.2.2)]⟩

/-- The loop `while(!isEndMacroDeclaration(line, error_str)) fgets(...)` of the second
scan: the rest of the input file. At the end of the file the line stays and the loop never
ends (`none`). The error buffer is written and never read. -/
def skipMacroDefinition : List Char → List (List Char) → Option (List (List Char))
  | line, input_file =>
    if (isEndMacroDeclaration line "").1 ≠ 0 then some input_file
    else
      match input_file with
      | [] => none
      | buf :: rest => skipMacroDefinition (cstr buf) rest

/-- `printMacroCommands(macro, output_file)`: the strings written. -/
def printMacroCommands (macro_node : macroNode) : List (List Char) := macro_node.commands

/-- `printLineToFile(output_file, line, macros_list)`: the strings written. -/
def printLineToFile (line : List Char) (macros_list : List macroNode) : List (List Char) :=
  let macro_name := line.takeWhile fun c => !isspace c && c != '\n'
  match isMacroNameExists macro_name macros_list with
  | none => [line]
  | some temp_node => printMacroCommands temp_node

/-- The second `while(fgets(...))` loop of `macrosLayout`: the strings written to the
output file, in order. -/
def secondScanLoop (macros_list : List macroNode) :
    Nat → List (List Char) → Option (List (List Char))
  | _, [] => some []
  | 0, _ :: _ => none
  | fuel + 1, buf :: rest =>
    if (cstr buf).head? ≠ some ';' ∧ !isWhiteSpaceString (cstr buf) then
      if (isStartMacroDeclaration (skipWhiteChar (cstr buf)) "").1 ≠ 0 then
        (skipMacroDefinition (skipWhiteChar (cstr buf)) rest).bind
          (secondScanLoop macros_list fuel)
      else
        (secondScanLoop macros_list fuel rest).map fun out =>
          printLineToFile (skipWhiteChar (cstr buf)) macros_list ++ out
    else secondScanLoop macros_list fuel rest

/-- What `macrosLayout` leaves behind: the value returned, the list of macros, the flag of
`macroScan`, the diagnostic printed and the content of the output file (`none` when the
file is not created). -/
structure macrosResult where
  indicator : Int
  macros_list : List macroNode
  broken : Bool
  errors : List (Int × String)
  output : Option (List Char)
  deriving DecidableEq, Repr

/-- `macrosLayout(input_file, ..., macros_list)` on the buffers `fgets` delivers for the
input file; `writable` says whether the output file can be opened for writing. -/
def macrosLayout (writable : Bool) (input_file : List (List Char)) : Option macrosResult :=
  (firstScanLoop input_file.length input_file 1 []).bind fun f =>
    if !f.ok then some ⟨FALSE, f.macros_list, f.broken, f.errors, none⟩
    else if !writable then some ⟨FATAL_ERROR, f.macros_list, false, [], none⟩
    else
      (secondScanLoop f.macros_list input_file.length input_file).map fun out =>
        ⟨TRUE, f.macros_list, false, [], some out.flatten⟩

/-! ## `assembler.c` -/

/-- The characters `fgets(line, n, file)` stores, at most `k = n - 1` of them, and the
rest of the file. -/
def fgetsChunk : Nat → List Char → List Char × List Char
  | 0, file => ([], file)
  | _ + 1, [] => ([], [])
  | k + 1, c :: cs =>
    if c = '\n' then ([c], cs) else (c :: (fgetsChunk k cs).1, (fgetsChunk k cs).2)

/-- `fgets(line, n, file)`: `none` at the end of the file. -/
def fgets (n : Nat) (file : List Char) : Option (List Char × List Char) :=
  if file = [] then none else some (fgetsChunk (n - 1) file)

/-- The buffers `fgets(line, MAX_LENGTH_OF_LINE, file)` fills in turn until the end of the
file; every call takes at least one character, so `fuel` calls are enough for a file of
`fuel` characters. -/
def fileLinesAux : Nat → List Char → List (List Char)
  | 0, _ => []
  | fuel + 1, file =>
    match fgets MAX_LENGTH_OF_LINE file with
    | none => []
    | some r => r.1 :: fileLinesAux fuel r.2

/-- The buffers `fgets` fills for a file. -/
def fileLines (file : List Char) : List (List Char) := fileLinesAux file.length file

/-- The value EXIT_FAILURE of `stdlib.h`. -/
def EXIT_FAILURE : Int := 1

/-- One argument of the command line as `main` meets it: the argument `argv[i]`, the
content of the `.as` file (`none` when it cannot be opened), whether the `.am` file can be
opened for writing and then for reading, which output files of the second pass can be
created, and the value the unset local `curr_ins_da` holds in the second pass. -/
structure inputFile where
  name : List Char
  source : Option (List Char)
  writable : Bool
  am_readable : Bool
  files : outputFiles
  garbage : Int
  deriving DecidableEq, Repr

/-- What `main` does with one file: the file is missing, the pre-processor reported an
error, a file could not be created, or the passes ran on the `.am` file. -/
inductive fileReport where
  | missing
  | notExpanded (errors : List (Int × String))
  | fatal
  | assembled (am : List Char) (first : firstPassResult) (second : secondPassResult)
  deriving DecidableEq, Repr

/-- The two buffers `main` allocates for the names of the `.as` and the `.am` file. Each is
requested with `malloc(strlen(argv[i]+4))`, the length of the argument behind its first
four characters, and then filled by `strcpy` and `strcat` with the whole argument, a suffix
of three characters and the NUL. `usable n` is the number of bytes the block that
`malloc(n)` returns really has (at least `n`). An argument of less than four characters is
read behind its end, and a name that does not fit the block is written behind the end of
the block: `false`. -/
def nameBuffersFit (usable : Nat → Nat) (name : List Char) : Bool :=
  decide (4 ≤ name.length) && decide (name.length + 4 ≤ usable (name.length - 4))

/-- The `while(--argc > 0)` loop of `main`: the exit status and what happened to the files.
A run has no meaning (`none`) when a file name does not fit its buffer, when the `.am`
file cannot be opened for reading (`mainGeneralFree` then closes the NULL stream), and
when, after a failure of the pre-processor, `mainGeneralFree` walks a list of macros that
ends with a node whose array of commands has no NULL at its end. A fatal error ends the
run with `exit(EXIT_FAILURE)`. -/
def mainLoop (usable : Nat → Nat) : List inputFile → Option (Int × List fileReport)
  | [] => some (0, [])
  | f :: rest =>
    if !nameBuffersFit usable f.name then none
    else
      match f.source with
      | none => (mainLoop usable rest).map fun r => (r.1, fileReport.missing :: r.2)
      | some content =>
        (macrosLayout f.writable (fileLines content)).bind fun m =>
          if m.indicator = FALSE then
            if m.broken then none
            else
              (mainLoop usable rest).map fun r =>
                (r.1, fileReport.notExpanded m.errors :: r.2)
          else if m.indicator = FATAL_ERROR then some (EXIT_FAILURE, [fileReport.fatal])
          else if !f.am_readable then none
          else
            (firstPass m.macros_list (fileLines (m.output.getD []))).bind fun p =>
              (secondPass f.files f.garbage p.ic_dc_counter p.instructions_list p.data_list
                p.declarations_list p.indicator).bind fun s =>
                if s.fatal then some (EXIT_FAILURE, [fileReport.fatal])
                else
                  (mainLoop usable rest).map fun r =>
                    (r.1, fileReport.assembled (m.output.getD []) p s :: r.2)

/-- `main(argc, argv)`: the exit status and what happened to the files named on the
command line; `usable` is the size of the blocks `malloc` returns. -/
def main (usable : Nat → Nat) (files : List inputFile) : Option (Int × List fileReport) :=
  if files = [] then some (0, []) else mainLoop usable files

/-! ## Definitions used to state the properties -/

/-- The name of register number `n`: the letter r and the digit. -/
def registerName (n : Nat) : List Char := ['r', Char.ofNat (48 + n)]

/-- An operand that names register `n`, directly or behind an asterisk. -/
def registerOperand (indirect : Bool) (n : Nat) : List Char :=
  (if indirect then ['*'] else []) ++ registerName n

/-- The machine words `readNewInstruction` appends for a line read into an empty list at
address 100, when the line is accepted. -/
def wordsOfLine (line : List Char) : Option (List wordType) :=
  (readNewInstruction ⟨100, [], ""⟩ line 1).bind fun r =>
    if r.error_str = "" then some (r.instructions_list.map fun n => n.type) else none

/-- The source modes the legality table of the specification gives for an opcode. -/
def tableSourceModes (opcode : Int) : List Int :=
  if opcode = MOV ∨ opcode = CMP ∨ opcode = ADD ∨ opcode = SUB then
    [IMMEDIATE_ADDRESSING, DIRECT_ADDRESSING, INDIRECT_REGISTER_ADDRESSING,
      DIRECT_REGISTER_ADDRESSING]
  else if opcode = LEA then [DIRECT_ADDRESSING]
  else []

/-- The target modes the legality table of the specification gives for an opcode. -/
def tableTargetModes (opcode : Int) : List Int :=
  if opcode = CMP ∨ opcode = PRN then
    [IMMEDIATE_ADDRESSING, DIRECT_ADDRESSING, INDIRECT_REGISTER_ADDRESSING,
      DIRECT_REGISTER_ADDRESSING]
  else if opcode = MOV ∨ opcode = ADD ∨ opcode = SUB ∨ opcode = LEA ∨ opcode = CLR ∨
      opcode = NOT ∨ opcode = INC ∨ opcode = DEC ∨ opcode = RED then
    [DIRECT_ADDRESSING, INDIRECT_REGISTER_ADDRESSING, DIRECT_REGISTER_ADDRESSING]
  else if opcode = JMP ∨ opcode = BNE ∨ opcode = JSR then
    [DIRECT_ADDRESSING, INDIRECT_REGISTER_ADDRESSING]
  else []

/-- The operand fields `readNewInstruction` cuts out of a line that starts with a
mnemonic, for a line that comes in with an empty error buffer. -/
def lineOperands (line : List Char) : operandsResult :=
  if (getOpcode line).1 ≤ LEA then readTwoOperands (getOpcode line).2 none none ""
  else readTargetOperand (getOpcode line).2 none none ""

/-- The addressing type and the text of the source operand of a line. -/
def lineSource (line : List Char) : Int × List Char × String :=
  isValidSourceOperandType (getOpcode line).1 ((lineOperands line).source_operand.getD []) ""

/-- The addressing type and the text of the target operand of a line. -/
def lineTarget (line : List Char) : Int × List Char × String :=
  isValidTargetOperandType (getOpcode line).1 ((lineOperands line).target_operand.getD []) ""

/-- The number of code words the specification announces for an instruction line: one
for RTS and STOP, two for a one-operand opcode, and for a two-operand opcode two when both
operands are registers (direct or indirect) and three otherwise. -/
def announcedWords (line : List Char) : Nat :=
  if (getOpcode line).1 > JSR then 1
  else if (getOpcode line).1 > LEA then 2
  else if (lineSource line).1 ≥ INDIRECT_REGISTER_ADDRESSING ∧
      (lineTarget line).1 ≥ INDIRECT_REGISTER_ADDRESSING then 2
  else 3

/-- What `readNewInstruction` asks of a line that starts with a mnemonic, on the operand
fields it cuts out of the line: the number of operands the opcode takes, each of a type
the opcode admits; nothing but white space behind RTS and STOP. -/
def instructionAccepted (line : List Char) : Prop :=
  0 ≤ (getOpcode line).1 ∧
  if (getOpcode line).1 ≤ LEA then
    (lineOperands line).ok = true ∧ (lineSource line).1 ≠ NO_TYPE ∧
      (lineTarget line).1 ≠ NO_TYPE
  else if (getOpcode line).1 ≤ JSR then
    (lineOperands line).ok = true ∧ (lineTarget line).1 ≠ NO_TYPE
  else isWhiteSpaceString (getOpcode line).2 = true

/-- What `isEntriesDefined` does to one declaration: an entry takes the address of the first
declaration of its name that is not an entry, when there is one. -/
def resolveEntry (all : List declarationNode) (d : declarationNode) : declarationNode :=
  if d.type = ENTRY then
    match findDefinition d.label all with
    | some temp => { d with decimal_address := temp.decimal_address }
    | none => d
  else d

/-- Whether a node of the instruction list is a pending word whose label has an Extern
declaration. -/
def isExternReference (declarations_list : List declarationNode) (n : instructionNode) :
    Bool :=
  n.line != 0 &&
    match n.type with
    | wordType.name label =>
      declarations_list.any fun d => decide (d.label = label) && decide (d.type = EXTERN)
    | wordType.bmc _ => false

/-- The label a pending word refers to (empty for a word that holds machine code). -/
def labelOf (n : instructionNode) : List Char :=
  match n.type with
  | wordType.name label => label
  | wordType.bmc _ => []


/-- How a node leaves `fillingMissingBMCofLabel`: with its address, a reference to an
external label still holding its name under the line mark EXTERN, every other node with
line 0 and either machine code or untouched. -/
def externMarked (declarations_list : List declarationNode) (n n' : instructionNode) : Prop :=
  n'.ic = n.ic ∧
  (isExternReference declarations_list n = true → n'.line = EXTERN.toNat ∧ n'.type = n.type) ∧
  (isExternReference declarations_list n = false →
    n'.line = 0 ∧ ((∃ v, n'.type = wordType.bmc v) ∨ (n.line = 0 ∧ n' = n)))

/-- How a node leaves `createObAndExtFiles`: with its address and machine code, which for a
reference to an external label is EXTERN_VALUE. -/
def externPrinted (declarations_list : List declarationNode) (n n' : instructionNode) : Prop :=
  n'.ic = n.ic ∧ n'.line = 0 ∧ (∃ v, n'.type = wordType.bmc v) ∧
  (isExternReference declarations_list n = true → n'.type = wordType.bmc EXTERN_VALUE)

/-- The code words the first pass builds for `count` lines that hold `stop` alone. -/
@[irreducible] def stopWords (count : Nat) : List instructionNode :=
  (List.range count).map fun i => ⟨100 + Int.ofNat i, 0, wordType.bmc 30724⟩

/-- A file of `count` lines that hold `stop` alone. -/
def stopLines (count : Nat) : List (List Char) := List.replicate count "stop\n".toList

/-- A file of `count` lines that hold `.data 1` alone. -/
def oneLines (count : Nat) : List (List Char) := List.replicate count ".data 1\n".toList

/-- The data words the first pass builds for `count` lines that hold `.data 1` alone,
before `UpdateDataCounter` moves them. -/
@[irreducible] def oneWords (count : Nat) : List dataNode :=
  (List.range count).map fun i => ⟨Int.ofNat i, 1⟩

/-- The code words number 100, 101, ... as a `short` counts, and `ic` is the next
number. -/
def codeAddressed (ic : Int) (l : List instructionNode) : Prop :=
  ic = toShort (100 + Int.ofNat l.length) ∧
  ∀ (i : Nat) (n : instructionNode), l[i]? = some n → n.ic = toShort (100 + Int.ofNat i)

/-- The data words number 0, 1, ... as a `short` counts, and `dc` is the next number. -/
def dataAddressed (dc : Int) (l : List dataNode) : Prop :=
  dc = toShort (Int.ofNat l.length) ∧
  ∀ (i : Nat) (x : dataNode), l[i]? = some x → x.dc = toShort (Int.ofNat i)

/-- No name of the list has an Extern declaration beside a declaration of another kind. -/
def externConsistent (l : List declarationNode) : Prop :=
  ∀ x ∈ l, ∀ y ∈ l, x.label = y.label → x.type = EXTERN → y.type = EXTERN

/-- Every Data or String declaration holds a value the data counter had while at most `n`
data words existed. -/
def dataDeclared (n : Nat) (l : List declarationNode) : Prop :=
  ∀ x ∈ l, x.type = DATA ∨ x.type = STRING →
    ∃ k : Nat, k ≤ n ∧ x.decimal_address = toShort (Int.ofNat k)

/-- Every node of the list that still waits for an address holds a label name. -/
def pendingNamed (l : List instructionNode) : Prop :=
  ∀ n ∈ l, n.line ≠ 0 → ∃ label, n.type = wordType.name label

/-! ## Notions the statements about data lines use -/

/-- The number a string of decimal digits denotes. -/
def decimalValue (digits : List Char) : Nat :=
  digits.foldl (fun acc c => acc * 10 + (c.toNat - 48)) 0

/-- The text of a signed integer literal: an optional minus sign and the digits. -/
def integerLiteral (negative : Bool) (digits : List Char) : List Char :=
  (if negative then ['-'] else []) ++ digits

/-- The number a signed integer literal denotes. -/
def integerValue (negative : Bool) (digits : List Char) : Int :=
  if negative then -Int.ofNat (decimalValue digits) else Int.ofNat (decimalValue digits)

/-- One number of a `.data` list as it is written: white space, an optional minus sign,
decimal digits, white space. -/
structure dataItem where
  pre : List Char
  negative : Bool
  digits : List Char
  post : List Char

/-- The text of one number of a `.data` list. -/
def dataItem.text (x : dataItem) : List Char :=
  x.pre ++ (integerLiteral x.negative x.digits ++ x.post)

/-- The number one item of a `.data` list denotes. -/
def dataItem.value (x : dataItem) : Int := integerValue x.negative x.digits

/-- An item is well written: at least one digit, digits only, white space around. -/
def dataItem.wellWritten (x : dataItem) : Prop :=
  (∀ c ∈ x.pre, isspace c = true) ∧ x.digits ≠ [] ∧ (∀ c ∈ x.digits, isdigit c = true) ∧
  (∀ c ∈ x.post, isspace c = true)

/-- The item without the white space before its literal. -/
def dataItem.trimmed (x : dataItem) : dataItem := ⟨[], x.negative, x.digits, x.post⟩

/-- The text of a `.data` list: the items with a comma between two of them. -/
def dataText : List dataItem → List Char
  | [] => []
  | [x] => x.text
  | x :: y :: rest => x.text ++ ',' :: dataText (y :: rest)

/-! ## Notions the statements about the second pass use -/

/-- Whether a node of the instruction list is a pending word whose label has an Entry
declaration. -/
def isEntryReference (declarations_list : List declarationNode) (n : instructionNode) :
    Bool :=
  n.line != 0 &&
    match n.type with
    | wordType.name label =>
      declarations_list.any fun d => decide (d.label = label) && decide (d.type = ENTRY)
    | wordType.bmc _ => false

/-- Whether a node of the instruction list is a pending word whose label has no declaration
at all. -/
def isUndeclaredReference (declarations_list : List declarationNode) (n : instructionNode) :
    Bool :=
  n.line != 0 &&
    match n.type with
    | wordType.name label => !(declarations_list.any fun d => decide (d.label = label))
    | wordType.bmc _ => false

/-- The shape of the nodes the first pass builds: a node that waits for an address holds a
label name, every other node holds machine code. -/
def codeWellFormed (l : List instructionNode) : Prop :=
  ∀ n ∈ l, (n.line ≠ 0 → ∃ label, n.type = wordType.name label) ∧
    (n.line = 0 → ∃ v, n.type = wordType.bmc v)

/-- The shape of the nodes `createObAndExtFiles` can print when the record of external
labels is `e`: machine code, or a name under a line mark with the flag of the record
set. -/
def printable (e : Int × Int) (l : List instructionNode) : Prop :=
  ∀ n ∈ l, (n.line = 0 ∧ ∃ v, n.type = wordType.bmc v) ∨
    (n.line ≠ 0 ∧ (∃ label, n.type = wordType.name label) ∧ e.1 = 1)

/-- The message for every pending word whose label has no declaration fits the buffer
`error_str[ERROR_MESSAGE_SIZE]` of `fillingMissingBMCofLabel`: the label has at most 44
characters. -/
def messagesFit (declarations_list : List declarationNode) (l : List instructionNode) :
    Prop :=
  ∀ n ∈ l, isUndeclaredReference declarations_list n = true → (labelOf n).length ≤ 44
/-! ## Properties of the lists the first pass builds -/

/-- No name has two declarations other than entries, unless both are Extern. -/
def definedOnce (l : List declarationNode) : Prop :=
  l.Pairwise fun x y => x.label = y.label → x.type ≠ ENTRY → y.type ≠ ENTRY →
    x.type = EXTERN ∧ y.type = EXTERN

/-- The rules of the specification for a label name: 1 to 31 characters, the first one
alphabetic, all of them alphanumeric, not an opcode, a register or a directive keyword, and
not the name of a macro of the list. -/
def labelRules (macros : List macroNode) (name : List Char) : Prop :=
  1 ≤ name.length ∧ name.length ≤ 31 ∧
  (∃ c, name.head? = some c ∧ isalpha c = true) ∧
  (∀ c ∈ name, isalnum c = true) ∧
  isOpcode name = NO_OPCODE ∧ isRegister name = NO_REGISTER ∧
  isInstruction name = NO_TYPE ∧
  ∀ m ∈ macros, m.name ≠ name

/-- The name `readNewDeclaration` reads in a line: the word after the first word. -/
def declaredName (line : List Char) : List Char :=
  (getWord (skipWord (skipWhiteChar line))).2

/-- The text `readNewDeclaration` finds after the name it reads. -/
def afterDeclaredName (line : List Char) : List Char :=
  (getWord (skipWord (skipWhiteChar line))).1

/-- Every declaration of the list has a name within the rules. -/
def namesChecked (macros : List macroNode) (l : List declarationNode) : Prop :=
  ∀ d ∈ l, labelRules macros d.label

/-- The bits E, R and A of a word: the three lowest bits of its 16-bit pattern. -/
def lowBits (v : Int) : Nat := bits16 v % 8

/-- The names `isRegister` knows. -/
def registerTexts : List (List Char) :=
  ["r0", "r1", "r2", "r3", "r4", "r5", "r6", "r7", "PSW", "PC"].map String.toList

/-- How the word of an operand of type and text `o` stands in the list after the first
pass: pending under the number of its line with the text of the operand as label name when
the type is Direct, else final with machine code that has the A bit alone among the three
low bits. -/
def operandNode (o : Int × List Char × String) (line_num : Nat) (n : instructionNode) :
    Prop :=
  (o.1 = DIRECT_ADDRESSING ∧ n.line = line_num ∧ n.type = wordType.name o.2.1) ∨
  (o.1 ≠ DIRECT_ADDRESSING ∧ n.line = 0 ∧ ∃ v, n.type = wordType.bmc v ∧ lowBits v = 4)

/-- Every machine code word of the list has the A bit alone among the three low bits. -/
def codeAbsolute (l : List instructionNode) : Prop :=
  ∀ n ∈ l, ∀ v, n.type = wordType.bmc v → lowBits v = 4

/-- How the node `n` of the first pass shows in the object file as the line `w` (address
and word): machine code goes through as it is, a pending word becomes EXTERN_VALUE when
its label has an Extern declaration and the relocatable word of an address otherwise. -/
def finalWord (decls : List declarationNode) (n : instructionNode) (w : Int × Int) : Prop :=
  w.1 = n.ic ∧
  (∀ v, n.type = wordType.bmc v → n.line = 0 ∧ w.2 = v) ∧
  (∀ label, n.type = wordType.name label → n.line ≠ 0 ∧
    (isExternReference decls n = true → w.2 = EXTERN_VALUE) ∧
    (isExternReference decls n = false → ∃ da, w.2 = getRelocatableBMC da))

/-- What the first scan of the pre-processor checks of the names of the macros it keeps: at
most 31 characters, no opcode, register or directive keyword, and no name twice. -/
def macroNamesChecked (macros : List macroNode) : Prop :=
  (∀ m ∈ macros, m.name.length ≤ 31 ∧ isOpcode m.name = NO_OPCODE ∧
    isRegister m.name = NO_REGISTER ∧ isInstruction m.name = NO_TYPE) ∧
  (macros.map fun m => m.name).Nodup

/-! ## The expansion of macros as the specification describes it -/

/-- The text of a buffer without its leading white characters. -/
def strippedLine (buf : List Char) : List Char := skipWhiteChar (cstr buf)

/-- A comment line starts with `;`. -/
def isCommentLine (buf : List Char) : Bool := (cstr buf).head? == some ';'

/-- A blank line holds white characters only. -/
def isBlankLine (buf : List Char) : Bool := isWhiteSpaceString (cstr buf)

/-- A definition block starts with a line whose text starts with `macr `. -/
def startsDefinition (buf : List Char) : Bool := "macr ".toList.isPrefixOf (strippedLine buf)

/-- A definition block ends with a line whose text starts with `endmacr`. -/
def endsDefinition (buf : List Char) : Bool := "endmacr".toList.isPrefixOf (strippedLine buf)

/-- The first token of a line, delimited by white characters. -/
def firstToken (buf : List Char) : List Char :=
  (strippedLine buf).takeWhile fun c => !isspace c && c != '\n'

/-- The macros a file defines, in the order of the definitions: the name is the word after
`macr`, the body holds the lines between the line of `macr` and the next line that starts
with `endmacr`, each without its leading white characters. The first argument is the
definition that is open, if any. -/
def definedMacros : Option (List Char × List (List Char)) → List (List Char) → List macroNode
  | _, [] => []
  | some d, buf :: rest =>
    if endsDefinition buf then ⟨d.1, d.2⟩ :: definedMacros none rest
    else definedMacros (some (d.1, d.2 ++ [strippedLine buf])) rest
  | none, buf :: rest =>
    if startsDefinition buf then
      definedMacros (some ((getWord (skipWord (strippedLine buf))).2, [])) rest
    else definedMacros none rest

/-- The strings of the expanded file: nothing for the lines of a definition block, for
comment lines and for blank lines; the body of the macro for a line whose first token is
the name of a macro; every other line without its leading white characters. The flag says
whether a definition block is open. -/
def expandedLines (macros : List macroNode) : Bool → List (List Char) → List (List Char)
  | _, [] => []
  | true, buf :: rest => expandedLines macros (!endsDefinition buf) rest
  | false, buf :: rest =>
    if isCommentLine buf || isBlankLine buf then expandedLines macros false rest
    else if startsDefinition buf then expandedLines macros true rest
    else
      (match isMacroNameExists (firstToken buf) macros with
        | some m => m.commands
        | none => [strippedLine buf]) ++ expandedLines macros false rest

/-! ## The allocator behind `main` -/

/-- The number of bytes a block that `malloc(n)` returns can hold in the allocator of
glibc on a 64-bit machine (`malloc_usable_size`): the request with 8 bytes of header,
rounded up to a multiple of 16 and to 32 at least, less the header. -/
def mallocUsableSize (n : Nat) : Nat := max 24 ((n + 23) / 16 * 16 - 8)
/-! ## The shape of the lines of a file -/

/-- A line with its newline, of at most 80 characters before the newline. -/
def fullLine (b : List Char) : Prop :=
  ∃ body, b = body ++ ['\n'] ∧ '\n' ∉ body ∧ body.length ≤ 80

/-- A buffer that `fgets` filled to its end without meeting a newline. -/
def longLine (b : List Char) : Prop := '\n' ∉ b ∧ b.length = 81

/-- A last line with no newline at its end, of at most 80 characters. -/
def openLine (b : List Char) : Prop := '\n' ∉ b ∧ b.length ≤ 80 ∧ b ≠ []

/-- The buffers `fgets` fills for a file without NUL characters: lines with their newline
and buffers filled to their end; the last one may be a line with no newline. -/
def buffersOk (lines : List (List Char)) : Prop :=
  ∀ l1 x l2, lines = l1 ++ x :: l2 →
    (∀ c ∈ x, c.toNat ≠ 0) ∧ (fullLine x ∨ longLine x ∨ (openLine x ∧ l2 = []))

/-- The text of a valid line without its leading white characters: no NUL, no white
character at the start, and `;` at the start or nowhere. -/
def goodText (p : List Char) : Prop :=
  (∀ c ∈ p, c.toNat ≠ 0) ∧ (∀ c, p.head? = some c → isspace c = false) ∧
  (';' ∉ p ∨ p.head? = some ';')

/-- A string the expansion writes before the end of its output: nothing, or the text of a
line with its newline. -/
def pieceOk (p : List Char) : Prop := p = [] ∨ (goodText p ∧ fullLine p)

/-- The last string the expansion writes may be a line with no newline. -/
def lastPieceOk (p : List Char) : Prop := pieceOk p ∨ (goodText p ∧ openLine p)

/-- The strings the expansion writes, in order. -/
def piecesOk : List (List Char) → Prop
  | [] => True
  | [p] => lastPieceOk p
  | p :: q :: rest => pieceOk p ∧ piecesOk (q :: rest)

/-- A line of a file that the pre-processor copies as it is: the text of a valid line with
no white character at its start, that holds no `macr ` and does not start with `;`. -/
def plainLine (b : List Char) : Prop :=
  goodText b ∧ (fullLine b ∨ openLine b) ∧ strstr b "macr ".toList = none ∧
  b.head? ≠ some ';'
/-! ## The parts of a line the first pass looks at -/

/-- The text of the operands before the first comma. -/
def beforeComma (line : List Char) : List Char :=
  (skipWhiteChar line).takeWhile fun c => c != ','

/-- The text of the operands behind the first comma. -/
def afterComma (line : List Char) : List Char :=
  (skipWhiteChar line).drop ((beforeComma line).length + 1)

/-- The text of a line before its first colon. -/
def beforeColon (line : List Char) : List Char := line.takeWhile fun c => c != ':'

/-- The type of the instruction behind the label of a line. -/
def labelledType (line : List Char) : Int := (getInstructionType (skipWord line) "").1
/-! # Theorems -/

/-! ## Machine integers -/

theorem toShort_of_range (x : Int) (h0 : -32768 ≤ x) (h1 : x ≤ 32767) : toShort x = x := by
  unfold toShort
  omega

theorem toShort_range (x : Int) : -32768 ≤ toShort x ∧ toShort x ≤ 32767 := by
  unfold toShort
  omega

/-! ## Error buffers -/

theorem append_ne_empty (a b : String) (h : a ≠ "") : a ++ b ≠ "" := by
  intro hab
  apply h
  have hl := congrArg String.length hab
  simp [String.length_append] at hl
  have h2 : a.length = 0 := by omega
  cases a with
  | mk d =>
    simp [String.length] at h2
    subst h2
    rfl

/-! ## Operand classification -/

theorem immediate_ne : IMMEDIATE_ADDRESSING ≠ NO_TYPE := by decide

theorem direct_ne : DIRECT_ADDRESSING ≠ NO_TYPE := by decide

theorem indirect_ne : INDIRECT_REGISTER_ADDRESSING ≠ NO_TYPE := by decide

theorem register_ne : DIRECT_REGISTER_ADDRESSING ≠ NO_TYPE := by decide

theorem getOperandAddressingType_cases (operand : List Char) (error_str : String)
    (P : Int × List Char × String → Prop)
    (hbad : ∀ msg : String, msg ≠ "" → P (NO_TYPE, operand, msg))
    (himm : ∀ rest, operand = '#' :: rest → rest ≠ [] → (atof rest).isZero = false →
      (atof rest).neToInt = false →
      checkBitException (atof rest).toInt (BITS_NUM - OPERAND_START_POSITION - 1) = true →
      P (IMMEDIATE_ADDRESSING, operand, error_str))
    (hind : ∀ rest, operand = '*' :: rest → isRegister rest ≠ NO_REGISTER →
      P (INDIRECT_REGISTER_ADDRESSING, rest, error_str))
    (hreg : isRegister operand ≠ NO_REGISTER →
      P (DIRECT_REGISTER_ADDRESSING, operand, error_str))
    (hdir : isRegister operand = NO_REGISTER → (isValidName operand).1 = true →
      P (DIRECT_ADDRESSING, operand, error_str)) :
    P (getOperandAddressingType operand error_str) := by
  unfold getOperandAddressingType
  split
  · rename_i rest
    simp only []
    split_ifs with h1 h2 h3 h4
    · exact hbad _ (by decide)
    · exact hbad _ (by decide)
    · exact hbad _ (by decide)
    · exact himm rest rfl h1 (by simpa using h2) (by simpa using h3) (by simpa using h4)
    · exact hbad _ (by decide)
  · rename_i rest
    split_ifs with h1 h2
    · exact hbad _ (by decide)
    · exact hind rest rfl h2
    · exact hbad _ (by decide)
  · split_ifs with h1 h2
    · exact hreg h1
    · exact hbad _ (append_ne_empty _ _ (by decide))
    · exact hdir (by simpa using h1) (by simpa using h2)

theorem getOperandAddressingType_range (operand : List Char) (error_str : String) :
    (getOperandAddressingType operand error_str).1 = NO_TYPE ∨
    (getOperandAddressingType operand error_str).1 = IMMEDIATE_ADDRESSING ∨
    (getOperandAddressingType operand error_str).1 = DIRECT_ADDRESSING ∨
    (getOperandAddressingType operand error_str).1 = INDIRECT_REGISTER_ADDRESSING ∨
    (getOperandAddressingType operand error_str).1 = DIRECT_REGISTER_ADDRESSING := by
  apply getOperandAddressingType_cases operand error_str
    (fun r => r.1 = NO_TYPE ∨ r.1 = IMMEDIATE_ADDRESSING ∨ r.1 = DIRECT_ADDRESSING ∨
      r.1 = INDIRECT_REGISTER_ADDRESSING ∨ r.1 = DIRECT_REGISTER_ADDRESSING)
  · intro _ _; exact Or.inl rfl
  · intro _ _ _ _ _ _; exact Or.inr (Or.inl rfl)
  · intro _ _ _; exact Or.inr (Or.inr (Or.inr (Or.inl rfl)))
  · intro _; exact Or.inr (Or.inr (Or.inr (Or.inr rfl)))
  · intro _ _; exact Or.inr (Or.inr (Or.inl rfl))

/-- The error buffer after a classification: a message when the type is NO_TYPE, else
what it held before. -/
theorem getOperandAddressingType_error (operand : List Char) (error_str : String) :
    ((getOperandAddressingType operand error_str).1 = NO_TYPE →
      (getOperandAddressingType operand error_str).2.2 ≠ "") ∧
    ((getOperandAddressingType operand error_str).1 ≠ NO_TYPE →
      (getOperandAddressingType operand error_str).2.2 = error_str) := by
  apply getOperandAddressingType_cases operand error_str
    (fun r => (r.1 = NO_TYPE → r.2.2 ≠ "") ∧ (r.1 ≠ NO_TYPE → r.2.2 = error_str))
  · intro msg hmsg; exact ⟨fun _ => hmsg, fun h => absurd rfl h⟩
  · intro _ _ _ _ _ _; exact ⟨fun h => absurd h immediate_ne, fun _ => rfl⟩
  · intro _ _ _; exact ⟨fun h => absurd h indirect_ne, fun _ => rfl⟩
  · intro _; exact ⟨fun h => absurd h register_ne, fun _ => rfl⟩
  · intro _ _; exact ⟨fun h => absurd h direct_ne, fun _ => rfl⟩

theorem isValidSourceOperandType_type (opcode : Int) (operand : List Char)
    (error_str : String) :
    (isValidSourceOperandType opcode operand error_str).1 =
      if (getOperandAddressingType operand error_str).1 ≠ NO_TYPE ∧
        ((opcode ≤ LEA ∧ (getOperandAddressingType operand error_str).1 = DIRECT_ADDRESSING) ∨
         (opcode ≤ SUB ∧
          (getOperandAddressingType operand error_str).1 ≥ IMMEDIATE_ADDRESSING))
      then (getOperandAddressingType operand error_str).1 else NO_TYPE := by
  unfold isValidSourceOperandType
  simp only []
  generalize (getOperandAddressingType operand error_str).1 = m
  split_ifs <;> first | rfl | tauto

theorem isValidTargetOperandType_type (opcode : Int) (operand : List Char)
    (error_str : String) :
    (isValidTargetOperandType opcode operand error_str).1 =
      if (getOperandAddressingType operand error_str).1 ≠ NO_TYPE ∧
        (((getOperandAddressingType operand error_str).1 ≥ IMMEDIATE_ADDRESSING ∧
            (opcode = CMP ∨ opcode = PRN)) ∨
         ((getOperandAddressingType operand error_str).1 ≥ DIRECT_ADDRESSING ∧
            (opcode ≤ DEC ∨ opcode = RED)) ∨
         (((getOperandAddressingType operand error_str).1 = DIRECT_ADDRESSING ∨
            (getOperandAddressingType operand error_str).1 = INDIRECT_REGISTER_ADDRESSING) ∧
            opcode ≤ JSR))
      then (getOperandAddressingType operand error_str).1 else NO_TYPE := by
  unfold isValidTargetOperandType
  simp only []
  generalize (getOperandAddressingType operand error_str).1 = m
  split_ifs <;> first | rfl | tauto

/-- The error buffer after `isValidSourceOperandType`. -/
theorem isValidSourceOperandType_error (opcode : Int) (operand : List Char)
    (error_str : String) :
    ((isValidSourceOperandType opcode operand error_str).1 = NO_TYPE →
      (isValidSourceOperandType opcode operand error_str).2.2 ≠ "") ∧
    ((isValidSourceOperandType opcode operand error_str).1 ≠ NO_TYPE →
      (isValidSourceOperandType opcode operand error_str).2.2 = error_str) := by
  have h := getOperandAddressingType_error operand error_str
  unfold isValidSourceOperandType
  simp only []
  split_ifs with h1 h2 h3
  · exact ⟨fun _ => h.1 h1, fun hh => absurd rfl hh⟩
  · exact ⟨fun hh => absurd hh h1, fun _ => h.2 h1⟩
  · exact ⟨fun hh => absurd hh h1, fun _ => h.2 h1⟩
  · exact ⟨fun _ => by simp, fun hh => absurd rfl hh⟩

/-- The error buffer after `isValidTargetOperandType`. -/
theorem isValidTargetOperandType_error (opcode : Int) (operand : List Char)
    (error_str : String) :
    ((isValidTargetOperandType opcode operand error_str).1 = NO_TYPE →
      (isValidTargetOperandType opcode operand error_str).2.2 ≠ "") ∧
    ((isValidTargetOperandType opcode operand error_str).1 ≠ NO_TYPE →
      (isValidTargetOperandType opcode operand error_str).2.2 = error_str) := by
  have h := getOperandAddressingType_error operand error_str
  unfold isValidTargetOperandType
  simp only []
  split_ifs with h1 h2 h3 h4
  · exact ⟨fun _ => h.1 h1, fun hh => absurd rfl hh⟩
  · exact ⟨fun hh => absurd hh h1, fun _ => h.2 h1⟩
  · exact ⟨fun hh => absurd hh h1, fun _ => h.2 h1⟩
  · exact ⟨fun hh => absurd hh h1, fun _ => h.2 h1⟩
  · exact ⟨fun _ => by simp, fun hh => absurd rfl hh⟩

/-- The outcome of `readTargetOperand`: a message on failure, else the error buffer as it
was and a written target buffer. -/
theorem readTargetOperand_spec (line : List Char) (source target : Option (List Char))
    (error_str : String) :
    ((readTargetOperand line source target error_str).ok = false →
      (readTargetOperand line source target error_str).error_str ≠ "") ∧
    ((readTargetOperand line source target error_str).ok = true →
      (readTargetOperand line source target error_str).error_str = error_str ∧
      (readTargetOperand line source target error_str).source_operand = source ∧
      ∃ w, (readTargetOperand line source target error_str).target_operand = some w) := by
  unfold readTargetOperand
  simp only []
  split_ifs
  · exact ⟨fun _ => by simp, fun h => by simp at h⟩
  · exact ⟨fun _ => by simp, fun h => by simp at h⟩
  · exact ⟨fun _ => by simp, fun h => by simp at h⟩
  · exact ⟨fun h => by simp at h, fun _ => ⟨rfl, rfl, _, rfl⟩⟩

/-- The outcome of `readTwoOperands`: a message on failure, else the error buffer as it
was and two written operand buffers. -/
theorem readTwoOperands_spec (line : List Char) (error_str : String) :
    ((readTwoOperands line none none error_str).ok = false →
      (readTwoOperands line none none error_str).error_str ≠ "") ∧
    ((readTwoOperands line none none error_str).ok = true →
      (readTwoOperands line none none error_str).error_str = error_str ∧
      (∃ w, (readTwoOperands line none none error_str).source_operand = some w) ∧
      ∃ w, (readTwoOperands line none none error_str).target_operand = some w) := by
  unfold readTwoOperands
  simp only []
  split
  · exact ⟨fun _ => by simp, fun h => by simp at h⟩
  · split_ifs
    · exact ⟨fun _ => by simp, fun h => by simp at h⟩
    · split
      · exact ⟨fun _ => by simp, fun h => by simp at h⟩
      · have h := readTargetOperand_spec
          (continueTo (skipWhiteChar line)
            ((List.takeWhile (fun c => c != ',') (skipWhiteChar line)).length + 1))
          (some (List.filter (fun c => !isspace c)
            (List.takeWhile (fun c => c != ',') (skipWhiteChar line)))) none error_str
        refine ⟨h.1, fun hok => ?_⟩
        obtain ⟨h1, h2, h3⟩ := h.2 hok
        exact ⟨h1, ⟨_, h2⟩, h3⟩

/-! ## The words of one instruction -/

theorem creatInstructionNode_ic (current_ic new_bmc : Int) (label : Option (List Char))
    (line_num : Nat) (node : instructionNode)
    (h : creatInstructionNode current_ic new_bmc label line_num = some node) :
    node.ic = current_ic := by
  unfold creatInstructionNode at h
  split_ifs at h
  · cases h; rfl
  · cases label with
    | none => simp at h
    | some l => simp at h; subst h; rfl

theorem twoOperandWords_spec (st st' : instructionState) (opcode s t : Int)
    (src tgt : List Char) (line_num : Nat) (e : String)
    (hic : -32768 ≤ st.ic ∧ st.ic ≤ 32764)
    (h : twoOperandWords st opcode s t src tgt line_num e = some st') :
    ∃ fw n1, getFirstWordBMC opcode s t 0 = some fw ∧
      creatInstructionNode st.ic fw none line_num = some n1 ∧
      ((s ≥ INDIRECT_REGISTER_ADDRESSING ∧ t ≥ INDIRECT_REGISTER_ADDRESSING) →
        ∃ b sb n2, getSourceRegisterBMC src 0 = some b ∧
          getTargetRegisterBMC tgt b = some sb ∧
          creatInstructionNode (st.ic + 1) sb (some src) line_num = some n2 ∧
          st' = ⟨st.ic + 2, st.instructions_list ++ [n1, n2], e⟩) ∧
      (¬ (s ≥ INDIRECT_REGISTER_ADDRESSING ∧ t ≥ INDIRECT_REGISTER_ADDRESSING) →
        ∃ sb tb n2 n3, operandBMC true s src = some sb ∧
          operandBMC false t tgt = some tb ∧
          creatInstructionNode (st.ic + 1) sb (some src) line_num = some n2 ∧
          creatInstructionNode (st.ic + 2) tb (some tgt) line_num = some n3 ∧
          st' = ⟨st.ic + 3, st.instructions_list ++ [n1, n2, n3], e⟩) := by
  have e1 : toShort (st.ic + 1) = st.ic + 1 := toShort_of_range _ (by omega) (by omega)
  have e2 : toShort (st.ic + 1 + 1) = st.ic + 2 := by
    rw [toShort_of_range _ (by omega) (by omega)]; omega
  have e3 : toShort (st.ic + 2 + 1) = st.ic + 3 := by
    rw [toShort_of_range _ (by omega) (by omega)]; omega
  unfold twoOperandWords at h
  rw [e1, e2, e3] at h
  simp only [Option.bind_eq_some, Option.map_eq_some'] at h
  obtain ⟨fw, hfw, n1, hn1, h⟩ := h
  refine ⟨fw, n1, hfw, hn1, ?_, ?_⟩
  · intro hb
    rw [if_pos hb] at h
    simp only [Option.bind_eq_some, Option.map_eq_some'] at h
    obtain ⟨b, hb1, sb, hsb, n2, hn2, hst⟩ := h
    exact ⟨b, sb, n2, hb1, hsb, hn2, hst.symm⟩
  · intro hb
    rw [if_neg hb] at h
    simp only [Option.bind_eq_some, Option.map_eq_some'] at h
    obtain ⟨sb, hsb, tb, htb, n2, hn2, n3, hn3, hst⟩ := h
    exact ⟨sb, tb, n2, n3, hsb, htb, hn2, hn3, hst.symm⟩

theorem oneOperandWords_spec (st st' : instructionState) (opcode t : Int)
    (tgt : List Char) (line_num : Nat) (e : String)
    (hic : -32768 ≤ st.ic ∧ st.ic ≤ 32764)
    (h : oneOperandWords st opcode t tgt line_num e = some st') :
    ∃ fw n1 tb n2, getFirstWordBMC opcode NO_TYPE t 0 = some fw ∧
      creatInstructionNode st.ic fw none line_num = some n1 ∧
      operandBMC false t tgt = some tb ∧
      creatInstructionNode (st.ic + 1) tb (some tgt) line_num = some n2 ∧
      st' = ⟨st.ic + 2, st.instructions_list ++ [n1, n2], e⟩ := by
  have e1 : toShort (st.ic + 1) = st.ic + 1 := toShort_of_range _ (by omega) (by omega)
  have e2 : toShort (st.ic + 1 + 1) = st.ic + 2 := by
    rw [toShort_of_range _ (by omega) (by omega)]; omega
  unfold oneOperandWords at h
  rw [e1, e2] at h
  simp only [Option.bind_eq_some, Option.map_eq_some'] at h
  obtain ⟨fw, hfw, tb, htb, n1, hn1, n2, hn2, hst⟩ := h
  exact ⟨fw, n1, tb, n2, hfw, hn1, htb, hn2, hst.symm⟩

theorem noOperandWords_spec (st st' : instructionState) (opcode : Int)
    (line_num : Nat) (e : String)
    (hic : -32768 ≤ st.ic ∧ st.ic ≤ 32764)
    (h : noOperandWords st opcode line_num e = some st') :
    ∃ fw n1, getFirstWordBMC opcode NO_TYPE NO_TYPE 0 = some fw ∧
      creatInstructionNode st.ic fw none line_num = some n1 ∧
      st' = ⟨st.ic + 1, st.instructions_list ++ [n1], e⟩ := by
  have e1 : toShort (st.ic + 1) = st.ic + 1 := toShort_of_range _ (by omega) (by omega)
  unfold noOperandWords at h
  rw [e1] at h
  simp only [Option.bind_eq_some, Option.map_eq_some'] at h
  obtain ⟨fw, hfw, n1, hn1, hst⟩ := h
  exact ⟨fw, n1, hfw, hn1, hst.symm⟩

theorem isValidSourceOperandType_clean (opcode : Int) (operand : List Char)
    (error_str : String)
    (h : (isValidSourceOperandType opcode operand error_str).2.2 = "") :
    (isValidSourceOperandType opcode operand error_str).1 ≠ NO_TYPE ∧ error_str = "" := by
  have he := isValidSourceOperandType_error opcode operand error_str
  by_cases hn : (isValidSourceOperandType opcode operand error_str).1 = NO_TYPE
  · exact absurd h (he.1 hn)
  · exact ⟨hn, by rw [← he.2 hn]; exact h⟩

theorem isValidTargetOperandType_clean (opcode : Int) (operand : List Char)
    (error_str : String)
    (h : (isValidTargetOperandType opcode operand error_str).2.2 = "") :
    (isValidTargetOperandType opcode operand error_str).1 ≠ NO_TYPE ∧ error_str = "" := by
  have he := isValidTargetOperandType_error opcode operand error_str
  by_cases hn : (isValidTargetOperandType opcode operand error_str).1 = NO_TYPE
  · exact absurd h (he.1 hn)
  · exact ⟨hn, by rw [← he.2 hn]; exact h⟩

theorem readTwoOperands_clean (line : List Char) (error_str : String)
    (h : (readTwoOperands line none none error_str).error_str = "") :
    (readTwoOperands line none none error_str).ok = true := by
  have hs := readTwoOperands_spec line error_str
  cases hok : (readTwoOperands line none none error_str).ok
  · exact absurd h (hs.1 hok)
  · rfl

theorem readTargetOperand_clean (line : List Char) (source target : Option (List Char))
    (error_str : String)
    (h : (readTargetOperand line source target error_str).error_str = "") :
    (readTargetOperand line source target error_str).ok = true := by
  have hs := readTargetOperand_spec line source target error_str
  cases hok : (readTargetOperand line source target error_str).ok
  · exact absurd h (hs.1 hok)
  · rfl

theorem twoOperandWords_error (st st' : instructionState) (opcode s t : Int)
    (src tgt : List Char) (line_num : Nat) (e : String)
    (h : twoOperandWords st opcode s t src tgt line_num e = some st') :
    st'.error_str = e := by
  unfold twoOperandWords at h
  simp only [Option.bind_eq_some, Option.map_eq_some'] at h
  obtain ⟨fw, _, n1, _, h⟩ := h
  split_ifs at h
  · simp only [Option.bind_eq_some, Option.map_eq_some'] at h
    obtain ⟨_, _, _, _, _, _, hst⟩ := h
    rw [← hst]
  · simp only [Option.bind_eq_some, Option.map_eq_some'] at h
    obtain ⟨_, _, _, _, _, _, _, _, hst⟩ := h
    rw [← hst]

theorem oneOperandWords_error (st st' : instructionState) (opcode t : Int)
    (tgt : List Char) (line_num : Nat) (e : String)
    (h : oneOperandWords st opcode t tgt line_num e = some st') :
    st'.error_str = e := by
  unfold oneOperandWords at h
  simp only [Option.bind_eq_some, Option.map_eq_some'] at h
  obtain ⟨_, _, _, _, _, _, _, _, hst⟩ := h
  rw [← hst]

theorem noOperandWords_error (st st' : instructionState) (opcode : Int)
    (line_num : Nat) (e : String)
    (h : noOperandWords st opcode line_num e = some st') :
    st'.error_str = e := by
  unfold noOperandWords at h
  simp only [Option.bind_eq_some, Option.map_eq_some'] at h
  obtain ⟨_, _, _, _, hst⟩ := h
  rw [← hst]

/-- A line `readNewInstruction` accepts went through every check: what the function
returns is what the word-building part returns for the operands of the line. -/
theorem readNewInstruction_accepted (st st' : instructionState) (line : List Char)
    (line_num : Nat) (hclean : st.error_str = "")
    (hrun : readNewInstruction st line line_num = some st')
    (haccepted : st'.error_str = "") :
    ((getOpcode line).1 ≤ LEA →
      (lineOperands line).ok = true ∧
      (lineSource line).1 ≠ NO_TYPE ∧ (lineTarget line).1 ≠ NO_TYPE ∧
      twoOperandWords st (getOpcode line).1 (lineSource line).1 (lineTarget line).1
        (lineSource line).2.1 (lineTarget line).2.1 line_num "" = some st') ∧
    (¬ (getOpcode line).1 ≤ LEA → (getOpcode line).1 ≤ JSR →
      (lineOperands line).ok = true ∧ (lineTarget line).1 ≠ NO_TYPE ∧
      oneOperandWords st (getOpcode line).1 (lineTarget line).1 (lineTarget line).2.1
        line_num "" = some st') ∧
    (¬ (getOpcode line).1 ≤ LEA → ¬ (getOpcode line).1 ≤ JSR →
      isWhiteSpaceString (getOpcode line).2 = true ∧
      noOperandWords st (getOpcode line).1 line_num "" = some st') := by
  unfold readNewInstruction at hrun
  simp only [hclean] at hrun
  refine ⟨fun h1 => ?_, fun h1 h2 => ?_, fun h1 h2 => ?_⟩
  · rw [if_pos h1] at hrun
    have hlo : lineOperands line = readTwoOperands (getOpcode line).2 none none "" := by
      unfold lineOperands; rw [if_pos h1]
    unfold lineSource lineTarget
    rw [hlo]
    have hcl := readTwoOperands_clean (getOpcode line).2 ""
    generalize readTwoOperands (getOpcode line).2 none none "" = r at hrun hcl ⊢
    split_ifs at hrun with hc1
    · exfalso
      have h2 : st'.error_str = r.error_str := by cases hrun; rfl
      have h3 := hcl (by rw [← h2]; exact haccepted)
      rw [h3] at hc1
      simp at hc1
    · simp only [Option.bind_eq_some] at hrun
      obtain ⟨src, hsrc, tgt, htgt, hrun⟩ := hrun
      have hte : (isValidTargetOperandType (getOpcode line).1 tgt
          (isValidSourceOperandType (getOpcode line).1 src r.error_str).2.2).2.2 = "" := by
        split_ifs at hrun
        · rw [← haccepted]; cases hrun; rfl
        · rw [← haccepted]; exact (twoOperandWords_error _ _ _ _ _ _ _ _ _ hrun).symm
      obtain ⟨ht1, hs2⟩ := isValidTargetOperandType_clean _ _ _ hte
      obtain ⟨hs1, hre⟩ := isValidSourceOperandType_clean _ _ _ hs2
      rw [hre] at hrun hs2 hs1 ht1 hte
      rw [hs2] at hrun ht1 hte
      rw [hte] at hrun
      rw [hsrc, htgt]
      simp only [Option.getD_some]
      refine ⟨hcl hre, hs1, ht1, ?_⟩
      split_ifs at hrun with hc2
      · exfalso
        simp [hs1, ht1] at hc2
      · exact hrun
  · rw [if_neg h1, if_pos h2] at hrun
    have hlo : lineOperands line = readTargetOperand (getOpcode line).2 none none "" := by
      unfold lineOperands; rw [if_neg h1]
    unfold lineTarget
    rw [hlo]
    have hcl := readTargetOperand_clean (getOpcode line).2 none none ""
    generalize readTargetOperand (getOpcode line).2 none none "" = r at hrun hcl ⊢
    split_ifs at hrun with hc1
    · exfalso
      have h2 : st'.error_str = r.error_str := by cases hrun; rfl
      have h3 := hcl (by rw [← h2]; exact haccepted)
      rw [h3] at hc1
      simp at hc1
    · simp only [Option.bind_eq_some] at hrun
      obtain ⟨tgt, htgt, hrun⟩ := hrun
      have hte : (isValidTargetOperandType (getOpcode line).1 tgt r.error_str).2.2 = "" := by
        split_ifs at hrun
        · rw [← haccepted]; cases hrun; rfl
        · rw [← haccepted]; exact (oneOperandWords_error _ _ _ _ _ _ _ hrun).symm
      obtain ⟨ht1, hre⟩ := isValidTargetOperandType_clean _ _ _ hte
      rw [hre] at hrun ht1 hte
      rw [hte] at hrun
      rw [htgt]
      simp only [Option.getD_some]
      refine ⟨hcl hre, ht1, ?_⟩
      split_ifs at hrun with hc2
      · exfalso
        simp [ht1] at hc2
      · exact hrun
  · rw [if_neg h1, if_neg h2] at hrun
    have he := noOperandWords_error _ _ _ _ _ hrun
    rw [haccepted] at he
    split_ifs at he with hw
    · exact absurd he.symm (by decide)
    · simp only [Bool.not_eq_true, Bool.not_eq_false', Bool.not_eq_true'] at hw
      rw [if_neg (by simp [hw])] at hrun
      exact ⟨by simpa using hw, hrun⟩

theorem creatInstructionNode_first (current_ic new_bmc : Int) (line_num : Nat)
    (node : instructionNode)
    (h : creatInstructionNode current_ic new_bmc none line_num = some node) :
    node = ⟨current_ic, 0, wordType.bmc new_bmc⟩ := by
  unfold creatInstructionNode at h
  split_ifs at h
  · cases h; rfl
  · simp at h

theorem lookupKeyword_range (table : List String) (word : List Char) (i : Int) :
    lookupKeyword table word i = -1 ∨
      (i ≤ lookupKeyword table word i ∧
        lookupKeyword table word i < i + Int.ofNat table.length) := by
  induction table generalizing i with
  | nil => exact Or.inl rfl
  | cons k ks ih =>
    unfold lookupKeyword
    split_ifs
    · right
      simp only [List.length_cons, Int.ofNat_eq_coe, Nat.cast_add, Nat.cast_one]
      omega
    · rcases ih (i + 1) with h | h
      · exact Or.inl h
      · right
        simp only [List.length_cons, Int.ofNat_eq_coe, Nat.cast_add, Nat.cast_one] at h ⊢
        omega

theorem isOpcode_range (word : List Char) :
    isOpcode word = NO_OPCODE ∨ (0 ≤ isOpcode word ∧ isOpcode word ≤ 15) := by
  unfold isOpcode
  rcases lookupKeyword_range ["mov", "cmp", "add", "sub", "lea", "clr", "not", "inc", "dec",
    "jmp", "bne", "red", "prn", "jsr", "rts", "stop"] word 0 with h | h
  · exact Or.inl h
  · right
    simp only [List.length_cons, List.length_nil, Int.ofNat_eq_coe] at h
    omega

theorem getFirstWordBMC_no_opcode (s t bmc : Int) : getFirstWordBMC NO_OPCODE s t bmc = none := by
  unfold getFirstWordBMC insertBinaryValueByKeyWords
  have h : ∀ (fuel : Nat) (b p : Int), insertBinaryValueLoop fuel (-1) b p = none := by
    intro fuel
    induction fuel with
    | zero => intro b p; simp [insertBinaryValueLoop]
    | succ n ih =>
      intro b p
      unfold insertBinaryValueLoop
      rw [if_neg (by decide)]
      exact ih _ _
  show Option.map _ (insertBinaryValueLoop 16 (-1) bmc _) = none
  rw [h]
  rfl

/-! ## Bit packing, checked over the whole range of the fields -/

set_option maxRecDepth 100000 in
theorem getFirstWordBMC_table : ∀ o : Int, 0 ≤ o → o ≤ 15 → ∀ s : Int, -1 ≤ s → s ≤ 3 →
    ∀ t : Int, -1 ≤ t → t ≤ 3 →
    getFirstWordBMC o s t 0 = some (o * 2 ^ 11 + 2 ^ 2
      + (if t = NO_TYPE then 0 else 2 ^ (3 + t).toNat)
      + (if s = NO_TYPE then 0 else 2 ^ (7 + s).toNat))
    ∧ o * 2 ^ 11 + 2 ^ 2 + (if t = NO_TYPE then 0 else 2 ^ (3 + t).toNat)
      + (if s = NO_TYPE then 0 else 2 ^ (7 + s).toNat) < 2 ^ 15 := by
  decide!

set_option maxRecDepth 100000 in
theorem immediateWord_table : ∀ n : Int, -2048 ≤ n → n ≤ 2047 →
    turnOnBit (insertBinaryValueByData (toShort n) 0 OPERAND_START_POSITION)
      A_ADDRESSING_METHOD = n % 2 ^ 12 * 2 ^ 3 + 4 := by
  decide!

set_option maxRecDepth 100000 in
theorem registerWord_table : ∀ s : Nat, s < 8 → ∀ t : Nat, t < 8 →
    (getSourceRegisterBMC (registerName s) 0).bind (getTargetRegisterBMC (registerName t))
      = some (Int.ofNat s * 2 ^ 6 + Int.ofNat t * 2 ^ 3 + 4)
    ∧ getSourceRegisterBMC (registerName s) 0 = some (Int.ofNat s * 2 ^ 6 + 4)
    ∧ getTargetRegisterBMC (registerName t) 0 = some (Int.ofNat t * 2 ^ 3 + 4) := by
  decide!

set_option maxRecDepth 1000000 in
theorem sharedWord_lines : ∀ m ∈ ["mov", "cmp", "add", "sub"], ∀ si ∈ [false, true],
    ∀ ti ∈ [false, true], ∀ s : Nat, s < 8 → ∀ t : Nat, t < 8 →
    wordsOfLine (m.toList ++ [' '] ++ registerOperand si s ++ [',', ' '] ++
      registerOperand ti t ++ ['\n'])
      = (getFirstWordBMC (isOpcode m.toList) (if si then 2 else 3) (if ti then 2 else 3) 0).map
        fun fw => [wordType.bmc fw,
          wordType.bmc (Int.ofNat s * 2 ^ 6 + Int.ofNat t * 2 ^ 3 + 4)] := by
  decide!

set_option maxRecDepth 1000000 in
theorem sourceWord_lines : ∀ m ∈ ["mov", "cmp", "add", "sub"], ∀ si ∈ [false, true],
    ∀ s : Nat, s < 8 →
    wordsOfLine (m.toList ++ [' '] ++ registerOperand si s ++ [',', ' ', 'X', '\n'])
      = (getFirstWordBMC (isOpcode m.toList) (if si then 2 else 3) 1 0).map
        fun fw => [wordType.bmc fw, wordType.bmc (Int.ofNat s * 2 ^ 6 + 4),
          wordType.name ['X']] := by
  decide!

set_option maxRecDepth 1000000 in
theorem targetWord_lines : ∀ m ∈ ["mov", "cmp", "add", "sub", "lea"], ∀ ti ∈ [false, true],
    ∀ t : Nat, t < 8 →
    wordsOfLine (m.toList ++ [' ', 'X', ',', ' '] ++ registerOperand ti t ++ ['\n'])
      = (getFirstWordBMC (isOpcode m.toList) 1 (if ti then 2 else 3) 0).map
        fun fw => [wordType.bmc fw, wordType.name ['X'],
          wordType.bmc (Int.ofNat t * 2 ^ 3 + 4)] := by
  decide!

set_option maxRecDepth 1000000 in
theorem singleTargetWord_lines :
    (∀ m ∈ ["clr", "not", "inc", "dec", "red", "prn"], ∀ ti ∈ [false, true],
      ∀ t : Nat, t < 8 →
      wordsOfLine (m.toList ++ [' '] ++ registerOperand ti t ++ ['\n'])
        = (getFirstWordBMC (isOpcode m.toList) NO_TYPE (if ti then 2 else 3) 0).map
          fun fw => [wordType.bmc fw, wordType.bmc (Int.ofNat t * 2 ^ 3 + 4)]) ∧
    (∀ m ∈ ["jmp", "bne", "jsr"], ∀ t : Nat, t < 8 →
      wordsOfLine (m.toList ++ [' '] ++ registerOperand true t ++ ['\n'])
        = (getFirstWordBMC (isOpcode m.toList) NO_TYPE 2 0).map
          fun fw => [wordType.bmc fw, wordType.bmc (Int.ofNat t * 2 ^ 3 + 4)]) := by
  decide!

/-! ## Immediate operands -/

theorem checkBitException_range (num : Int)
    (h : checkBitException num (BITS_NUM - OPERAND_START_POSITION - 1) = true) :
    -2048 ≤ num ∧ num ≤ 2047 := by
  unfold checkBitException at h
  have e : (BITS_NUM - OPERAND_START_POSITION - 1).toNat = 11 := by decide
  rw [e] at h
  simp only [Bool.and_eq_true, decide_eq_true_eq] at h
  omega

theorem neToInt_false (d : Double) (h : d.neToInt = false) : d.trunc = d.toInt := by
  unfold Double.neToInt at h
  simp only [Bool.not_eq_false', Bool.and_eq_true, beq_iff_eq] at h
  exact h.2

/-! ## The legality conditions of the code against the table -/

theorem sourceLegality_aux (opcode m : Int) (h0 : 0 ≤ opcode) (h1 : opcode ≤ 4)
    (hm : m = 0 ∨ m = 1 ∨ m = 2 ∨ m = 3) :
    ((opcode ≤ LEA ∧ m = DIRECT_ADDRESSING) ∨ (opcode ≤ SUB ∧ m ≥ IMMEDIATE_ADDRESSING))
      ↔ m ∈ tableSourceModes opcode := by
  interval_cases opcode <;> rcases hm with h | h | h | h <;> subst h <;> decide

theorem targetLegality_aux (opcode m : Int) (h0 : 0 ≤ opcode) (h1 : opcode ≤ 13)
    (hm : m = 0 ∨ m = 1 ∨ m = 2 ∨ m = 3) :
    ((m ≥ IMMEDIATE_ADDRESSING ∧ (opcode = CMP ∨ opcode = PRN)) ∨
     (m ≥ DIRECT_ADDRESSING ∧ (opcode ≤ DEC ∨ opcode = RED)) ∨
     ((m = DIRECT_ADDRESSING ∨ m = INDIRECT_REGISTER_ADDRESSING) ∧ opcode ≤ JSR))
      ↔ m ∈ tableTargetModes opcode := by
  interval_cases opcode <;> rcases hm with h | h | h | h <;> subst h <;> decide

/-! ## Entry resolution -/

theorem entriesLoop_map (all : List declarationNode) :
    ∀ l : List declarationNode, (entriesLoop all l).1 = l.map (resolveEntry all) := by
  intro l
  induction l with
  | nil => rfl
  | cons d rest ih =>
    rw [List.map_cons, ← ih]
    by_cases h : d.type = ENTRY
    · cases hf : findDefinition d.label all with
      | none =>
        have e : resolveEntry all d = d := by
          unfold resolveEntry; rw [if_pos h, hf]
        rw [e]
        simp only [entriesLoop, if_pos h, hf]
      | some t =>
        have e : resolveEntry all d = { d with decimal_address := t.decimal_address } := by
          unfold resolveEntry; rw [if_pos h, hf]
        rw [e]
        simp only [entriesLoop, if_pos h, hf]
    · have e : resolveEntry all d = d := by
        unfold resolveEntry; rw [if_neg h]
      rw [e]
      simp only [entriesLoop, if_neg h]

theorem isEntriesDefined_map (declarations_list : List declarationNode) :
    (isEntriesDefined declarations_list).2.1
      = declarations_list.map (resolveEntry declarations_list) := by
  unfold isEntriesDefined
  exact entriesLoop_map _ _

theorem resolveEntry_label (all : List declarationNode) (d : declarationNode) :
    (resolveEntry all d).label = d.label ∧ (resolveEntry all d).type = d.type := by
  unfold resolveEntry
  split_ifs
  · split <;> exact ⟨rfl, rfl⟩
  · exact ⟨rfl, rfl⟩

theorem findDefinition_some (label : List Char) :
    ∀ (l : List declarationNode) (t : declarationNode), findDefinition label l = some t →
      t ∈ l ∧ t.label = label ∧ t.type ≠ ENTRY := by
  intro l
  induction l with
  | nil => intro t h; simp [findDefinition] at h
  | cons d rest ih =>
    intro t h
    unfold findDefinition at h
    split_ifs at h with hc
    · cases h
      exact ⟨List.mem_cons_self _ _, hc.1.symm, hc.2⟩
    · obtain ⟨h1, h2, h3⟩ := ih t h
      exact ⟨List.mem_cons_of_mem _ h1, h2, h3⟩

theorem findDefinition_exists (label : List Char) :
    ∀ l : List declarationNode, (∃ d ∈ l, d.label = label ∧ d.type ≠ ENTRY) →
      ∃ t, findDefinition label l = some t := by
  intro l
  induction l with
  | nil => intro h; obtain ⟨d, hd, _⟩ := h; simp at hd
  | cons d rest ih =>
    intro h
    unfold findDefinition
    split_ifs with hc
    · exact ⟨d, rfl⟩
    · obtain ⟨x, hx, hl, ht⟩ := h
      rcases List.mem_cons.mp hx with heq | hin
      · subst heq
        exact absurd ⟨hl.symm, ht⟩ hc
      · exact ih ⟨x, hin, hl, ht⟩

/-- After entry resolution every declaration of a name whose definitions all sit at the
address `v` carries `v`, the entries included. -/
theorem resolved_address (declarations_list : List declarationNode) (name : List Char)
    (v : Int) (hdef : ∃ d ∈ declarations_list, d.label = name ∧ d.type ≠ ENTRY)
    (huniq : ∀ d ∈ declarations_list, d.label = name → d.type ≠ ENTRY →
      d.decimal_address = v) :
    ∀ x ∈ (isEntriesDefined declarations_list).2.1, x.label = name →
      x.decimal_address = v := by
  intro x hx hl
  rw [isEntriesDefined_map] at hx
  obtain ⟨d, hd, rfl⟩ := List.mem_map.mp hx
  have hlab := (resolveEntry_label declarations_list d).1
  rw [hlab] at hl
  unfold resolveEntry
  split_ifs with ht
  · obtain ⟨t, hfind⟩ := findDefinition_exists name declarations_list hdef
    rw [hl, hfind]
    obtain ⟨h1, h2, h3⟩ := findDefinition_some _ _ _ hfind
    exact huniq t h1 h2 h3
  · exact huniq d hd hl ht

/-! ## The search for the label of a pending word -/

theorem declarationLoop_resolved (name : List Char) (v : Int) :
    ∀ (l : List declarationNode) (s : lookupState),
      s.curr_declared_extern = false →
      (∀ x ∈ l, x.label = name → x.type ≠ EXTERN ∧ x.decimal_address = v) →
      (s.curr_declared_dsc = true → s.curr_ins_da = v) →
      lookupState.curr_declared_extern (declarationLoop name l s) = false ∧
      ((declarationLoop name l s).curr_declared_dsc = true →
        (declarationLoop name l s).curr_ins_da = v) ∧
      (s.curr_declared_dsc = true → (declarationLoop name l s).curr_declared_dsc = true) ∧
      ((∃ x ∈ l, x.label = name ∧ x.type ≠ ENTRY) →
        (declarationLoop name l s).curr_declared_dsc = true) := by
  intro l
  induction l with
  | nil =>
    intro s he _ hda
    refine ⟨he, hda, fun h => h, fun h => ?_⟩
    obtain ⟨x, hx, _⟩ := h
    simp at hx
  | cons d rest ih =>
    intro s he hall hda
    have hrest : ∀ x ∈ rest, x.label = name → x.type ≠ EXTERN ∧ x.decimal_address = v :=
      fun x hx => hall x (List.mem_cons_of_mem _ hx)
    unfold declarationLoop
    split_ifs with hstop hname hext hentry hdsc
    · rw [he] at hstop
      simp only [Bool.false_or, Bool.and_eq_true] at hstop
      exact ⟨he, hda, fun h => h, fun _ => hstop.2⟩
    · exact absurd hext (hall d (List.mem_cons_self _ _) hname.symm).1
    · have hi := ih ({ s with found_label_name := true,
                              curr_declared_entry := true,
                              ent_is_length := noteLength s.ent_is_length d.label })
        he hrest hda
      obtain ⟨i1, i2, i3, i4⟩ := hi
      refine ⟨i1, i2, i3, fun h => i4 ?_⟩
      obtain ⟨x, hx, hl, ht⟩ := h
      rcases List.mem_cons.mp hx with heq | hin
      · subst heq
        exact absurd hentry.2 ht
      · exact ⟨x, hin, hl, ht⟩
    · have hi := ih ({ s with found_label_name := true,
                              curr_declared_dsc := true,
                              curr_ins_da := d.decimal_address })
        he hrest (fun _ => (hall d (List.mem_cons_self _ _) hname.symm).2)
      obtain ⟨i1, i2, i3, _⟩ := hi
      exact ⟨i1, i2, fun _ => i3 rfl, fun _ => i3 rfl⟩
    · simp only [Bool.not_eq_true', Bool.not_eq_false] at hdsc
      obtain ⟨i1, i2, i3, _⟩ := ih ({ s with found_label_name := true }) he hrest hda
      exact ⟨i1, i2, i3, fun _ => i3 hdsc⟩
    · obtain ⟨i1, i2, i3, i4⟩ := ih s he hrest hda
      refine ⟨i1, i2, i3, fun h => i4 ?_⟩
      obtain ⟨x, hx, hl, ht⟩ := h
      rcases List.mem_cons.mp hx with heq | hin
      · subst heq
        exact absurd hl.symm hname
      · exact ⟨x, hin, hl, ht⟩

set_option maxRecDepth 100000 in
theorem getRelocatableBMC_table : ∀ v : Int, 0 ≤ v → v ≤ 4095 →
    getRelocatableBMC v = v * 2 ^ 3 + 2 := by
  decide!

/-- The node the outer loop leaves at a position is what one round makes of the node that
was there. -/
theorem fillingLoop_get (declarations_list : List declarationNode) :
    ∀ (ins : List instructionNode) (s : fillState) (out : List instructionNode)
      (s' : fillState), fillingLoop declarations_list ins s = some (out, s') →
      ∀ (i : Nat) (node : instructionNode), ins[i]? = some node →
        ∃ si r, fillNode declarations_list node si = some r ∧ out[i]? = some r.1 := by
  intro ins
  induction ins with
  | nil => intro s out s' _ i node hget; simp at hget
  | cons n rest ih =>
    intro s out s' h i node hget
    unfold fillingLoop at h
    simp only [Option.bind_eq_some, Option.map_eq_some'] at h
    obtain ⟨r, hr, q, hq, hout⟩ := h
    cases hout
    cases i with
    | zero =>
      simp at hget
      subst hget
      exact ⟨s, r, hr, by simp⟩
    | succ j =>
      simp at hget
      obtain ⟨si, r', h1, h2⟩ := ih r.2 q.1 q.2 hq j node hget
      exact ⟨si, r', h1, by simpa using h2⟩

/-! ## Pending words that refer to an external label -/

theorem declarationLoop_stopped (name : List Char) (l : List declarationNode)
    (s : lookupState) (h : s.curr_declared_extern = true) : declarationLoop name l s = s := by
  cases l with
  | nil => rfl
  | cons d rest =>
    unfold declarationLoop
    rw [if_pos (by rw [h]; rfl)]

/-- Without an Extern declaration of the name the search leaves the mark of an external
label, the line of the node and the record of external labels alone. -/
theorem declarationLoop_not_extern (name : List Char) :
    ∀ (l : List declarationNode) (s : lookupState),
      (∀ x ∈ l, x.label = name → x.type ≠ EXTERN) →
      lookupState.curr_declared_extern (declarationLoop name l s) = s.curr_declared_extern ∧
      (declarationLoop name l s).line = s.line ∧
      (declarationLoop name l s).ext_is_length = s.ext_is_length := by
  intro l
  induction l with
  | nil => intro s _; exact ⟨rfl, rfl, rfl⟩
  | cons d rest ih =>
    intro s hall
    have hrest : ∀ x ∈ rest, x.label = name → x.type ≠ EXTERN :=
      fun x hx => hall x (List.mem_cons_of_mem _ hx)
    unfold declarationLoop
    split_ifs with hstop hname hext hentry hdsc
    · exact ⟨rfl, rfl, rfl⟩
    · exact absurd hext (hall d (List.mem_cons_self _ _) hname.symm)
    · exact ih _ hrest
    · exact ih _ hrest
    · exact ih _ hrest
    · exact ih _ hrest

/-- When the declarations of the name are all Extern declarations and there is one, the
search marks the node as external. -/
theorem declarationLoop_extern (name : List Char) :
    ∀ (l : List declarationNode) (s : lookupState),
      (∀ x ∈ l, x.label = name → x.type = EXTERN) →
      (∃ x ∈ l, x.label = name) →
      s.curr_declared_extern = false → s.curr_declared_entry = false →
      lookupState.curr_declared_extern (declarationLoop name l s) = true ∧
      (declarationLoop name l s).line = EXTERN.toNat ∧
      (declarationLoop name l s).ext_is_length.1 = 1 := by
  intro l
  induction l with
  | nil => intro s _ h; obtain ⟨x, hx, _⟩ := h; simp at hx
  | cons d rest ih =>
    intro s hall hex he hen
    have hrest : ∀ x ∈ rest, x.label = name → x.type = EXTERN :=
      fun x hx => hall x (List.mem_cons_of_mem _ hx)
    unfold declarationLoop
    rw [if_neg (by simp [he, hen])]
    by_cases hname : name = d.label
    · rw [if_pos hname, if_pos (hall d (List.mem_cons_self _ _) hname.symm)]
      rw [declarationLoop_stopped _ _ _ rfl]
      exact ⟨rfl, rfl, rfl⟩
    · rw [if_neg hname]
      apply ih s hrest _ he hen
      obtain ⟨x, hx, hl⟩ := hex
      rcases List.mem_cons.mp hx with heq | hin
      · subst heq
        exact absurd hl.symm hname
      · exact ⟨x, hin, hl⟩

theorem isExternReference_iff (decls : List declarationNode) (n : instructionNode) :
    isExternReference decls n = true ↔
      n.line ≠ 0 ∧ ∃ label, n.type = wordType.name label ∧
        ∃ d ∈ decls, d.label = label ∧ d.type = EXTERN := by
  unfold isExternReference
  cases hn : n.type with
  | bmc v => simp
  | name label =>
    simp only [Bool.and_eq_true, bne_iff_ne, ne_eq, List.any_eq_true, decide_eq_true_eq,
      wordType.name.injEq, exists_eq_left']

theorem isExternReference_resolved (decls : List declarationNode) (n : instructionNode) :
    isExternReference (isEntriesDefined decls).2.1 n = isExternReference decls n := by
  rw [Bool.eq_iff_iff, isExternReference_iff, isExternReference_iff, isEntriesDefined_map]
  constructor
  · rintro ⟨h1, label, h2, d, hd, h3, h4⟩
    obtain ⟨y, hy, rfl⟩ := List.mem_map.mp hd
    rw [(resolveEntry_label decls y).1] at h3
    rw [(resolveEntry_label decls y).2] at h4
    exact ⟨h1, label, h2, y, hy, h3, h4⟩
  · rintro ⟨h1, label, h2, d, hd, h3, h4⟩
    refine ⟨h1, label, h2, resolveEntry decls d, List.mem_map_of_mem _ hd, ?_, ?_⟩
    · rw [(resolveEntry_label decls d).1]; exact h3
    · rw [(resolveEntry_label decls d).2]; exact h4

/-- What one round of the outer loop makes of a node when no name mixes Extern with other
declarations: a reference to an external label keeps its name and gets the line mark
EXTERN, every other node comes out with line 0. -/
theorem fillNode_extern (decls : List declarationNode)
    (hinv : ∀ x ∈ decls, ∀ y ∈ decls, x.label = y.label → x.type = EXTERN → y.type = EXTERN)
    (n : instructionNode) (s : fillState) (r : instructionNode × fillState)
    (h : fillNode decls n s = some r) :
    r.1.ic = n.ic ∧
    (isExternReference decls n = true →
      r.1.line = EXTERN.toNat ∧ r.1.type = n.type ∧ r.2.ext_is_length.1 = 1) ∧
    (isExternReference decls n = false →
      r.1.line = 0 ∧ ((∃ v, r.1.type = wordType.bmc v) ∨ (n.line = 0 ∧ r.1 = n)) ∧
      r.2.ext_is_length = s.ext_is_length) := by
  unfold fillNode at h
  split_ifs at h with hline
  · cases hn : n.type with
    | bmc v => rw [hn] at h; simp at h
    | name label =>
      rw [hn] at h
      simp only [] at h
      split at h
      · exact Option.noConfusion h
      simp only [Option.some.injEq] at h
      by_cases hex : ∃ d ∈ decls, d.label = label ∧ d.type = EXTERN
      · obtain ⟨d, hd, hl, ht⟩ := hex
        have hall : ∀ x ∈ decls, x.label = label → x.type = EXTERN := by
          intro x hx hxl
          exact hinv d hd x hx (by rw [hl, hxl]) ht
        obtain ⟨l1, l2, l3⟩ := declarationLoop_extern label decls
          ⟨false, false, false, false, s.curr_ins_da, n.line, s.ent_is_length,
            s.ext_is_length⟩ hall ⟨d, hd, hl⟩ rfl rfl
        have href : isExternReference decls n = true :=
          (isExternReference_iff decls n).mpr ⟨hline, label, hn, d, hd, hl, ht⟩
        rw [l1] at h
        subst h
        refine ⟨rfl, fun _ => ⟨l2, rfl, l3⟩, fun hf => ?_⟩
        rw [href] at hf
        exact absurd hf (by decide)
      · have hall : ∀ x ∈ decls, x.label = label → x.type ≠ EXTERN := by
          intro x hx hxl ht
          exact hex ⟨x, hx, hxl, ht⟩
        obtain ⟨l1, _, l3⟩ := declarationLoop_not_extern label decls
          ⟨false, false, false, false, s.curr_ins_da, n.line, s.ent_is_length,
            s.ext_is_length⟩ hall
        have href : ¬ isExternReference decls n = true := by
          rw [isExternReference_iff]
          rintro ⟨_, label', h2, d, hd, h3, h4⟩
          rw [hn] at h2
          cases h2
          exact hex ⟨d, hd, h3, h4⟩
        rw [l1] at h
        subst h
        refine ⟨rfl, fun ht => absurd ht href, fun _ => ⟨rfl, Or.inl ⟨_, rfl⟩, l3⟩⟩
  · simp only [Option.some.injEq] at h
    subst h
    have hline' : n.line = 0 := by
      by_contra hc
      exact hline hc
    have href : ¬ isExternReference decls n = true := by
      rw [isExternReference_iff]
      rintro ⟨h1, _⟩
      exact h1 hline'
    exact ⟨rfl, fun ht => absurd ht href, fun _ => ⟨hline', Or.inr ⟨hline', rfl⟩, rfl⟩⟩


/-- The outer loop marks every node as `externMarked` says, and records an external label
exactly when a reference to one goes through it. -/
theorem fillingLoop_extern (decls : List declarationNode)
    (hinv : ∀ x ∈ decls, ∀ y ∈ decls, x.label = y.label → x.type = EXTERN → y.type = EXTERN) :
    ∀ (ins : List instructionNode) (s : fillState) (out : List instructionNode)
      (s' : fillState), fillingLoop decls ins s = some (out, s') →
      List.Forall₂ (externMarked decls) ins out ∧
      ((∃ n ∈ ins, isExternReference decls n = true) → s'.ext_is_length.1 = 1) ∧
      ((¬ ∃ n ∈ ins, isExternReference decls n = true) →
        s'.ext_is_length = s.ext_is_length) := by
  intro ins
  induction ins with
  | nil =>
    intro s out s' h
    simp only [fillingLoop, Option.some.injEq, Prod.mk.injEq] at h
    obtain ⟨h1, h2⟩ := h
    subst h1; subst h2
    refine ⟨List.Forall₂.nil, ?_, fun _ => rfl⟩
    rintro ⟨n, hn, _⟩
    simp at hn
  | cons n rest ih =>
    intro s out s' h
    simp only [fillingLoop, Option.bind_eq_some, Option.map_eq_some'] at h
    obtain ⟨r, hr, q, hq, hout⟩ := h
    obtain ⟨q1, q2⟩ := q
    simp only [Prod.mk.injEq] at hout
    obtain ⟨ho, hs⟩ := hout
    subst ho; subst hs
    obtain ⟨f1, f2, f3⟩ := fillNode_extern decls hinv n s r hr
    obtain ⟨i1, i2, i3⟩ := ih r.2 q1 q2 hq
    have hmark : externMarked decls n r.1 :=
      ⟨f1, fun ht => ⟨(f2 ht).1, (f2 ht).2.1⟩, fun hf => ⟨(f3 hf).1, (f3 hf).2.1⟩⟩
    refine ⟨List.Forall₂.cons hmark i1, ?_, ?_⟩
    · rintro ⟨m, hm, hmt⟩
      by_cases hrest : ∃ n ∈ rest, isExternReference decls n = true
      · exact i2 hrest
      · rw [i3 hrest]
        rcases List.mem_cons.mp hm with heq | hin
        · subst heq
          exact (f2 hmt).2.2
        · exact absurd ⟨m, hin, hmt⟩ hrest
    · intro hno
      have hrest : ¬ ∃ n ∈ rest, isExternReference decls n = true := by
        rintro ⟨m, hm, hmt⟩
        exact hno ⟨m, List.mem_cons_of_mem _ hm, hmt⟩
      have hn : isExternReference decls n = false := by
        cases hc : isExternReference decls n with
        | false => rfl
        | true => exact absurd ⟨n, List.mem_cons_self _ _, hc⟩ hno
      rw [i3 hrest, (f3 hn).2.2]

/-- The loop of `createObAndExtFiles` on marked nodes: the lines of the external file are
the references to external labels in list order, each with its address, and every node
ends with machine code. -/
theorem printInstructions_extern (decls : List declarationNode) (e : Int × Int) :
    ∀ (ins out : List instructionNode) (ob : List (Int × Int)) (extl : List outputLine)
      (fin : List instructionNode),
      List.Forall₂ (externMarked decls) ins out →
      printInstructions e out = some (ob, extl, fin) →
      List.Forall₂ (externPrinted decls) ins fin ∧
      extl.map (fun l => (l.name, l.address)) =
        (ins.filter (isExternReference decls)).map (fun n => (labelOf n, n.ic)) ∧
      ob.map Prod.fst = ins.map (fun n => n.ic) ∧
      List.Forall₂ (fun (w : Int × Int) n' => n'.type = wordType.bmc w.2) ob fin := by
  intro ins
  induction ins with
  | nil =>
    intro out ob extl fin hrel h
    cases hrel
    simp only [printInstructions, Option.some.injEq, Prod.mk.injEq] at h
    obtain ⟨h1, h2, h3⟩ := h
    subst h1; subst h2; subst h3
    exact ⟨List.Forall₂.nil, rfl, rfl, List.Forall₂.nil⟩
  | cons n rest ih =>
    intro out ob extl fin hrel h
    cases hrel with
    | cons hm hrest =>
    rename_i n' rest'
    simp only [printInstructions, Option.bind_eq_some] at h
    obtain ⟨r, hr, hstep⟩ := h
    obtain ⟨r1, r2, r3⟩ := r
    obtain ⟨i1, i2, i3, i4⟩ := ih rest' r1 r2 r3 hrest hr
    obtain ⟨m1, m2, m3⟩ := hm
    cases href : isExternReference decls n with
    | true =>
      obtain ⟨hl, ht⟩ := m2 href
      obtain ⟨_, label, hn, _⟩ := (isExternReference_iff decls n).mp href
      rw [ht, hn] at hstep
      simp only at hstep
      split_ifs at hstep with hc
      simp only [Option.some.injEq, Prod.mk.injEq] at hstep
      obtain ⟨h1, h2, h3⟩ := hstep
      subst h1; subst h2; subst h3
      refine ⟨List.Forall₂.cons ⟨m1, rfl, ⟨_, rfl⟩, fun _ => rfl⟩ i1, ?_, ?_,
        List.Forall₂.cons rfl i4⟩
      · rw [List.filter_cons_of_pos href]
        simp only [List.map_cons, i2, labelOf, hn, m1]
      · simp only [List.map_cons, i3, m1]
    | false =>
      obtain ⟨hl, ht⟩ := m3 href
      have hfalse : ¬ isExternReference decls n = true := by rw [href]; decide
      cases hty : n'.type with
      | bmc v =>
        rw [hty] at hstep
        simp only at hstep
        split_ifs at hstep with hc
        simp only [Option.some.injEq, Prod.mk.injEq] at hstep
        obtain ⟨h1, h2, h3⟩ := hstep
        subst h1; subst h2; subst h3
        refine ⟨List.Forall₂.cons ⟨m1, hl, ⟨v, hty⟩, fun h => absurd h hfalse⟩ i1, ?_, ?_,
          List.Forall₂.cons hty i4⟩
        · rw [List.filter_cons_of_neg hfalse]
          exact i2
        · simp only [List.map_cons, i3, m1]
      | name label =>
        rw [hty] at hstep
        simp only at hstep
        rw [if_neg (fun hc => hc.1 hl)] at hstep
        simp at hstep
theorem forall₂_getElem? {α β : Type} (R : α → β → Prop) :
    ∀ (l₁ : List α) (l₂ : List β), List.Forall₂ R l₁ l₂ →
      ∀ (i : Nat) (a : α), l₁[i]? = some a → ∃ b, l₂[i]? = some b ∧ R a b := by
  intro l₁
  induction l₁ with
  | nil => intro l₂ _ i a h; simp at h
  | cons x xs ih =>
    intro l₂ hrel i a h
    cases hrel with
    | cons hxy hrest =>
      cases i with
      | zero =>
        simp only [List.getElem?_cons_zero, Option.some.injEq] at h
        subst h
        exact ⟨_, by simp, hxy⟩
      | succ j =>
        simp only [List.getElem?_cons_succ] at h
        obtain ⟨b, hb, hr⟩ := ih _ hrest j a h
        exact ⟨b, by simpa using hb, hr⟩

theorem forall₂_getElem?_right {α β : Type} (R : α → β → Prop) :
    ∀ (l₁ : List α) (l₂ : List β), List.Forall₂ R l₁ l₂ →
      ∀ (i : Nat) (b : β), l₂[i]? = some b → ∃ a, l₁[i]? = some a ∧ R a b := by
  intro l₁
  induction l₁ with
  | nil =>
    intro l₂ hrel i b h
    cases hrel
    simp at h
  | cons x xs ih =>
    intro l₂ hrel i b h
    cases hrel with
    | cons hxy hrest =>
      cases i with
      | zero =>
        simp only [List.getElem?_cons_zero, Option.some.injEq] at h
        subst h
        exact ⟨_, by simp, hxy⟩
      | succ j =>
        simp only [List.getElem?_cons_succ] at h
        obtain ⟨a, ha, hr⟩ := ih _ hrest j b h
        exact ⟨a, by simpa using ha, hr⟩
/-! ## The end of the first pass -/

theorem toShort_add_left (a b : Int) : toShort (toShort a + b) = toShort (a + b) := by
  unfold toShort
  omega

/-- The loop of `UpdateDataCounter` over data nodes numbered `k`, `k + 1`, ... as the first
pass numbers them: it succeeds exactly when the last new address is at most MEMORY_CELLS,
and then every node has moved by `ic`. -/
theorem updateDataNodes_consecutive (ic : Int) (hic : 0 ≤ ic) :
    ∀ (data : List dataNode) (k : Nat), Int.ofNat k + ic ≤ 32767 →
      (∀ (i : Nat) (x : dataNode), data[i]? = some x → x.dc = toShort (Int.ofNat (k + i))) →
      ((updateDataNodes ic data).1 = true ↔
        (data = [] ∨ Int.ofNat k + ic + Int.ofNat data.length ≤ 4096)) ∧
      ((updateDataNodes ic data).1 = true →
        (updateDataNodes ic data).2 = data.map (fun x => ⟨ic + x.dc, x.bmc⟩) ∧
        ∀ (i : Nat) (x : dataNode), data[i]? = some x → x.dc = Int.ofNat (k + i)) := by
  intro data
  induction data with
  | nil =>
    intro k _ _
    refine ⟨by simp [updateDataNodes], fun _ => ⟨rfl, ?_⟩⟩
    intro i x h
    simp at h
  | cons x rest ih =>
    intro k hk hdc
    have hx : x.dc = Int.ofNat k := by
      have h0 := hdc 0 x (by simp)
      rw [h0]
      apply toShort_of_range
      · simp only [Nat.add_zero, Int.ofNat_eq_coe]; omega
      · simp only [Nat.add_zero, Int.ofNat_eq_coe]
        simp only [Int.ofNat_eq_coe] at hk
        omega
    have hmoved : toShort (x.dc + ic) = Int.ofNat k + ic := by
      rw [hx]
      apply toShort_of_range
      · simp only [Int.ofNat_eq_coe]; omega
      · exact hk
    have hrest : ∀ (i : Nat) (y : dataNode), rest[i]? = some y →
        y.dc = toShort (Int.ofNat (k + 1 + i)) := by
      intro i y hy
      have := hdc (i + 1) y (by simpa using hy)
      rw [this]
      congr 2
      omega
    simp only [updateDataNodes, hmoved, MEMORY_CELLS]
    by_cases hbig : Int.ofNat k + ic > 4095
    · rw [if_pos hbig]
      simp only [Int.ofNat_eq_coe] at hbig ⊢
      constructor
      · constructor
        · intro h; simp at h
        · rintro (h | h)
          · simp at h
          · simp only [List.length_cons, Nat.cast_add, Nat.cast_one] at h
            omega
      · intro h; simp at h
    · rw [if_neg hbig]
      have hk1 : Int.ofNat (k + 1) + ic ≤ 32767 := by
        simp only [Int.ofNat_eq_coe, Nat.cast_add, Nat.cast_one] at hbig ⊢
        omega
      obtain ⟨i1, i2⟩ := ih (k + 1) hk1 hrest
      simp only
      constructor
      · rw [i1]
        simp only [Int.ofNat_eq_coe, Nat.cast_add, Nat.cast_one, List.length_cons] at hbig ⊢
        constructor
        · rintro (h | h)
          · right; rw [h]; simp only [List.length_nil, Nat.cast_zero]; omega
          · right; omega
        · rintro (h | h)
          · simp at h
          · right; omega
      · intro hok
        obtain ⟨j1, j2⟩ := i2 hok
        refine ⟨?_, ?_⟩
        · rw [j1, List.map_cons]
          congr 1
          rw [hx]
          congr 1
          simp only [Int.ofNat_eq_coe]
          omega
        · intro i y hy
          cases i with
          | zero =>
            simp only [List.getElem?_cons_zero, Option.some.injEq] at hy
            subst hy
            exact hx
          | succ j =>
            simp only [List.getElem?_cons_succ] at hy
            rw [j2 j y hy]
            congr 1
            omega

theorem UpdateDataCounter_ok (data : List dataNode) (decls : List declarationNode)
    (ic dc : Int) :
    (UpdateDataCounter data decls ic dc).ok = (updateDataNodes ic data).1 := by
  cases h : (updateDataNodes ic data).1 <;> simp [UpdateDataCounter, h]

theorem UpdateDataCounter_counter (data : List dataNode) (decls : List declarationNode)
    (ic dc : Int) :
    (UpdateDataCounter data decls ic dc).ic_dc_counter =
      (toShort (ic - FIRST_MEMORY_CELL), dc) := by
  cases h : (updateDataNodes ic data).1 <;> simp [UpdateDataCounter, h]

theorem firstPassFinish_counter (st : firstPassState) :
    (firstPassFinish st).ic_dc_counter = (toShort (st.ic - FIRST_MEMORY_CELL), st.dc) := by
  cases h : (updateDataNodes st.ic st.data_list).1 <;>
    simp [firstPassFinish, UpdateDataCounter, h]
theorem undefinedLabelMessage_length (name : List Char) :
    (undefinedLabelMessage name).length = name.length + 65 := by
  unfold undefinedLabelMessage
  rw [String.length_append, String.length_append]
  show (11 : Nat) + name.length + 54 = name.length + 65
  omega

/-- A second pass that is handed the indicator FALSE creates no file. -/
theorem secondPass_failed (files : outputFiles) (garbage : Int) (counter : Int × Int)
    (ins : List instructionNode) (data : List dataNode) (decls : List declarationNode)
    (r : secondPassResult)
    (h : secondPass files garbage counter ins data decls false = some r) :
    r.indicator = false ∧ r.ob = none ∧ r.ext = none ∧ r.ent = none ∧ r.fatal = false := by
  simp only [secondPass, Bool.false_and, Option.bind_eq_some] at h
  obtain ⟨f, _, hr⟩ := h
  simp only [Bool.false_eq_true, if_false, Option.some.injEq] at hr
  subst hr
  exact ⟨rfl, rfl, rfl, rfl, rfl⟩

theorem stopWords_line (count : Nat) : pendingNamed (stopWords count) := by
  intro n hn hl
  unfold stopWords at hn
  obtain ⟨i, _, rfl⟩ := List.mem_map.mp hn
  exact absurd rfl hl
/-! ## The numbering of the words in the first pass -/

theorem toShort_idem (a : Int) : toShort (toShort a) = toShort a := by
  unfold toShort
  omega

theorem codeAddressed_append (ic : Int) (l ws : List instructionNode)
    (h : codeAddressed ic l)
    (hws : ∀ (i : Nat) (n : instructionNode), ws[i]? = some n →
      n.ic = toShort (ic + Int.ofNat i)) :
    codeAddressed (toShort (ic + Int.ofNat ws.length)) (l ++ ws) := by
  obtain ⟨h1, h2⟩ := h
  constructor
  · rw [h1, toShort_add_left, List.length_append]
    congr 1
    simp only [Int.ofNat_eq_coe, Nat.cast_add]
    omega
  · intro i n hn
    by_cases hi : i < l.length
    · rw [List.getElem?_append_left hi] at hn
      exact h2 i n hn
    · rw [List.getElem?_append_right (Nat.le_of_not_lt hi)] at hn
      rw [hws _ n hn, h1, toShort_add_left]
      congr 1
      simp only [Int.ofNat_eq_coe]
      omega

theorem twoOperandWords_addresses (st st' : instructionState) (opcode s t : Int)
    (src tgt : List Char) (line_num : Nat) (e : String)
    (h : twoOperandWords st opcode s t src tgt line_num e = some st') :
    ∃ ws, st'.instructions_list = st.instructions_list ++ ws ∧
      st'.ic = toShort (toShort st.ic + Int.ofNat ws.length) ∧
      ∀ (i : Nat) (n : instructionNode), ws[i]? = some n →
        n.ic = toShort (toShort st.ic + Int.ofNat i) ∨ (i = 0 ∧ n.ic = st.ic) := by
  unfold twoOperandWords at h
  simp only [Option.bind_eq_some, Option.map_eq_some'] at h
  obtain ⟨fw, _, n1, hn1, h⟩ := h
  have e1 := creatInstructionNode_ic _ _ _ _ _ hn1
  split_ifs at h
  · simp only [Option.bind_eq_some, Option.map_eq_some'] at h
    obtain ⟨b, _, sb, _, n2, hn2, hst⟩ := h
    have e2 := creatInstructionNode_ic _ _ _ _ _ hn2
    subst hst
    refine ⟨[n1, n2], rfl, ?_, ?_⟩
    · simp only [List.length_cons, List.length_nil, toShort_add_left, Int.ofNat_eq_coe]
      unfold toShort
      push_cast
      omega
    · intro i n hn
      match i, hn with
      | 0, hn => simp at hn; subst hn; exact Or.inr ⟨rfl, e1⟩
      | 1, hn =>
        simp at hn; subst hn; left; rw [e2, toShort_add_left]; rfl
      | k + 2, hn => simp at hn
  · simp only [Option.bind_eq_some, Option.map_eq_some'] at h
    obtain ⟨sb, _, tb, _, n2, hn2, n3, hn3, hst⟩ := h
    have e2 := creatInstructionNode_ic _ _ _ _ _ hn2
    have e3 := creatInstructionNode_ic _ _ _ _ _ hn3
    subst hst
    refine ⟨[n1, n2, n3], rfl, ?_, ?_⟩
    · simp only [List.length_cons, List.length_nil, toShort_add_left, Int.ofNat_eq_coe]
      unfold toShort
      push_cast
      omega
    · intro i n hn
      match i, hn with
      | 0, hn => simp at hn; subst hn; exact Or.inr ⟨rfl, e1⟩
      | 1, hn =>
        simp at hn; subst hn; left; rw [e2, toShort_add_left]; rfl
      | 2, hn =>
        simp at hn; subst hn; left; rw [e3]
        unfold toShort; simp only [Int.ofNat_eq_coe, Nat.cast_ofNat]; omega
      | k + 3, hn => simp at hn

theorem oneOperandWords_addresses (st st' : instructionState) (opcode t : Int)
    (tgt : List Char) (line_num : Nat) (e : String)
    (h : oneOperandWords st opcode t tgt line_num e = some st') :
    ∃ ws, st'.instructions_list = st.instructions_list ++ ws ∧
      st'.ic = toShort (toShort st.ic + Int.ofNat ws.length) ∧
      ∀ (i : Nat) (n : instructionNode), ws[i]? = some n →
        n.ic = toShort (toShort st.ic + Int.ofNat i) ∨ (i = 0 ∧ n.ic = st.ic) := by
  unfold oneOperandWords at h
  simp only [Option.bind_eq_some, Option.map_eq_some'] at h
  obtain ⟨fw, _, tb, _, n1, hn1, n2, hn2, hst⟩ := h
  have e1 := creatInstructionNode_ic _ _ _ _ _ hn1
  have e2 := creatInstructionNode_ic _ _ _ _ _ hn2
  subst hst
  refine ⟨[n1, n2], rfl, ?_, ?_⟩
  · simp only [List.length_cons, List.length_nil, toShort_add_left, Int.ofNat_eq_coe]
    unfold toShort
    push_cast
    omega
  · intro i n hn
    match i, hn with
    | 0, hn => simp at hn; subst hn; exact Or.inr ⟨rfl, e1⟩
    | 1, hn =>
      simp at hn; subst hn; left; rw [e2, toShort_add_left]; rfl
    | k + 2, hn => simp at hn

theorem noOperandWords_addresses (st st' : instructionState) (opcode : Int)
    (line_num : Nat) (e : String)
    (h : noOperandWords st opcode line_num e = some st') :
    ∃ ws, st'.instructions_list = st.instructions_list ++ ws ∧
      st'.ic = toShort (toShort st.ic + Int.ofNat ws.length) ∧
      ∀ (i : Nat) (n : instructionNode), ws[i]? = some n →
        n.ic = toShort (toShort st.ic + Int.ofNat i) ∨ (i = 0 ∧ n.ic = st.ic) := by
  unfold noOperandWords at h
  simp only [Option.bind_eq_some, Option.map_eq_some'] at h
  obtain ⟨fw, _, n1, hn1, hst⟩ := h
  have e1 := creatInstructionNode_ic _ _ _ _ _ hn1
  subst hst
  refine ⟨[n1], rfl, ?_, ?_⟩
  · simp only [List.length_cons, List.length_nil, toShort_add_left, Int.ofNat_eq_coe]
    unfold toShort
    push_cast
    omega
  · intro i n hn
    match i, hn with
    | 0, hn => simp at hn; subst hn; exact Or.inr ⟨rfl, e1⟩
    | k + 1, hn => simp at hn
theorem readNewInstruction_addresses (st st' : instructionState) (line : List Char)
    (line_num : Nat) (hclean : st.error_str = "") (hshort : toShort st.ic = st.ic)
    (hrun : readNewInstruction st line line_num = some st')
    (haccepted : st'.error_str = "") :
    ∃ ws, st'.instructions_list = st.instructions_list ++ ws ∧
      st'.ic = toShort (st.ic + Int.ofNat ws.length) ∧
      ∀ (i : Nat) (n : instructionNode), ws[i]? = some n →
        n.ic = toShort (st.ic + Int.ofNat i) := by
  have key : ∃ ws, st'.instructions_list = st.instructions_list ++ ws ∧
      st'.ic = toShort (toShort st.ic + Int.ofNat ws.length) ∧
      ∀ (i : Nat) (n : instructionNode), ws[i]? = some n →
        n.ic = toShort (toShort st.ic + Int.ofNat i) ∨ (i = 0 ∧ n.ic = st.ic) := by
    obtain ⟨h1, h2, h3⟩ := readNewInstruction_accepted st st' line line_num hclean hrun
      haccepted
    by_cases c1 : (getOpcode line).1 ≤ LEA
    · exact twoOperandWords_addresses _ _ _ _ _ _ _ _ _ (h1 c1).2.2.2
    · by_cases c2 : (getOpcode line).1 ≤ JSR
      · exact oneOperandWords_addresses _ _ _ _ _ _ _ (h2 c1 c2).2.2
      · exact noOperandWords_addresses _ _ _ _ _ (h3 c1 c2).2
  obtain ⟨ws, k1, k2, k3⟩ := key
  rw [hshort] at k2 k3
  refine ⟨ws, k1, k2, fun i n hn => ?_⟩
  rcases k3 i n hn with h | ⟨h0, h⟩
  · exact h
  · rw [h, h0]
    simp only [Int.ofNat_eq_coe, Nat.cast_zero, Int.add_zero]
    exact hshort.symm

theorem creatDataNodes_addressed :
    ∀ (ws : List Int) (dc : Int) (l : List dataNode), dataAddressed dc l →
      dataAddressed (creatDataNodes ws dc l).1 (creatDataNodes ws dc l).2 := by
  intro ws
  induction ws with
  | nil => intro dc l h; exact h
  | cons w rest ih =>
    intro dc l h
    simp only [creatDataNodes]
    apply ih
    obtain ⟨h1, h2⟩ := h
    constructor
    · rw [h1, toShort_add_left, List.length_append]
      congr 1
    · intro i x hx
      by_cases hi : i < l.length
      · rw [List.getElem?_append_left hi] at hx
        exact h2 i x hx
      · rw [List.getElem?_append_right (Nat.le_of_not_lt hi)] at hx
        have hzero : i - l.length = 0 := by
          by_contra hne
          have hlen : ([⟨dc, w⟩] : List dataNode).length ≤ i - l.length :=
            Nat.one_le_iff_ne_zero.mpr hne
          rw [List.getElem?_eq_none hlen] at hx
          exact Option.noConfusion hx
        rw [hzero] at hx
        simp only [List.getElem?_cons_zero, Option.some.injEq] at hx
        subst hx
        have hil : i = l.length := by omega
        rw [h1, hil]

theorem readNewData_addressed (st r : dataState) (type : Int) (line : List Char)
    (h : readNewData st type line = some r) (hinv : dataAddressed st.dc st.data_list) :
    dataAddressed r.dc r.data_list := by
  unfold readNewData at h
  simp only at h
  split_ifs at h
  · cases h; exact hinv
  · cases h; exact creatDataNodes_addressed _ _ _ hinv
  · cases h; exact hinv
  · cases h; exact creatDataNodes_addressed _ _ _ hinv

theorem getInstructionType_clean (line : List Char) (e : String)
    (h : (getInstructionType line e).1 ≠ NO_TYPE) : (getInstructionType line e).2.2 = e := by
  unfold getInstructionType at h ⊢
  simp only at h ⊢
  generalize (if isOpcode (List.takeWhile (fun c => !isspace c && c != '\n')
    (skipWhiteChar line)) ≠ NO_OPCODE then CODE
    else isInstruction (List.takeWhile (fun c => !isspace c && c != '\n')
      (skipWhiteChar line))) = ty at h ⊢
  by_cases hc : ty = NO_TYPE
  · rw [if_pos hc] at h
    exact absurd hc h
  · rw [if_neg hc]

theorem endOfLine_fields (st : firstPassState) (e : String) :
    (endOfLine st e).ic = st.ic ∧ (endOfLine st e).dc = st.dc ∧
    (endOfLine st e).instructions_list = st.instructions_list ∧
    (endOfLine st e).data_list = st.data_list ∧
    (endOfLine st e).declarations_list = st.declarations_list ∧
    ((endOfLine st e).indicator = true ↔ st.indicator = true ∧ e = "") := by
  unfold endOfLine
  by_cases he : e = ""
  · simp [he]
  · simp [he]

/-- A round that reports its message leaves what `endOfLine` makes of the state, and the
message fits the error buffer. -/
theorem reportedLine_some (st st' : firstPassState) (e : String)
    (h : reportedLine st e = some st') :
    st' = endOfLine st e ∧ e.length < ERROR_MESSAGE_SIZE := by
  unfold reportedLine at h
  split_ifs at h with hc
  simp only [Option.some.injEq] at h
  exact ⟨h.symm, Nat.lt_of_not_le hc⟩

/-- A message that fits the error buffer is reported. -/
theorem reportedLine_fits (st : firstPassState) (e : String)
    (h : e.length < ERROR_MESSAGE_SIZE) : reportedLine st e = some (endOfLine st e) := by
  unfold reportedLine
  rw [if_neg (Nat.not_le_of_lt h)]
/-- One round of the loop of `firstPass` keeps the numbering of the data words, and a
round that leaves the indicator TRUE reported nothing and keeps the numbering of the code
words. -/
theorem firstPassLine_addressed (macros : List macroNode) (st st' : firstPassState)
    (buf : List Char) (h : firstPassLine macros st buf = some st') :
    (dataAddressed st.dc st.data_list → dataAddressed st'.dc st'.data_list) ∧
    (st'.indicator = true → st.indicator = true ∧
      (codeAddressed st.ic st.instructions_list →
        codeAddressed st'.ic st'.instructions_list)) := by
  unfold firstPassLine at h
  simp only at h
  generalize (if (strchr (cstr buf) ':').isSome = true then
      readNewLabel ⟨cstr buf, st.declarations_list, ""⟩ st.line_num macros st.dc st.ic
    else ⟨cstr buf, st.declarations_list, ""⟩) = l at h
  split_ifs at h with hc ht1 ht2 ht3
  · simp only [Option.bind_eq_some] at h
    obtain ⟨r, hr, hst⟩ := h
    have hst := (reportedLine_some _ _ _ hst).1
    subst hst
    obtain ⟨f1, f2, f3, f4, _, f6⟩ := endOfLine_fields
      { st with declarations_list := l.declarations_list, ic := r.ic,
                instructions_list := r.instructions_list } r.error_str
    rw [f1, f2, f3, f4, f6]
    refine ⟨fun hd => hd, fun hi => ⟨hi.1, fun hcode => ?_⟩⟩
    have hclean : (getInstructionType l.line l.error_str).2.2 = "" := by
      rw [getInstructionType_clean _ _ (by rw [ht1]; decide)]
      exact hc.1
    have hshort : toShort st.ic = st.ic := by
      rw [hcode.1, toShort_idem]
    obtain ⟨ws, w1, w2, w3⟩ := readNewInstruction_addresses
      ⟨st.ic, st.instructions_list, (getInstructionType l.line l.error_str).2.2⟩ r _ _
      hclean hshort hr hi.2
    simp only at w1 w2 w3 ⊢
    rw [w1, w2]
    exact codeAddressed_append _ _ _ hcode w3
  · have h := (reportedLine_some _ _ _ h).1
    subst h
    obtain ⟨f1, f2, f3, f4, _, f6⟩ := endOfLine_fields
      { st with declarations_list :=
          (readNewDeclaration ⟨(getInstructionType l.line l.error_str).2.1,
            l.declarations_list, (getInstructionType l.line l.error_str).2.2⟩ st.line_num
            macros).declarations_list }
      (readNewDeclaration ⟨(getInstructionType l.line l.error_str).2.1,
        l.declarations_list, (getInstructionType l.line l.error_str).2.2⟩ st.line_num
        macros).error_str
    rw [f1, f2, f3, f4, f6]
    exact ⟨fun hd => hd, fun hi => ⟨hi.1, fun hcode => hcode⟩⟩
  · simp only [Option.bind_eq_some] at h
    obtain ⟨r, hr, hst⟩ := h
    have hst := (reportedLine_some _ _ _ hst).1
    subst hst
    obtain ⟨f1, f2, f3, f4, _, f6⟩ := endOfLine_fields
      { st with declarations_list := l.declarations_list, dc := r.dc,
                data_list := r.data_list } r.error_str
    rw [f1, f2, f3, f4, f6]
    exact ⟨fun hd => readNewData_addressed _ r _ _ hr hd,
      fun hi => ⟨hi.1, fun hcode => hcode⟩⟩
  · have h := (reportedLine_some _ _ _ h).1
    subst h
    obtain ⟨f1, f2, f3, f4, _, f6⟩ := endOfLine_fields
      { st with declarations_list := l.declarations_list }
      (getInstructionType l.line l.error_str).2.2
    rw [f1, f2, f3, f4, f6]
    exact ⟨fun hd => hd, fun hi => ⟨hi.1, fun hcode => hcode⟩⟩
  · have h := (reportedLine_some _ _ _ h).1
    subst h
    obtain ⟨f1, f2, f3, f4, _, f6⟩ := endOfLine_fields
      { st with declarations_list := l.declarations_list } l.error_str
    rw [f1, f2, f3, f4, f6]
    exact ⟨fun hd => hd, fun hi => ⟨hi.1, fun hcode => hcode⟩⟩

theorem firstPassLoop_addressed (macros : List macroNode) :
    ∀ (lines : List (List Char)) (st st' : firstPassState),
      firstPassLoop macros lines st = some st' →
      (dataAddressed st.dc st.data_list → dataAddressed st'.dc st'.data_list) ∧
      (st'.indicator = true → st.indicator = true ∧
        (codeAddressed st.ic st.instructions_list →
          codeAddressed st'.ic st'.instructions_list)) := by
  intro lines
  induction lines with
  | nil =>
    intro st st' h
    simp only [firstPassLoop, Option.some.injEq] at h
    subst h
    exact ⟨fun hd => hd, fun hi => ⟨hi, fun hcode => hcode⟩⟩
  | cons buf rest ih =>
    intro st st' h
    simp only [firstPassLoop, Option.bind_eq_some] at h
    obtain ⟨st1, h1, h2⟩ := h
    obtain ⟨a1, a2⟩ := firstPassLine_addressed macros st st1 buf h1
    obtain ⟨b1, b2⟩ := ih st1 st' h2
    refine ⟨fun hd => b1 (a1 hd), fun hi => ?_⟩
    obtain ⟨i1, c1⟩ := b2 hi
    obtain ⟨i0, c0⟩ := a2 i1
    exact ⟨i0, fun hcode => c1 (c0 hcode)⟩
theorem firstPassFinish_ok (st : firstPassState)
    (hd : (updateDataNodes st.ic st.data_list).1 = true) :
    firstPassFinish st = ⟨st.indicator, (toShort (st.ic - FIRST_MEMORY_CELL), st.dc),
      st.instructions_list, (updateDataNodes st.ic st.data_list).2,
      updateDeclarationNodes st.ic st.declarations_list, st.errors⟩ := by
  simp [firstPassFinish, UpdateDataCounter, hd]

theorem firstPassFinish_indicator (st : firstPassState)
    (h : (firstPassFinish st).indicator = true) :
    (updateDataNodes st.ic st.data_list).1 = true ∧ st.indicator = true := by
  cases hd : (updateDataNodes st.ic st.data_list).1 with
  | false => simp [firstPassFinish, UpdateDataCounter, hd] at h
  | true =>
    rw [firstPassFinish_ok st hd] at h
    exact ⟨rfl, h⟩

theorem map_eq_range_map {α : Type} (key : α → Int) (f : Nat → Int) (l : List α)
    (h : ∀ (i : Nat) (x : α), l[i]? = some x → key x = f i) :
    l.map key = (List.range l.length).map f := by
  apply List.ext_getElem?
  intro i
  rw [List.getElem?_map, List.getElem?_map]
  by_cases hi : i < l.length
  · rw [List.getElem?_range hi, List.getElem?_eq_getElem hi]
    simp only [Option.map_some', Option.some.injEq]
    exact h i _ (List.getElem?_eq_getElem hi)
  · rw [List.getElem?_eq_none (Nat.le_of_not_lt hi),
      List.getElem?_eq_none (by rw [List.length_range]; exact Nat.le_of_not_lt hi)]
    rfl
/-! ## What the first pass guarantees about Extern declarations -/

/-- A name that passes `checkIfLabelNameAlreadyDeclared` for the type `t` has, among the
declarations so far, Extern declarations only when `t` is EXTERN and none otherwise. -/
theorem checkIfLabelNameAlreadyDeclared_passed (name : List Char) (t : Int) :
    ∀ (l : List declarationNode) (e : String),
      (checkIfLabelNameAlreadyDeclared name t l e).1 = true →
      ∀ x ∈ l, x.label = name → (x.type = EXTERN ↔ t = EXTERN) := by
  intro l
  induction l with
  | nil => intro e _ x hx; simp at hx
  | cons temp rest ih =>
    intro e h x hx hname
    by_cases c0 : name = temp.label
    · by_cases c1 : t = EXTERN ∧ temp.type ≠ EXTERN
      · exfalso
        by_cases c2 : temp.type = ENTRY
        · simp only [checkIfLabelNameAlreadyDeclared, if_pos c0, if_pos c1, if_pos c2] at h
          exact Bool.noConfusion h
        · simp only [checkIfLabelNameAlreadyDeclared, if_pos c0, if_pos c1, if_neg c2] at h
          exact Bool.noConfusion h
      · by_cases c3 : t = ENTRY ∧ temp.type = EXTERN
        · exfalso
          simp only [checkIfLabelNameAlreadyDeclared, if_pos c0, if_neg c1, if_pos c3] at h
          exact Bool.noConfusion h
        · by_cases c4 : t ≠ EXTERN ∧ t ≠ ENTRY ∧ temp.type ≠ ENTRY
          · exfalso
            by_cases c5 : temp.type = EXTERN
            · simp only [checkIfLabelNameAlreadyDeclared, if_pos c0, if_neg c1, if_neg c3,
                if_pos c4, if_pos c5] at h
              exact Bool.noConfusion h
            · simp only [checkIfLabelNameAlreadyDeclared, if_pos c0, if_neg c1, if_neg c3,
                if_pos c4, if_neg c5] at h
              exact Bool.noConfusion h
          · simp only [checkIfLabelNameAlreadyDeclared, if_pos c0, if_neg c1, if_neg c3,
              if_neg c4] at h
            rcases List.mem_cons.mp hx with heq | hin
            · subst heq
              constructor
              · intro hx1
                by_contra hne
                have h2 : t ≠ ENTRY := fun ht => c3 ⟨ht, hx1⟩
                exact c4 ⟨hne, h2, by rw [hx1]; decide⟩
              · intro ht
                by_contra hne
                exact c1 ⟨ht, hne⟩
            · exact ih e h x hin hname
    · simp only [checkIfLabelNameAlreadyDeclared, if_neg c0] at h
      rcases List.mem_cons.mp hx with heq | hin
      · subst heq
        exact absurd hname.symm c0
      · exact ih e h x hin hname

theorem ite_prop {α : Type} (P : α → Prop) (c : Prop) [Decidable c] (a b : α)
    (ha : c → P a) (hb : ¬ c → P b) : P (if c then a else b) := by
  split_ifs with h
  · exact ha h
  · exact hb h

theorem externConsistent_append (l : List declarationNode) (d : declarationNode)
    (h : externConsistent l)
    (hd : ∀ x ∈ l, x.label = d.label → (x.type = EXTERN ↔ d.type = EXTERN)) :
    externConsistent (l ++ [d]) := by
  intro x hx y hy hl ht
  rcases List.mem_append.mp hx with hx1 | hx2
  · rcases List.mem_append.mp hy with hy1 | hy2
    · exact h x hx1 y hy1 hl ht
    · simp only [List.mem_singleton] at hy2
      subst hy2
      exact (hd x hx1 hl).mp ht
  · simp only [List.mem_singleton] at hx2
    subst hx2
    rcases List.mem_append.mp hy with hy1 | hy2
    · exact (hd y hy1 hl.symm).mpr ht
    · simp only [List.mem_singleton] at hy2
      subst hy2
      exact ht

/-- Appending a node that went through the check, or that is the first of the list. -/
theorem externConsistent_checked (l : List declarationNode) (v : Int) (name : List Char)
    (t : Int) (e : String) (h : externConsistent l)
    (hc : ¬ ((!(checkIfLabelNameAlreadyDeclared name t l e).1 && !l.isEmpty) = true)) :
    externConsistent (l ++ [creatDeclarationNode v name t]) := by
  apply externConsistent_append l _ h
  intro x hx hl
  cases l with
  | nil => simp at hx
  | cons a rest =>
    have hpass : (checkIfLabelNameAlreadyDeclared name t (a :: rest) e).1 = true := by
      simpa using hc
    exact checkIfLabelNameAlreadyDeclared_passed name t _ e hpass x hx hl

theorem readNewDeclaration_consistent (st : declarationState) (line_num : Nat)
    (macros : List macroNode) (h : externConsistent st.declarations_list) :
    externConsistent (readNewDeclaration st line_num macros).declarations_list := by
  unfold readNewDeclaration
  simp only []
  refine ite_prop (fun r : declarationState => externConsistent r.declarations_list) _ _ _
    (fun _ => h) (fun _ => ?_)
  refine ite_prop (fun r : declarationState => externConsistent r.declarations_list) _ _ _
    (fun _ => h) (fun _ => ?_)
  refine ite_prop (fun r : declarationState => externConsistent r.declarations_list) _ _ _
    (fun _ => h) (fun c3 => ?_)
  dsimp only
  exact externConsistent_checked st.declarations_list _ _ _ _ h c3

theorem readNewLabel_consistent (st : declarationState) (line_num : Nat)
    (macros : List macroNode) (dc ic : Int) (h : externConsistent st.declarations_list) :
    externConsistent (readNewLabel st line_num macros dc ic).declarations_list := by
  unfold readNewLabel
  simp only []
  refine ite_prop (fun r : declarationState => externConsistent r.declarations_list) _ _ _
    (fun _ => h) (fun _ => ?_)
  refine ite_prop (fun r : declarationState => externConsistent r.declarations_list) _ _ _
    (fun _ => h) (fun _ => ?_)
  refine ite_prop (fun r : declarationState => externConsistent r.declarations_list) _ _ _
    (fun _ => h) (fun c3 => ?_)
  refine ite_prop (fun r : declarationState => externConsistent r.declarations_list) _ _ _
    (fun _ => ?_) (fun _ => ?_)
  · dsimp only
    exact externConsistent_checked st.declarations_list _ _ _ _ h c3
  refine ite_prop (fun r : declarationState => externConsistent r.declarations_list) _ _ _
    (fun _ => ?_) (fun _ => ?_)
  · dsimp only
    exact readNewDeclaration_consistent ⟨_, st.declarations_list, _⟩ _ _ h
  · dsimp only
    exact externConsistent_checked st.declarations_list _ _ _ _ h c3

theorem firstPassLine_consistent (macros : List macroNode) (st st' : firstPassState)
    (buf : List Char) (h : firstPassLine macros st buf = some st')
    (hinv : externConsistent st.declarations_list) :
    externConsistent st'.declarations_list := by
  unfold firstPassLine at h
  simp only at h
  have hl : externConsistent (if (strchr (cstr buf) ':').isSome = true then
      readNewLabel ⟨cstr buf, st.declarations_list, ""⟩ st.line_num macros st.dc st.ic
    else ⟨cstr buf, st.declarations_list, ""⟩).declarations_list := by
    split_ifs
    · exact readNewLabel_consistent ⟨_, st.declarations_list, _⟩ _ _ _ _ hinv
    · exact hinv
  generalize (if (strchr (cstr buf) ':').isSome = true then
      readNewLabel ⟨cstr buf, st.declarations_list, ""⟩ st.line_num macros st.dc st.ic
    else ⟨cstr buf, st.declarations_list, ""⟩) = l at h hl
  split_ifs at h with hc ht1 ht2 ht3
  · simp only [Option.bind_eq_some] at h
    obtain ⟨r, _, hst⟩ := h
    have hst := (reportedLine_some _ _ _ hst).1
    subst hst
    rw [(endOfLine_fields _ _).2.2.2.2.1]
    exact hl
  · have h := (reportedLine_some _ _ _ h).1
    subst h
    rw [(endOfLine_fields _ _).2.2.2.2.1]
    exact readNewDeclaration_consistent ⟨_, l.declarations_list, _⟩ _ _ hl
  · simp only [Option.bind_eq_some] at h
    obtain ⟨r, _, hst⟩ := h
    have hst := (reportedLine_some _ _ _ hst).1
    subst hst
    rw [(endOfLine_fields _ _).2.2.2.2.1]
    exact hl
  · have h := (reportedLine_some _ _ _ h).1
    subst h
    rw [(endOfLine_fields _ _).2.2.2.2.1]
    exact hl
  · have h := (reportedLine_some _ _ _ h).1
    subst h
    rw [(endOfLine_fields _ _).2.2.2.2.1]
    exact hl

theorem firstPassLoop_consistent (macros : List macroNode) :
    ∀ (lines : List (List Char)) (st st' : firstPassState),
      firstPassLoop macros lines st = some st' →
      externConsistent st.declarations_list → externConsistent st'.declarations_list := by
  intro lines
  induction lines with
  | nil =>
    intro st st' h hinv
    simp only [firstPassLoop, Option.some.injEq] at h
    subst h
    exact hinv
  | cons buf rest ih =>
    intro st st' h hinv
    simp only [firstPassLoop, Option.bind_eq_some] at h
    obtain ⟨st1, h1, h2⟩ := h
    exact ih st1 st' h2 (firstPassLine_consistent macros st st1 buf h1 hinv)

theorem updateDeclarationNodes_consistent (ic : Int) (l : List declarationNode)
    (h : externConsistent l) : externConsistent (updateDeclarationNodes ic l) := by
  intro x hx y hy hl ht
  unfold updateDeclarationNodes at hx hy
  obtain ⟨x0, hx0, rfl⟩ := List.mem_map.mp hx
  obtain ⟨y0, hy0, rfl⟩ := List.mem_map.mp hy
  have hx1 : ∀ z : declarationNode,
      (if z.type = DATA ∨ z.type = STRING then
        ({ z with decimal_address := toShort (z.decimal_address + ic) } : declarationNode)
      else z).label = z.label ∧
      (if z.type = DATA ∨ z.type = STRING then
        ({ z with decimal_address := toShort (z.decimal_address + ic) } : declarationNode)
      else z).type = z.type := by
    intro z
    split_ifs <;> exact ⟨rfl, rfl⟩
  rw [(hx1 x0).1, (hx1 y0).1] at hl
  rw [(hx1 x0).2] at ht
  rw [(hx1 y0).2]
  exact h x0 hx0 y0 hy0 hl ht

/-- The declarations the first pass hands over never mix an Extern declaration of a name
with a declaration of another kind, whatever the input. -/
theorem firstPass_externConsistent (macros : List macroNode) (lines : List (List Char))
    (p : firstPassResult) (h : firstPass macros lines = some p) :
    externConsistent p.declarations_list := by
  simp only [firstPass, Option.map_eq_some'] at h
  obtain ⟨st, hloop, hp⟩ := h
  subst hp
  have hst := firstPassLoop_consistent macros lines firstPassInit st hloop
    (by intro x hx; simp [firstPassInit] at hx)
  cases hd : (updateDataNodes st.ic st.data_list).1 with
  | true =>
    rw [firstPassFinish_ok st hd]
    exact updateDeclarationNodes_consistent _ _ hst
  | false =>
    have : (firstPassFinish st).declarations_list = st.declarations_list := by
      simp [firstPassFinish, UpdateDataCounter, hd]
    rw [this]
    exact hst
/-- The state at the end of the loop of a first pass that reported nothing, when the
counters did not wrap: `ic` is 100 plus the number of code words, the data words are
numbered from 0 and `dc` is their number. -/
theorem firstPassLoop_reached (macros : List macroNode) (lines : List (List Char))
    (st : firstPassState) (hloop : firstPassLoop macros lines firstPassInit = some st)
    (hind : st.indicator = true) (hsize : st.instructions_list.length ≤ 32667)
    (hdsize : st.data_list.length ≤ 32767) :
    (100 ≤ st.ic ∧ st.ic ≤ 32767) ∧
    (∀ (i : Nat) (x : dataNode), st.data_list[i]? = some x → x.dc = toShort (Int.ofNat i)) ∧
    st.dc = Int.ofNat st.data_list.length := by
  obtain ⟨hdata, hcode⟩ := firstPassLoop_addressed macros lines firstPassInit st hloop
  obtain ⟨d1, d2⟩ := hdata ⟨by decide, fun i x hx => by simp [firstPassInit] at hx⟩
  obtain ⟨c1, _⟩ := (hcode hind).2 ⟨by decide, fun i n hn => by simp [firstPassInit] at hn⟩
  have hic : st.ic = 100 + Int.ofNat st.instructions_list.length := by
    rw [c1]
    apply toShort_of_range
    · simp only [Int.ofNat_eq_coe]; omega
    · simp only [Int.ofNat_eq_coe]; omega
  refine ⟨?_, d2, ?_⟩
  · rw [hic]
    simp only [Int.ofNat_eq_coe]
    omega
  · rw [d1]
    apply toShort_of_range
    · simp only [Int.ofNat_eq_coe]; omega
    · simp only [Int.ofNat_eq_coe]; omega
/-! ## The values of Data and String declarations -/

theorem skipWhiteChar_idem (line : List Char) :
    skipWhiteChar (skipWhiteChar line) = skipWhiteChar line := by
  unfold skipWhiteChar
  exact List.dropWhile_idempotent _ _

theorem getInstructionType_line (line : List Char) (e : String) :
    (getInstructionType line e).2.1 = skipWhiteChar line := by
  unfold getInstructionType
  simp only
  split_ifs <;> rfl

theorem getInstructionType_type (line : List Char) (e : String) :
    (getInstructionType line e).1 =
      if isOpcode ((skipWhiteChar line).takeWhile fun c => !isspace c && c != '\n')
          ≠ NO_OPCODE then CODE
      else isInstruction ((skipWhiteChar line).takeWhile fun c => !isspace c && c != '\n') := by
  unfold getInstructionType
  simp only
  split_ifs <;> rfl

theorem getInstructionType_idem (line : List Char) (e e' : String) :
    (getInstructionType (getInstructionType line e).2.1 e').1 =
      (getInstructionType line e).1 := by
  rw [getInstructionType_line, getInstructionType_type, getInstructionType_type,
    skipWhiteChar_idem]

theorem dataDeclared_mono (n m : Nat) (l : List declarationNode) (h : dataDeclared n l)
    (hnm : n ≤ m) : dataDeclared m l := by
  intro x hx ht
  obtain ⟨k, hk, hv⟩ := h x hx ht
  exact ⟨k, Nat.le_trans hk hnm, hv⟩

theorem dataDeclared_append (n : Nat) (l : List declarationNode) (d : declarationNode)
    (h : dataDeclared n l)
    (hd : d.type = DATA ∨ d.type = STRING →
      ∃ k : Nat, k ≤ n ∧ d.decimal_address = toShort (Int.ofNat k)) :
    dataDeclared n (l ++ [d]) := by
  intro x hx ht
  rcases List.mem_append.mp hx with h1 | h2
  · exact h x h1 ht
  · simp only [List.mem_singleton] at h2
    subst h2
    exact hd ht

theorem readNewDeclaration_declared (n : Nat) (st : declarationState) (line_num : Nat)
    (macros : List macroNode) (h : dataDeclared n st.declarations_list)
    (hty : (getInstructionType st.line st.error_str).1 ≥ ENTRY) :
    dataDeclared n (readNewDeclaration st line_num macros).declarations_list := by
  have hnot : ¬ ((getInstructionType st.line st.error_str).1 = DATA ∨
      (getInstructionType st.line st.error_str).1 = STRING) := by
    simp only [ENTRY, DATA, STRING] at hty ⊢
    omega
  unfold readNewDeclaration
  simp only []
  refine ite_prop (fun r : declarationState => dataDeclared n r.declarations_list) _ _ _
    (fun _ => h) (fun _ => ?_)
  refine ite_prop (fun r : declarationState => dataDeclared n r.declarations_list) _ _ _
    (fun _ => h) (fun _ => ?_)
  refine ite_prop (fun r : declarationState => dataDeclared n r.declarations_list) _ _ _
    (fun _ => h) (fun _ => ?_)
  dsimp only
  refine dataDeclared_append n st.declarations_list _ h ?_
  intro ht
  exact absurd ht hnot

theorem readNewLabel_declared (n : Nat) (st : declarationState) (line_num : Nat)
    (macros : List macroNode) (dc ic : Int) (h : dataDeclared n st.declarations_list)
    (hdc : dc = toShort (Int.ofNat n)) :
    dataDeclared n (readNewLabel st line_num macros dc ic).declarations_list := by
  unfold readNewLabel
  simp only []
  refine ite_prop (fun r : declarationState => dataDeclared n r.declarations_list) _ _ _
    (fun _ => h) (fun _ => ?_)
  refine ite_prop (fun r : declarationState => dataDeclared n r.declarations_list) _ _ _
    (fun _ => h) (fun _ => ?_)
  refine ite_prop (fun r : declarationState => dataDeclared n r.declarations_list) _ _ _
    (fun _ => h) (fun _ => ?_)
  refine ite_prop (fun r : declarationState => dataDeclared n r.declarations_list) _ _ _
    (fun hcode => ?_) (fun _ => ?_)
  · dsimp only
    refine dataDeclared_append n st.declarations_list _ h ?_
    intro ht
    exfalso
    simp only [creatDeclarationNode] at ht
    rw [hcode] at ht
    revert ht
    decide
  refine ite_prop (fun r : declarationState => dataDeclared n r.declarations_list) _ _ _
    (fun hentry => ?_) (fun _ => ?_)
  · dsimp only
    refine readNewDeclaration_declared n ⟨_, st.declarations_list, _⟩ line_num macros h ?_
    dsimp only
    rw [getInstructionType_idem]
    exact hentry
  · dsimp only
    refine dataDeclared_append n st.declarations_list _ h ?_
    intro _
    refine ⟨n, Nat.le_refl n, ?_⟩
    simp only [creatDeclarationNode]
    rw [hdc, toShort_idem]

theorem creatDataNodes_length :
    ∀ (ws : List Int) (dc : Int) (l : List dataNode),
      l.length ≤ (creatDataNodes ws dc l).2.length := by
  intro ws
  induction ws with
  | nil => intro dc l; exact Nat.le_refl _
  | cons w rest ih =>
    intro dc l
    simp only [creatDataNodes]
    refine Nat.le_trans ?_ (ih _ _)
    rw [List.length_append]
    exact Nat.le_add_right _ _

theorem readNewData_length (st r : dataState) (type : Int) (line : List Char)
    (h : readNewData st type line = some r) : st.data_list.length ≤ r.data_list.length := by
  unfold readNewData at h
  simp only at h
  split_ifs at h
  · cases h; exact Nat.le_refl _
  · cases h; exact creatDataNodes_length _ _ _
  · cases h; exact Nat.le_refl _
  · cases h; exact creatDataNodes_length _ _ _

theorem firstPassLine_declared (macros : List macroNode) (st st' : firstPassState)
    (buf : List Char) (h : firstPassLine macros st buf = some st')
    (hdata : dataAddressed st.dc st.data_list)
    (hinv : dataDeclared st.data_list.length st.declarations_list) :
    dataDeclared st'.data_list.length st'.declarations_list := by
  unfold firstPassLine at h
  simp only at h
  have hl : dataDeclared st.data_list.length (if (strchr (cstr buf) ':').isSome = true then
      readNewLabel ⟨cstr buf, st.declarations_list, ""⟩ st.line_num macros st.dc st.ic
    else ⟨cstr buf, st.declarations_list, ""⟩).declarations_list := by
    split_ifs
    · exact readNewLabel_declared _ ⟨_, st.declarations_list, _⟩ _ _ _ _ hinv hdata.1
    · exact hinv
  generalize (if (strchr (cstr buf) ':').isSome = true then
      readNewLabel ⟨cstr buf, st.declarations_list, ""⟩ st.line_num macros st.dc st.ic
    else ⟨cstr buf, st.declarations_list, ""⟩) = l at h hl
  split_ifs at h with hc ht1 ht2 ht3
  · simp only [Option.bind_eq_some] at h
    obtain ⟨r, _, hst⟩ := h
    have hst := (reportedLine_some _ _ _ hst).1
    subst hst
    rw [(endOfLine_fields _ _).2.2.2.2.1, (endOfLine_fields _ _).2.2.2.1]
    exact hl
  · have h := (reportedLine_some _ _ _ h).1
    subst h
    rw [(endOfLine_fields _ _).2.2.2.2.1, (endOfLine_fields _ _).2.2.2.1]
    dsimp only
    refine readNewDeclaration_declared _ ⟨_, l.declarations_list, _⟩ st.line_num macros hl ?_
    dsimp only
    rw [getInstructionType_idem]
    exact ht2
  · simp only [Option.bind_eq_some] at h
    obtain ⟨r, hr, hst⟩ := h
    have hst := (reportedLine_some _ _ _ hst).1
    subst hst
    rw [(endOfLine_fields _ _).2.2.2.2.1, (endOfLine_fields _ _).2.2.2.1]
    exact dataDeclared_mono _ _ _ hl (readNewData_length _ r _ _ hr)
  · have h := (reportedLine_some _ _ _ h).1
    subst h
    rw [(endOfLine_fields _ _).2.2.2.2.1, (endOfLine_fields _ _).2.2.2.1]
    exact hl
  · have h := (reportedLine_some _ _ _ h).1
    subst h
    rw [(endOfLine_fields _ _).2.2.2.2.1, (endOfLine_fields _ _).2.2.2.1]
    exact hl

theorem firstPassLoop_declared (macros : List macroNode) :
    ∀ (lines : List (List Char)) (st st' : firstPassState),
      firstPassLoop macros lines st = some st' →
      dataAddressed st.dc st.data_list →
      dataDeclared st.data_list.length st.declarations_list →
      dataDeclared st'.data_list.length st'.declarations_list := by
  intro lines
  induction lines with
  | nil =>
    intro st st' h _ hinv
    simp only [firstPassLoop, Option.some.injEq] at h
    subst h
    exact hinv
  | cons buf rest ih =>
    intro st st' h hdata hinv
    simp only [firstPassLoop, Option.bind_eq_some] at h
    obtain ⟨st1, h1, h2⟩ := h
    exact ih st1 st' h2 ((firstPassLine_addressed macros st st1 buf h1).1 hdata)
      (firstPassLine_declared macros st st1 buf h1 hdata hinv)

/-- At the end of the loop of any first pass with at most 32767 data words every Data or
String declaration holds a value between 0 and the number of data words. -/
theorem firstPassLoop_declarations (macros : List macroNode) (lines : List (List Char))
    (st : firstPassState) (hloop : firstPassLoop macros lines firstPassInit = some st)
    (hdsize : st.data_list.length ≤ 32767) :
    ∀ x ∈ st.declarations_list, x.type = DATA ∨ x.type = STRING →
      0 ≤ x.decimal_address ∧ x.decimal_address ≤ Int.ofNat st.data_list.length := by
  have h := firstPassLoop_declared macros lines firstPassInit st hloop
    ⟨by decide, fun i x hx => by simp [firstPassInit] at hx⟩
    (by intro x hx; simp [firstPassInit] at hx)
  intro x hx ht
  obtain ⟨k, hk, hv⟩ := h x hx ht
  rw [hv, toShort_of_range _ (by simp only [Int.ofNat_eq_coe]; omega)
    (by simp only [Int.ofNat_eq_coe]; omega)]
  simp only [Int.ofNat_eq_coe]
  omega
/-! ## Pending words hold a name -/

theorem creatInstructionNode_named (ic bmc : Int) (label : Option (List Char))
    (line_num : Nat) (n : instructionNode)
    (h : creatInstructionNode ic bmc label line_num = some n) :
    n.line ≠ 0 → ∃ l, n.type = wordType.name l := by
  unfold creatInstructionNode at h
  split_ifs at h
  · cases h
    intro hl
    exact absurd rfl hl
  · cases label with
    | none => simp at h
    | some l =>
      simp only [Option.map_some', Option.some.injEq] at h
      subst h
      intro _
      exact ⟨l, rfl⟩

theorem pendingNamed_append (l ws : List instructionNode) (h : pendingNamed l)
    (hws : ∀ n ∈ ws, n.line ≠ 0 → ∃ label, n.type = wordType.name label) :
    pendingNamed (l ++ ws) := by
  intro n hn
  rcases List.mem_append.mp hn with h1 | h2
  · exact h n h1
  · exact hws n h2

theorem twoOperandWords_named (st st' : instructionState) (opcode s t : Int)
    (src tgt : List Char) (line_num : Nat) (e : String)
    (h : twoOperandWords st opcode s t src tgt line_num e = some st')
    (hinv : pendingNamed st.instructions_list) : pendingNamed st'.instructions_list := by
  unfold twoOperandWords at h
  simp only [Option.bind_eq_some, Option.map_eq_some'] at h
  obtain ⟨fw, _, n1, hn1, h⟩ := h
  have e1 := creatInstructionNode_named _ _ _ _ _ hn1
  split_ifs at h
  · simp only [Option.bind_eq_some, Option.map_eq_some'] at h
    obtain ⟨b, _, sb, _, n2, hn2, hst⟩ := h
    have e2 := creatInstructionNode_named _ _ _ _ _ hn2
    subst hst
    apply pendingNamed_append _ _ hinv
    intro n hn
    simp only [List.mem_cons, List.mem_singleton, List.not_mem_nil, or_false] at hn
    rcases hn with rfl | rfl
    · exact e1
    · exact e2
  · simp only [Option.bind_eq_some, Option.map_eq_some'] at h
    obtain ⟨sb, _, tb, _, n2, hn2, n3, hn3, hst⟩ := h
    have e2 := creatInstructionNode_named _ _ _ _ _ hn2
    have e3 := creatInstructionNode_named _ _ _ _ _ hn3
    subst hst
    apply pendingNamed_append _ _ hinv
    intro n hn
    simp only [List.mem_cons, List.mem_singleton, List.not_mem_nil, or_false] at hn
    rcases hn with rfl | rfl | rfl
    · exact e1
    · exact e2
    · exact e3

theorem oneOperandWords_named (st st' : instructionState) (opcode t : Int)
    (tgt : List Char) (line_num : Nat) (e : String)
    (h : oneOperandWords st opcode t tgt line_num e = some st')
    (hinv : pendingNamed st.instructions_list) : pendingNamed st'.instructions_list := by
  unfold oneOperandWords at h
  simp only [Option.bind_eq_some, Option.map_eq_some'] at h
  obtain ⟨fw, _, tb, _, n1, hn1, n2, hn2, hst⟩ := h
  have e1 := creatInstructionNode_named _ _ _ _ _ hn1
  have e2 := creatInstructionNode_named _ _ _ _ _ hn2
  subst hst
  apply pendingNamed_append _ _ hinv
  intro n hn
  simp only [List.mem_cons, List.mem_singleton, List.not_mem_nil, or_false] at hn
  rcases hn with rfl | rfl
  · exact e1
  · exact e2

theorem noOperandWords_named (st st' : instructionState) (opcode : Int)
    (line_num : Nat) (e : String)
    (h : noOperandWords st opcode line_num e = some st')
    (hinv : pendingNamed st.instructions_list) : pendingNamed st'.instructions_list := by
  unfold noOperandWords at h
  simp only [Option.bind_eq_some, Option.map_eq_some'] at h
  obtain ⟨fw, _, n1, hn1, hst⟩ := h
  have e1 := creatInstructionNode_named _ _ _ _ _ hn1
  subst hst
  apply pendingNamed_append _ _ hinv
  intro n hn
  simp only [List.mem_singleton] at hn
  subst hn
  exact e1

theorem readNewInstruction_named (st st' : instructionState) (line : List Char)
    (line_num : Nat) (h : readNewInstruction st line line_num = some st')
    (hinv : pendingNamed st.instructions_list) : pendingNamed st'.instructions_list := by
  unfold readNewInstruction at h
  simp only at h
  by_cases c1 : (getOpcode line).1 ≤ LEA
  · rw [if_pos c1] at h
    generalize readTwoOperands (getOpcode line).2 none none st.error_str = r at h
    split_ifs at h with c2
    · cases h; exact hinv
    · simp only [Option.bind_eq_some] at h
      obtain ⟨src, _, tgt, _, h⟩ := h
      split_ifs at h with c3
      · cases h; exact hinv
      · exact twoOperandWords_named _ _ _ _ _ _ _ _ _ h hinv
  · rw [if_neg c1] at h
    by_cases c2 : (getOpcode line).1 ≤ JSR
    · rw [if_pos c2] at h
      generalize readTargetOperand (getOpcode line).2 none none st.error_str = r at h
      split_ifs at h with c3
      · cases h; exact hinv
      · simp only [Option.bind_eq_some] at h
        obtain ⟨tgt, _, h⟩ := h
        split_ifs at h with c4
        · cases h; exact hinv
        · exact oneOperandWords_named _ _ _ _ _ _ _ h hinv
    · rw [if_neg c2] at h
      exact noOperandWords_named _ _ _ _ _ h hinv

theorem firstPassLine_named (macros : List macroNode) (st st' : firstPassState)
    (buf : List Char) (h : firstPassLine macros st buf = some st')
    (hinv : pendingNamed st.instructions_list) : pendingNamed st'.instructions_list := by
  unfold firstPassLine at h
  simp only at h
  generalize (if (strchr (cstr buf) ':').isSome = true then
      readNewLabel ⟨cstr buf, st.declarations_list, ""⟩ st.line_num macros st.dc st.ic
    else ⟨cstr buf, st.declarations_list, ""⟩) = l at h
  split_ifs at h with hc ht1 ht2 ht3
  · simp only [Option.bind_eq_some] at h
    obtain ⟨r, hr, hst⟩ := h
    have hst := (reportedLine_some _ _ _ hst).1
    subst hst
    rw [(endOfLine_fields _ _).2.2.1]
    exact readNewInstruction_named ⟨st.ic, st.instructions_list, _⟩ r _ _ hr hinv
  · have h := (reportedLine_some _ _ _ h).1
    subst h
    rw [(endOfLine_fields _ _).2.2.1]
    exact hinv
  · simp only [Option.bind_eq_some] at h
    obtain ⟨r, _, hst⟩ := h
    have hst := (reportedLine_some _ _ _ hst).1
    subst hst
    rw [(endOfLine_fields _ _).2.2.1]
    exact hinv
  · have h := (reportedLine_some _ _ _ h).1
    subst h
    rw [(endOfLine_fields _ _).2.2.1]
    exact hinv
  · have h := (reportedLine_some _ _ _ h).1
    subst h
    rw [(endOfLine_fields _ _).2.2.1]
    exact hinv

/-- In the list of code words any first pass builds, every node that waits for an address
holds a label name. -/
theorem firstPassLoop_named (macros : List macroNode) :
    ∀ (lines : List (List Char)) (st st' : firstPassState),
      firstPassLoop macros lines st = some st' →
      pendingNamed st.instructions_list → pendingNamed st'.instructions_list := by
  intro lines
  induction lines with
  | nil =>
    intro st st' h hinv
    simp only [firstPassLoop, Option.some.injEq] at h
    subst h
    exact hinv
  | cons buf rest ih =>
    intro st st' h hinv
    simp only [firstPassLoop, Option.bind_eq_some] at h
    obtain ⟨st1, h1, h2⟩ := h
    exact ih st1 st' h2 (firstPassLine_named macros st st1 buf h1 hinv)
/-! ## Data words -/

/-- The word `insertBinaryValueByData` builds from a zero word at position 0 is the number
modulo 2^15. -/
theorem insertBinaryValueByData_zero (v : Int) :
    insertBinaryValueByData (toShort v) 0 0 = v % 32768 := by
  have h1 : toShort (toShort v * 2 ^ (0 : Int).toNat) = toShort v := by
    rw [show (0 : Int).toNat = 0 from rfl, pow_zero, mul_one, toShort_idem]
  have h2 : shortOr 0 (toShort v) = toShort v := by
    unfold shortOr bits16
    rw [show ((0 : Int) % 65536).toNat = 0 from rfl, Nat.zero_or]
    have : Int.ofNat (toShort v % 65536).toNat = toShort v % 65536 :=
      Int.toNat_of_nonneg (Int.emod_nonneg _ (by decide))
    rw [this]
    unfold toShort
    omega
  have h3 : shortAnd (toShort v) DATA_MASK = v % 32768 := by
    unfold shortAnd bits16 DATA_MASK
    rw [show ((32767 : Int) % 65536).toNat = 2 ^ 15 - 1 from rfl,
      Nat.and_pow_two_sub_one_eq_mod]
    have hnn : 0 ≤ toShort v % 65536 := Int.emod_nonneg _ (by decide)
    have : Int.ofNat ((toShort v % 65536).toNat % 2 ^ 15) = toShort v % 65536 % 32768 := by
      rw [Int.ofNat_eq_coe, Int.natCast_mod, Int.toNat_of_nonneg hnn]
      rfl
    rw [this]
    unfold toShort
    omega
  unfold insertBinaryValueByData
  simp only []
  rw [h1, h2, h3]

theorem checkBitException_data (num : Int) :
    checkBitException num (BITS_NUM - 1) = true ↔ -16384 ≤ num ∧ num ≤ 16383 := by
  unfold checkBitException
  have e : (BITS_NUM - 1).toNat = 14 := by decide
  rw [e]
  simp only [Bool.and_eq_true, decide_eq_true_eq]
  omega

theorem strtokTokens_cur_ne_nil :
    ∀ (l cur : List Char), cur ≠ [] → strtokTokens l cur ≠ [] := by
  intro l
  induction l with
  | nil =>
    intro cur h
    simp only [strtokTokens, if_neg h]
    exact List.cons_ne_nil _ _
  | cons c cs ih =>
    intro cur h
    unfold strtokTokens
    by_cases hc : c = ','
    · rw [if_pos hc, if_neg h]
      exact List.cons_ne_nil _ _
    · rw [if_neg hc]
      exact ih _ (List.cons_ne_nil _ _)

/-- What the loop of `readNumbers` returns when it accepts: one word per token, and every
token holds an integer of the 15-bit signed range. -/
theorem readNumbersLoop_ok :
    ∀ (toks : List (List Char)) (acc ws : List Int),
      readNumbersLoop toks acc = Except.ok ws →
      ws = acc ++ toks.map (fun t => (atof t).toInt % 32768) ∧
      ∀ t ∈ toks, (atof t).neToInt = false ∧
        -16384 ≤ (atof t).toInt ∧ (atof t).toInt ≤ 16383 := by
  intro toks
  induction toks with
  | nil =>
    intro acc ws h
    simp only [readNumbersLoop, Except.ok.injEq] at h
    subst h
    exact ⟨by simp, fun t ht => by simp at ht⟩
  | cons t rest ih =>
    intro acc ws h
    unfold readNumbersLoop at h
    simp only [] at h
    by_cases h1 : (atof t).neToInt = true
    · rw [if_pos h1] at h
      exact Except.noConfusion h
    · rw [if_neg h1] at h
      by_cases h2 : (!checkBitException (atof t).toInt (BITS_NUM - 1)) = true
      · rw [if_pos h2] at h
        exact Except.noConfusion h
      · rw [if_neg h2] at h
        simp only [Bool.not_eq_true, Bool.not_eq_false'] at h1 h2
        obtain ⟨i1, i2⟩ := ih _ ws h
        have hr := (checkBitException_data _).mp h2
        refine ⟨?_, ?_⟩
        · rw [i1, neToInt_false _ h1, insertBinaryValueByData_zero]
          simp
        · intro x hx
          rcases List.mem_cons.mp hx with rfl | hin
          · exact ⟨h1, hr⟩
          · exact i2 x hin
theorem creatDataNodes_spec :
    ∀ (ws : List Int) (dc : Int) (l : List dataNode),
      -32768 ≤ dc → dc + Int.ofNat ws.length ≤ 32767 →
      (creatDataNodes ws dc l).1 = dc + Int.ofNat ws.length ∧
      ∃ new : List dataNode, (creatDataNodes ws dc l).2 = l ++ new ∧
        new.length = ws.length ∧
        ∀ (i : Nat) (w : Int), ws[i]? = some w → new[i]? = some ⟨dc + Int.ofNat i, w⟩ := by
  intro ws
  induction ws with
  | nil =>
    intro dc l _ _
    refine ⟨by simp [creatDataNodes], [], by simp [creatDataNodes], rfl, ?_⟩
    intro i w h
    simp at h
  | cons w rest ih =>
    intro dc l hlo hhi
    simp only [List.length_cons, Int.ofNat_eq_coe, Nat.cast_add, Nat.cast_one] at hhi
    have hnn : (0 : Int) ≤ Int.ofNat rest.length := Int.ofNat_nonneg _
    simp only [Int.ofNat_eq_coe] at hnn
    have e1 : toShort (dc + 1) = dc + 1 := toShort_of_range _ (by omega) (by omega)
    simp only [creatDataNodes, e1]
    obtain ⟨i1, new, i2, i3, i4⟩ := ih (dc + 1) (l ++ [⟨dc, w⟩]) (by omega)
      (by simp only [Int.ofNat_eq_coe]; omega)
    refine ⟨?_, ⟨dc, w⟩ :: new, ?_, ?_, ?_⟩
    · rw [i1]
      simp only [List.length_cons, Int.ofNat_eq_coe, Nat.cast_add, Nat.cast_one]
      omega
    · rw [i2, List.append_assoc]
      rfl
    · simp only [List.length_cons, i3]
    · intro i x hx
      cases i with
      | zero =>
        simp only [List.getElem?_cons_zero, Option.some.injEq] at hx ⊢
        subst hx
        simp
      | succ j =>
        simp only [List.getElem?_cons_succ] at hx ⊢
        rw [i4 j x hx]
        congr 2
        simp only [Int.ofNat_eq_coe, Nat.cast_add, Nat.cast_one]
        omega

/-- The outcomes of `dataLineCheck`: a line it passes is not empty after the white space
and does not start with a comma, and the buffer of messages is untouched; a line it fails
leaves a message. -/
theorem dataLineCheck_cases (line : List Char) (e : String) :
    ((dataLineCheck line e).1 = true →
      skipWhiteChar line ≠ [] ∧ (skipWhiteChar line).head? ≠ some ',' ∧
      (dataLineCheck line e).2.1 = skipWhiteChar line ∧ (dataLineCheck line e).2.2 = e) ∧
    ((dataLineCheck line e).1 = false → (dataLineCheck line e).2.2 ≠ "") := by
  unfold dataLineCheck
  simp only []
  split_ifs with c1 c2 c3 c4
  · exact ⟨fun h => h.elim, fun _ => by dsimp only; decide⟩
  · exact ⟨fun h => h.elim, fun _ => by dsimp only; decide⟩
  · exact ⟨fun h => h.elim, fun _ => by dsimp only; decide⟩
  · exact ⟨fun h => h.elim, fun _ => by dsimp only; decide⟩
  · exact ⟨fun _ => ⟨c1, c2, rfl, rfl⟩, fun h => h.elim⟩

theorem strtokTokens_ne_nil (l : List Char) (h1 : l ≠ []) (h2 : l.head? ≠ some ',') :
    strtokTokens l [] ≠ [] := by
  cases l with
  | nil => exact absurd rfl h1
  | cons c cs =>
    have hc : c ≠ ',' := by
      intro hc
      apply h2
      rw [hc]
      rfl
    unfold strtokTokens
    rw [if_neg hc]
    exact strtokTokens_cur_ne_nil _ _ (List.cons_ne_nil _ _)

/-- A tail `readNumbers` accepts: the line check passed, there is at least one token, every
token holds an integer of the 15-bit signed range, and the words are these integers modulo
2^15 in order. -/
theorem readNumbers_accepted (line : List Char)
    (h : (readNumbers line "").2 = "") :
    (dataLineCheck line "").1 = true ∧
    strtokTokens (skipWhiteChar line) [] ≠ [] ∧
    (readNumbers line "").1 =
      (strtokTokens (skipWhiteChar line) []).map (fun t => (atof t).toInt % 32768) ∧
    ∀ t ∈ strtokTokens (skipWhiteChar line) [], (atof t).neToInt = false ∧
      -16384 ≤ (atof t).toInt ∧ (atof t).toInt ≤ 16383 := by
  obtain ⟨hpass, hfail⟩ := dataLineCheck_cases line ""
  unfold readNumbers at h ⊢
  simp only [] at h ⊢
  cases hc : (dataLineCheck line "").1 with
  | false =>
    rw [hc] at h
    simp only [Bool.not_false, if_true] at h
    exact absurd h (hfail hc)
  | true =>
    obtain ⟨p1, p2, p3, _⟩ := hpass hc
    rw [hc] at h
    simp only [Bool.not_true, Bool.false_eq_true, if_false] at h ⊢
    rw [p3] at h ⊢
    cases hl : readNumbersLoop (strtokTokens (skipWhiteChar line) []) [] with
    | error m =>
      rw [hl] at h
      simp only at h
      exfalso
      revert hl
      generalize strtokTokens (skipWhiteChar line) [] = toks
      generalize ([] : List Int) = acc
      intro hl
      induction toks generalizing acc with
      | nil => simp [readNumbersLoop] at hl
      | cons t rest ih =>
        unfold readNumbersLoop at hl
        simp only [] at hl
        split_ifs at hl with a b
        · simp only [Except.error.injEq] at hl
          rw [← hl] at h
          exact absurd h (by decide)
        · simp only [Except.error.injEq] at hl
          rw [← hl] at h
          exact absurd h (by decide)
        · exact ih _ hl
    | ok ws =>
      obtain ⟨w1, w2⟩ := readNumbersLoop_ok _ _ _ hl
      simp only [List.nil_append] at w1
      exact ⟨trivial, strtokTokens_ne_nil _ p1 p2, w1, w2⟩
/-! ## Integer literals as `atof` reads them -/

theorem isdigit_not_isspace (c : Char) (h : isdigit c = true) : isspace c = false := by
  simp only [isdigit, Bool.and_eq_true, decide_eq_true_eq] at h
  simp only [isspace, Bool.or_eq_false_iff, beq_eq_false_iff_ne, ne_eq, Bool.and_eq_false_iff,
    decide_eq_false_iff_not]
  omega

theorem isdigit_ne_comma (c : Char) (h : isdigit c = true) : c ≠ ',' := by
  rintro rfl
  exact absurd h (by decide)

theorem isspace_ne_comma (c : Char) (h : isspace c = true) : c ≠ ',' := by
  rintro rfl
  exact absurd h (by decide)

theorem isspace_not_isdigit (c : Char) (h : isspace c = true) : isdigit c = false := by
  cases hd : isdigit c with
  | false => rfl
  | true => rw [isdigit_not_isspace c hd] at h; exact Bool.noConfusion h

theorem readDigits_foldl :
    ∀ (ds : List Char) (acc : Nat), (∀ c ∈ ds, isdigit c = true) →
      readDigits ds acc = ds.foldl (fun a c => a * 10 + (c.toNat - 48)) acc := by
  intro ds
  induction ds with
  | nil => intro acc _; rfl
  | cons d rest ih =>
    intro acc h
    simp only [readDigits, h d (List.mem_cons_self _ _), if_true, List.foldl_cons]
    exact ih _ (fun c hc => h c (List.mem_cons_of_mem _ hc))

theorem takeWhile_digits (ds post : List Char) (hds : ∀ c ∈ ds, isdigit c = true)
    (hpost : ∀ c ∈ post, isspace c = true) :
    (ds ++ post).takeWhile isdigit = ds ∧ (ds ++ post).dropWhile isdigit = post := by
  have h1 : post.takeWhile isdigit = [] := by
    cases post with
    | nil => rfl
    | cons p ps =>
      rw [List.takeWhile_cons_of_neg]
      rw [isspace_not_isdigit p (hpost p (List.mem_cons_self _ _))]
      decide
  have h2 : post.dropWhile isdigit = post := by
    cases post with
    | nil => rfl
    | cons p ps =>
      rw [List.dropWhile_cons_of_neg]
      rw [isspace_not_isdigit p (hpost p (List.mem_cons_self _ _))]
      decide
  constructor
  · rw [List.takeWhile_append_of_pos hds, h1, List.append_nil]
  · rw [List.dropWhile_append_of_pos hds, h2]

theorem readExponent_space (post : List Char) (hpost : ∀ c ∈ post, isspace c = true) :
    readExponent post = 0 := by
  cases post with
  | nil => rfl
  | cons p ps =>
    have hp := hpost p (List.mem_cons_self _ _)
    have hne : ¬ (p = 'e' ∨ p = 'E') := by
      rintro (rfl | rfl) <;> exact absurd hp (by decide)
    simp only [readExponent, if_neg hne]

/-- The unsigned part of an integer literal followed by white space. -/
theorem readDecimal_digits (ds post : List Char) (hne : ds ≠ [])
    (hds : ∀ c ∈ ds, isdigit c = true) (hpost : ∀ c ∈ post, isspace c = true) :
    readDecimal (ds ++ post) = (decimalValue ds, 0) := by
  obtain ⟨t1, t2⟩ := takeWhile_digits ds post hds hpost
  unfold readDecimal
  simp only []
  rw [t1, t2]
  have hempty : ds.isEmpty = false := by
    cases ds with
    | nil => exact absurd rfl hne
    | cons _ _ => rfl
  have hval : readDigits ds 0 = decimalValue ds := readDigits_foldl ds 0 hds
  cases post with
  | nil =>
    simp only [hempty, Bool.false_eq_true, if_false, hval]
    rfl
  | cons p ps =>
    have hp := hpost p (List.mem_cons_self _ _)
    have hdot : p ≠ '.' := by
      rintro rfl
      exact absurd hp (by decide)
    have hexp := readExponent_space (p :: ps) hpost
    split
    · rename_i r2 heq
      exact absurd (List.head_eq_of_cons_eq heq) hdot
    · simp only [hempty, Bool.false_eq_true, if_false, hval, hexp]

/-! ### The rounding of `atof` on natural numbers -/

theorem log2Loop_bounds : ∀ (fuel n : Nat), 1 ≤ n → n ≤ fuel →
    2 ^ log2Loop fuel n ≤ n ∧ n < 2 ^ (log2Loop fuel n + 1) := by
  intro fuel
  induction fuel with
  | zero => intro n h1 h2; omega
  | succ fuel ih =>
    intro n h1 h2
    unfold log2Loop
    by_cases hn : n < 2
    · rw [if_pos hn]
      have : n = 1 := by omega
      subst this
      decide
    · rw [if_neg hn]
      obtain ⟨a, b⟩ := ih (n / 2) (by omega) (by omega)
      rw [pow_succ, pow_succ]
      constructor <;> omega

theorem floorLog2_one (n : Nat) (h : 1 ≤ n) :
    floorLog2 n 1 = Int.ofNat (log2Loop n n) := by
  obtain ⟨a, _⟩ := log2Loop_bounds n n h (Nat.le_refl _)
  unfold floorLog2
  have h1 : log2Loop 1 1 = 0 := by decide
  simp only [h1]
  have e0 : (Int.ofNat (log2Loop n n) - Int.ofNat 0 : Int) = Int.ofNat (log2Loop n n) := by
    simp
  rw [e0]
  have hnn : (0 : Int) ≤ Int.ofNat (log2Loop n n) := Int.ofNat_nonneg _
  have ht : (Int.ofNat (log2Loop n n)).toNat = log2Loop n n := rfl
  simp only [hnn, if_true, ht, Nat.one_mul, a]

theorem roundHalfEven_one (n : Nat) : roundHalfEven n 1 = n := by
  unfold roundHalfEven
  simp [Nat.mod_one]

theorem roundHalfEven_ge (n d : Nat) : n / d ≤ roundHalfEven n d := by
  unfold roundHalfEven
  split_ifs <;> omega

/-- A natural number below 2^53 is a `double`: the rounding keeps it. -/
theorem roundToDouble_exact (neg : Bool) (n : Nat) (h : n < 2 ^ 53) :
    (roundToDouble neg n 1).trunc = (if neg then -Int.ofNat n else Int.ofNat n) ∧
    (roundToDouble neg n 1).isIntegral = true ∧ (roundToDouble neg n 1).isFinite = true := by
  unfold roundToDouble
  by_cases h0 : n = 0
  · subst h0
    cases neg <;> decide
  · rw [if_neg h0, floorLog2_one n (by omega)]
    obtain ⟨a, b⟩ := log2Loop_bounds n n (by omega) (Nat.le_refl _)
    generalize log2Loop n n = e at a b
    have he : e ≤ 52 := by
      by_contra hc
      have : 2 ^ 53 ≤ 2 ^ e := Nat.pow_le_pow_right (by decide) (by omega)
      omega
    have hcast : (Int.ofNat e : Int) = (e : Int) := rfl
    have h1 : ¬ ((Int.ofNat e : Int) < -1022) := by omega
    simp only [if_neg h1]
    by_cases hq : (Int.ofNat e : Int) - 52 < 0
    · have hk : (-((Int.ofNat e : Int) - 52)).toNat = 52 - e := by
        have : (Int.ofNat e : Int) = (e : Int) := rfl
        omega
      have hnot : ¬ ((Int.ofNat e : Int) - 52 > 971 ∨ ((Int.ofNat e : Int) - 52 = 971 ∧
          roundHalfEven (n * 2 ^ (52 - e)) 1 ≥ 2 ^ 53)) := by
        have : (Int.ofNat e : Int) = (e : Int) := rfl
        omega
      rw [if_pos hq, hk, if_neg hnot, roundHalfEven_one]
      have hneg : ¬ (0 ≤ (Int.ofNat e : Int) - 52) := by omega
      refine ⟨?_, ?_, rfl⟩
      · unfold Double.trunc
        simp only [if_neg hneg, hk]
        rw [Nat.mul_div_cancel _ (Nat.pos_pow_of_pos _ (by decide))]
      · unfold Double.isIntegral
        simp only [hk, Nat.mul_mod_left, beq_self_eq_true, Bool.or_true]
    · have he52 : e = 52 := by
        have : (Int.ofNat e : Int) = (e : Int) := rfl
        omega
      subst he52
      rw [if_neg hq]
      have hz : ((Int.ofNat 52 : Int) - 52).toNat = 0 := by decide
      have hnot : ¬ ((Int.ofNat 52 : Int) - 52 > 971 ∨ ((Int.ofNat 52 : Int) - 52 = 971 ∧
          roundHalfEven n (1 * 2 ^ ((Int.ofNat 52 : Int) - 52).toNat) ≥ 2 ^ 53)) := by
        rintro (h | ⟨h, _⟩)
        · exact absurd h (by decide)
        · exact absurd h (by decide)
      rw [if_neg hnot, hz]
      simp only [pow_zero, Nat.mul_one, roundHalfEven_one]
      refine ⟨?_, ?_, rfl⟩
      · unfold Double.trunc
        have : (0 : Int) ≤ (Int.ofNat 52 : Int) - 52 := by decide
        simp only [if_pos this, hz, pow_zero, Nat.mul_one]
      · unfold Double.isIntegral
        have : (0 : Int) ≤ (Int.ofNat 52 : Int) - 52 := by decide
        simp only [this, decide_True, Bool.true_or]

/-- A natural number from 2^53 on rounds to a `double` outside the range of `int`, for which
`num != (int)num` holds. -/
theorem roundToDouble_big (neg : Bool) (n : Nat) (h : 2 ^ 53 ≤ n) :
    (roundToDouble neg n 1).neToInt = true := by
  unfold roundToDouble
  have h0 : n ≠ 0 := by
    intro h0
    subst h0
    exact absurd h (by decide)
  rw [if_neg h0, floorLog2_one n (by omega)]
  obtain ⟨a, b⟩ := log2Loop_bounds n n (by omega) (Nat.le_refl _)
  generalize log2Loop n n = e at a b
  have he : 53 ≤ e := by
    by_contra hc
    have : 2 ^ (e + 1) ≤ 2 ^ 53 := Nat.pow_le_pow_right (by decide) (by omega)
    omega
  have hcast : (Int.ofNat e : Int) = (e : Int) := rfl
  have h1 : ¬ ((Int.ofNat e : Int) < -1022) := by omega
  have hq : ¬ ((Int.ofNat e : Int) - 52 < 0) := by omega
  have hk : ((Int.ofNat e : Int) - 52).toNat = e - 52 := by omega
  simp only [if_neg h1, if_neg hq, hk, Nat.one_mul]
  split_ifs with hinf
  · rfl
  · have hm : 2 ^ 52 ≤ roundHalfEven n (2 ^ (e - 52)) := by
      refine Nat.le_trans ?_ (roundHalfEven_ge _ _)
      rw [Nat.le_div_iff_mul_le (Nat.pos_pow_of_pos _ (by decide)), ← pow_add]
      have : 52 + (e - 52) = e := by omega
      rw [this]
      exact a
    generalize roundHalfEven n (2 ^ (e - 52)) = m at hm
    have hbig : 2 ^ 53 ≤ m * 2 ^ (e - 52) := by
      have h2 : 2 ^ 1 ≤ 2 ^ (e - 52) := Nat.pow_le_pow_right (by decide) (by omega)
      calc 2 ^ 53 = 2 ^ 52 * 2 ^ 1 := by decide
        _ ≤ m * 2 ^ (e - 52) := Nat.mul_le_mul hm h2
    generalize hv : m * 2 ^ (e - 52) = v at hbig
    have hpos : (0 : Int) ≤ (Int.ofNat e : Int) - 52 := by omega
    have ht : (Double.finite neg m ((Int.ofNat e : Int) - 52)).trunc =
        if neg then -Int.ofNat v else Int.ofNat v := by
      unfold Double.trunc
      simp only [if_pos hpos, hk, hv]
    have hto : (Double.finite neg m ((Int.ofNat e : Int) - 52)).toInt = -2147483648 := by
      unfold Double.toInt
      rw [ht]
      have hvc : (Int.ofNat v : Int) = (v : Int) := rfl
      have hb : (2 : Nat) ^ 53 = 9007199254740992 := by decide
      rw [if_neg]
      rintro ⟨_, h3, h4⟩
      cases neg
      · simp only [Bool.false_eq_true, if_false] at h4; omega
      · simp only [if_true] at h3; omega
    unfold Double.neToInt
    rw [hto, ht]
    have hvc : (Int.ofNat v : Int) = (v : Int) := rfl
    have hb : (2 : Nat) ^ 53 = 9007199254740992 := by decide
    have hne : (if neg = true then -Int.ofNat v else Int.ofNat v) ≠ -2147483648 := by
      cases neg
      · simp only [Bool.false_eq_true, if_false]; omega
      · simp only [if_true]; omega
    simp only [beq_eq_false_iff_ne.mpr hne, Bool.and_false, Bool.not_false]

/-! ### The subject sequence of an integer literal -/

theorem tolower_digit (d : Char) (hd : isdigit d = true) : tolower d = d := by
  simp only [isdigit, Bool.and_eq_true, decide_eq_true_eq] at hd
  unfold tolower
  rw [if_neg (by omega)]

theorem startsWithWord_digit (c : Char) (cs : List Char) (d : Char) (l : List Char)
    (hd : isdigit d = true) (hc : isdigit c = false) :
    startsWithWord (String.mk (c :: cs)) (d :: l) = false := by
  unfold startsWithWord
  have hlen : (String.mk (c :: cs)).length = cs.length + 1 := rfl
  have hne : d ≠ c := by
    rintro rfl
    rw [hd] at hc
    exact Bool.noConfusion hc
  rw [hlen, List.take_succ_cons, List.map_cons, tolower_digit d hd]
  show ((d :: _) == (c :: cs)) = false
  rw [List.cons_beq_cons, beq_eq_false_iff_ne.mpr hne, Bool.false_and]

/-- What `strtod` reads behind the sign of an integer literal followed by white space: the
`double` nearest to the number the digits denote. -/
theorem strtodMagnitude_digits (neg : Bool) (ds post : List Char) (hne : ds ≠ [])
    (hds : ∀ c ∈ ds, isdigit c = true) (hpost : ∀ c ∈ post, isspace c = true) :
    strtodMagnitude neg (ds ++ post) = roundToDouble neg (decimalValue ds) 1 := by
  have hrd := readDecimal_digits ds post hne hds hpost
  obtain ⟨d, rest, rfl⟩ := List.exists_cons_of_ne_nil hne
  have hd := hds d (List.mem_cons_self _ _)
  have h1 : startsWithWord "inf" (d :: rest ++ post) = false :=
    startsWithWord_digit 'i' ['n', 'f'] d (rest ++ post) hd (by decide)
  have h2 : startsWithWord "nan" (d :: rest ++ post) = false :=
    startsWithWord_digit 'n' ['a', 'n'] d (rest ++ post) hd (by decide)
  have h3 : ¬ ((d :: rest ++ post).head? = some '0' ∧
      ((d :: rest ++ post).tail.head? = some 'x' ∨
        (d :: rest ++ post).tail.head? = some 'X')) := by
    have hmem : ∀ c, (rest ++ post).head? = some c → isdigit c = true ∨ isspace c = true := by
      intro c hc
      have hin : c ∈ rest ++ post := List.mem_of_mem_head? hc
      rcases List.mem_append.mp hin with h | h
      · exact Or.inl (hds c (List.mem_cons_of_mem _ h))
      · exact Or.inr (hpost c h)
    rintro ⟨_, h | h⟩
    · rcases hmem _ h with h | h <;> exact absurd h (by decide)
    · rcases hmem _ h with h | h <;> exact absurd h (by decide)
  unfold strtodMagnitude
  rw [h1, h2, if_neg h3, hrd]
  simp only [Bool.false_eq_true, if_false]
  unfold scaledDouble
  simp only [le_refl, if_true, Int.toNat_zero, pow_zero, Nat.mul_one]

/-- What `atof` makes of an integer literal followed by white space. -/
theorem atof_integerLiteral (negative : Bool) (ds post : List Char) (hne : ds ≠ [])
    (hds : ∀ c ∈ ds, isdigit c = true) (hpost : ∀ c ∈ post, isspace c = true) :
    atof (integerLiteral negative ds ++ post) = roundToDouble negative (decimalValue ds) 1 := by
  have hmag := fun neg => strtodMagnitude_digits neg ds post hne hds hpost
  obtain ⟨d, rest, rfl⟩ := List.exists_cons_of_ne_nil hne
  have hd := hds d (List.mem_cons_self _ _)
  have hdsp := isdigit_not_isspace d hd
  cases negative with
  | true =>
    have hdrop : (integerLiteral true (d :: rest) ++ post).dropWhile isspace =
        '-' :: (d :: rest ++ post) := by
      simp only [integerLiteral, if_true, List.cons_append, List.nil_append]
      rw [List.dropWhile_cons_of_neg (by decide)]
    unfold atof
    rw [hdrop]
    simp only []
    exact hmag true
  | false =>
    have hdrop : (integerLiteral false (d :: rest) ++ post).dropWhile isspace =
        d :: (rest ++ post) := by
      simp only [integerLiteral, Bool.false_eq_true, if_false, List.nil_append,
        List.cons_append]
      rw [List.dropWhile_cons_of_neg (by rw [hdsp]; decide)]
    have hm : d ≠ '-' := by rintro rfl; exact absurd hd (by decide)
    have hp : d ≠ '+' := by rintro rfl; exact absurd hd (by decide)
    unfold atof
    rw [hdrop]
    split
    · rename_i r heq
      exact absurd (List.head_eq_of_cons_eq heq) hm
    · rename_i r heq
      exact absurd (List.head_eq_of_cons_eq heq) hp
    · exact hmag false
/-! ## A `.data` tail that holds one integer literal -/

theorem strrchr_no_comma : ∀ (l : List Char), (∀ c ∈ l, c ≠ ',') → strrchr l ',' = none := by
  intro l
  induction l with
  | nil => intro _; rfl
  | cons c cs ih =>
    intro h
    simp only [strrchr, ih (fun x hx => h x (List.mem_cons_of_mem _ hx)),
      if_neg (h c (List.mem_cons_self _ _))]

theorem consecutiveCommas_no_comma :
    ∀ (l : List Char) (j : Nat), (∀ c ∈ l, c ≠ ',') → j ≤ 1 →
      consecutiveCommas l j = false := by
  intro l
  induction l with
  | nil => intro j _ _; rfl
  | cons c cs ih =>
    intro j h hj
    have hc := h c (List.mem_cons_self _ _)
    have hrest := fun x hx => h x (List.mem_cons_of_mem _ hx)
    unfold consecutiveCommas
    simp only [if_neg hc]
    by_cases hs : (!isspace c) = true
    · rw [if_pos hs, if_neg (by omega)]
      exact ih 0 hrest (by omega)
    · rw [if_neg hs, if_neg (by omega)]
      exact ih j hrest hj

theorem strtokTokens_no_comma :
    ∀ (l cur : List Char), (∀ c ∈ l, c ≠ ',') → cur.reverse ++ l ≠ [] →
      strtokTokens l cur = [cur.reverse ++ l] := by
  intro l
  induction l with
  | nil =>
    intro cur _ hne
    have hcur : cur ≠ [] := by
      intro he
      apply hne
      rw [he]
      rfl
    simp only [strtokTokens, if_neg hcur, List.append_nil]
  | cons c cs ih =>
    intro cur h _
    unfold strtokTokens
    rw [if_neg (h c (List.mem_cons_self _ _))]
    rw [ih (c :: cur) (fun x hx => h x (List.mem_cons_of_mem _ hx)) (by simp)]
    simp

theorem integerLiteral_no_comma (negative : Bool) (ds post : List Char)
    (hds : ∀ c ∈ ds, isdigit c = true) (hpost : ∀ c ∈ post, isspace c = true) :
    ∀ c ∈ integerLiteral negative ds ++ post, c ≠ ',' := by
  intro c hc
  unfold integerLiteral at hc
  rcases List.mem_append.mp hc with h1 | h3
  · rcases List.mem_append.mp h1 with h1 | h2
    · cases negative with
      | true =>
        simp only [if_true, List.mem_singleton] at h1
        rw [h1]
        decide
      | false => simp at h1
    · exact isdigit_ne_comma c (hds c h2)
  · exact isspace_ne_comma c (hpost c h3)

theorem integerLiteral_head (negative : Bool) (ds post : List Char) (hne : ds ≠ [])
    (hds : ∀ c ∈ ds, isdigit c = true) :
    ∃ c rest, integerLiteral negative ds ++ post = c :: rest ∧ isspace c = false := by
  obtain ⟨d, rest, rfl⟩ := List.exists_cons_of_ne_nil hne
  cases negative with
  | true => exact ⟨'-', d :: rest ++ post, rfl, by decide⟩
  | false =>
    exact ⟨d, rest ++ post, rfl, isdigit_not_isspace d (hds d (List.mem_cons_self _ _))⟩

/-- On a tail that holds one integer literal between white space `readNumbers` runs its
loop on the single token that starts at the literal. -/
theorem readNumbers_single (negative : Bool) (pre ds post : List Char) (hne : ds ≠ [])
    (hpre : ∀ c ∈ pre, isspace c = true) (hds : ∀ c ∈ ds, isdigit c = true)
    (hpost : ∀ c ∈ post, isspace c = true) :
    readNumbers (pre ++ (integerLiteral negative ds ++ post)) "" =
      match readNumbersLoop [integerLiteral negative ds ++ post] [] with
      | Except.ok l => (l, "")
      | Except.error e => ([], e) := by
  obtain ⟨c, rest, hlit, hc⟩ := integerLiteral_head negative ds post hne hds
  have hnc := integerLiteral_no_comma negative ds post hds hpost
  have hskip : skipWhiteChar (pre ++ (integerLiteral negative ds ++ post)) =
      integerLiteral negative ds ++ post := by
    unfold skipWhiteChar
    rw [List.dropWhile_append_of_pos hpre, hlit, List.dropWhile_cons_of_neg (by rw [hc]; decide)]
  have hcheck : dataLineCheck (pre ++ (integerLiteral negative ds ++ post)) "" =
      (true, integerLiteral negative ds ++ post, "") := by
    unfold dataLineCheck
    simp only []
    rw [hskip, strrchr_no_comma _ hnc, consecutiveCommas_no_comma _ 0 hnc (by omega)]
    have h1 : ¬ (integerLiteral negative ds ++ post = []) := by rw [hlit]; exact List.cons_ne_nil _ _
    have h2 : ¬ ((integerLiteral negative ds ++ post).head? = some ',') := by
      rw [hlit]
      intro h
      have : c = ',' := by simpa using h
      exact hnc c (by rw [hlit]; exact List.mem_cons_self _ _) this
    simp only [if_neg h1, if_neg h2, Bool.false_eq_true, if_false]
  have htok : strtokTokens (integerLiteral negative ds ++ post) [] =
      [integerLiteral negative ds ++ post] := by
    rw [strtokTokens_no_comma _ [] hnc (by rw [hlit]; exact List.cons_ne_nil _ _)]
    rfl
  unfold readNumbers
  simp only []
  rw [hcheck]
  simp only [Bool.not_true, Bool.false_eq_true, if_false, htok]
  try rfl

/-- The `double` of an integer literal inside the range of `int` converts to the number the
literal denotes and equals its conversion. -/
theorem integerLiteral_toInt (negative : Bool) (ds : List Char)
    (h : -2147483648 ≤ integerValue negative ds ∧ integerValue negative ds ≤ 2147483647) :
    (roundToDouble negative (decimalValue ds) 1).trunc = integerValue negative ds ∧
    (roundToDouble negative (decimalValue ds) 1).toInt = integerValue negative ds ∧
    (roundToDouble negative (decimalValue ds) 1).neToInt = false := by
  have hsmall : decimalValue ds < 2 ^ 53 := by
    have hb : (2 : Nat) ^ 53 = 9007199254740992 := by decide
    have hc : (Int.ofNat (decimalValue ds) : Int) = (decimalValue ds : Int) := rfl
    unfold integerValue at h
    cases negative
    · simp only [Bool.false_eq_true, if_false] at h; omega
    · simp only [if_true] at h; omega
  obtain ⟨ht, hi, hf⟩ := roundToDouble_exact negative (decimalValue ds) hsmall
  have ht2 : (roundToDouble negative (decimalValue ds) 1).trunc = integerValue negative ds := by
    rw [ht]
    rfl
  have e1 : (roundToDouble negative (decimalValue ds) 1).toInt = integerValue negative ds := by
    unfold Double.toInt
    rw [ht2, hf, if_pos ⟨rfl, h⟩]
  refine ⟨ht2, e1, ?_⟩
  unfold Double.neToInt
  rw [hi, ht2, e1]
  simp

/-- The `double` of an integer literal outside the range of `int` differs from its
conversion. -/
theorem integerLiteral_neToInt (negative : Bool) (ds : List Char)
    (h : ¬ (-2147483648 ≤ integerValue negative ds ∧ integerValue negative ds ≤ 2147483647)) :
    (roundToDouble negative (decimalValue ds) 1).neToInt = true := by
  by_cases hsmall : decimalValue ds < 2 ^ 53
  · obtain ⟨ht, hi, hf⟩ := roundToDouble_exact negative (decimalValue ds) hsmall
    have ht2 : (roundToDouble negative (decimalValue ds) 1).trunc =
        integerValue negative ds := by
      rw [ht]
      rfl
    have hne : integerValue negative ds ≠ -2147483648 := by
      intro he
      apply h
      rw [he]
      decide
    unfold Double.neToInt Double.toInt
    rw [hi, ht2, hf]
    have hnot : ¬ (true = true ∧ -2147483648 ≤ integerValue negative ds ∧
        integerValue negative ds ≤ 2147483647) := fun hc => h hc.2
    rw [if_neg hnot]
    simp only [beq_eq_false_iff_ne.mpr hne, Bool.and_false, Bool.not_false]
  · exact roundToDouble_big negative (decimalValue ds) (by omega)

/-- The loop of `readNumbers` on one integer literal with the value `v`: accepted with the
word `v mod 2^15` inside -16384..16383, the range message outside of it when `v` fits an
`int`, the other message beyond. -/
theorem readNumbersLoop_integerLiteral (negative : Bool) (ds post : List Char) (hne : ds ≠ [])
    (hds : ∀ c ∈ ds, isdigit c = true) (hpost : ∀ c ∈ post, isspace c = true) :
    ((-16384 ≤ integerValue negative ds ∧ integerValue negative ds ≤ 16383) →
      readNumbersLoop [integerLiteral negative ds ++ post] [] =
        Except.ok [integerValue negative ds % 32768]) ∧
    (¬ (-16384 ≤ integerValue negative ds ∧ integerValue negative ds ≤ 16383) →
      (-2147483648 ≤ integerValue negative ds ∧ integerValue negative ds ≤ 2147483647) →
      readNumbersLoop [integerLiteral negative ds ++ post] [] = Except.error
        "Invalid data instruction, a number that is too large or too small was detected.") ∧
    (¬ (-2147483648 ≤ integerValue negative ds ∧ integerValue negative ds ≤ 2147483647) →
      readNumbersLoop [integerLiteral negative ds ++ post] [] = Except.error
        "Invalid data instruction, a non-integer number was detected.") := by
  have ha := atof_integerLiteral negative ds post hne hds hpost
  have hloop : readNumbersLoop [integerLiteral negative ds ++ post] [] =
      if (roundToDouble negative (decimalValue ds) 1).neToInt then
        Except.error "Invalid data instruction, a non-integer number was detected."
      else if !checkBitException (roundToDouble negative (decimalValue ds) 1).toInt
          (BITS_NUM - 1) then
        Except.error
          "Invalid data instruction, a number that is too large or too small was detected."
      else Except.ok [insertBinaryValueByData
        (toShort (roundToDouble negative (decimalValue ds) 1).trunc) 0 0] := by
    simp only [readNumbersLoop, ha, List.nil_append]
  refine ⟨fun hin => ?_, fun hout hint => ?_, fun hbig => ?_⟩
  · obtain ⟨ht, e1, e2⟩ := integerLiteral_toInt negative ds ⟨by omega, by omega⟩
    rw [hloop, e2, e1, ht, insertBinaryValueByData_zero,
      (checkBitException_data _).mpr hin]
    rfl
  · obtain ⟨ht, e1, e2⟩ := integerLiteral_toInt negative ds hint
    have hcb : checkBitException (integerValue negative ds) (BITS_NUM - 1) = false := by
      cases hc : checkBitException (integerValue negative ds) (BITS_NUM - 1) with
      | false => rfl
      | true => exact absurd ((checkBitException_data _).mp hc) hout
    rw [hloop, e2, e1, hcb]
    rfl
  · rw [hloop, integerLiteral_neToInt negative ds hbig]
    rfl
/-! ## String lines -/

theorem strchr_quote (body post : List Char) (hbody : ∀ c ∈ body, c ≠ '"') :
    strchr (body ++ '"' :: post) '"' = some ('"' :: post) := by
  induction body with
  | nil => simp [strchr]
  | cons b bs ih =>
    simp only [List.cons_append, strchr, if_neg (hbody b (List.mem_cons_self _ _))]
    exact ih (fun c hc => hbody c (List.mem_cons_of_mem _ hc))

theorem strchr_none : ∀ (l : List Char) (q : Char), strchr l q = none ↔ ∀ c ∈ l, c ≠ q := by
  intro l q
  induction l with
  | nil => simp [strchr]
  | cons x xs ih =>
    by_cases hx : x = q
    · simp [strchr, hx]
    · rw [strchr, if_neg hx, ih]
      constructor
      · intro h c hc
        rcases List.mem_cons.mp hc with rfl | hin
        · exact hx
        · exact h c hin
      · intro h c hc
        exact h c (List.mem_cons_of_mem _ hc)

theorem readStringLoop_body (body post : List Char)
    (hbody : ∀ c ∈ body, c ≠ '"' ∧ isprint c = true) :
    readStringLoop (body ++ '"' :: post) = some (body.map fun c => Int.ofNat c.toNat) := by
  induction body with
  | nil => simp [readStringLoop]
  | cons b bs ih =>
    obtain ⟨h1, h2⟩ := hbody b (List.mem_cons_self _ _)
    have hi := ih (fun c hc => hbody c (List.mem_cons_of_mem _ hc))
    rw [List.cons_append, readStringLoop, if_neg h1, h2, hi]
    rfl

theorem readStringLoop_unprintable (body post : List Char)
    (hbody : ∀ c ∈ body, c ≠ '"') (hbad : ∃ c ∈ body, isprint c = false) :
    readStringLoop (body ++ '"' :: post) = none := by
  induction body with
  | nil =>
    obtain ⟨c, hc, _⟩ := hbad
    simp at hc
  | cons b bs ih =>
    have h1 := hbody b (List.mem_cons_self _ _)
    rw [List.cons_append, readStringLoop, if_neg h1]
    by_cases hb : isprint b = true
    · obtain ⟨c, hc, hcp⟩ := hbad
      rcases List.mem_cons.mp hc with rfl | hin
      · rw [hb] at hcp
        exact Bool.noConfusion hcp
      · rw [hb, ih (fun x hx => hbody x (List.mem_cons_of_mem _ hx)) ⟨c, hin, hcp⟩]
        rfl
    · simp only [Bool.not_eq_true] at hb
      rw [hb]
      rfl

theorem skipWhiteChar_quote (pre rest : List Char) (hpre : ∀ c ∈ pre, isspace c = true) :
    skipWhiteChar (pre ++ '"' :: rest) = '"' :: rest := by
  unfold skipWhiteChar
  rw [List.dropWhile_append_of_pos hpre, List.dropWhile_cons_of_neg (by decide)]

theorem stringLineCheck_quoted (body post : List Char) (e : String)
    (hbody : ∀ c ∈ body, c ≠ '"') :
    stringLineCheck ('"' :: (body ++ '"' :: post)) e =
      if !isWhiteSpaceString post then
        (false, "Invalid string instruction, characters were detected after the second quotation mark.")
      else (true, e) := by
  simp only [stringLineCheck, strchr_quote body post hbody, List.tail_cons]
theorem isWhiteSpaceString_of_all (post : List Char) (h : ∀ c ∈ post, isspace c = true) :
    isWhiteSpaceString post = true := by
  unfold isWhiteSpaceString
  exact List.all_eq_true.mpr h

theorem readString_accepted (pre body post : List Char) (e : String)
    (hpre : ∀ c ∈ pre, isspace c = true)
    (hbody : ∀ c ∈ body, c ≠ '"' ∧ isprint c = true)
    (hpost : ∀ c ∈ post, isspace c = true) :
    readString (pre ++ '"' :: (body ++ '"' :: post)) e =
      ((body.map fun c => Int.ofNat c.toNat) ++ [0], e) := by
  unfold readString
  simp only []
  rw [skipWhiteChar_quote pre _ hpre, stringLineCheck_quoted body post e (fun c hc => (hbody c hc).1),
    isWhiteSpaceString_of_all post hpost]
  simp only [Bool.not_true, Bool.false_eq_true, if_false, List.tail_cons,
    readStringLoop_body body post hbody]

theorem readString_no_quote (tail : List Char) (e : String)
    (h : (skipWhiteChar tail).head? ≠ some '"') :
    readString tail e = ([],
      "Invalid string instruction, a character was detected before the first quotation mark.") := by
  unfold readString
  simp only []
  have hc : stringLineCheck (skipWhiteChar tail) e = (false,
      "Invalid string instruction, a character was detected before the first quotation mark.") := by
    unfold stringLineCheck
    split
    · rename_i tail1 heq
      rw [heq] at h
      exact absurd rfl h
    · rfl
  rw [hc]
  rfl

theorem readString_no_closing (tail rest : List Char) (e : String)
    (h : skipWhiteChar tail = '"' :: rest) (hrest : ∀ c ∈ rest, c ≠ '"') :
    readString tail e = ([],
      "Invalid string instruction, no closing quotation marks were detected.") := by
  unfold readString
  simp only []
  rw [h]
  simp only [stringLineCheck, (strchr_none rest '"').mpr hrest]
  rfl

theorem readString_trailing (tail body post : List Char) (e : String)
    (h : skipWhiteChar tail = '"' :: (body ++ '"' :: post)) (hbody : ∀ c ∈ body, c ≠ '"')
    (hpost : isWhiteSpaceString post = false) :
    readString tail e = ([],
      "Invalid string instruction, characters were detected after the second quotation mark.") := by
  unfold readString
  simp only []
  rw [h, stringLineCheck_quoted body post e hbody, hpost]
  rfl

theorem readString_unprintable (tail body post : List Char) (e : String)
    (h : skipWhiteChar tail = '"' :: (body ++ '"' :: post)) (hbody : ∀ c ∈ body, c ≠ '"')
    (hpost : isWhiteSpaceString post = true) (hbad : ∃ c ∈ body, isprint c = false) :
    readString tail e = ([],
      "Invalid string instruction, a non-printable character was detected.") := by
  unfold readString
  simp only []
  rw [h, stringLineCheck_quoted body post e hbody, hpost]
  simp only [Bool.not_true, Bool.false_eq_true, if_false, List.tail_cons,
    readStringLoop_unprintable body post hbody hbad]

/-- What `readNewData` does with what `readString` hands over. -/
theorem readNewData_string (st : dataState) (line : List Char) :
    readNewData st STRING line =
      if (readString (skipWord line) st.error_str).1.length = 0 then
        if !st.data_list.isEmpty then
          some { st with error_str := (readString (skipWord line) st.error_str).2 }
        else none
      else
        some ⟨(creatDataNodes (readString (skipWord line) st.error_str).1 st.dc
            st.data_list).1,
          (creatDataNodes (readString (skipWord line) st.error_str).1 st.dc st.data_list).2,
          (readString (skipWord line) st.error_str).2⟩ := by
  have hsd : ¬ (STRING = DATA) := by decide
  unfold readNewData
  simp only [hsd, ne_eq, not_true_eq_false, and_false, if_false]

theorem readNewData_string_rejected (st st' : dataState) (line : List Char)
    (hr : (readString (skipWord line) st.error_str).1 = [])
    (h : readNewData st STRING line = some st') :
    st'.dc = st.dc ∧ st'.data_list = st.data_list := by
  rw [readNewData_string, hr] at h
  simp only [List.length_nil, if_true] at h
  split_ifs at h
  cases h
  exact ⟨rfl, rfl⟩
/-! ## `isEntriesDefined` -/

theorem findDefinition_find (label : List Char) :
    ∀ l : List declarationNode,
      findDefinition label l = l.find? fun x => decide (label = x.label ∧ x.type ≠ ENTRY) := by
  intro l
  induction l with
  | nil => rfl
  | cons d rest ih =>
    unfold findDefinition
    by_cases hc : label = d.label ∧ d.type ≠ ENTRY
    · rw [if_pos hc, List.find?_cons_of_pos _ (by simpa using hc)]
    · rw [if_neg hc, List.find?_cons_of_neg _ (by simpa using hc)]
      exact ih

theorem findDefinition_none (label : List Char) (l : List declarationNode) :
    findDefinition label l = none ↔ ¬ ∃ d ∈ l, d.label = label ∧ d.type ≠ ENTRY := by
  constructor
  · intro h hex
    obtain ⟨t, ht⟩ := findDefinition_exists label l hex
    rw [h] at ht
    exact Option.noConfusion ht
  · intro h
    cases hf : findDefinition label l with
    | none => rfl
    | some t =>
      obtain ⟨h1, h2, h3⟩ := findDefinition_some label l t hf
      exact absurd ⟨t, h1, h2, h3⟩ h

/-- The diagnostics of the outer loop of `isEntriesDefined`: one for every entry without a
definition, in list order, with the value the entry holds (its line number). -/
theorem entriesLoop_errors (all : List declarationNode) :
    ∀ l : List declarationNode, (entriesLoop all l).2 =
      (l.filter fun e => decide (e.type = ENTRY) && (findDefinition e.label all).isNone).map
        fun e => (e.decimal_address,
          "No definition was found for the entry: " ++ String.mk e.label) := by
  intro l
  induction l with
  | nil => rfl
  | cons d rest ih =>
    by_cases h : d.type = ENTRY
    · cases hf : findDefinition d.label all with
      | none =>
        simp only [entriesLoop, if_pos h, hf, ih]
        rw [List.filter_cons_of_pos (by simp [h, hf])]
        rfl
      | some t =>
        simp only [entriesLoop, if_pos h, hf, ih]
        rw [List.filter_cons_of_neg (by simp [hf])]
    · simp only [entriesLoop, if_neg h, ih]
      rw [List.filter_cons_of_neg (by simp [h])]

/-- The diagnostics of `isEntriesDefined`, with the definition looked up by `List.find?`. -/
theorem isEntriesDefined_errors (decls : List declarationNode) :
    (isEntriesDefined decls).2.2 =
      (decls.filter fun e => decide (e.type = ENTRY) &&
        (decls.find? fun x => decide (e.label = x.label ∧ x.type ≠ ENTRY)).isNone).map
        (fun e => (e.decimal_address,
          "No definition was found for the entry: " ++ String.mk e.label)) := by
  have h := entriesLoop_errors decls decls
  simp only [findDefinition_find] at h
  exact h

/-- The value `isEntriesDefined` returns: TRUE exactly when every entry has a declaration
of its name that is not an entry. -/
theorem isEntriesDefined_flag (decls : List declarationNode) :
    (isEntriesDefined decls).1 = true ↔
      ∀ e ∈ decls, e.type = ENTRY → ∃ d ∈ decls, d.label = e.label ∧ d.type ≠ ENTRY := by
  have hflag : (isEntriesDefined decls).1 = (isEntriesDefined decls).2.2.isEmpty := rfl
  rw [hflag, isEntriesDefined_errors, List.isEmpty_iff, List.map_eq_nil_iff,
    List.filter_eq_nil_iff]
  constructor
  · intro h e he hen
    have hn := h e he
    rw [← findDefinition_find] at hn
    by_contra hno
    apply hn
    rw [(findDefinition_none e.label decls).mpr hno]
    simp [hen]
  · intro h e he hc
    simp only [Bool.and_eq_true, decide_eq_true_eq, Option.isNone_iff_eq_none] at hc
    rw [← findDefinition_find] at hc
    exact (findDefinition_none e.label decls).mp hc.2 (h e he hc.1)
/-! ## The record of entries in `fillingMissingBMCofLabel` -/

theorem noteLength_fst (is_length : Int × Int) (label : List Char) :
    (noteLength is_length label).1 = 1 := rfl

/-- Once the flag of the record of entries is set the search keeps it set. -/
theorem declarationLoop_ent_set (name : List Char) :
    ∀ (l : List declarationNode) (s : lookupState), s.ent_is_length.1 = 1 →
      (declarationLoop name l s).ent_is_length.1 = 1 := by
  intro l
  induction l with
  | nil => intro s h; exact h
  | cons d rest ih =>
    intro s h
    unfold declarationLoop
    split_ifs with hstop hname hext hentry hdsc
    · exact h
    · exact ih _ h
    · exact ih _ rfl
    · exact ih _ h
    · exact ih _ h
    · exact ih _ h

/-- The search changes the record of entries only by setting its flag. -/
theorem declarationLoop_ent_kept (name : List Char) :
    ∀ (l : List declarationNode) (s : lookupState),
      (declarationLoop name l s).ent_is_length = s.ent_is_length ∨
      (declarationLoop name l s).ent_is_length.1 = 1 := by
  intro l
  induction l with
  | nil => intro s; exact Or.inl rfl
  | cons d rest ih =>
    intro s
    unfold declarationLoop
    split_ifs with hstop hname hext hentry hdsc
    · exact Or.inl rfl
    · exact ih _
    · exact Or.inr (declarationLoop_ent_set name rest _ rfl)
    · exact ih _
    · exact ih _
    · exact ih _

/-- Without an Entry declaration of the name the search leaves the record of entries
alone. -/
theorem declarationLoop_no_entry (name : List Char) :
    ∀ (l : List declarationNode) (s : lookupState),
      (∀ x ∈ l, x.label = name → x.type ≠ ENTRY) →
      (declarationLoop name l s).ent_is_length = s.ent_is_length := by
  intro l
  induction l with
  | nil => intro s _; rfl
  | cons d rest ih =>
    intro s hall
    have hrest : ∀ x ∈ rest, x.label = name → x.type ≠ ENTRY :=
      fun x hx => hall x (List.mem_cons_of_mem _ hx)
    unfold declarationLoop
    split_ifs with hstop hname hext hentry hdsc
    · rfl
    · exact ih _ hrest
    · exact absurd hentry.2 (hall d (List.mem_cons_self _ _) hname.symm)
    · exact ih _ hrest
    · exact ih _ hrest
    · exact ih _ hrest

/-- With an Entry declaration of the name and no Extern declaration of it, the search sets
the flag of the record of entries. -/
theorem declarationLoop_entry (name : List Char) :
    ∀ (l : List declarationNode) (s : lookupState),
      (∀ x ∈ l, x.label = name → x.type ≠ EXTERN) →
      (∃ x ∈ l, x.label = name ∧ x.type = ENTRY) →
      s.curr_declared_extern = false → s.curr_declared_entry = false →
      (declarationLoop name l s).ent_is_length.1 = 1 := by
  intro l
  induction l with
  | nil => intro s _ h; obtain ⟨x, hx, _⟩ := h; simp at hx
  | cons d rest ih =>
    intro s hall hex he hen
    have hrest : ∀ x ∈ rest, x.label = name → x.type ≠ EXTERN :=
      fun x hx => hall x (List.mem_cons_of_mem _ hx)
    have hexrest : ¬ (name = d.label ∧ d.type = ENTRY) →
        ∃ x ∈ rest, x.label = name ∧ x.type = ENTRY := by
      intro hno
      obtain ⟨x, hx, hl, ht⟩ := hex
      rcases List.mem_cons.mp hx with heq | hin
      · subst heq
        exact absurd ⟨hl.symm, ht⟩ hno
      · exact ⟨x, hin, hl, ht⟩
    unfold declarationLoop
    rw [if_neg (by simp [he, hen])]
    by_cases hname : name = d.label
    · rw [if_pos hname, if_neg (hall d (List.mem_cons_self _ _) hname.symm)]
      by_cases hty : d.type = ENTRY
      · rw [if_pos (by simp [hen, hty])]
        exact declarationLoop_ent_set name rest _ rfl
      · rw [if_neg (by simp [hty])]
        split_ifs
        · exact ih _ hrest (hexrest (fun h => hty h.2)) he hen
        · exact ih _ hrest (hexrest (fun h => hty h.2)) he hen
    · rw [if_neg hname]
      exact ih s hrest (hexrest (fun h => hname h.1)) he hen

theorem isEntryReference_iff (decls : List declarationNode) (n : instructionNode) :
    isEntryReference decls n = true ↔
      n.line ≠ 0 ∧ ∃ label, n.type = wordType.name label ∧
        ∃ d ∈ decls, d.label = label ∧ d.type = ENTRY := by
  unfold isEntryReference
  cases hn : n.type with
  | bmc v => simp
  | name label =>
    simp only [Bool.and_eq_true, bne_iff_ne, ne_eq, List.any_eq_true, decide_eq_true_eq,
      wordType.name.injEq, exists_eq_left']
/-! ## Labels without a declaration -/

/-- The search finds the name exactly when the list holds a declaration of it, and a search
that does not find it leaves the line of the node alone. -/
theorem declarationLoop_found (name : List Char) :
    ∀ (l : List declarationNode) (s : lookupState),
      ((s.curr_declared_extern || (s.curr_declared_entry && s.curr_declared_dsc)) = true →
        s.found_label_name = true) →
      ((declarationLoop name l s).found_label_name = true ↔
        (s.found_label_name = true ∨ ∃ d ∈ l, d.label = name)) ∧
      ((¬ ∃ d ∈ l, d.label = name) → (declarationLoop name l s).line = s.line) := by
  intro l
  induction l with
  | nil =>
    intro s _
    refine ⟨?_, fun _ => rfl⟩
    simp [declarationLoop]
  | cons d rest ih =>
    intro s hinv
    unfold declarationLoop
    by_cases hstop : (s.curr_declared_extern ||
        (s.curr_declared_entry && s.curr_declared_dsc)) = true
    · rw [if_pos hstop]
      refine ⟨?_, fun _ => rfl⟩
      constructor
      · intro h; exact Or.inl h
      · intro _; exact hinv hstop
    · rw [if_neg hstop]
      by_cases hname : name = d.label
      · rw [if_pos hname]
        have hex : ∃ x ∈ d :: rest, x.label = name := ⟨d, List.mem_cons_self _ _, hname.symm⟩
        refine ⟨?_, fun hno => absurd hex hno⟩
        have key : ∀ s1 : lookupState, s1.found_label_name = true →
            (declarationLoop name rest s1).found_label_name = true := by
          intro s1 h1
          exact ((ih s1 (fun _ => h1)).1).mpr (Or.inl h1)
        constructor
        · intro _; exact Or.inr hex
        · intro _
          split_ifs
          · exact key _ rfl
          · exact key _ rfl
          · exact key _ rfl
          · exact key _ rfl
      · rw [if_neg hname]
        obtain ⟨i1, i2⟩ := ih s hinv
        constructor
        · rw [i1]
          constructor
          · rintro (h | ⟨x, hx, hl⟩)
            · exact Or.inl h
            · exact Or.inr ⟨x, List.mem_cons_of_mem _ hx, hl⟩
          · rintro (h | ⟨x, hx, hl⟩)
            · exact Or.inl h
            · rcases List.mem_cons.mp hx with heq | hin
              · subst heq
                exact absurd hl.symm hname
              · exact Or.inr ⟨x, hin, hl⟩
        · intro hno
          apply i2
          rintro ⟨x, hx, hl⟩
          exact hno ⟨x, List.mem_cons_of_mem _ hx, hl⟩

theorem isUndeclaredReference_iff (decls : List declarationNode) (n : instructionNode) :
    isUndeclaredReference decls n = true ↔
      n.line ≠ 0 ∧ ∃ label, n.type = wordType.name label ∧ ∀ d ∈ decls, d.label ≠ label := by
  unfold isUndeclaredReference
  cases hn : n.type with
  | bmc v => simp
  | name label =>
    simp only [Bool.and_eq_true, bne_iff_ne, ne_eq, Bool.not_eq_true', List.any_eq_false,
      decide_eq_true_eq, wordType.name.injEq, exists_eq_left']

/-- One round of the outer loop on a node: the flag `no_error` falls and a diagnostic with
the line of the node is printed exactly when the node is a pending word whose label has no
declaration. -/
theorem fillNode_found (decls : List declarationNode) (n : instructionNode) (s : fillState)
    (r : instructionNode × fillState) (h : fillNode decls n s = some r) :
    (isUndeclaredReference decls n = true →
      r.2.no_error = false ∧
      r.2.errors = s.errors ++ [(toShort (Int.ofNat n.line),
        "The label: " ++ String.mk (labelOf n) ++
          " is illegal, it was not defined or declared as extern.")]) ∧
    (isUndeclaredReference decls n = false →
      r.2.no_error = s.no_error ∧ r.2.errors = s.errors) := by
  unfold fillNode at h
  split_ifs at h with hline
  · cases hn : n.type with
    | bmc v => rw [hn] at h; simp at h
    | name label =>
      rw [hn] at h
      simp only [] at h
      split at h
      · exact Option.noConfusion h
      simp only [Option.some.injEq] at h
      obtain ⟨f1, f2⟩ := declarationLoop_found label decls
        ⟨false, false, false, false, s.curr_ins_da, n.line, s.ent_is_length,
          s.ext_is_length⟩ (fun hc => by simp at hc)
      by_cases hex : ∃ d ∈ decls, d.label = label
      · have hfound := f1.mpr (Or.inr hex)
        have href : ¬ isUndeclaredReference decls n = true := by
          rw [isUndeclaredReference_iff]
          rintro ⟨_, label', h2, h3⟩
          rw [hn] at h2
          cases h2
          obtain ⟨d, hd, hl⟩ := hex
          exact h3 d hd hl
        subst h
        refine ⟨fun ht => absurd ht href, fun _ => ?_⟩
        simp only [hfound, Bool.and_true, Bool.not_true, Bool.false_eq_true, if_false,
          and_self]
      · have hnot : ¬ (declarationLoop label decls
            ⟨false, false, false, false, s.curr_ins_da, n.line, s.ent_is_length,
              s.ext_is_length⟩).found_label_name = true := by
          rw [f1]
          rintro (hc | hc)
          · simp at hc
          · exact hex hc
        simp only [Bool.not_eq_true] at hnot
        have hl := f2 hex
        have href : isUndeclaredReference decls n = true := by
          rw [isUndeclaredReference_iff]
          refine ⟨hline, label, hn, ?_⟩
          intro d hd hdl
          exact hex ⟨d, hd, hdl⟩
        subst h
        refine ⟨fun _ => ?_, fun hf => ?_⟩
        · simp only [hnot, Bool.and_false, Bool.not_false, if_true, hl, labelOf, hn,
            undefinedLabelMessage, and_self]
        · rw [href] at hf
          exact Bool.noConfusion hf
  · simp only [Option.some.injEq] at h
    subst h
    have hline' : n.line = 0 := by
      by_contra hc
      exact hline hc
    have href : ¬ isUndeclaredReference decls n = true := by
      rw [isUndeclaredReference_iff]
      rintro ⟨h1, _⟩
      exact h1 hline'
    exact ⟨fun ht => absurd ht href, fun _ => ⟨rfl, rfl⟩⟩
/-- The outer loop of `fillingMissingBMCofLabel`: `no_error` stays TRUE exactly when no
node is a pending word with an undeclared label, and the diagnostics printed are one for
each such node, in list order, with the line of the node. -/
theorem fillingLoop_found (decls : List declarationNode) :
    ∀ (ins : List instructionNode) (s : fillState) (out : List instructionNode)
      (s' : fillState), fillingLoop decls ins s = some (out, s') →
      s'.no_error = (s.no_error && ins.all fun n => !isUndeclaredReference decls n) ∧
      s'.errors = s.errors ++ (ins.filter (isUndeclaredReference decls)).map
        (fun n => (toShort (Int.ofNat n.line), "The label: " ++ String.mk (labelOf n) ++
          " is illegal, it was not defined or declared as extern.")) := by
  intro ins
  induction ins with
  | nil =>
    intro s out s' h
    simp only [fillingLoop, Option.some.injEq, Prod.mk.injEq] at h
    obtain ⟨_, h2⟩ := h
    subst h2
    simp
  | cons n rest ih =>
    intro s out s' h
    simp only [fillingLoop, Option.bind_eq_some, Option.map_eq_some'] at h
    obtain ⟨r, hr, q, hq, hout⟩ := h
    obtain ⟨q1, q2⟩ := q
    simp only [Prod.mk.injEq] at hout
    obtain ⟨_, hs⟩ := hout
    subst hs
    obtain ⟨f1, f2⟩ := fillNode_found decls n s r hr
    obtain ⟨i1, i2⟩ := ih r.2 q1 q2 hq
    cases href : isUndeclaredReference decls n with
    | true =>
      obtain ⟨g1, g2⟩ := f1 href
      rw [i1, i2, g1, g2, List.filter_cons_of_pos href]
      simp [href]
    | false =>
      obtain ⟨g1, g2⟩ := f2 href
      rw [i1, i2, g1, g2, List.filter_cons_of_neg (by rw [href]; decide)]
      simp [href]
/-! ## The entry file -/

theorem externConsistent_resolved (decls : List declarationNode)
    (h : externConsistent decls) : externConsistent (isEntriesDefined decls).2.1 := by
  intro x hx y hy hl ht
  rw [isEntriesDefined_map] at hx hy
  obtain ⟨x0, hx0, rfl⟩ := List.mem_map.mp hx
  obtain ⟨y0, hy0, rfl⟩ := List.mem_map.mp hy
  rw [(resolveEntry_label decls x0).1, (resolveEntry_label decls y0).1] at hl
  rw [(resolveEntry_label decls x0).2] at ht
  rw [(resolveEntry_label decls y0).2]
  exact h x0 hx0 y0 hy0 hl ht

theorem isEntryReference_resolved (decls : List declarationNode) (n : instructionNode) :
    isEntryReference (isEntriesDefined decls).2.1 n = isEntryReference decls n := by
  rw [Bool.eq_iff_iff, isEntryReference_iff, isEntryReference_iff, isEntriesDefined_map]
  constructor
  · rintro ⟨h1, label, h2, d, hd, h3, h4⟩
    obtain ⟨y, hy, rfl⟩ := List.mem_map.mp hd
    rw [(resolveEntry_label decls y).1] at h3
    rw [(resolveEntry_label decls y).2] at h4
    exact ⟨h1, label, h2, y, hy, h3, h4⟩
  · rintro ⟨h1, label, h2, d, hd, h3, h4⟩
    refine ⟨h1, label, h2, resolveEntry decls d, List.mem_map_of_mem _ hd, ?_, ?_⟩
    · rw [(resolveEntry_label decls d).1]; exact h3
    · rw [(resolveEntry_label decls d).2]; exact h4

theorem isUndeclaredReference_resolved (decls : List declarationNode) (n : instructionNode) :
    isUndeclaredReference (isEntriesDefined decls).2.1 n = isUndeclaredReference decls n := by
  rw [Bool.eq_iff_iff, isUndeclaredReference_iff, isUndeclaredReference_iff,
    isEntriesDefined_map]
  constructor
  · rintro ⟨h1, label, h2, h3⟩
    refine ⟨h1, label, h2, fun d hd hl => ?_⟩
    apply h3 (resolveEntry decls d) (List.mem_map_of_mem _ hd)
    rw [(resolveEntry_label decls d).1]
    exact hl
  · rintro ⟨h1, label, h2, h3⟩
    refine ⟨h1, label, h2, fun d hd hl => ?_⟩
    obtain ⟨y, hy, rfl⟩ := List.mem_map.mp hd
    rw [(resolveEntry_label decls y).1] at hl
    exact h3 y hy hl

/-- One round of the outer loop on a node, when no name mixes Extern with other
declarations: the flag of the record of entries is set when the node is a pending word
whose label has an Entry declaration, and the record is left alone otherwise. -/
theorem fillNode_entry (decls : List declarationNode) (hinv : externConsistent decls)
    (n : instructionNode) (s : fillState) (r : instructionNode × fillState)
    (h : fillNode decls n s = some r) :
    (isEntryReference decls n = true → r.2.ent_is_length.1 = 1) ∧
    (isEntryReference decls n = false → r.2.ent_is_length = s.ent_is_length) := by
  unfold fillNode at h
  split_ifs at h with hline
  · cases hn : n.type with
    | bmc v => rw [hn] at h; simp at h
    | name label =>
      rw [hn] at h
      simp only [] at h
      split at h
      · exact Option.noConfusion h
      simp only [Option.some.injEq] at h
      subst h
      by_cases hex : ∃ d ∈ decls, d.label = label ∧ d.type = ENTRY
      · obtain ⟨d, hd, hl, ht⟩ := hex
        have hnoext : ∀ x ∈ decls, x.label = label → x.type ≠ EXTERN := by
          intro x hx hxl hxt
          have := hinv x hx d hd (by rw [hxl, hl]) hxt
          rw [ht] at this
          exact absurd this (by decide)
        have hset := declarationLoop_entry label decls
          ⟨false, false, false, false, s.curr_ins_da, n.line, s.ent_is_length,
            s.ext_is_length⟩ hnoext ⟨d, hd, hl, ht⟩ rfl rfl
        have href : isEntryReference decls n = true :=
          (isEntryReference_iff decls n).mpr ⟨hline, label, hn, d, hd, hl, ht⟩
        refine ⟨fun _ => hset, fun hf => ?_⟩
        rw [href] at hf
        exact Bool.noConfusion hf
      · have hnone : ∀ x ∈ decls, x.label = label → x.type ≠ ENTRY := by
          intro x hx hxl hxt
          exact hex ⟨x, hx, hxl, hxt⟩
        have hkeep := declarationLoop_no_entry label decls
          ⟨false, false, false, false, s.curr_ins_da, n.line, s.ent_is_length,
            s.ext_is_length⟩ hnone
        have href : ¬ isEntryReference decls n = true := by
          rw [isEntryReference_iff]
          rintro ⟨_, label', h2, d, hd, h3, h4⟩
          rw [hn] at h2
          cases h2
          exact hex ⟨d, hd, h3, h4⟩
        exact ⟨fun ht => absurd ht href, fun _ => hkeep⟩
  · simp only [Option.some.injEq] at h
    subst h
    have hline' : n.line = 0 := by
      by_contra hc
      exact hline hc
    have href : ¬ isEntryReference decls n = true := by
      rw [isEntryReference_iff]
      rintro ⟨h1, _⟩
      exact h1 hline'
    exact ⟨fun ht => absurd ht href, fun _ => rfl⟩

theorem fillNode_ent_set (decls : List declarationNode) (n : instructionNode)
    (s : fillState) (r : instructionNode × fillState) (h : fillNode decls n s = some r)
    (hs : s.ent_is_length.1 = 1) : r.2.ent_is_length.1 = 1 := by
  unfold fillNode at h
  split_ifs at h with hline
  · cases hn : n.type with
    | bmc v => rw [hn] at h; simp at h
    | name label =>
      rw [hn] at h
      simp only [] at h
      split at h
      · exact Option.noConfusion h
      simp only [Option.some.injEq] at h
      subst h
      exact declarationLoop_ent_set label decls _ hs
  · simp only [Option.some.injEq] at h
    subst h
    exact hs

theorem fillingLoop_ent_set (decls : List declarationNode) :
    ∀ (ins : List instructionNode) (s : fillState) (out : List instructionNode)
      (s' : fillState), fillingLoop decls ins s = some (out, s') →
      s.ent_is_length.1 = 1 → s'.ent_is_length.1 = 1 := by
  intro ins
  induction ins with
  | nil =>
    intro s out s' h hs
    simp only [fillingLoop, Option.some.injEq, Prod.mk.injEq] at h
    rw [← h.2]
    exact hs
  | cons n rest ih =>
    intro s out s' h hs
    simp only [fillingLoop, Option.bind_eq_some, Option.map_eq_some'] at h
    obtain ⟨r, hr, q, hq, hout⟩ := h
    obtain ⟨q1, q2⟩ := q
    simp only [Prod.mk.injEq] at hout
    rw [← hout.2]
    exact ih r.2 q1 q2 hq (fillNode_ent_set decls n s r hr hs)

/-- The outer loop sets the flag of the record of entries exactly when a pending word whose
label has an Entry declaration goes through it. -/
theorem fillingLoop_entry (decls : List declarationNode) (hinv : externConsistent decls) :
    ∀ (ins : List instructionNode) (s : fillState) (out : List instructionNode)
      (s' : fillState), fillingLoop decls ins s = some (out, s') →
      ((∃ n ∈ ins, isEntryReference decls n = true) → s'.ent_is_length.1 = 1) ∧
      ((¬ ∃ n ∈ ins, isEntryReference decls n = true) →
        s'.ent_is_length = s.ent_is_length) := by
  intro ins
  induction ins with
  | nil =>
    intro s out s' h
    simp only [fillingLoop, Option.some.injEq, Prod.mk.injEq] at h
    obtain ⟨_, h2⟩ := h
    subst h2
    refine ⟨?_, fun _ => rfl⟩
    rintro ⟨n, hn, _⟩
    simp at hn
  | cons n rest ih =>
    intro s out s' h
    have hcopy := h
    simp only [fillingLoop, Option.bind_eq_some, Option.map_eq_some'] at h
    obtain ⟨r, hr, q, hq, hout⟩ := h
    obtain ⟨q1, q2⟩ := q
    simp only [Prod.mk.injEq] at hout
    obtain ⟨_, hs⟩ := hout
    subst hs
    obtain ⟨f1, f2⟩ := fillNode_entry decls hinv n s r hr
    obtain ⟨i1, i2⟩ := ih r.2 q1 q2 hq
    constructor
    · rintro ⟨m, hm, hmt⟩
      rcases List.mem_cons.mp hm with heq | hin
      · subst heq
        exact fillingLoop_ent_set decls rest r.2 q1 q2 hq (f1 hmt)
      · exact i1 ⟨m, hin, hmt⟩
    · intro hno
      have hrest : ¬ ∃ n ∈ rest, isEntryReference decls n = true := by
        rintro ⟨m, hm, hmt⟩
        exact hno ⟨m, List.mem_cons_of_mem _ hm, hmt⟩
      have hn : isEntryReference decls n = false := by
        cases hc : isEntryReference decls n with
        | false => rfl
        | true => exact absurd ⟨n, List.mem_cons_self _ _, hc⟩ hno
      rw [i2 hrest, f2 hn]

theorem createEntFile_lines (files : outputFiles) (decls : List declarationNode)
    (e : Int × Int) (lines : List outputLine) (h : createEntFile files decls e = some lines) :
    lines.map (fun l => (l.name, l.address)) =
      (decls.filter fun d => decide (d.type = ENTRY)).map
        (fun d => (d.label, d.decimal_address)) := by
  unfold createEntFile at h
  split_ifs at h
  simp only [Option.some.injEq] at h
  subst h
  rw [List.map_map]
  rfl

theorem createEntFile_isSome (files : outputFiles) (decls : List declarationNode)
    (e : Int × Int) : (createEntFile files decls e).isSome = files.ent := by
  unfold createEntFile
  cases files.ent <;> rfl
/-! ## The three ways out of `secondPass` -/

/-- A run of `secondPass` that returns went through `fillingMissingBMCofLabel`, and then
either the three conditions held, the files could be created, the object file was printed
and the result is the successful one, or one of the conditions failed and nothing was
created, or the conditions held and a file could not be created: the return value
FATAL_ERROR. -/
theorem secondPass_cases (files : outputFiles) (garbage : Int) (counter : Int × Int)
    (ins : List instructionNode) (data : List dataNode) (decls : List declarationNode)
    (indicator : Bool) (r : secondPassResult)
    (hrun : secondPass files garbage counter ins data decls indicator = some r) :
    ∃ (out : List instructionNode) (fs : fillState),
      fillingLoop (isEntriesDefined decls).2.1 ins ⟨garbage, (0, 0), (0, 0), true, []⟩ =
        some (out, fs) ∧
      (((indicator && (isEntriesDefined decls).1 && fs.no_error) = true ∧
        ∃ (ob : List (Int × Int)) (extl : List outputLine) (fin : List instructionNode),
          printInstructions fs.ext_is_length out = some (ob, extl, fin) ∧
          r = ⟨true, (isEntriesDefined decls).2.2 ++ fs.errors, fin,
            (isEntriesDefined decls).2.1,
            some (counter, ob ++ data.map (fun curr_data => (curr_data.dc, curr_data.bmc))),
            if fs.ext_is_length.1 ≠ 0 then some extl else none,
            if fs.ent_is_length.1 ≠ 0 then
              createEntFile files (isEntriesDefined decls).2.1 fs.ent_is_length
            else none, false⟩ ∧
          files.ob = true ∧ (fs.ext_is_length.1 ≠ 0 → files.ext = true) ∧
          (fs.ent_is_length.1 ≠ 0 → files.ent = true)) ∨
      ((indicator && (isEntriesDefined decls).1 && fs.no_error) = false ∧
        r = ⟨false, (isEntriesDefined decls).2.2 ++ fs.errors, out,
          (isEntriesDefined decls).2.1, none, none, none, false⟩) ∨
      ((indicator && (isEntriesDefined decls).1 && fs.no_error) = true ∧
        r.indicator = false ∧ r.fatal = true ∧ r.ent = none ∧
        r.errors = (isEntriesDefined decls).2.2 ++ fs.errors ∧
        (files.ob = false ∨ (fs.ext_is_length.1 ≠ 0 ∧ files.ext = false) ∨
          (fs.ent_is_length.1 ≠ 0 ∧ files.ent = false)))) := by
  simp only [secondPass, fillingMissingBMCofLabel, Option.bind_eq_some] at hrun
  obtain ⟨f, hf, hrest⟩ := hrun
  obtain ⟨out, fs⟩ := f
  refine ⟨out, fs, hf, ?_⟩
  by_cases hind : (indicator && (isEntriesDefined decls).1 && fs.no_error) = true
  · rw [if_pos hind] at hrest
    simp only [Option.map_eq_some'] at hrest
    obtain ⟨c, hc, hr⟩ := hrest
    unfold createObAndExtFiles at hc
    by_cases hfail : files.ob = false ∨ (fs.ext_is_length.1 ≠ 0 ∧ files.ext = false)
    · rw [if_pos hfail] at hc
      simp only [Option.some.injEq] at hc
      subst hc
      subst hr
      right
      right
      refine ⟨hind, rfl, rfl, rfl, rfl, ?_⟩
      rcases hfail with h | h
      · exact Or.inl h
      · exact Or.inr (Or.inl h)
    · rw [if_neg hfail] at hc
      simp only [Option.map_eq_some'] at hc
      obtain ⟨p, hp, ho⟩ := hc
      obtain ⟨ob, extl, fin⟩ := p
      subst ho
      have hob : files.ob = true := by
        cases h : files.ob with
        | true => rfl
        | false => exact absurd (Or.inl h) hfail
      have hext : fs.ext_is_length.1 ≠ 0 → files.ext = true := by
        intro hne
        cases h : files.ext with
        | true => rfl
        | false => exact absurd (Or.inr ⟨hne, h⟩) hfail
      by_cases hent : fs.ent_is_length.1 ≠ 0
      · simp only [if_pos hent] at hr
        unfold createEntFile at hr
        cases he : files.ent with
        | true =>
          rw [he] at hr
          simp only [Bool.true_eq_false, if_false] at hr
          subst hr
          left
          refine ⟨hind, ob, extl, fin, hp, ?_, hob, hext, fun _ => rfl⟩
          unfold createEntFile
          rw [if_pos hent, he]
          rfl
        | false =>
          rw [he] at hr
          simp only [if_true] at hr
          subst hr
          right
          right
          exact ⟨hind, rfl, rfl, rfl, rfl, Or.inr (Or.inr ⟨hent, rfl⟩)⟩
      · simp only [if_neg hent] at hr
        subst hr
        left
        refine ⟨hind, ob, extl, fin, hp, ?_, hob, hext, fun h => absurd h hent⟩
        rw [if_neg hent]
  · right
    left
    rw [if_neg hind] at hrest
    simp only [Option.some.injEq] at hrest
    subst hrest
    simp only [Bool.not_eq_true] at hind
    exact ⟨hind, rfl⟩
/-! ## `secondPass` returns -/

theorem declarationLoop_ext_set (name : List Char) :
    ∀ (l : List declarationNode) (s : lookupState), s.ext_is_length.1 = 1 →
      (declarationLoop name l s).ext_is_length.1 = 1 := by
  intro l
  induction l with
  | nil => intro s h; exact h
  | cons d rest ih =>
    intro s h
    unfold declarationLoop
    split_ifs with hstop hname hext hentry hdsc
    · exact h
    · exact ih _ rfl
    · exact ih _ h
    · exact ih _ h
    · exact ih _ h
    · exact ih _ h

/-- A search that ends with the mark of an external label has set the line mark EXTERN and
the flag of the record of external labels. -/
theorem declarationLoop_marked (name : List Char) :
    ∀ (l : List declarationNode) (s : lookupState),
      (s.curr_declared_extern = true → s.line = EXTERN.toNat ∧ s.ext_is_length.1 = 1) →
      lookupState.curr_declared_extern (declarationLoop name l s) = true →
      (declarationLoop name l s).line = EXTERN.toNat ∧
      (declarationLoop name l s).ext_is_length.1 = 1 := by
  intro l
  induction l with
  | nil => intro s h; exact h
  | cons d rest ih =>
    intro s h
    unfold declarationLoop
    split_ifs with hstop hname hext hentry hdsc
    · exact h
    · exact ih _ (fun _ => ⟨rfl, rfl⟩)
    · exact ih _ h
    · exact ih _ h
    · exact ih _ h
    · exact ih _ h

theorem fillNode_ext_set (decls : List declarationNode) (n : instructionNode)
    (s : fillState) (r : instructionNode × fillState) (h : fillNode decls n s = some r)
    (hs : s.ext_is_length.1 = 1) : r.2.ext_is_length.1 = 1 := by
  unfold fillNode at h
  split_ifs at h with hline
  · cases hn : n.type with
    | bmc v => rw [hn] at h; simp at h
    | name label =>
      rw [hn] at h
      simp only [] at h
      split at h
      · exact Option.noConfusion h
      simp only [Option.some.injEq] at h
      subst h
      exact declarationLoop_ext_set label decls _ hs
  · simp only [Option.some.injEq] at h
    subst h
    exact hs

theorem fillingLoop_ext_set (decls : List declarationNode) :
    ∀ (ins : List instructionNode) (s : fillState) (out : List instructionNode)
      (s' : fillState), fillingLoop decls ins s = some (out, s') →
      s.ext_is_length.1 = 1 → s'.ext_is_length.1 = 1 := by
  intro ins
  induction ins with
  | nil =>
    intro s out s' h hs
    simp only [fillingLoop, Option.some.injEq, Prod.mk.injEq] at h
    rw [← h.2]
    exact hs
  | cons n rest ih =>
    intro s out s' h hs
    simp only [fillingLoop, Option.bind_eq_some, Option.map_eq_some'] at h
    obtain ⟨r, hr, q, hq, hout⟩ := h
    obtain ⟨q1, q2⟩ := q
    simp only [Prod.mk.injEq] at hout
    rw [← hout.2]
    exact ih r.2 q1 q2 hq (fillNode_ext_set decls n s r hr hs)

/-- What one round of the outer loop makes of a well-formed node: machine code, or a name
under a line mark with the flag of the record of external labels set. -/
theorem fillNode_printable (decls : List declarationNode) (n : instructionNode)
    (s : fillState) (r : instructionNode × fillState) (h : fillNode decls n s = some r)
    (hwf : (n.line ≠ 0 → ∃ label, n.type = wordType.name label) ∧
      (n.line = 0 → ∃ v, n.type = wordType.bmc v)) :
    (r.1.line = 0 ∧ ∃ v, r.1.type = wordType.bmc v) ∨
    (r.1.line ≠ 0 ∧ (∃ label, r.1.type = wordType.name label) ∧
      r.2.ext_is_length.1 = 1) := by
  unfold fillNode at h
  split_ifs at h with hline
  · cases hn : n.type with
    | bmc v => rw [hn] at h; simp at h
    | name label =>
      rw [hn] at h
      simp only [] at h
      split at h
      · exact Option.noConfusion h
      simp only [Option.some.injEq] at h
      subst h
      cases hext : lookupState.curr_declared_extern (declarationLoop label decls
          ⟨false, false, false, false, s.curr_ins_da, n.line, s.ent_is_length,
            s.ext_is_length⟩) with
      | false =>
        left
        simp only [hext, Bool.not_false, if_true]
        exact ⟨rfl, _, rfl⟩
      | true =>
        right
        obtain ⟨m1, m2⟩ := declarationLoop_marked label decls
          ⟨false, false, false, false, s.curr_ins_da, n.line, s.ent_is_length,
            s.ext_is_length⟩ (fun hc => by simp at hc) hext
        simp only [hext, Bool.not_true, Bool.false_eq_true, if_false]
        refine ⟨?_, ⟨label, rfl⟩, m2⟩
        rw [m1]
        decide
  · simp only [Option.some.injEq] at h
    subst h
    have hline' : n.line = 0 := by
      by_contra hc
      exact hline hc
    exact Or.inl ⟨hline', hwf.2 hline'⟩

theorem fillingLoop_printable (decls : List declarationNode) :
    ∀ (ins : List instructionNode) (s : fillState) (out : List instructionNode)
      (s' : fillState), codeWellFormed ins → fillingLoop decls ins s = some (out, s') →
      printable s'.ext_is_length out := by
  intro ins
  induction ins with
  | nil =>
    intro s out s' _ h
    simp only [fillingLoop, Option.some.injEq, Prod.mk.injEq] at h
    rw [← h.1]
    intro n hn
    simp at hn
  | cons n rest ih =>
    intro s out s' hwf h
    simp only [fillingLoop, Option.bind_eq_some, Option.map_eq_some'] at h
    obtain ⟨r, hr, q, hq, hout⟩ := h
    obtain ⟨q1, q2⟩ := q
    simp only [Prod.mk.injEq] at hout
    obtain ⟨ho, hs⟩ := hout
    subst ho; subst hs
    have hrest := ih r.2 q1 q2 (fun m hm => hwf m (List.mem_cons_of_mem _ hm)) hq
    intro m hm
    rcases List.mem_cons.mp hm with heq | hin
    · subst heq
      rcases fillNode_printable decls n s r hr (hwf n (List.mem_cons_self _ _)) with h1 | h1
      · exact Or.inl h1
      · exact Or.inr ⟨h1.1, h1.2.1, fillingLoop_ext_set decls rest r.2 q1 q2 hq h1.2.2⟩
    · exact hrest m hin

theorem printInstructions_total (e : Int × Int) :
    ∀ (l : List instructionNode), printable e l → ∃ p, printInstructions e l = some p := by
  intro l
  induction l with
  | nil => intro _; exact ⟨_, rfl⟩
  | cons n rest ih =>
    intro h
    obtain ⟨p, hp⟩ := ih (fun m hm => h m (List.mem_cons_of_mem _ hm))
    rcases h n (List.mem_cons_self _ _) with ⟨h0, v, hv⟩ | ⟨h1, ⟨label, hl⟩, he⟩
    · refine ⟨((n.ic, v) :: p.1, p.2.1, n :: p.2.2), ?_⟩
      simp only [printInstructions, hp, Option.some_bind, hv]
      rw [if_neg (by simp [h0])]
    · refine ⟨((n.ic, EXTERN_VALUE) :: p.1,
        ⟨label, spacesCount 32 e.2 label 2, n.ic⟩ :: p.2.1,
        ⟨n.ic, HAVE_BMC, wordType.bmc EXTERN_VALUE⟩ :: p.2.2), ?_⟩
      simp only [printInstructions, hp, Option.some_bind, hl]
      rw [if_pos ⟨h1, by rw [he]; decide⟩]

theorem codeWellFormed_pendingNamed (l : List instructionNode) (h : codeWellFormed l) :
    pendingNamed l := fun n hn => (h n hn).1
theorem fillingLoop_length (decls : List declarationNode) :
    ∀ (ins : List instructionNode) (s : fillState) (out : List instructionNode)
      (s' : fillState), fillingLoop decls ins s = some (out, s') →
      out.length = ins.length := by
  intro ins
  induction ins with
  | nil =>
    intro s out s' h
    simp only [fillingLoop, Option.some.injEq, Prod.mk.injEq] at h
    rw [← h.1]
  | cons n rest ih =>
    intro s out s' h
    simp only [fillingLoop, Option.bind_eq_some, Option.map_eq_some'] at h
    obtain ⟨r, _, q, hq, hout⟩ := h
    obtain ⟨q1, q2⟩ := q
    simp only [Prod.mk.injEq] at hout
    rw [← hout.1, List.length_cons, List.length_cons, ih r.2 q1 q2 hq]

theorem printInstructions_length (e : Int × Int) :
    ∀ (l : List instructionNode) (ob : List (Int × Int)) (extl : List outputLine)
      (fin : List instructionNode), printInstructions e l = some (ob, extl, fin) →
      ob.length = l.length := by
  intro l
  induction l with
  | nil =>
    intro ob extl fin h
    simp only [printInstructions, Option.some.injEq, Prod.mk.injEq] at h
    rw [← h.1]
    rfl
  | cons n rest ih =>
    intro ob extl fin h
    simp only [printInstructions, Option.bind_eq_some] at h
    obtain ⟨q, hq, hstep⟩ := h
    obtain ⟨q1, q2, q3⟩ := q
    have hi := ih q1 q2 q3 hq
    cases hn : n.type with
    | bmc v =>
      rw [hn] at hstep
      simp only at hstep
      by_cases hc : n.line ≠ 0
      · rw [if_pos hc] at hstep
        exact Option.noConfusion hstep
      · rw [if_neg hc] at hstep
        simp only [Option.some.injEq, Prod.mk.injEq] at hstep
        rw [← hstep.1, List.length_cons, List.length_cons, hi]
    | name label =>
      rw [hn] at hstep
      simp only at hstep
      by_cases hc : n.line ≠ 0 ∧ e.1 ≠ 0
      · rw [if_pos hc] at hstep
        simp only [Option.some.injEq, Prod.mk.injEq] at hstep
        rw [← hstep.1, List.length_cons, List.length_cons, hi]
      · rw [if_neg hc] at hstep
        exact Option.noConfusion hstep
/-! ## What the first pass guarantees about repeated declarations -/

/-- A name that passes `checkIfLabelNameAlreadyDeclared` for a type `t` that is neither
EXTERN nor ENTRY has entries only among the declarations so far. -/
theorem checkIfLabelNameAlreadyDeclared_defined (name : List Char) (t : Int) :
    ∀ (l : List declarationNode) (e : String),
      (checkIfLabelNameAlreadyDeclared name t l e).1 = true →
      ∀ x ∈ l, x.label = name → t ≠ EXTERN → t ≠ ENTRY → x.type = ENTRY := by
  intro l
  induction l with
  | nil => intro e _ x hx; simp at hx
  | cons temp rest ih =>
    intro e h x hx hname ht1 ht2
    by_cases c0 : name = temp.label
    · have c1 : ¬ (t = EXTERN ∧ temp.type ≠ EXTERN) := fun c => ht1 c.1
      have c3 : ¬ (t = ENTRY ∧ temp.type = EXTERN) := fun c => ht2 c.1
      by_cases c4 : t ≠ EXTERN ∧ t ≠ ENTRY ∧ temp.type ≠ ENTRY
      · exfalso
        by_cases c5 : temp.type = EXTERN
        · simp only [checkIfLabelNameAlreadyDeclared, if_pos c0, if_neg c1, if_neg c3,
            if_pos c4, if_pos c5] at h
          exact Bool.noConfusion h
        · simp only [checkIfLabelNameAlreadyDeclared, if_pos c0, if_neg c1, if_neg c3,
            if_pos c4, if_neg c5] at h
          exact Bool.noConfusion h
      · simp only [checkIfLabelNameAlreadyDeclared, if_pos c0, if_neg c1, if_neg c3,
          if_neg c4] at h
        rcases List.mem_cons.mp hx with heq | hin
        · subst heq
          by_contra hne
          exact c4 ⟨ht1, ht2, hne⟩
        · exact ih e h x hin hname ht1 ht2
    · simp only [checkIfLabelNameAlreadyDeclared, if_neg c0] at h
      rcases List.mem_cons.mp hx with heq | hin
      · subst heq
        exact absurd hname.symm c0
      · exact ih e h x hin hname ht1 ht2

theorem definedOnce_append (l : List declarationNode) (d : declarationNode)
    (h : definedOnce l)
    (hd : ∀ x ∈ l, x.label = d.label → x.type ≠ ENTRY → d.type ≠ ENTRY →
      x.type = EXTERN ∧ d.type = EXTERN) :
    definedOnce (l ++ [d]) := by
  unfold definedOnce at h ⊢
  rw [List.pairwise_append]
  refine ⟨h, List.pairwise_singleton _ _, fun x hx y hy => ?_⟩
  simp only [List.mem_singleton] at hy
  subst hy
  exact hd x hx

/-- Appending a node that went through the check, or that is the first of the list. -/
theorem definedOnce_checked (l : List declarationNode) (v : Int) (name : List Char)
    (t : Int) (e : String) (h : definedOnce l)
    (hc : ¬ ((!(checkIfLabelNameAlreadyDeclared name t l e).1 && !l.isEmpty) = true)) :
    definedOnce (l ++ [creatDeclarationNode v name t]) := by
  apply definedOnce_append l _ h
  intro x hx hl hx1 hd1
  cases l with
  | nil => simp at hx
  | cons a rest =>
    have hpass : (checkIfLabelNameAlreadyDeclared name t (a :: rest) e).1 = true := by
      simpa using hc
    have hiff := checkIfLabelNameAlreadyDeclared_passed name t _ e hpass x hx hl
    by_cases hte : t = EXTERN
    · exact ⟨hiff.mpr hte, hte⟩
    · exact absurd
        (checkIfLabelNameAlreadyDeclared_defined name t _ e hpass x hx hl hte hd1) hx1

theorem readNewDeclaration_once (st : declarationState) (line_num : Nat)
    (macros : List macroNode) (h : definedOnce st.declarations_list) :
    definedOnce (readNewDeclaration st line_num macros).declarations_list := by
  unfold readNewDeclaration
  simp only []
  refine ite_prop (fun r : declarationState => definedOnce r.declarations_list) _ _ _
    (fun _ => h) (fun _ => ?_)
  refine ite_prop (fun r : declarationState => definedOnce r.declarations_list) _ _ _
    (fun _ => h) (fun _ => ?_)
  refine ite_prop (fun r : declarationState => definedOnce r.declarations_list) _ _ _
    (fun _ => h) (fun c3 => ?_)
  dsimp only
  exact definedOnce_checked st.declarations_list _ _ _ _ h c3

theorem readNewLabel_once (st : declarationState) (line_num : Nat)
    (macros : List macroNode) (dc ic : Int) (h : definedOnce st.declarations_list) :
    definedOnce (readNewLabel st line_num macros dc ic).declarations_list := by
  unfold readNewLabel
  simp only []
  refine ite_prop (fun r : declarationState => definedOnce r.declarations_list) _ _ _
    (fun _ => h) (fun _ => ?_)
  refine ite_prop (fun r : declarationState => definedOnce r.declarations_list) _ _ _
    (fun _ => h) (fun _ => ?_)
  refine ite_prop (fun r : declarationState => definedOnce r.declarations_list) _ _ _
    (fun _ => h) (fun c3 => ?_)
  refine ite_prop (fun r : declarationState => definedOnce r.declarations_list) _ _ _
    (fun _ => ?_) (fun _ => ?_)
  · dsimp only
    exact definedOnce_checked st.declarations_list _ _ _ _ h c3
  refine ite_prop (fun r : declarationState => definedOnce r.declarations_list) _ _ _
    (fun _ => ?_) (fun _ => ?_)
  · dsimp only
    exact readNewDeclaration_once ⟨_, st.declarations_list, _⟩ _ _ h
  · dsimp only
    exact definedOnce_checked st.declarations_list _ _ _ _ h c3

/-- A property of the declaration list that `readNewDeclaration` and `readNewLabel` keep
is kept by one round of the loop of `firstPass`. -/
theorem firstPassLine_preserves (P : List declarationNode → Prop)
    (hd : ∀ (s : declarationState) (n : Nat) (m : List macroNode),
      P s.declarations_list → P (readNewDeclaration s n m).declarations_list)
    (hl : ∀ (s : declarationState) (n : Nat) (m : List macroNode) (dc ic : Int),
      P s.declarations_list → P (readNewLabel s n m dc ic).declarations_list)
    (macros : List macroNode) (st st' : firstPassState)
    (buf : List Char) (h : firstPassLine macros st buf = some st')
    (hinv : P st.declarations_list) : P st'.declarations_list := by
  unfold firstPassLine at h
  simp only at h
  have hl : P (if (strchr (cstr buf) ':').isSome = true then
      readNewLabel ⟨cstr buf, st.declarations_list, ""⟩ st.line_num macros st.dc st.ic
    else ⟨cstr buf, st.declarations_list, ""⟩).declarations_list := by
    split_ifs
    · exact hl ⟨_, st.declarations_list, _⟩ _ _ _ _ hinv
    · exact hinv
  generalize (if (strchr (cstr buf) ':').isSome = true then
      readNewLabel ⟨cstr buf, st.declarations_list, ""⟩ st.line_num macros st.dc st.ic
    else ⟨cstr buf, st.declarations_list, ""⟩) = l at h hl
  split_ifs at h with hc ht1 ht2 ht3
  · simp only [Option.bind_eq_some] at h
    obtain ⟨r, _, hst⟩ := h
    have hst := (reportedLine_some _ _ _ hst).1
    subst hst
    rw [(endOfLine_fields _ _).2.2.2.2.1]
    exact hl
  · have h := (reportedLine_some _ _ _ h).1
    subst h
    rw [(endOfLine_fields _ _).2.2.2.2.1]
    exact hd ⟨_, l.declarations_list, _⟩ _ _ hl
  · simp only [Option.bind_eq_some] at h
    obtain ⟨r, _, hst⟩ := h
    have hst := (reportedLine_some _ _ _ hst).1
    subst hst
    rw [(endOfLine_fields _ _).2.2.2.2.1]
    exact hl
  · have h := (reportedLine_some _ _ _ h).1
    subst h
    rw [(endOfLine_fields _ _).2.2.2.2.1]
    exact hl
  · have h := (reportedLine_some _ _ _ h).1
    subst h
    rw [(endOfLine_fields _ _).2.2.2.2.1]
    exact hl

theorem firstPassLoop_preserves (P : List declarationNode → Prop)
    (hd : ∀ (s : declarationState) (n : Nat) (m : List macroNode),
      P s.declarations_list → P (readNewDeclaration s n m).declarations_list)
    (hl : ∀ (s : declarationState) (n : Nat) (m : List macroNode) (dc ic : Int),
      P s.declarations_list → P (readNewLabel s n m dc ic).declarations_list)
    (macros : List macroNode) :
    ∀ (lines : List (List Char)) (st st' : firstPassState),
      firstPassLoop macros lines st = some st' →
      P st.declarations_list → P st'.declarations_list := by
  intro lines
  induction lines with
  | nil =>
    intro st st' h hinv
    simp only [firstPassLoop, Option.some.injEq] at h
    subst h
    exact hinv
  | cons buf rest ih =>
    intro st st' h hinv
    simp only [firstPassLoop, Option.bind_eq_some] at h
    obtain ⟨st1, h1, h2⟩ := h
    exact ih st1 st' h2 (firstPassLine_preserves P hd hl macros st st1 buf h1 hinv)

/-- The declarations `firstPass` hands over are those the loop built, with the values of
the Data and String declarations moved when the capacity check passes. -/
theorem firstPass_declarations (macros : List macroNode) (lines : List (List Char))
    (p : firstPassResult) (h : firstPass macros lines = some p) :
    ∃ st, firstPassLoop macros lines firstPassInit = some st ∧
      (p.indicator = true → st.indicator = true) ∧
      (p.declarations_list = st.declarations_list ∨
        p.declarations_list = updateDeclarationNodes st.ic st.declarations_list) := by
  simp only [firstPass, Option.map_eq_some'] at h
  obtain ⟨st, hloop, hp⟩ := h
  subst hp
  refine ⟨st, hloop, ?_, ?_⟩
  · intro hi
    exact (firstPassFinish_indicator st hi).2
  · cases hd : (updateDataNodes st.ic st.data_list).1 with
    | true => right; rw [firstPassFinish_ok st hd]
    | false =>
      left
      simp [firstPassFinish, UpdateDataCounter, hd]

theorem updateDeclarationNodes_fields (ic : Int) (z : declarationNode) :
    (if z.type = DATA ∨ z.type = STRING then
      ({ z with decimal_address := toShort (z.decimal_address + ic) } : declarationNode)
    else z).label = z.label ∧
    (if z.type = DATA ∨ z.type = STRING then
      ({ z with decimal_address := toShort (z.decimal_address + ic) } : declarationNode)
    else z).type = z.type := by
  split_ifs <;> exact ⟨rfl, rfl⟩

theorem updateDeclarationNodes_once (ic : Int) (l : List declarationNode)
    (h : definedOnce l) : definedOnce (updateDeclarationNodes ic l) := by
  unfold definedOnce updateDeclarationNodes at *
  rw [List.pairwise_map]
  refine h.imp ?_
  intro a b hab
  rw [(updateDeclarationNodes_fields ic a).1, (updateDeclarationNodes_fields ic a).2,
    (updateDeclarationNodes_fields ic b).1, (updateDeclarationNodes_fields ic b).2]
  exact hab

/-- The declarations the first pass hands over hold at most one declaration of a name that
is not an entry, or Extern declarations only, whatever the input. -/
theorem firstPass_definedOnce (macros : List macroNode) (lines : List (List Char))
    (p : firstPassResult) (h : firstPass macros lines = some p) :
    definedOnce p.declarations_list := by
  obtain ⟨st, hloop, _, hp⟩ := firstPass_declarations macros lines p h
  have hst := firstPassLoop_preserves definedOnce readNewDeclaration_once readNewLabel_once
    macros lines firstPassInit st hloop List.Pairwise.nil
  rcases hp with hp | hp
  · rw [hp]; exact hst
  · rw [hp]; exact updateDeclarationNodes_once _ _ hst

/-! ## The checks of a label name -/

theorem isMacroNameExists_none (name : List Char) (l : List macroNode) :
    isMacroNameExists name l = none ↔ ∀ m ∈ l, m.name ≠ name := by
  induction l with
  | nil => simp [isMacroNameExists]
  | cons m ms ih =>
    unfold isMacroNameExists
    by_cases h : name = m.name
    · rw [if_pos h]
      simp [h]
    · rw [if_neg h, ih]
      simp only [List.mem_cons, forall_eq_or_imp]
      exact ⟨fun h2 => ⟨fun h3 => h h3.symm, h2⟩, fun h2 => h2.2⟩

theorem isValidName_iff (name : List Char) :
    (isValidName name).1 = true ↔
      isOpcode name = NO_OPCODE ∧ isRegister name = NO_REGISTER ∧
      isInstruction name = NO_TYPE := by
  unfold isValidName
  by_cases h1 : isOpcode name = NO_OPCODE
  · by_cases h2 : isRegister name = NO_REGISTER
    · by_cases h3 : isInstruction name = NO_TYPE
      · simp [h1, h2, h3]
      · simp [h1, h2, h3]
    · simp [h1, h2]
  · simp [h1]

theorem literal_append_ne (a b : String) (h : a ≠ "") : a ++ b ≠ "" :=
  append_ne_empty a b h

/-- What `checkLabelName` tests: the keyword tables, the macro list, the first character
and the other characters. -/
theorem checkLabelName_iff (name : List Char) (macros : List macroNode) (e : String) :
    (checkLabelName name macros e).1 = true ↔
      (∃ c, name.head? = some c ∧ isalpha c = true) ∧
      (∀ c ∈ name, isalnum c = true) ∧
      isOpcode name = NO_OPCODE ∧ isRegister name = NO_REGISTER ∧
      isInstruction name = NO_TYPE ∧
      ∀ m ∈ macros, m.name ≠ name := by
  rw [← isMacroNameExists_none]
  constructor
  · intro h
    have a1 : (isValidName name).1 = true := by
      by_contra hc
      simp [checkLabelName, hc] at h
    have a2 : isMacroNameExists name macros = none := by
      cases hm : isMacroNameExists name macros with
      | none => rfl
      | some m => simp [checkLabelName, a1, hm] at h
    obtain ⟨b1, b2, b3⟩ := (isValidName_iff name).mp a1
    cases name with
    | nil => simp [checkLabelName, a1, a2] at h
    | cons c cs =>
      have a3 : isalpha c = true := by
        by_contra hc
        simp [checkLabelName, a1, a2, hc] at h
      have a4 : cs.all isalnum = true := by
        by_contra hc
        simp only [checkLabelName, a1, a2, a3, hc, Bool.not_true, Bool.false_eq_true,
          if_false, Option.isSome_none, List.head?_cons, List.tail_cons, Bool.not_false,
          if_true] at h
      refine ⟨⟨c, rfl, a3⟩, fun x hx => ?_, b1, b2, b3, a2⟩
      rcases List.mem_cons.mp hx with hx | hx
      · rw [hx]; simp [isalnum, a3]
      · exact List.all_eq_true.mp a4 x hx
  · rintro ⟨⟨c, hc1, hc2⟩, h2, h3, h4, h5, h6⟩
    have a1 := (isValidName_iff name).mpr ⟨h3, h4, h5⟩
    cases name with
    | nil => simp at hc1
    | cons c0 cs =>
      simp only [List.head?_cons, Option.some.injEq] at hc1
      subst hc1
      have a4 : cs.all isalnum = true :=
        List.all_eq_true.mpr fun x hx => h2 x (List.mem_cons_of_mem _ hx)
      simp only [checkLabelName, a1, h6, hc2, a4, Bool.not_true, Bool.false_eq_true,
        if_false, Option.isSome_none, List.head?_cons, List.tail_cons]

/-- `checkLabelName` leaves the error buffer as it is when it returns TRUE and writes a
message when it returns FALSE. -/
theorem checkLabelName_error (name : List Char) (macros : List macroNode) (e : String) :
    ((checkLabelName name macros e).1 = true → (checkLabelName name macros e).2 = e) ∧
    ((checkLabelName name macros e).1 = false → (checkLabelName name macros e).2 ≠ "") := by
  unfold checkLabelName
  have hmsg : ∀ a b : String, "Invalid label name, " ++ a ≠ "" ∧
      "Invalid label name, the name: " ++ a ++ b ≠ "" ∧
      "Invalid label name, the label name: " ++ a ++ b ≠ "" := by
    intro a b
    refine ⟨literal_append_ne _ _ (by decide), ?_, ?_⟩
    · rw [String.append_assoc]; exact literal_append_ne _ _ (by decide)
    · rw [String.append_assoc]; exact literal_append_ne _ _ (by decide)
  split_ifs
  · exact ⟨fun h => by simp at h, fun _ => (hmsg _ "").1⟩
  · exact ⟨fun h => by simp at h, fun _ => (hmsg _ _).2.1⟩
  · exact ⟨fun h => by simp at h, fun _ => (hmsg _ _).2.2⟩
  · exact ⟨fun h => by simp at h, fun _ => (hmsg _ _).2.2⟩
  · exact ⟨fun _ => rfl, fun h => by simp at h⟩

/-- `checkIfLabelNameAlreadyDeclared` leaves the error buffer as it is when it returns TRUE
and writes a message when it returns FALSE. -/
theorem checkIfLabelNameAlreadyDeclared_error (name : List Char) (t : Int) :
    ∀ (l : List declarationNode) (e : String),
      ((checkIfLabelNameAlreadyDeclared name t l e).1 = true →
        (checkIfLabelNameAlreadyDeclared name t l e).2 = e) ∧
      ((checkIfLabelNameAlreadyDeclared name t l e).1 = false →
        (checkIfLabelNameAlreadyDeclared name t l e).2 ≠ "") := by
  intro l
  induction l with
  | nil => intro e; exact ⟨fun _ => rfl, fun h => by simp [checkIfLabelNameAlreadyDeclared] at h⟩
  | cons temp rest ih =>
    intro e
    unfold checkIfLabelNameAlreadyDeclared
    have hmsg : ∀ s : String, "Invalid label, the label: " ++ String.mk name ++ s ≠ "" := by
      intro s
      rw [String.append_assoc]
      exact literal_append_ne _ _ (by decide)
    split_ifs
    all_goals first
      | exact ih e
      | exact ⟨fun h => by simp at h, fun _ => hmsg _⟩

/-! ## `getLabelName` and the name of a declaration -/

theorem take_length_takeWhile {α : Type} (p : α → Bool) (l : List α) :
    l.take (l.takeWhile p).length = l.takeWhile p := by
  induction l with
  | nil => rfl
  | cons a as ih =>
    by_cases h : p a = true
    · rw [List.takeWhile_cons_of_pos h, List.length_cons, List.take_succ_cons, ih]
    · rw [List.takeWhile_cons_of_neg h]
      rfl

/-- `getLabelName` on an empty error buffer leaves it empty exactly when it returns TRUE
for a name of at most 31 characters: the text before the colon passes `checkLabelName`, a
white character follows the colon and the line goes on after the label. The label it
hands over is the text before the colon. -/
theorem getLabelName_accepted (line : List Char) (macros : List macroNode) :
    ((getLabelName line "" macros).2.2.2 = "" ↔
      (line.takeWhile fun c => c != ':').length ≤ 31 ∧
      (checkLabelName (line.takeWhile fun c => c != ':') macros "").1 = true ∧
      (∃ ch, line.get? ((line.takeWhile fun c => c != ':').length + 1) = some ch ∧
        isspace ch = true) ∧
      isWhiteSpaceString (skipWord line) = false) ∧
    ((getLabelName line "" macros).2.2.2 = "" →
      (getLabelName line "" macros).1 = true ∧
      (getLabelName line "" macros).2.1 = skipWord line ∧
      (getLabelName line "" macros).2.2.1 = line.takeWhile fun c => c != ':') := by
  have hlong : ∀ k : Nat, decide (k ≥ MAX_LENGTH_OF_LABEL) = true ↔ ¬ k ≤ 31 := by
    intro k
    simp only [MAX_LENGTH_OF_LABEL, ge_iff_le, decide_eq_true_eq]
    omega
  by_cases hl : (line.takeWhile fun c => c != ':').length ≤ 31
  · have hd : decide ((line.takeWhile fun c => c != ':').length ≥ MAX_LENGTH_OF_LABEL)
        = false := by
      cases h : decide ((line.takeWhile fun c => c != ':').length ≥ MAX_LENGTH_OF_LABEL)
      · rfl
      · exact absurd hl ((hlong _).mp h)
    have ht := take_length_takeWhile (fun c => c != ':') line
    cases hc : (checkLabelName (line.takeWhile fun c => c != ':') macros "").1 with
    | false =>
      have hne := (checkLabelName_error (line.takeWhile fun c => c != ':') macros "").2 hc
      have herr : (getLabelName line "" macros).2.2.2 ≠ "" := by
        simp only [getLabelName, hd, Bool.false_eq_true, if_false, ht, hc, Bool.not_false,
          if_true]
        exact hne
      exact ⟨⟨fun h => absurd h herr, fun h => absurd h.2.1 (by simp)⟩,
        fun h => absurd h herr⟩
    | true =>
      have hsame := (checkLabelName_error (line.takeWhile fun c => c != ':') macros "").1 hc
      cases hg : line.get? ((line.takeWhile fun c => c != ':').length + 1) with
      | none =>
        have herr : (getLabelName line "" macros).2.2.2 ≠ "" := by
          simp only [getLabelName, hd, Bool.false_eq_true, if_false, ht, hc, Bool.not_true,
            hg, Bool.not_false, if_true]
          decide
        exact ⟨⟨fun h => absurd h herr, fun h => by
          obtain ⟨ch, h1, _⟩ := h.2.2.1
          exact Option.noConfusion h1⟩, fun h => absurd h herr⟩
      | some ch =>
        cases hs : isspace ch with
        | false =>
          have herr : (getLabelName line "" macros).2.2.2 ≠ "" := by
            simp only [getLabelName, hd, Bool.false_eq_true, if_false, ht, hc, Bool.not_true,
              hg, hs, Bool.not_false, if_true]
            decide
          exact ⟨⟨fun h => absurd h herr, fun h => by
            obtain ⟨ch', h1, h2⟩ := h.2.2.1
            simp only [Option.some.injEq] at h1
            rw [← h1, hs] at h2
            exact Bool.noConfusion h2⟩, fun h => absurd h herr⟩
        | true =>
          cases hw : isWhiteSpaceString (skipWord line) with
          | true =>
            have herr : (getLabelName line "" macros).2.2.2 ≠ "" := by
              simp only [getLabelName, hd, Bool.false_eq_true, if_false, ht, hc,
                Bool.not_true, hg, hs, hw, if_true]
              exact literal_append_ne _ _ (by decide)
            exact ⟨⟨fun h => absurd h herr, fun h => absurd h.2.2.2 (by simp)⟩,
              fun h => absurd h herr⟩
          | false =>
            have hval : getLabelName line "" macros =
                (true, skipWord line, line.takeWhile fun c => c != ':', "") := by
              simp only [getLabelName, hd, Bool.false_eq_true, if_false, ht, hc,
                Bool.not_true, hg, hs, hw, hsame]
            rw [hval]
            exact ⟨⟨fun _ => ⟨hl, rfl, ⟨ch, rfl, hs⟩, rfl⟩, fun _ => rfl⟩,
              fun _ => ⟨rfl, rfl, rfl⟩⟩
  · have hd : decide ((line.takeWhile fun c => c != ':').length ≥ MAX_LENGTH_OF_LABEL)
        = true := (hlong _).mpr hl
    have herr : (getLabelName line "" macros).2.2.2 ≠ "" := by
      have h1 := checkLabelName_error (line.take (MAX_LENGTH_OF_LABEL - 1)) macros
        "Invalid label name, label name contains more than 31 characters."
      cases hc : (checkLabelName (line.take (MAX_LENGTH_OF_LABEL - 1)) macros
          "Invalid label name, label name contains more than 31 characters.").1 with
      | false =>
        simp only [getLabelName, hd, if_true, hc, Bool.not_false]
        exact h1.2 hc
      | true =>
        have h2 := h1.1 hc
        simp only [getLabelName, hd, if_true, hc, Bool.not_true, Bool.false_eq_true,
          if_false]
        split_ifs
        · dsimp only; decide
        · exact literal_append_ne _ _ (by decide)
        · rw [h2]; decide
    exact ⟨⟨fun h => absurd h herr, fun h => absurd h.1 hl⟩, fun h => absurd h herr⟩

/-! ## `readNewDeclaration` and the name it declares -/

theorem getInstructionType_error (line : List Char) (e : String) :
    (getInstructionType line e).2.2 = "" ↔ e = "" ∧ (getInstructionType line e).1 ≠ NO_TYPE := by
  constructor
  · intro h
    have hty : (getInstructionType line e).1 ≠ NO_TYPE := by
      intro hc
      unfold getInstructionType at h hc
      simp only at h hc
      split_ifs at h hc with h1 h2 h3
      · exact absurd h2 (by decide)
      · exact absurd hc (by dsimp only; decide)
      · rw [String.append_assoc] at h
        exact literal_append_ne _ _ (by decide) h
      · exact h3 hc
    exact ⟨by rw [← getInstructionType_clean line e hty]; exact h, hty⟩
  · intro h
    rw [getInstructionType_clean line e h.2]
    exact h.1

theorem checkLabelName_flag (name : List Char) (macros : List macroNode) (e e' : String) :
    (checkLabelName name macros e).1 = (checkLabelName name macros e').1 := by
  rw [Bool.eq_iff_iff, checkLabelName_iff, checkLabelName_iff]

theorem checkIfLabelNameAlreadyDeclared_flag (name : List Char) (t : Int) :
    ∀ (l : List declarationNode) (e e' : String),
      (checkIfLabelNameAlreadyDeclared name t l e).1 =
        (checkIfLabelNameAlreadyDeclared name t l e').1 := by
  intro l
  induction l with
  | nil => intro e e'; rfl
  | cons temp rest ih =>
    intro e e'
    unfold checkIfLabelNameAlreadyDeclared
    split_ifs
    all_goals first
      | rfl
      | exact ih e e'

/-- The last part of `readNewDeclaration` and of `readNewLabel`: two checks that write a
message when they fail, and the node appended when they pass or when the list is empty. -/
theorem checked_append (line1 : List Char) (decls : List declarationNode)
    (node : declarationNode) (e2 : String) (c d : Bool × String)
    (hc : (c.1 = true → c.2 = e2) ∧ (c.1 = false → c.2 ≠ ""))
    (hd : (d.1 = true → d.2 = c.2) ∧ (d.1 = false → d.2 ≠ "")) :
    (((if (!c.1 && !decls.isEmpty) = true then (⟨line1, decls, c.2⟩ : declarationState)
      else if (!d.1 && !decls.isEmpty) = true then ⟨line1, decls, d.2⟩
      else ⟨line1, decls ++ [node], d.2⟩).error_str = "" ↔
        e2 = "" ∧ c.1 = true ∧ d.1 = true)) ∧
    ((if (!c.1 && !decls.isEmpty) = true then (⟨line1, decls, c.2⟩ : declarationState)
      else if (!d.1 && !decls.isEmpty) = true then ⟨line1, decls, d.2⟩
      else ⟨line1, decls ++ [node], d.2⟩).error_str = "" →
      (if (!c.1 && !decls.isEmpty) = true then (⟨line1, decls, c.2⟩ : declarationState)
      else if (!d.1 && !decls.isEmpty) = true then ⟨line1, decls, d.2⟩
      else ⟨line1, decls ++ [node], d.2⟩).declarations_list = decls ++ [node]) := by
  obtain ⟨c1, c2⟩ := c
  obtain ⟨d1, d2⟩ := d
  dsimp only at hc hd ⊢
  cases c1 with
  | false =>
    have h1 := hc.2 rfl
    cases d1 with
    | false =>
      have h2 := hd.2 rfl
      cases decls.isEmpty <;> simp [h1, h2]
    | true =>
      have h2 := hd.1 rfl
      subst h2
      cases decls.isEmpty <;> simp [h1]
  | true =>
    have h1 := hc.1 rfl
    subst h1
    cases d1 with
    | false =>
      have h2 := hd.2 rfl
      cases decls.isEmpty <;> simp [h2]
    | true =>
      have h2 := hd.1 rfl
      subst h2
      simp

/-- `readNewDeclaration` leaves the error buffer empty exactly when the buffer was empty,
the first word of the line is known, the name after it has at most 31 characters and
nothing but white characters behind it, and the name passes `checkLabelName` and
`checkIfLabelNameAlreadyDeclared`; the function then appends the declaration of the
name. -/
theorem readNewDeclaration_accepted (st : declarationState) (line_num : Nat)
    (macros : List macroNode) :
    ((readNewDeclaration st line_num macros).error_str = "" ↔
      st.error_str = "" ∧ (getInstructionType st.line "").1 ≠ NO_TYPE ∧
      (declaredName st.line).length ≤ 31 ∧
      isWhiteSpaceString (afterDeclaredName st.line) = true ∧
      (checkLabelName (declaredName st.line) macros "").1 = true ∧
      (checkIfLabelNameAlreadyDeclared (declaredName st.line)
        (getInstructionType st.line "").1 st.declarations_list "").1 = true) ∧
    ((readNewDeclaration st line_num macros).error_str = "" →
      (readNewDeclaration st line_num macros).declarations_list =
        st.declarations_list ++ [creatDeclarationNode (Int.ofNat line_num)
          (declaredName st.line) (getInstructionType st.line "").1]) := by
  have hty : (getInstructionType st.line "").1 = (getInstructionType st.line st.error_str).1 := by
    rw [getInstructionType_type, getInstructionType_type]
  have hline := getInstructionType_line st.line st.error_str
  have hgerr := getInstructionType_error st.line st.error_str
  unfold declaredName afterDeclaredName
  rw [hty, ← hline] at *
  unfold readNewDeclaration
  simp only []
  generalize getInstructionType st.line st.error_str = g at hgerr ⊢
  generalize getWord (skipWord g.2.1) = w
  have hlen : decide (w.2.length > MAX_LENGTH_OF_LABEL - 1) = true ↔ ¬ w.2.length ≤ 31 := by
    simp only [MAX_LENGTH_OF_LABEL, gt_iff_lt, decide_eq_true_eq]
    omega
  cases hlong : decide (w.2.length > MAX_LENGTH_OF_LABEL - 1) with
  | true =>
    have hl := hlen.mp hlong
    simp only [if_true]
    cases hextra : isWhiteSpaceString w.1 with
    | false =>
      simp only [Bool.not_false, if_true, Bool.true_and]
      by_cases hcur : (!st.declarations_list.isEmpty) = true
      · rw [if_pos hcur]
        dsimp only
        have hne := literal_append_ne
          "Invalid label declaration, additional characters after the label name: "
          (String.mk (w.2.take MAX_LENGTH_OF_LABEL)) (by decide)
        exact ⟨⟨fun h => absurd h hne, fun h => absurd h.2.2.1 hl⟩, fun h => absurd h hne⟩
      · rw [if_neg hcur]
        obtain ⟨k1, k2⟩ := checked_append w.1 st.declarations_list
          (creatDeclarationNode (Int.ofNat line_num) (w.2.take MAX_LENGTH_OF_LABEL) g.1)
          _ _ _ (checkLabelName_error _ macros _)
          (checkIfLabelNameAlreadyDeclared_error _ g.1 st.declarations_list _)
        exact ⟨⟨fun h => absurd (k1.mp h).1 (literal_append_ne _ _ (by decide)),
          fun h => absurd h.2.2.1 hl⟩,
          fun h => absurd (k1.mp h).1 (literal_append_ne _ _ (by decide))⟩
    | true =>
      simp only [Bool.not_true, Bool.false_eq_true, if_false, Bool.false_and]
      obtain ⟨k1, k2⟩ := checked_append w.1 st.declarations_list
        (creatDeclarationNode (Int.ofNat line_num) (w.2.take MAX_LENGTH_OF_LABEL) g.1)
        _ _ _ (checkLabelName_error _ macros _)
        (checkIfLabelNameAlreadyDeclared_error _ g.1 st.declarations_list _)
      exact ⟨⟨fun h => absurd (k1.mp h).1 (by decide), fun h => absurd h.2.2.1 hl⟩,
        fun h => absurd (k1.mp h).1 (by decide)⟩
  | false =>
    have hl : w.2.length ≤ 31 := by
      by_contra hc
      rw [hlen.mpr hc] at hlong
      exact Bool.noConfusion hlong
    simp only [Bool.false_eq_true, if_false]
    cases hextra : isWhiteSpaceString w.1 with
    | false =>
      simp only [Bool.not_false, if_true, Bool.true_and]
      by_cases hcur : (!st.declarations_list.isEmpty) = true
      · rw [if_pos hcur]
        dsimp only
        have hne := literal_append_ne
          "Invalid label declaration, additional characters after the label name: "
          (String.mk w.2) (by decide)
        exact ⟨⟨fun h => absurd h hne, fun h => absurd h.2.2.2.1 (by simp)⟩,
          fun h => absurd h hne⟩
      · rw [if_neg hcur]
        obtain ⟨k1, k2⟩ := checked_append w.1 st.declarations_list
          (creatDeclarationNode (Int.ofNat line_num) w.2 g.1)
          _ _ _ (checkLabelName_error _ macros _)
          (checkIfLabelNameAlreadyDeclared_error _ g.1 st.declarations_list _)
        exact ⟨⟨fun h => absurd (k1.mp h).1 (literal_append_ne _ _ (by decide)),
          fun h => absurd h.2.2.2.1 (by simp)⟩,
          fun h => absurd (k1.mp h).1 (literal_append_ne _ _ (by decide))⟩
    | true =>
      simp only [Bool.not_true, Bool.false_eq_true, if_false, Bool.false_and]
      obtain ⟨k1, k2⟩ := checked_append w.1 st.declarations_list
        (creatDeclarationNode (Int.ofNat line_num) w.2 g.1)
        _ _ _ (checkLabelName_error w.2 macros g.2.2)
        (checkIfLabelNameAlreadyDeclared_error w.2 g.1 st.declarations_list
          (checkLabelName w.2 macros g.2.2).2)
      refine ⟨?_, k2⟩
      rw [k1, hgerr, checkLabelName_flag w.2 macros g.2.2 "",
        checkIfLabelNameAlreadyDeclared_flag w.2 g.1 st.declarations_list
          (checkLabelName w.2 macros g.2.2).2 ""]
      constructor
      · rintro ⟨⟨a1, a2⟩, a3, a4⟩
        exact ⟨a1, a2, hl, trivial, a3, a4⟩
      · rintro ⟨a1, a2, _, _, a3, a4⟩
        exact ⟨⟨a1, a2⟩, a3, a4⟩

/-! ## The names a first pass without diagnostics declares -/

theorem labelRules_of_check (name : List Char) (macros : List macroNode) (e : String)
    (hlen : name.length ≤ 31) (h : (checkLabelName name macros e).1 = true) :
    labelRules macros name := by
  obtain ⟨h1, h2, h3, h4, h5, h6⟩ := (checkLabelName_iff name macros e).mp h
  refine ⟨?_, hlen, h1, h2, h3, h4, h5, h6⟩
  obtain ⟨c, hc, _⟩ := h1
  cases name with
  | nil => simp at hc
  | cons a as => simp

theorem namesChecked_append (macros : List macroNode) (l : List declarationNode)
    (d : declarationNode) (h : namesChecked macros l) (hd : labelRules macros d.label) :
    namesChecked macros (l ++ [d]) := by
  intro x hx
  rcases List.mem_append.mp hx with hx | hx
  · exact h x hx
  · simp only [List.mem_singleton] at hx
    rw [hx]
    exact hd

theorem readNewDeclaration_checked (st : declarationState) (line_num : Nat)
    (macros : List macroNode)
    (herr : (readNewDeclaration st line_num macros).error_str = "")
    (h : namesChecked macros st.declarations_list) :
    namesChecked macros (readNewDeclaration st line_num macros).declarations_list := by
  obtain ⟨h1, h2⟩ := readNewDeclaration_accepted st line_num macros
  rw [h2 herr]
  obtain ⟨_, _, a3, _, a5, _⟩ := h1.mp herr
  exact namesChecked_append macros _ _ h (labelRules_of_check _ macros "" a3 a5)

theorem readNewLabel_checked (st : declarationState) (line_num : Nat)
    (macros : List macroNode) (dc ic : Int) (hclean : st.error_str = "")
    (herr : (readNewLabel st line_num macros dc ic).error_str = "")
    (h : namesChecked macros st.declarations_list) :
    namesChecked macros (readNewLabel st line_num macros dc ic).declarations_list := by
  revert herr
  unfold readNewLabel
  simp only [hclean]
  obtain ⟨k1, k2⟩ := getLabelName_accepted st.line macros
  generalize getLabelName st.line "" macros = l at k1 k2 ⊢
  have hnode : ∀ v : Int,
      (checkIfLabelNameAlreadyDeclared l.2.2.1 (getInstructionType l.2.1 l.2.2.2).1
        st.declarations_list (getInstructionType l.2.1 l.2.2.2).2.2).2 = "" →
      namesChecked macros (st.declarations_list ++
        [creatDeclarationNode v l.2.2.1 (getInstructionType l.2.1 l.2.2.2).1]) := by
    intro v hd
    have hg : (getInstructionType l.2.1 l.2.2.2).2.2 = "" := by
      have he := checkIfLabelNameAlreadyDeclared_error l.2.2.1
        (getInstructionType l.2.1 l.2.2.2).1 st.declarations_list
        (getInstructionType l.2.1 l.2.2.2).2.2
      cases hf : (checkIfLabelNameAlreadyDeclared l.2.2.1 (getInstructionType l.2.1 l.2.2.2).1
        st.declarations_list (getInstructionType l.2.1 l.2.2.2).2.2).1 with
      | true => rw [← he.1 hf]; exact hd
      | false => exact absurd hd (he.2 hf)
    have hl := ((getInstructionType_error _ _).mp hg).1
    obtain ⟨b1, b2, _, _⟩ := k1.mp hl
    obtain ⟨_, _, b5⟩ := k2 hl
    apply namesChecked_append macros _ _ h
    show labelRules macros l.2.2.1
    rw [b5]
    exact labelRules_of_check _ macros "" b1 b2
  refine ite_prop (fun r : declarationState => r.error_str = "" →
    namesChecked macros r.declarations_list) _ _ _ (fun _ _ => h) (fun _ => ?_)
  refine ite_prop (fun r : declarationState => r.error_str = "" →
    namesChecked macros r.declarations_list) _ _ _ (fun _ _ => h) (fun _ => ?_)
  refine ite_prop (fun r : declarationState => r.error_str = "" →
    namesChecked macros r.declarations_list) _ _ _ (fun _ _ => h) (fun _ => ?_)
  refine ite_prop (fun r : declarationState => r.error_str = "" →
    namesChecked macros r.declarations_list) _ _ _ (fun _ => ?_) (fun _ => ?_)
  · dsimp only
    exact hnode ic
  refine ite_prop (fun r : declarationState => r.error_str = "" →
    namesChecked macros r.declarations_list) _ _ _ (fun _ => ?_) (fun _ => ?_)
  · dsimp only
    intro herr
    exact readNewDeclaration_checked ⟨_, st.declarations_list, _⟩ _ _ herr h
  · dsimp only
    exact hnode dc

/-- A round of the loop of `firstPass` that leaves the indicator TRUE reported nothing and
declared names within the rules only. -/
theorem firstPassLine_checked (macros : List macroNode) (st st' : firstPassState)
    (buf : List Char) (h : firstPassLine macros st buf = some st')
    (hi : st'.indicator = true) :
    st.indicator = true ∧
    (namesChecked macros st.declarations_list →
      namesChecked macros st'.declarations_list) := by
  unfold firstPassLine at h
  simp only at h
  have hl : (if (strchr (cstr buf) ':').isSome = true then
      readNewLabel ⟨cstr buf, st.declarations_list, ""⟩ st.line_num macros st.dc st.ic
    else ⟨cstr buf, st.declarations_list, ""⟩).error_str = "" →
    namesChecked macros st.declarations_list →
    namesChecked macros (if (strchr (cstr buf) ':').isSome = true then
      readNewLabel ⟨cstr buf, st.declarations_list, ""⟩ st.line_num macros st.dc st.ic
    else ⟨cstr buf, st.declarations_list, ""⟩).declarations_list := by
    split_ifs
    · intro he hn
      exact readNewLabel_checked ⟨_, st.declarations_list, _⟩ _ _ _ _ rfl he hn
    · intro _ hn
      exact hn
  generalize (if (strchr (cstr buf) ':').isSome = true then
      readNewLabel ⟨cstr buf, st.declarations_list, ""⟩ st.line_num macros st.dc st.ic
    else ⟨cstr buf, st.declarations_list, ""⟩) = l at h hl
  split_ifs at h with hc ht1 ht2 ht3
  · simp only [Option.bind_eq_some] at h
    obtain ⟨r, hr, hst⟩ := h
    have hst := (reportedLine_some _ _ _ hst).1
    subst hst
    obtain ⟨_, _, _, _, f5, f6⟩ := endOfLine_fields
      { st with declarations_list := l.declarations_list, ic := r.ic,
                instructions_list := r.instructions_list } r.error_str
    rw [f5]
    exact ⟨(f6.mp hi).1, hl hc.1⟩
  · have h := (reportedLine_some _ _ _ h).1
    subst h
    obtain ⟨_, _, _, _, f5, f6⟩ := endOfLine_fields
      { st with declarations_list :=
          (readNewDeclaration ⟨(getInstructionType l.line l.error_str).2.1,
            l.declarations_list, (getInstructionType l.line l.error_str).2.2⟩ st.line_num
            macros).declarations_list }
      (readNewDeclaration ⟨(getInstructionType l.line l.error_str).2.1,
        l.declarations_list, (getInstructionType l.line l.error_str).2.2⟩ st.line_num
        macros).error_str
    rw [f5]
    refine ⟨(f6.mp hi).1, fun hn => ?_⟩
    exact readNewDeclaration_checked ⟨_, l.declarations_list, _⟩ _ _ (f6.mp hi).2
      (hl hc.1 hn)
  · simp only [Option.bind_eq_some] at h
    obtain ⟨r, hr, hst⟩ := h
    have hst := (reportedLine_some _ _ _ hst).1
    subst hst
    obtain ⟨_, _, _, _, f5, f6⟩ := endOfLine_fields
      { st with declarations_list := l.declarations_list, dc := r.dc,
                data_list := r.data_list } r.error_str
    rw [f5]
    exact ⟨(f6.mp hi).1, hl hc.1⟩
  · have h := (reportedLine_some _ _ _ h).1
    subst h
    obtain ⟨_, _, _, _, f5, f6⟩ := endOfLine_fields
      { st with declarations_list := l.declarations_list }
      (getInstructionType l.line l.error_str).2.2
    rw [f5]
    exact ⟨(f6.mp hi).1, hl hc.1⟩
  · have h := (reportedLine_some _ _ _ h).1
    subst h
    obtain ⟨_, _, _, _, f5, f6⟩ := endOfLine_fields
      { st with declarations_list := l.declarations_list } l.error_str
    rw [f5]
    exact ⟨(f6.mp hi).1, hl (f6.mp hi).2⟩

theorem firstPassLoop_checked (macros : List macroNode) :
    ∀ (lines : List (List Char)) (st st' : firstPassState),
      firstPassLoop macros lines st = some st' → st'.indicator = true →
      st.indicator = true ∧
      (namesChecked macros st.declarations_list →
        namesChecked macros st'.declarations_list) := by
  intro lines
  induction lines with
  | nil =>
    intro st st' h hi
    simp only [firstPassLoop, Option.some.injEq] at h
    subst h
    exact ⟨hi, fun hn => hn⟩
  | cons buf rest ih =>
    intro st st' h hi
    simp only [firstPassLoop, Option.bind_eq_some] at h
    obtain ⟨st1, h1, h2⟩ := h
    obtain ⟨i1, c1⟩ := ih st1 st' h2 hi
    obtain ⟨i0, c0⟩ := firstPassLine_checked macros st st1 buf h1 i1
    exact ⟨i0, fun hn => c1 (c0 hn)⟩

/-- Every name a first pass without diagnostics declares is within the rules. -/
theorem firstPass_namesChecked (macros : List macroNode) (lines : List (List Char))
    (p : firstPassResult) (h : firstPass macros lines = some p) (hi : p.indicator = true) :
    namesChecked macros p.declarations_list := by
  obtain ⟨st, hloop, hind, hp⟩ := firstPass_declarations macros lines p h
  have hst := (firstPassLoop_checked macros lines firstPassInit st hloop (hind hi)).2
    (by intro d hd; simp [firstPassInit] at hd)
  rcases hp with hp | hp
  · rw [hp]; exact hst
  · rw [hp]
    intro d hd
    unfold updateDeclarationNodes at hd
    obtain ⟨d0, hd0, rfl⟩ := List.mem_map.mp hd
    rw [(updateDeclarationNodes_fields _ d0).1]
    exact hst d0 hd0

/-! ## The three low bits of a word -/

theorem bits16_lt (x : Int) : bits16 x < 65536 := by
  unfold bits16
  have h1 : 0 ≤ x % 65536 := Int.emod_nonneg _ (by decide)
  have h2 : x % 65536 < 65536 := Int.emod_lt_of_pos _ (by decide)
  omega

theorem bits16_toShort (x : Int) : bits16 (toShort x) = bits16 x := by
  unfold bits16 toShort
  congr 1
  omega

theorem bits16_ofNat (k : Nat) (h : k < 65536) : bits16 (Int.ofNat k) = k := by
  unfold bits16
  simp only [Int.ofNat_eq_coe]
  omega

theorem or_lt_65536 (a b : Nat) (ha : a < 65536) (hb : b < 65536) : a ||| b < 65536 :=
  Nat.or_lt_two_pow (n := 16) ha hb

theorem and_lt_65536 (a b : Nat) (ha : a < 65536) : a &&& b < 65536 :=
  lt_of_le_of_lt Nat.and_le_left ha

theorem bits16_shortOr (a b : Int) : bits16 (shortOr a b) = bits16 a ||| bits16 b := by
  unfold shortOr
  rw [bits16_toShort, bits16_ofNat _ (or_lt_65536 _ _ (bits16_lt a) (bits16_lt b))]

theorem bits16_shortAnd (a b : Int) : bits16 (shortAnd a b) = bits16 a &&& bits16 b := by
  unfold shortAnd
  rw [bits16_toShort, bits16_ofNat _ (and_lt_65536 _ _ (bits16_lt a))]

theorem or_mod_eight (a b : Nat) : (a ||| b) % 8 = a % 8 ||| b % 8 := by
  apply Nat.eq_of_testBit_eq
  intro i
  have h8 : (8 : Nat) = 2 ^ 3 := rfl
  rw [h8]
  simp only [Nat.testBit_mod_two_pow, Nat.testBit_or]
  cases decide (i < 3) <;> simp

theorem and_mod_eight (a b : Nat) : (a &&& b) % 8 = a % 8 &&& b % 8 := by
  apply Nat.eq_of_testBit_eq
  intro i
  have h8 : (8 : Nat) = 2 ^ 3 := rfl
  rw [h8]
  simp only [Nat.testBit_mod_two_pow, Nat.testBit_and]
  cases decide (i < 3) <;> simp

theorem lowBits_shortOr (a b : Int) : lowBits (shortOr a b) = lowBits a ||| lowBits b := by
  unfold lowBits
  rw [bits16_shortOr]
  exact or_mod_eight _ _

theorem lowBits_shortAnd (a b : Int) : lowBits (shortAnd a b) = lowBits a &&& lowBits b := by
  unfold lowBits
  rw [bits16_shortAnd]
  exact and_mod_eight _ _

theorem lowBits_shift (v : Int) : lowBits (toShort (v * 2 ^ 3)) = 0 := by
  unfold lowBits
  rw [bits16_toShort]
  unfold bits16
  omega

/-- The word of a resolved label reference has the R bit alone among the three low bits,
whatever the address. -/
theorem lowBits_relocatable (da : Int) : lowBits (getRelocatableBMC da) = 2 := by
  unfold getRelocatableBMC insertBinaryValueByData
  simp only []
  rw [lowBits_shortAnd, lowBits_shortOr]
  have h : (ADDRESS_START_POSITION).toNat = 3 := by decide
  rw [h, lowBits_shift]
  decide

theorem lowBits_turnOnBit_A (v : Int) :
    lowBits (turnOnBit v A_ADDRESSING_METHOD) = lowBits v ||| 4 := by
  unfold turnOnBit
  rw [lowBits_shortOr]
  rfl

theorem isAbsolute_iff (v : Int) : isAbsolute v = true ↔ lowBits v &&& 4 ≠ 0 := by
  unfold isAbsolute
  have hp : powShort A_ADDRESSING_METHOD = 4 := by decide
  have h4 : bits16 4 = 4 := by decide
  rw [bne_iff_ne, hp]
  have hle : bits16 v &&& 4 ≤ 4 := Nat.and_le_right
  have hval : shortAnd v 4 = Int.ofNat (bits16 v &&& 4) := by
    unfold shortAnd
    rw [h4]
    apply toShort_of_range
    · simp only [Int.ofNat_eq_coe]; omega
    · simp only [Int.ofNat_eq_coe]; omega
  have hmod : lowBits v &&& 4 = (bits16 v &&& 4) % 8 := by
    unfold lowBits
    rw [and_mod_eight]
  rw [hval, hmod]
  simp only [Int.ofNat_eq_coe, ne_eq, Int.natCast_eq_zero]
  omega

theorem isAbsolute_of_lowBits (v : Int) (h : lowBits v = 4) : isAbsolute v = true := by
  rw [isAbsolute_iff, h]
  decide

/-- The word of an immediate operand has the A bit alone among the three low bits, whatever
the text of the operand. -/
theorem lowBits_immediate (operand : List Char) :
    lowBits (getImmediateBMC operand 0) = 4 := by
  unfold getImmediateBMC insertBinaryValueByData
  simp only []
  rw [lowBits_turnOnBit_A, lowBits_shortAnd, lowBits_shortOr]
  have h : (OPERAND_START_POSITION).toNat = 3 := by decide
  rw [h, lowBits_shift]
  decide

set_option maxRecDepth 100000 in
/-- The first word has the A bit alone among the three low bits, for every opcode and
every pair of operand types. -/
theorem lowBits_firstWord : ∀ o : Int, 0 ≤ o → o ≤ 15 → ∀ s : Int, -1 ≤ s → s ≤ 3 →
    ∀ t : Int, -1 ≤ t → t ≤ 3 → (getFirstWordBMC o s t 0).map lowBits = some 4 := by
  decide!

set_option maxRecDepth 100000 in
/-- The word of a register operand, alone or shared by two registers, has the A bit alone
among the three low bits, for every name `isRegister` knows. -/
theorem lowBits_register : ∀ a ∈ registerTexts,
    (getSourceRegisterBMC a 0).map lowBits = some 4 ∧
    (getTargetRegisterBMC a 0).map lowBits = some 4 ∧
    ∀ b ∈ registerTexts,
      ((getSourceRegisterBMC a 0).bind (getTargetRegisterBMC b)).map lowBits = some 4 := by
  decide

theorem lookupKeyword_mem (table : List String) (word : List Char) :
    ∀ i : Int, 0 ≤ i → lookupKeyword table word i ≠ -1 → word ∈ table.map String.toList := by
  induction table with
  | nil => intro i _ h; simp [lookupKeyword] at h
  | cons k ks ih =>
    intro i hi h
    unfold lookupKeyword at h
    by_cases hw : word = k.toList
    · simp [hw]
    · rw [if_neg hw] at h
      exact List.mem_cons_of_mem _ (ih (i + 1) (by omega) h)

theorem isRegister_mem (word : List Char) (h : isRegister word ≠ NO_REGISTER) :
    word ∈ registerTexts :=
  lookupKeyword_mem _ word 0 (by decide) h

/-! ## The shape of the words of an accepted instruction -/

theorem creatInstructionNode_shape (ic b : Int) (label : List Char) (line : Nat)
    (n : instructionNode) (h : creatInstructionNode ic b (some label) line = some n) :
    (isAbsolute b = true ∧ n = ⟨ic, 0, wordType.bmc b⟩) ∨
    (isAbsolute b = false ∧ n = ⟨ic, line, wordType.name label⟩) := by
  unfold creatInstructionNode at h
  cases hb : isAbsolute b with
  | true =>
    rw [hb] at h
    simp only [if_true, Option.some.injEq] at h
    exact Or.inl ⟨rfl, h.symm⟩
  | false =>
    rw [hb] at h
    simp only [Bool.false_eq_true, if_false, Option.map_some', Option.some.injEq] at h
    exact Or.inr ⟨rfl, h.symm⟩

/-- The text `getOperandAddressingType` hands over for a register operand is a name
`isRegister` knows. -/
theorem getOperandAddressingType_register (operand : List Char) (e : String)
    (h : (getOperandAddressingType operand e).1 ≥ INDIRECT_REGISTER_ADDRESSING) :
    (getOperandAddressingType operand e).2.1 ∈ registerTexts := by
  revert h
  apply getOperandAddressingType_cases operand e
    (fun r => r.1 ≥ INDIRECT_REGISTER_ADDRESSING → r.2.1 ∈ registerTexts)
  · intro _ _ h; exact absurd h (by dsimp only; decide)
  · intro _ _ _ _ _ _ h; exact absurd h (by dsimp only; decide)
  · intro rest _ hr _; exact isRegister_mem rest hr
  · intro hr _; exact isRegister_mem operand hr
  · intro _ _ h; exact absurd h (by dsimp only; decide)

/-- The machine code `readNewInstruction` prepares for an operand that stands alone in its
word: zero for a Direct operand, else a word with the A bit alone among the three low
bits. -/
theorem operandBMC_shape (operand : List Char) (e : String) ( is_source : Bool) (b : Int)
    (hty : (getOperandAddressingType operand e).1 ≠ NO_TYPE)
    (hb : operandBMC is_source (getOperandAddressingType operand e).1
      (getOperandAddressingType operand e).2.1 = some b) :
    ((getOperandAddressingType operand e).1 = DIRECT_ADDRESSING ∧ b = 0) ∨
    ((getOperandAddressingType operand e).1 ≠ DIRECT_ADDRESSING ∧ lowBits b = 4) := by
  have hreg : ∀ a ∈ registerTexts,
      (if is_source = true then getSourceRegisterBMC a 0 else getTargetRegisterBMC a 0)
        = some b → lowBits b = 4 := by
    intro a ha hab
    obtain ⟨t1, t2, _⟩ := lowBits_register a ha
    cases is_source with
    | true =>
      simp only [if_true] at hab
      rw [hab] at t1
      simpa using t1
    | false =>
      simp only [Bool.false_eq_true, if_false] at hab
      rw [hab] at t2
      simpa using t2
  revert hty hb
  apply getOperandAddressingType_cases operand e
    (fun r => r.1 ≠ NO_TYPE → operandBMC is_source r.1 r.2.1 = some b →
      (r.1 = DIRECT_ADDRESSING ∧ b = 0) ∨ (r.1 ≠ DIRECT_ADDRESSING ∧ lowBits b = 4))
  · intro _ _ h; exact absurd rfl h
  · intro rest _ _ _ _ _ _ hb
    right
    refine ⟨by dsimp only; decide, ?_⟩
    have h0 : operandBMC is_source IMMEDIATE_ADDRESSING operand
        = some (getImmediateBMC operand 0) := by
      unfold operandBMC
      simp only [if_true]
      rw [if_neg (show ¬ IMMEDIATE_ADDRESSING ≥ INDIRECT_REGISTER_ADDRESSING from by decide)]
    rw [h0] at hb
    simp only [Option.some.injEq] at hb
    rw [← hb]
    exact lowBits_immediate operand
  · intro rest _ hr _ hb
    right
    refine ⟨by dsimp only; decide, ?_⟩
    have h0 : operandBMC is_source INDIRECT_REGISTER_ADDRESSING rest
        = (if is_source = true then getSourceRegisterBMC rest 0
            else getTargetRegisterBMC rest 0) := by
      unfold operandBMC
      simp only []
      rw [if_neg (show ¬ INDIRECT_REGISTER_ADDRESSING = IMMEDIATE_ADDRESSING from by decide),
        if_pos (show INDIRECT_REGISTER_ADDRESSING ≥ INDIRECT_REGISTER_ADDRESSING
          from by decide)]
    rw [h0] at hb
    exact hreg rest (isRegister_mem rest hr) hb
  · intro hr _ hb
    right
    refine ⟨by dsimp only; decide, ?_⟩
    have h0 : operandBMC is_source DIRECT_REGISTER_ADDRESSING operand
        = (if is_source = true then getSourceRegisterBMC operand 0
            else getTargetRegisterBMC operand 0) := by
      unfold operandBMC
      simp only []
      rw [if_neg (show ¬ DIRECT_REGISTER_ADDRESSING = IMMEDIATE_ADDRESSING from by decide),
        if_pos (show DIRECT_REGISTER_ADDRESSING ≥ INDIRECT_REGISTER_ADDRESSING
          from by decide)]
    rw [h0] at hb
    exact hreg operand (isRegister_mem operand hr) hb
  · intro _ _ _ hb
    left
    have h0 : operandBMC is_source DIRECT_ADDRESSING operand = some 0 := by
      unfold operandBMC
      simp only []
      rw [if_neg (show ¬ DIRECT_ADDRESSING = IMMEDIATE_ADDRESSING from by decide),
        if_neg (show ¬ DIRECT_ADDRESSING ≥ INDIRECT_REGISTER_ADDRESSING from by decide)]
    rw [h0] at hb
    simp only [Option.some.injEq] at hb
    exact ⟨rfl, hb.symm⟩

theorem isValidSourceOperandType_fields (opcode : Int) (operand : List Char) (e : String) :
    (isValidSourceOperandType opcode operand e).2.1 = (getOperandAddressingType operand e).2.1 ∧
    ((isValidSourceOperandType opcode operand e).1 ≠ NO_TYPE →
      (isValidSourceOperandType opcode operand e).1 = (getOperandAddressingType operand e).1) := by
  constructor
  · unfold isValidSourceOperandType
    simp only []
    split_ifs <;> rfl
  · rw [isValidSourceOperandType_type]
    split_ifs
    · intro _; rfl
    · intro h; exact absurd rfl h

theorem isValidTargetOperandType_fields (opcode : Int) (operand : List Char) (e : String) :
    (isValidTargetOperandType opcode operand e).2.1 = (getOperandAddressingType operand e).2.1 ∧
    ((isValidTargetOperandType opcode operand e).1 ≠ NO_TYPE →
      (isValidTargetOperandType opcode operand e).1 = (getOperandAddressingType operand e).1) := by
  constructor
  · unfold isValidTargetOperandType
    simp only []
    split_ifs <;> rfl
  · rw [isValidTargetOperandType_type]
    split_ifs
    · intro _; rfl
    · intro h; exact absurd rfl h

/-- The node `readNewInstruction` builds for an operand that stands alone in its word. -/
theorem operandNode_of (o : Int × List Char × String) (operand : List Char) (e : String)
    ( is_source : Bool) (ic b : Int) (line_num : Nat) (n : instructionNode)
    (ho1 : o.2.1 = (getOperandAddressingType operand e).2.1)
    (ho2 : o.1 = (getOperandAddressingType operand e).1) (hty : o.1 ≠ NO_TYPE)
    (hb : operandBMC is_source o.1 o.2.1 = some b)
    (hn : creatInstructionNode ic b (some o.2.1) line_num = some n) :
    operandNode o line_num n ∧ n.ic = ic := by
  rw [ho1, ho2] at hb
  rw [ho2] at hty
  unfold operandNode
  rw [ho2]
  rcases operandBMC_shape operand e is_source b hty hb with ⟨h1, h2⟩ | ⟨h1, h2⟩
  · subst h2
    rcases creatInstructionNode_shape _ _ _ _ _ hn with ⟨h3, _⟩ | ⟨_, h4⟩
    · exact absurd h3 (by decide)
    · subst h4
      exact ⟨Or.inl ⟨h1, rfl, rfl⟩, rfl⟩
  · rcases creatInstructionNode_shape _ _ _ _ _ hn with ⟨_, h4⟩ | ⟨h3, _⟩
    · subst h4
      exact ⟨Or.inr ⟨h1, rfl, b, rfl, h2⟩, rfl⟩
    · rw [isAbsolute_of_lowBits b h2] at h3
      exact Bool.noConfusion h3

/-! ## The words `readNewInstruction` appends for an accepted line -/

theorem operandType_range (o : Int × List Char × String) (operand : List Char) (e : String)
    (ho2 : o.1 = (getOperandAddressingType operand e).1) : -1 ≤ o.1 ∧ o.1 ≤ 3 := by
  rw [ho2]
  rcases getOperandAddressingType_range operand e with h | h | h | h | h <;> rw [h] <;> decide

theorem getOpcode_range (line : List Char) (fw s t : Int)
    (h : getFirstWordBMC (getOpcode line).1 s t 0 = some fw) :
    0 ≤ (getOpcode line).1 ∧ (getOpcode line).1 ≤ 15 := by
  rcases isOpcode_range (getWord line).2 with h1 | h1
  · exfalso
    have h2 : (getOpcode line).1 = NO_OPCODE := h1
    rw [h2, getFirstWordBMC_no_opcode] at h
    exact Option.noConfusion h
  · exact h1

theorem firstWord_lowBits (o s t fw : Int) (ho : 0 ≤ o ∧ o ≤ 15) (hs : -1 ≤ s ∧ s ≤ 3)
    (ht : -1 ≤ t ∧ t ≤ 3) (h : getFirstWordBMC o s t 0 = some fw) : lowBits fw = 4 := by
  have h1 := lowBits_firstWord o ho.1 ho.2 s hs.1 hs.2 t ht.1 ht.2
  rw [h] at h1
  simpa using h1

/-- The words of an accepted line: the first word with the A bit alone among the three low
bits; for an opcode with one operand the word of the target; for an opcode with two
operands one word with the A bit alone when both are registers, else the word of the
source and the word of the target. -/
theorem readNewInstruction_words (st st' : instructionState) (line : List Char)
    (line_num : Nat) (hclean : st.error_str = "")
    (hrun : readNewInstruction st line line_num = some st')
    (haccepted : st'.error_str = "") :
    ∃ fw, lowBits fw = 4 ∧
      (¬ (getOpcode line).1 ≤ LEA → ¬ (getOpcode line).1 ≤ JSR →
        st'.instructions_list = st.instructions_list ++ [⟨st.ic, 0, wordType.bmc fw⟩]) ∧
      (¬ (getOpcode line).1 ≤ LEA → (getOpcode line).1 ≤ JSR →
        ∃ n2, st'.instructions_list =
            st.instructions_list ++ [⟨st.ic, 0, wordType.bmc fw⟩, n2] ∧
          operandNode (lineTarget line) line_num n2) ∧
      ((getOpcode line).1 ≤ LEA →
        (lineSource line).1 ≥ INDIRECT_REGISTER_ADDRESSING ∧
          (lineTarget line).1 ≥ INDIRECT_REGISTER_ADDRESSING →
        ∃ ic2 v, lowBits v = 4 ∧ st'.instructions_list =
          st.instructions_list ++ [⟨st.ic, 0, wordType.bmc fw⟩, ⟨ic2, 0, wordType.bmc v⟩]) ∧
      ((getOpcode line).1 ≤ LEA →
        ¬ ((lineSource line).1 ≥ INDIRECT_REGISTER_ADDRESSING ∧
          (lineTarget line).1 ≥ INDIRECT_REGISTER_ADDRESSING) →
        ∃ n2 n3, st'.instructions_list =
            st.instructions_list ++ [⟨st.ic, 0, wordType.bmc fw⟩, n2, n3] ∧
          operandNode (lineSource line) line_num n2 ∧
          operandNode (lineTarget line) line_num n3) := by
  obtain ⟨hA, hB, hC⟩ := readNewInstruction_accepted st st' line line_num hclean hrun haccepted
  have hsf := isValidSourceOperandType_fields (getOpcode line).1
    ((lineOperands line).source_operand.getD []) ""
  have htf := isValidTargetOperandType_fields (getOpcode line).1
    ((lineOperands line).target_operand.getD []) ""
  have hs1 : (lineSource line).2.1 = (getOperandAddressingType
      ((lineOperands line).source_operand.getD []) "").2.1 := hsf.1
  have ht1 : (lineTarget line).2.1 = (getOperandAddressingType
      ((lineOperands line).target_operand.getD []) "").2.1 := htf.1
  have hs2 : (lineSource line).1 ≠ NO_TYPE → (lineSource line).1 = (getOperandAddressingType
      ((lineOperands line).source_operand.getD []) "").1 := hsf.2
  have ht2 : (lineTarget line).1 ≠ NO_TYPE → (lineTarget line).1 = (getOperandAddressingType
      ((lineOperands line).target_operand.getD []) "").1 := htf.2
  by_cases h1 : (getOpcode line).1 ≤ LEA
  · obtain ⟨_, hsn, htn, hw⟩ := hA h1
    have hsr := operandType_range _ _ _ (hs2 hsn)
    have htr := operandType_range _ _ _ (ht2 htn)
    unfold twoOperandWords at hw
    simp only [Option.bind_eq_some] at hw
    obtain ⟨fw, hfw, n1, hn1, hw⟩ := hw
    have hn1' := creatInstructionNode_first _ _ _ _ hn1
    subst hn1'
    have hop := getOpcode_range line fw _ _ hfw
    refine ⟨fw, firstWord_lowBits _ _ _ _ hop hsr htr hfw, fun h => absurd h1 h,
      fun h => absurd h1 h, fun _ hb => ?_, fun _ hb => ?_⟩
    · rw [if_pos hb] at hw
      simp only [Option.bind_eq_some, Option.map_eq_some'] at hw
      obtain ⟨b, hb1, sb, hsb, n2, hn2, hst⟩ := hw
      have hsm : (lineSource line).2.1 ∈ registerTexts := by
        rw [hs1]
        apply getOperandAddressingType_register
        rw [← hs2 hsn]
        exact hb.1
      have htm : (lineTarget line).2.1 ∈ registerTexts := by
        rw [ht1]
        apply getOperandAddressingType_register
        rw [← ht2 htn]
        exact hb.2
      have hlow : lowBits sb = 4 := by
        have h3 := (lowBits_register _ hsm).2.2 _ htm
        rw [hb1] at h3
        simp only [Option.some_bind] at h3
        rw [hsb] at h3
        simpa using h3
      rcases creatInstructionNode_shape _ _ _ _ _ hn2 with ⟨_, h4⟩ | ⟨h3, _⟩
      · subst h4
        exact ⟨_, sb, hlow, by rw [← hst]⟩
      · rw [isAbsolute_of_lowBits sb hlow] at h3
        exact Bool.noConfusion h3
    · rw [if_neg hb] at hw
      simp only [Option.bind_eq_some, Option.map_eq_some'] at hw
      obtain ⟨sb, hsb, tb, htb, n2, hn2, n3, hn3, hst⟩ := hw
      refine ⟨n2, n3, by rw [← hst], ?_, ?_⟩
      · exact (operandNode_of (lineSource line) _ "" true _ sb line_num n2 hs1 (hs2 hsn) hsn
          hsb hn2).1
      · exact (operandNode_of (lineTarget line) _ "" false _ tb line_num n3 ht1 (ht2 htn) htn
          htb hn3).1
  · by_cases h2 : (getOpcode line).1 ≤ JSR
    · obtain ⟨_, htn, hw⟩ := hB h1 h2
      have htr := operandType_range _ _ _ (ht2 htn)
      unfold oneOperandWords at hw
      simp only [Option.bind_eq_some, Option.map_eq_some'] at hw
      obtain ⟨fw, hfw, tb, htb, n1, hn1, n2, hn2, hst⟩ := hw
      have hn1' := creatInstructionNode_first _ _ _ _ hn1
      subst hn1'
      have hop := getOpcode_range line fw _ _ hfw
      refine ⟨fw, firstWord_lowBits _ _ _ _ hop (by decide) htr hfw, fun _ h => absurd h2 h,
        fun _ _ => ⟨n2, by rw [← hst], ?_⟩, fun h => absurd h h1, fun h => absurd h h1⟩
      exact (operandNode_of (lineTarget line) _ "" false _ tb line_num n2 ht1 (ht2 htn) htn
        htb hn2).1
    · obtain ⟨_, hw⟩ := hC h1 h2
      unfold noOperandWords at hw
      simp only [Option.bind_eq_some, Option.map_eq_some'] at hw
      obtain ⟨fw, hfw, n1, hn1, hst⟩ := hw
      have hn1' := creatInstructionNode_first _ _ _ _ hn1
      subst hn1'
      have hop := getOpcode_range line fw _ _ hfw
      exact ⟨fw, firstWord_lowBits _ _ _ _ hop (by decide) (by decide) hfw,
        fun _ _ => by rw [← hst], fun _ h => absurd h h2, fun h => absurd h h1,
        fun h => absurd h h1⟩

/-! ## The machine code words of a first pass without diagnostics -/

theorem codeAbsolute_append (l ws : List instructionNode) (h : codeAbsolute l)
    (hw : codeAbsolute ws) : codeAbsolute (l ++ ws) := by
  intro n hn v hv
  rcases List.mem_append.mp hn with hn | hn
  · exact h n hn v hv
  · exact hw n hn v hv

theorem operandNode_absolute (o : Int × List Char × String) (line_num : Nat)
    (n : instructionNode) (h : operandNode o line_num n) (v : Int)
    (hv : n.type = wordType.bmc v) : lowBits v = 4 := by
  rcases h with ⟨_, _, a3⟩ | ⟨_, _, w, a3, a4⟩
  · rw [a3] at hv
    exact wordType.noConfusion hv
  · rw [a3] at hv
    cases hv
    exact a4

theorem readNewInstruction_absolute (st st' : instructionState) (line : List Char)
    (line_num : Nat) (hclean : st.error_str = "")
    (hrun : readNewInstruction st line line_num = some st')
    (haccepted : st'.error_str = "") (h : codeAbsolute st.instructions_list) :
    codeAbsolute st'.instructions_list := by
  obtain ⟨fw, h0, h1, h2, h3, h4⟩ :=
    readNewInstruction_words st st' line line_num hclean hrun haccepted
  have hfirst : ∀ (ic : Int) (v : Int),
      (⟨ic, 0, wordType.bmc fw⟩ : instructionNode).type = wordType.bmc v → lowBits v = 4 := by
    intro ic v hv
    cases hv
    exact h0
  by_cases c1 : (getOpcode line).1 ≤ LEA
  · by_cases c2 : (lineSource line).1 ≥ INDIRECT_REGISTER_ADDRESSING ∧
        (lineTarget line).1 ≥ INDIRECT_REGISTER_ADDRESSING
    · obtain ⟨ic2, w, hw, hl⟩ := h3 c1 c2
      rw [hl]
      apply codeAbsolute_append _ _ h
      intro n hn v hv
      simp only [List.mem_cons, List.mem_singleton, List.mem_nil_iff, or_false] at hn
      rcases hn with hn | hn
      · subst hn; exact hfirst _ v hv
      · subst hn; cases hv; exact hw
    · obtain ⟨n2, n3, hl, hn2, hn3⟩ := h4 c1 c2
      rw [hl]
      apply codeAbsolute_append _ _ h
      intro n hn v hv
      simp only [List.mem_cons, List.mem_singleton, List.mem_nil_iff, or_false] at hn
      rcases hn with hn | hn | hn
      · subst hn; exact hfirst _ v hv
      · subst hn; exact operandNode_absolute _ _ _ hn2 v hv
      · subst hn; exact operandNode_absolute _ _ _ hn3 v hv
  · by_cases c2 : (getOpcode line).1 ≤ JSR
    · obtain ⟨n2, hl, hn2⟩ := h2 c1 c2
      rw [hl]
      apply codeAbsolute_append _ _ h
      intro n hn v hv
      simp only [List.mem_cons, List.mem_singleton, List.mem_nil_iff, or_false] at hn
      rcases hn with hn | hn
      · subst hn; exact hfirst _ v hv
      · subst hn; exact operandNode_absolute _ _ _ hn2 v hv
    · rw [h1 c1 c2]
      apply codeAbsolute_append _ _ h
      intro n hn v hv
      simp only [List.mem_singleton] at hn
      subst hn
      exact hfirst _ v hv

/-- A round of the loop of `firstPass` that leaves the indicator TRUE reported nothing and
appended machine code with the A bit alone among the three low bits only. -/
theorem firstPassLine_absolute (macros : List macroNode) (st st' : firstPassState)
    (buf : List Char) (h : firstPassLine macros st buf = some st')
    (hi : st'.indicator = true) :
    st.indicator = true ∧
    (codeAbsolute st.instructions_list → codeAbsolute st'.instructions_list) := by
  unfold firstPassLine at h
  simp only at h
  generalize (if (strchr (cstr buf) ':').isSome = true then
      readNewLabel ⟨cstr buf, st.declarations_list, ""⟩ st.line_num macros st.dc st.ic
    else ⟨cstr buf, st.declarations_list, ""⟩) = l at h
  split_ifs at h with hc ht1 ht2 ht3
  · simp only [Option.bind_eq_some] at h
    obtain ⟨r, hr, hst⟩ := h
    have hst := (reportedLine_some _ _ _ hst).1
    subst hst
    obtain ⟨_, _, f3, _, _, f6⟩ := endOfLine_fields
      { st with declarations_list := l.declarations_list, ic := r.ic,
                instructions_list := r.instructions_list } r.error_str
    rw [f3]
    refine ⟨(f6.mp hi).1, fun hcode => ?_⟩
    have hclean : (getInstructionType l.line l.error_str).2.2 = "" := by
      rw [getInstructionType_clean _ _ (by rw [ht1]; decide)]
      exact hc.1
    exact readNewInstruction_absolute
      ⟨st.ic, st.instructions_list, (getInstructionType l.line l.error_str).2.2⟩ r _ _
      hclean hr (f6.mp hi).2 hcode
  · have h := (reportedLine_some _ _ _ h).1
    subst h
    obtain ⟨_, _, f3, _, _, f6⟩ := endOfLine_fields
      { st with declarations_list :=
          (readNewDeclaration ⟨(getInstructionType l.line l.error_str).2.1,
            l.declarations_list, (getInstructionType l.line l.error_str).2.2⟩ st.line_num
            macros).declarations_list }
      (readNewDeclaration ⟨(getInstructionType l.line l.error_str).2.1,
        l.declarations_list, (getInstructionType l.line l.error_str).2.2⟩ st.line_num
        macros).error_str
    rw [f3]
    exact ⟨(f6.mp hi).1, fun hcode => hcode⟩
  · simp only [Option.bind_eq_some] at h
    obtain ⟨r, hr, hst⟩ := h
    have hst := (reportedLine_some _ _ _ hst).1
    subst hst
    obtain ⟨_, _, f3, _, _, f6⟩ := endOfLine_fields
      { st with declarations_list := l.declarations_list, dc := r.dc,
                data_list := r.data_list } r.error_str
    rw [f3]
    exact ⟨(f6.mp hi).1, fun hcode => hcode⟩
  · have h := (reportedLine_some _ _ _ h).1
    subst h
    obtain ⟨_, _, f3, _, _, f6⟩ := endOfLine_fields
      { st with declarations_list := l.declarations_list }
      (getInstructionType l.line l.error_str).2.2
    rw [f3]
    exact ⟨(f6.mp hi).1, fun hcode => hcode⟩
  · have h := (reportedLine_some _ _ _ h).1
    subst h
    obtain ⟨_, _, f3, _, _, f6⟩ := endOfLine_fields
      { st with declarations_list := l.declarations_list } l.error_str
    rw [f3]
    exact ⟨(f6.mp hi).1, fun hcode => hcode⟩

theorem firstPassLoop_absolute (macros : List macroNode) :
    ∀ (lines : List (List Char)) (st st' : firstPassState),
      firstPassLoop macros lines st = some st' → st'.indicator = true →
      st.indicator = true ∧
      (codeAbsolute st.instructions_list → codeAbsolute st'.instructions_list) := by
  intro lines
  induction lines with
  | nil =>
    intro st st' h hi
    simp only [firstPassLoop, Option.some.injEq] at h
    subst h
    exact ⟨hi, fun hn => hn⟩
  | cons buf rest ih =>
    intro st st' h hi
    simp only [firstPassLoop, Option.bind_eq_some] at h
    obtain ⟨st1, h1, h2⟩ := h
    obtain ⟨i1, c1⟩ := ih st1 st' h2 hi
    obtain ⟨i0, c0⟩ := firstPassLine_absolute macros st st1 buf h1 i1
    exact ⟨i0, fun hn => c1 (c0 hn)⟩

/-- Every machine code word a first pass without diagnostics hands over has the A bit
alone among the three low bits. -/
theorem firstPass_codeAbsolute (macros : List macroNode) (lines : List (List Char))
    (p : firstPassResult) (h : firstPass macros lines = some p) (hi : p.indicator = true) :
    codeAbsolute p.instructions_list := by
  simp only [firstPass, Option.map_eq_some'] at h
  obtain ⟨st, hloop, hp⟩ := h
  subst hp
  obtain ⟨hd, hind⟩ := firstPassFinish_indicator st hi
  rw [firstPassFinish_ok st hd]
  exact (firstPassLoop_absolute macros lines firstPassInit st hloop hind).2
    (by intro n hn; simp [firstPassInit] at hn)

/-! ## The words of the object file -/

/-- What one round of the outer loop of `fillingMissingBMCofLabel` makes of a node when no
name mixes Extern with other declarations. -/
theorem fillNode_final (decls : List declarationNode) (hinv : externConsistent decls)
    (n : instructionNode) (s : fillState) (r : instructionNode × fillState)
    (h : fillNode decls n s = some r) :
    (∀ v, n.type = wordType.bmc v → n.line = 0 ∧ r.1 = n) ∧
    (∀ label, n.type = wordType.name label → n.line ≠ 0 →
      (isExternReference decls n = true →
        r.1 = ⟨n.ic, EXTERN.toNat, wordType.name label⟩) ∧
      (isExternReference decls n = false →
        ∃ da, r.1 = ⟨n.ic, 0, wordType.bmc (getRelocatableBMC da)⟩)) ∧
    (n.line = 0 → r.1 = n) := by
  unfold fillNode at h
  split_ifs at h with hline
  · cases hn : n.type with
    | bmc v => rw [hn] at h; simp at h
    | name label =>
      rw [hn] at h
      simp only [] at h
      split at h
      · exact Option.noConfusion h
      simp only [Option.some.injEq] at h
      refine ⟨fun v hv => wordType.noConfusion hv, fun label' hl _ => ?_,
        fun h0 => absurd h0 hline⟩
      cases hl
      by_cases hex : ∃ d ∈ decls, d.label = label ∧ d.type = EXTERN
      · obtain ⟨d, hd, hl, ht⟩ := hex
        have hall : ∀ x ∈ decls, x.label = label → x.type = EXTERN := by
          intro x hx hxl
          exact hinv d hd x hx (by rw [hl, hxl]) ht
        obtain ⟨l1, l2, l3⟩ := declarationLoop_extern label decls
          ⟨false, false, false, false, s.curr_ins_da, n.line, s.ent_is_length,
            s.ext_is_length⟩ hall ⟨d, hd, hl⟩ rfl rfl
        have href : isExternReference decls n = true :=
          (isExternReference_iff decls n).mpr ⟨hline, label, hn, d, hd, hl, ht⟩
        rw [l1, l2] at h
        subst h
        refine ⟨fun _ => rfl, fun hf => ?_⟩
        rw [href] at hf
        exact absurd hf (by decide)
      · have hall : ∀ x ∈ decls, x.label = label → x.type ≠ EXTERN := by
          intro x hx hxl ht
          exact hex ⟨x, hx, hxl, ht⟩
        obtain ⟨l1, _, l3⟩ := declarationLoop_not_extern label decls
          ⟨false, false, false, false, s.curr_ins_da, n.line, s.ent_is_length,
            s.ext_is_length⟩ hall
        have href : ¬ isExternReference decls n = true := by
          rw [isExternReference_iff]
          rintro ⟨_, label', h2, d, hd, h3, h4⟩
          rw [hn] at h2
          cases h2
          exact hex ⟨d, hd, h3, h4⟩
        rw [l1] at h
        subst h
        exact ⟨fun ht => absurd ht href, fun _ => ⟨_, rfl⟩⟩
  · simp only [Option.some.injEq] at h
    subst h
    have hline' : n.line = 0 := by
      by_contra hc
      exact hline hc
    exact ⟨fun _ _ => ⟨hline', rfl⟩, fun _ _ hc => absurd hline' hc, fun _ => rfl⟩

/-- The lines of the object file for the code words: one for every node of the first
pass, as `finalWord` says, and every node ends with the machine code printed. -/
theorem printed_words (decls : List declarationNode) (hinv : externConsistent decls)
    (e : Int × Int) :
    ∀ (ins : List instructionNode) (s : fillState) (out : List instructionNode)
      (s' : fillState), fillingLoop decls ins s = some (out, s') →
      ∀ (ob : List (Int × Int)) (extl : List outputLine) (fin : List instructionNode),
        printInstructions e out = some (ob, extl, fin) →
        List.Forall₂ (finalWord decls) ins ob ∧
        fin = ob.map fun w => ⟨w.1, HAVE_BMC, wordType.bmc w.2⟩ := by
  intro ins
  induction ins with
  | nil =>
    intro s out s' h ob extl fin hp
    simp only [fillingLoop, Option.some.injEq, Prod.mk.injEq] at h
    obtain ⟨h1, _⟩ := h
    subst h1
    simp only [printInstructions, Option.some.injEq, Prod.mk.injEq] at hp
    obtain ⟨h1, _, h3⟩ := hp
    subst h1; subst h3
    exact ⟨List.Forall₂.nil, rfl⟩
  | cons n rest ih =>
    intro s out s' h ob extl fin hp
    simp only [fillingLoop, Option.bind_eq_some, Option.map_eq_some'] at h
    obtain ⟨r, hr, q, hq, hout⟩ := h
    obtain ⟨q1, q2⟩ := q
    simp only [Prod.mk.injEq] at hout
    obtain ⟨ho, _⟩ := hout
    subst ho
    simp only [printInstructions, Option.bind_eq_some] at hp
    obtain ⟨p, hp1, hp2⟩ := hp
    obtain ⟨p1, p2, p3⟩ := p
    obtain ⟨i1, i2⟩ := ih r.2 q1 q2 hq p1 p2 p3 hp1
    obtain ⟨f1, f2, f3⟩ := fillNode_final decls hinv n s r hr
    obtain ⟨nic, nline, ntype⟩ := n
    cases ntype with
    | bmc v =>
      obtain ⟨g1, g2⟩ := f1 v rfl
      dsimp only at g1
      subst g1
      rw [g2] at hp2
      simp only [ne_eq, not_true_eq_false, if_false, Option.some.injEq, Prod.mk.injEq] at hp2
      obtain ⟨h1, _, h3⟩ := hp2
      subst h1; subst h3
      refine ⟨List.Forall₂.cons ⟨rfl, fun v' hv' => ?_, fun l hl => ?_⟩ i1, ?_⟩
      · cases hv'
        exact ⟨rfl, rfl⟩
      · exact wordType.noConfusion hl
      · rw [i2]
        rfl
    | name label =>
      by_cases hline : nline = 0
      · exfalso
        rw [f3 hline] at hp2
        simp only [hline, ne_eq, not_true_eq_false, false_and, if_false] at hp2
        exact Option.noConfusion hp2
      · obtain ⟨g1, g2⟩ := f2 label rfl hline
        cases hx : isExternReference decls ⟨nic, nline, wordType.name label⟩ with
        | true =>
          rw [g1 hx] at hp2
          by_cases hc : EXTERN.toNat ≠ 0 ∧ e.1 ≠ 0
          · simp only [if_pos hc, Option.some.injEq, Prod.mk.injEq] at hp2
            obtain ⟨h1, _, h3⟩ := hp2
            subst h1; subst h3
            refine ⟨List.Forall₂.cons ⟨rfl, fun v' hv' => ?_, fun l hl => ?_⟩ i1, ?_⟩
            · exact wordType.noConfusion hv'
            · exact ⟨hline, fun _ => rfl, fun hf => by rw [hx] at hf; exact absurd hf (by decide)⟩
            · rw [i2]
              rfl
          · simp only [if_neg hc] at hp2
            exact Option.noConfusion hp2
        | false =>
          obtain ⟨da, hda⟩ := g2 hx
          rw [hda] at hp2
          simp only [ne_eq, not_true_eq_false, if_false, Option.some.injEq,
            Prod.mk.injEq] at hp2
          obtain ⟨h1, _, h3⟩ := hp2
          subst h1; subst h3
          refine ⟨List.Forall₂.cons ⟨rfl, fun v' hv' => ?_, fun l hl => ?_⟩ i1, ?_⟩
          · exact wordType.noConfusion hv'
          · exact ⟨hline, fun ht => by rw [hx] at ht; exact absurd ht (by decide),
              fun _ => ⟨da, rfl⟩⟩
          · rw [i2]
            rfl

/-! ## `fgets` and the length of a line -/

theorem cstr_eq_self (l : List Char) (h : ∀ c ∈ l, c.toNat ≠ 0) : cstr l = l := by
  unfold cstr
  rw [List.takeWhile_eq_self_iff]
  intro c hc
  simpa using h c hc

theorem fgetsChunk_line (rest : List Char) :
    ∀ (k : Nat) (l : List Char), (∀ c ∈ l, c ≠ '\n') → l.length < k →
      fgetsChunk k (l ++ '\n' :: rest) = (l ++ ['\n'], rest) := by
  intro k
  induction k with
  | zero => intro l _ h; omega
  | succ k ih =>
    intro l hl hk
    cases l with
    | nil => simp [fgetsChunk]
    | cons c cs =>
      have hc : c ≠ '\n' := hl c (List.mem_cons_self _ _)
      have hcs : ∀ x ∈ cs, x ≠ '\n' := fun x hx => hl x (List.mem_cons_of_mem _ hx)
      have hlen : cs.length < k := by simp only [List.length_cons] at hk; omega
      rw [List.cons_append, fgetsChunk, if_neg hc, ih cs hcs hlen]
      rfl

theorem fgetsChunk_long (s : List Char) :
    ∀ (k : Nat) (l : List Char), (∀ c ∈ l, c ≠ '\n') → k ≤ l.length →
      fgetsChunk k (l ++ s) = (l.take k, l.drop k ++ s) := by
  intro k
  induction k with
  | zero => intro l _ _; simp [fgetsChunk]
  | succ k ih =>
    intro l hl hk
    cases l with
    | nil => simp at hk
    | cons c cs =>
      have hc : c ≠ '\n' := hl c (List.mem_cons_self _ _)
      have hcs : ∀ x ∈ cs, x ≠ '\n' := fun x hx => hl x (List.mem_cons_of_mem _ hx)
      have hlen : k ≤ cs.length := by simp only [List.length_cons] at hk; omega
      rw [List.cons_append, fgetsChunk, if_neg hc, ih cs hcs hlen, List.take_succ_cons,
        List.drop_succ_cons]

theorem fgetsChunk_end :
    ∀ (k : Nat) (l : List Char), (∀ c ∈ l, c ≠ '\n') → l.length ≤ k →
      fgetsChunk k l = (l, []) := by
  intro k
  induction k with
  | zero =>
    intro l _ h
    have : l = [] := List.length_eq_zero.mp (by omega)
    subst this
    rfl
  | succ k ih =>
    intro l hl hk
    cases l with
    | nil => rfl
    | cons c cs =>
      have hc : c ≠ '\n' := hl c (List.mem_cons_self _ _)
      have hcs : ∀ x ∈ cs, x ≠ '\n' := fun x hx => hl x (List.mem_cons_of_mem _ hx)
      have hlen : cs.length ≤ k := by simp only [List.length_cons] at hk; omega
      rw [fgetsChunk, if_neg hc, ih cs hcs hlen]

/-- The test of `isValidLine` for a line that is too long, on a buffer of at most 81
characters. -/
theorem isValidLine_long (line : List Char) :
    isValidLine line "" = (false, line, "The line contains more than 80 characters.") ↔
      line.length = 81 ∧ line.get? 80 ≠ some '\n' := by
  unfold isValidLine
  have h1 : MAX_LENGTH_OF_LINE - 1 = 81 := rfl
  have h2 : MAX_LENGTH_OF_LINE - 2 = 80 := rfl
  rw [h1, h2]
  by_cases hc : line.length = 81 ∧ line.get? 80 ≠ some '\n'
  · rw [if_pos hc]
    exact ⟨fun _ => hc, fun _ => rfl⟩
  · rw [if_neg hc]
    constructor
    · intro h
      exfalso
      split_ifs at h
      · simp only [Prod.mk.injEq, true_and] at h
        exact absurd h (by decide)
      · simp at h
    · intro h
      exact absurd h hc

/-- The buffer `fgets` fills for a line of the file and what `isValidLine` says about its
length. -/
theorem fgets_isValidLine (l s : List Char) (hl : ∀ c ∈ l, c ≠ '\n' ∧ c.toNat ≠ 0)
    (hs : s = [] ∨ ∃ rest, s = '\n' :: rest) (hne : l ++ s ≠ []) :
    ∃ chunk after, fgets MAX_LENGTH_OF_LINE (l ++ s) = some (chunk, after) ∧
      (isValidLine (cstr chunk) ""
          = (false, cstr chunk, "The line contains more than 80 characters.") ↔
        80 < l.length) ∧
      (l.length ≤ 80 → chunk = l ++ s.take 1 ∧ after = s.drop 1) := by
  have hnl : ∀ c ∈ l, c ≠ '\n' := fun c hc => (hl c hc).1
  have hnul : ∀ c ∈ l, c.toNat ≠ 0 := fun c hc => (hl c hc).2
  have hf : fgets MAX_LENGTH_OF_LINE (l ++ s) = some (fgetsChunk 81 (l ++ s)) := by
    unfold fgets
    rw [if_neg hne]
    rfl
  by_cases hlen : l.length ≤ 80
  · have hchunk : fgetsChunk 81 (l ++ s) = (l ++ s.take 1, s.drop 1) := by
      rcases hs with hs | ⟨rest, hs⟩
      · subst hs
        rw [List.append_nil, fgetsChunk_end 81 l hnl (by omega)]
        simp
      · subst hs
        rw [fgetsChunk_line rest 81 l hnl (by omega)]
        rfl
    refine ⟨_, _, by rw [hf, hchunk], ?_, fun _ => ⟨rfl, rfl⟩⟩
    have hc : cstr (l ++ s.take 1) = l ++ s.take 1 := by
      apply cstr_eq_self
      intro c hc
      rcases List.mem_append.mp hc with hc | hc
      · exact hnul c hc
      · rcases hs with hs | ⟨rest, hs⟩
        · subst hs; simp at hc
        · subst hs
          simp only [List.take_succ_cons, List.take_zero, List.mem_singleton] at hc
          rw [hc]
          decide
    rw [hc, isValidLine_long]
    constructor
    · rintro ⟨h1, h2⟩
      exfalso
      rcases hs with hs | ⟨rest, hs⟩
      · subst hs
        simp only [List.take_nil, List.append_nil] at h1
        omega
      · subst hs
        simp only [List.take_succ_cons, List.take_zero, List.length_append,
          List.length_singleton] at h1
        apply h2
        have h80 : l.length = 80 := by omega
        rw [List.get?_eq_getElem?, List.getElem?_append_right (by omega), h80]
        rfl
    · intro h
      omega
  · have hlen' : 81 ≤ l.length := by omega
    have hchunk : fgetsChunk 81 (l ++ s) = (l.take 81, l.drop 81 ++ s) :=
      fgetsChunk_long s 81 l hnl hlen'
    refine ⟨_, _, by rw [hf, hchunk], ?_, fun h => absurd h hlen⟩
    have hc : cstr (l.take 81) = l.take 81 :=
      cstr_eq_self _ fun c hc => hnul c (List.mem_of_mem_take hc)
    rw [hc, isValidLine_long]
    refine ⟨fun _ => by omega, fun _ => ⟨by rw [List.length_take]; omega, ?_⟩⟩
    rw [List.get?_eq_getElem?, List.getElem?_take_of_lt (by omega)]
    intro h
    exact hnl _ (List.getElem?_mem h) rfl

/-! ## The exit status of `main` -/

theorem macrosLayout_fatal (writable : Bool) (input_file : List (List Char))
    (m : macrosResult) (h : macrosLayout writable input_file = some m)
    (hf : m.indicator = FATAL_ERROR) : writable = false := by
  unfold macrosLayout at h
  simp only [Option.bind_eq_some] at h
  obtain ⟨f, _, h⟩ := h
  split_ifs at h with h1 h2
  · cases h
    exact absurd hf (by dsimp only; decide)
  · simpa using h2
  · simp only [Option.map_eq_some'] at h
    obtain ⟨out, _, h⟩ := h
    subst h
    exact absurd hf (by dsimp only; decide)

/-- A second pass that returns FATAL_ERROR could not create one of its files. -/
theorem secondPass_fatal (files : outputFiles) (garbage : Int) (counter : Int × Int)
    (ins : List instructionNode) (data : List dataNode) (decls : List declarationNode)
    (indicator : Bool) (r : secondPassResult)
    (hrun : secondPass files garbage counter ins data decls indicator = some r)
    (hf : r.fatal = true) : files.ob = false ∨ files.ext = false ∨ files.ent = false := by
  obtain ⟨out, fs, _, hcase⟩ := secondPass_cases files garbage counter ins data decls
    indicator r hrun
  rcases hcase with ⟨_, ob, extl, fin, _, hr, _⟩ | ⟨_, hr⟩ | ⟨_, _, _, _, _, h⟩
  · rw [hr] at hf
    exact Bool.noConfusion hf
  · rw [hr] at hf
    exact Bool.noConfusion hf
  · rcases h with h | ⟨_, h⟩ | ⟨_, h⟩
    · exact Or.inl h
    · exact Or.inr (Or.inl h)
    · exact Or.inr (Or.inr h)

/-- A run of the loop of `main` that returns ends with the status 0 and without a fatal
report, or with the status EXIT_FAILURE after a file that could not be created; and the
names of all the files it went through fit their buffers. -/
theorem mainLoop_status (usable : Nat → Nat) :
    ∀ (files : List inputFile) (r : Int × List fileReport), mainLoop usable files = some r →
      (r.1 = 0 ∧ fileReport.fatal ∉ r.2) ∨
      (r.1 = EXIT_FAILURE ∧ fileReport.fatal ∈ r.2 ∧
        ∃ f ∈ files, f.writable = false ∨ f.files.ob = false ∨ f.files.ext = false ∨
          f.files.ent = false) := by
  intro files
  induction files with
  | nil =>
    intro r h
    simp only [mainLoop, Option.some.injEq] at h
    subst h
    exact Or.inl ⟨rfl, by simp⟩
  | cons f rest ih =>
    intro r h
    have hstep : ∀ (q : Int × List fileReport) (rep : fileReport), rep ≠ fileReport.fatal →
        mainLoop usable rest = some q →
        ((q.1, rep :: q.2).1 = 0 ∧ fileReport.fatal ∉ (q.1, rep :: q.2).2) ∨
        ((q.1, rep :: q.2).1 = EXIT_FAILURE ∧ fileReport.fatal ∈ (q.1, rep :: q.2).2 ∧
          ∃ g ∈ f :: rest, g.writable = false ∨ g.files.ob = false ∨ g.files.ext = false ∨
            g.files.ent = false) := by
      intro q rep hrep hq
      rcases ih q hq with ⟨a1, a2⟩ | ⟨a1, a2, g, hg, a3⟩
      · left
        refine ⟨a1, ?_⟩
        intro hc
        rcases List.mem_cons.mp hc with hc | hc
        · exact hrep hc.symm
        · exact a2 hc
      · right
        exact ⟨a1, List.mem_cons_of_mem _ a2, g, List.mem_cons_of_mem _ hg, a3⟩
    unfold mainLoop at h
    by_cases hfit : (!nameBuffersFit usable f.name) = true
    · rw [if_pos hfit] at h
      exact Option.noConfusion h
    rw [if_neg hfit] at h
    cases hsrc : f.source with
    | none =>
      rw [hsrc] at h
      simp only [Option.map_eq_some'] at h
      obtain ⟨q, hq, hr⟩ := h
      subst hr
      exact hstep q _ (by simp) hq
    | some content =>
      rw [hsrc] at h
      simp only [Option.bind_eq_some] at h
      obtain ⟨m, hm, h⟩ := h
      split_ifs at h with h1 h2 h3 h4
      · simp only [Option.map_eq_some'] at h
        obtain ⟨q, hq, hr⟩ := h
        subst hr
        exact hstep q _ (by simp) hq
      · simp only [Option.some.injEq] at h
        subst h
        right
        exact ⟨rfl, by simp, f, List.mem_cons_self _ _,
          Or.inl (macrosLayout_fatal _ _ m hm h3)⟩
      · simp only [Option.bind_eq_some] at h
        obtain ⟨p, _, s, hs, h⟩ := h
        split_ifs at h with hfat
        · simp only [Option.some.injEq] at h
          subst h
          right
          exact ⟨rfl, by simp, f, List.mem_cons_self _ _,
            Or.inr (secondPass_fatal _ _ _ _ _ _ _ s hs hfat)⟩
        · simp only [Option.map_eq_some'] at h
          obtain ⟨q, hq, hr⟩ := h
          subst hr
          exact hstep q _ (by simp) hq
/-! ## The names of the macros the first scan keeps -/

theorem getCommands_name (name : List Char) :
    ∀ (input_file : List (List Char)) (line : List Char) (line_num : Nat)
      (commands : List (List Char)) (error_str : String) (d : macroData),
      getCommands name line input_file line_num commands error_str = some d →
      d.name = name := by
  intro input_file
  induction input_file with
  | nil =>
    intro line line_num commands error_str d h
    unfold getCommands at h
    simp only at h
    split_ifs at h <;> (cases h; rfl)
  | cons buf rest ih =>
    intro line line_num commands error_str d h
    unfold getCommands at h
    simp only at h
    split_ifs at h
    · cases h; rfl
    · exact ih _ _ _ _ d h
    · cases h; rfl
    · cases h; rfl

/-- A macro `getMacroData` accepts has the name that follows the word `macr`, with nothing
but white characters behind it; the name has at most 31 characters, is no keyword and is
not the name of a macro of the list. -/
theorem getMacroData_name (line : List Char) (line_num : Nat) (input_file : List (List Char))
    (macros : List macroNode) (error_str : String) (d : macroData)
    (h : getMacroData line line_num input_file macros error_str = some d)
    (hi : d.indicator = true) :
    d.name = (getWord (skipWord line)).2 ∧
    isWhiteSpaceString (getWord (skipWord line)).1 = true ∧
    d.name.length ≤ 31 ∧ (isValidName d.name).1 = true ∧
    isMacroNameExists d.name macros = none := by
  unfold getMacroData getMacroName at h
  simp only at h
  have hL : MAX_LENGTH_OF_LABEL = 32 := rfl
  by_cases h1 : (getWord (skipWord line)).2.length ≥ MAX_LENGTH_OF_LABEL
  · rw [if_pos h1] at h
    simp only [Option.some.injEq] at h
    subst h
    exact Bool.noConfusion hi
  · rw [if_neg h1] at h
    cases hw : isWhiteSpaceString (getWord (skipWord line)).1 with
    | false =>
      rw [hw] at h
      simp only [Bool.not_false, if_true, Option.some.injEq] at h
      subst h
      exact Bool.noConfusion hi
    | true =>
      rw [hw] at h
      simp only [Bool.not_true, Bool.false_eq_true, if_false] at h
      cases hv : (isValidName (getWord (skipWord line)).2).1 with
      | false =>
        rw [hv] at h
        simp only [Bool.not_false, if_true, Option.some.injEq] at h
        subst h
        exact Bool.noConfusion hi
      | true =>
        rw [hv] at h
        simp only [Bool.not_true, Bool.false_eq_true, if_false] at h
        cases hm : isMacroNameExists (getWord (skipWord line)).2 macros with
        | some m =>
          rw [hm] at h
          simp only [Option.isSome_some, if_true, Option.some.injEq] at h
          subst h
          exact Bool.noConfusion hi
        | none =>
          rw [hm] at h
          simp only [Option.isSome_none, Bool.false_eq_true, if_false] at h
          have hname : d.name = (getWord (skipWord line)).2 := by
            split_ifs at h
            · simp only [Option.some.injEq] at h
              subst h
              rfl
            · exact getCommands_name _ _ _ _ _ _ d h
          rw [hname]
          refine ⟨rfl, rfl, ?_, hv, hm⟩
          rw [hL] at h1
          omega

theorem macroNamesChecked_append (macros : List macroNode) (name : List Char)
    (commands : List (List Char)) (h : macroNamesChecked macros) (hlen : name.length ≤ 31)
    (hv : (isValidName name).1 = true) (hm : isMacroNameExists name macros = none) :
    macroNamesChecked (macros ++ [⟨name, commands⟩]) := by
  refine ⟨fun m hmem => ?_, ?_⟩
  · rcases List.mem_append.mp hmem with hmem | hmem
    · exact h.1 m hmem
    · simp only [List.mem_singleton] at hmem
      subst hmem
      exact ⟨hlen, (isValidName_iff name).mp hv⟩
  · rw [List.map_append, List.nodup_append]
    refine ⟨h.2, List.nodup_singleton _, ?_⟩
    intro a ha hb
    simp only [List.map_cons, List.map_nil, List.mem_singleton] at hb
    obtain ⟨m, hmem, hmn⟩ := List.mem_map.mp ha
    exact (isMacroNameExists_none name macros).mp hm m hmem (by rw [hmn, hb])

theorem readNewMacro_names (line : List Char) (line_num : Nat)
    (input_file : List (List Char)) (macros : List macroNode) (error_str : String)
    (r : macroScan) (h : readNewMacro line line_num input_file macros error_str = some r)
    (hinv : macroNamesChecked macros) : macroNamesChecked r.macros_list := by
  unfold readNewMacro at h
  simp only [Option.map_eq_some'] at h
  obtain ⟨d, hd, hr⟩ := h
  subst hr
  cases hi : d.indicator with
  | false =>
    simp only [Bool.not_false, Bool.true_and, if_true]
    split_ifs <;> exact hinv
  | true =>
    simp only [Bool.not_true, Bool.false_and, Bool.false_eq_true, if_false]
    obtain ⟨_, _, a3, a4, a5⟩ := getMacroData_name _ _ _ _ _ d hd hi
    exact macroNamesChecked_append macros _ _ hinv a3 a4 a5

theorem firstScanLoop_names :
    ∀ (fuel : Nat) (input_file : List (List Char)) (line_num : Nat)
      (macros : List macroNode) (f : firstScan),
      firstScanLoop fuel input_file line_num macros = some f →
      macroNamesChecked macros → macroNamesChecked f.macros_list := by
  intro fuel
  induction fuel with
  | zero =>
    intro input_file line_num macros f h hinv
    cases input_file with
    | nil =>
      simp only [firstScanLoop, Option.some.injEq] at h
      subst h
      exact hinv
    | cons buf rest => simp [firstScanLoop] at h
  | succ fuel ih =>
    intro input_file line_num macros f h hinv
    cases input_file with
    | nil =>
      simp only [firstScanLoop, Option.some.injEq] at h
      subst h
      exact hinv
    | cons buf rest =>
      simp only [firstScanLoop] at h
      split_ifs at h with h1 h2 h3
      · simp only [Option.bind_eq_some] at h
        obtain ⟨r, hr, h⟩ := h
        have hr' := readNewMacro_names _ _ _ _ _ r hr hinv
        split_ifs at h with h4
        · simp only [Option.some.injEq] at h
          subst h
          exact hr'
        · exact ih _ _ _ f h hr'
      · simp only [Option.some.injEq] at h
        subst h
        exact hinv
      · exact ih _ _ _ f h hinv
      · simp only [Option.some.injEq] at h
        subst h
        exact hinv

/-! ## `strstr` and the tests of the pre-processor -/

theorem strstr_length : ∀ (l w t : List Char), strstr l w = some t → t.length ≤ l.length := by
  intro l
  induction l with
  | nil =>
    intro w t h
    simp only [strstr] at h
    split_ifs at h
    cases h
    exact Nat.le_refl _
  | cons c cs ih =>
    intro w t h
    simp only [strstr] at h
    split_ifs at h
    · cases h
      exact Nat.le_refl _
    · exact Nat.le_succ_of_le (ih w t h)

theorem strstr_start (l w : List Char) (h : w.isPrefixOf l = true) : strstr l w = some l := by
  cases l with
  | nil =>
    cases w with
    | nil => simp [strstr]
    | cons a w => simp [List.isPrefixOf] at h
  | cons c cs => simp only [strstr, if_pos h]

theorem strstr_self (l w : List Char) (h : strstr l w = some l) : w.isPrefixOf l = true := by
  cases l with
  | nil =>
    simp only [strstr] at h
    split_ifs at h with hw
    subst hw
    rfl
  | cons c cs =>
    simp only [strstr] at h
    split_ifs at h with hp
    · exact hp
    · have := strstr_length cs w _ h
      simp only [List.length_cons] at this
      omega

/-- A word that starts with a character that is not white stands in a line exactly when it
stands in the line without its leading white characters. -/
theorem strstr_skipWhiteChar (a : Char) (w : List Char) (ha : isspace a = false) :
    ∀ l : List Char, strstr (skipWhiteChar l) (a :: w) = none ↔ strstr l (a :: w) = none := by
  intro l
  induction l with
  | nil => simp [skipWhiteChar]
  | cons c cs ih =>
    cases hc : isspace c with
    | false => simp [skipWhiteChar, List.dropWhile, hc]
    | true =>
      have hne : ((a :: w).isPrefixOf (c :: cs)) = false := by
        have hac : a ≠ c := fun h => by rw [h, hc] at ha; exact Bool.noConfusion ha
        simp [List.isPrefixOf, hac]
      have h1 : skipWhiteChar (c :: cs) = skipWhiteChar cs := by
        simp [skipWhiteChar, List.dropWhile, hc]
      rw [h1, ih]
      simp only [strstr, hne, Bool.false_eq_true, if_false]

theorem isEndMacroDeclaration_zero (l : List Char) (e : String) :
    (isEndMacroDeclaration l e).1 = 0 ↔ strstr l "endmacr".toList = none := by
  unfold isEndMacroDeclaration
  cases h : strstr l "endmacr".toList with
  | none => simp [FALSE]
  | some t =>
    simp only
    split_ifs <;> simp [TRUE]

theorem isEndMacroDeclaration_keeps (l : List Char) (e : String)
    (h : (isEndMacroDeclaration l e).1 = 0) :
    (isEndMacroDeclaration l e).2.1 = l ∧ (isEndMacroDeclaration l e).2.2 = e := by
  have h0 := (isEndMacroDeclaration_zero l e).mp h
  unfold isEndMacroDeclaration
  rw [h0]
  exact ⟨rfl, rfl⟩

theorem isEndMacroDeclaration_error (l : List Char) (e : String) (he : e ≠ "") :
    (isEndMacroDeclaration l e).2.2 ≠ "" := by
  unfold isEndMacroDeclaration
  cases h : strstr l "endmacr".toList with
  | none => exact he
  | some t =>
    simp only
    split_ifs
    · dsimp only; decide
    · dsimp only; decide
    · exact he

/-- The end of a definition that leaves no error behind is a line that starts with
`endmacr`. -/
theorem isEndMacroDeclaration_accepted (l : List Char)
    (h : (isEndMacroDeclaration l "").1 ≠ 0)
    (he : (isEndMacroDeclaration (isEndMacroDeclaration l "").2.1
      (isEndMacroDeclaration l "").2.2).2.2 = "") :
    "endmacr".toList.isPrefixOf l = true := by
  by_contra hp
  have herr : (isEndMacroDeclaration l "").2.2 ≠ "" := by
    have hz := h
    rw [Ne, isEndMacroDeclaration_zero] at hz
    unfold isEndMacroDeclaration
    cases hs : strstr l "endmacr".toList with
    | none => exact absurd hs hz
    | some t =>
      simp only
      split_ifs with h1 h2
      · dsimp only; decide
      · dsimp only; decide
      · exfalso
        apply hp
        have : t = l := by
          by_contra hne
          exact h1 hne
        rw [this] at hs
        exact strstr_self l _ hs
  exact isEndMacroDeclaration_error _ _ herr he

theorem isStartMacroDeclaration_true (l : List Char) (e : String) :
    (isStartMacroDeclaration l e).1 = TRUE ↔ "macr ".toList.isPrefixOf l = true := by
  unfold isStartMacroDeclaration
  constructor
  · intro h
    cases hs : strstr l "macr ".toList with
    | none =>
      rw [hs] at h
      simp [FALSE, TRUE] at h
    | some t =>
      rw [hs] at h
      simp only at h
      split_ifs at h with h1
      · simp [TRUE] at h
      · have : t = l := by
          by_contra hne
          exact h1 hne
        rw [this] at hs
        exact strstr_self l _ hs
  · intro h
    rw [strstr_start l _ h]
    simp

theorem isStartMacroDeclaration_zero (l : List Char) (e : String) :
    (isStartMacroDeclaration l e).1 = 0 ↔ strstr l "macr ".toList = none := by
  unfold isStartMacroDeclaration
  cases h : strstr l "macr ".toList with
  | none => simp [FALSE]
  | some t =>
    simp only
    split_ifs <;> simp [TRUE]

/-- Whatever `isStartMacroDeclaration` returns other than TRUE with the error buffer empty
is FALSE, for a line that holds no `macr ` at all. -/
theorem isStartMacroDeclaration_false (l : List Char)
    (h1 : (isStartMacroDeclaration l "").1 ≠ TRUE) (h2 : (isStartMacroDeclaration l "").2 = "") :
    strstr l "macr ".toList = none := by
  unfold isStartMacroDeclaration at h1 h2
  cases hs : strstr l "macr ".toList with
  | none => rfl
  | some t =>
    rw [hs] at h1 h2
    simp only at h1 h2
    split_ifs at h1 h2 with h3
    · simp at h2
    · exact absurd rfl h1

theorem isStartMacroDeclaration_keeps (l : List Char) (e : String)
    (h : (isStartMacroDeclaration l e).1 = TRUE) : (isStartMacroDeclaration l e).2 = e := by
  unfold isStartMacroDeclaration at h ⊢
  cases hs : strstr l "macr ".toList with
  | none => rfl
  | some t =>
    rw [hs] at h
    simp only at h ⊢
    split_ifs at h ⊢ with h3
    · simp [TRUE] at h
    · rfl

theorem isValidLine_fields (l : List Char) (e : String) (h : (isValidLine l e).1 = true) :
    (isValidLine l e).2.1 = skipWhiteChar l ∧ (isValidLine l e).2.2 = e := by
  unfold isValidLine at h ⊢
  split_ifs at h ⊢ with h1 h2
  exact ⟨rfl, rfl⟩

theorem isValidLine_error (l : List Char) (e : String) (h : (isValidLine l e).1 = false) :
    (isValidLine l e).2.2 ≠ "" := by
  unfold isValidLine at h ⊢
  split_ifs at h ⊢ with h1 h2
  · dsimp only; decide
  · dsimp only; decide

theorem isValidLine_flag (l : List Char) (e e' : String) :
    (isValidLine l e).1 = (isValidLine l e').1 := by
  unfold isValidLine
  split_ifs <;> rfl
/-! ## What the first scan of the pre-processor accepts -/

theorem isEndMacroDeclaration_negative (l : List Char) (e : String)
    (h : (isEndMacroDeclaration l e).1 < 0) : (isEndMacroDeclaration l e).2.2 ≠ "" := by
  unfold isEndMacroDeclaration at h ⊢
  cases hs : strstr l "endmacr".toList with
  | none =>
    rw [hs] at h
    simp [FALSE] at h
  | some t =>
    rw [hs] at h
    simp only at h ⊢
    split_ifs at h ⊢
    · dsimp only; decide
    · dsimp only; decide
    · simp [TRUE] at h

theorem skipWhiteChar_white (l : List Char) (h : isWhiteSpaceString l = true) :
    skipWhiteChar l = [] := by
  unfold skipWhiteChar
  rw [List.dropWhile_eq_nil_iff]
  unfold isWhiteSpaceString at h
  rw [List.all_eq_true] at h
  exact h

/-- At the end of the file an empty line keeps `getCommands` in its loop. -/
theorem getCommands_end (name : List Char) (k : Nat) (c : List (List Char)) :
    getCommands name [] [] k c "" = none := by
  unfold getCommands
  have h0 : isEndMacroDeclaration [] "" = (0, [], "") := by decide
  simp only [h0]
  have h1 : isValidLine [] "" = (true, [], "") := by decide
  simp [h1]

/-- A run of `getCommands` that leaves no error behind: the buffers up to a line that
starts with `endmacr` are stored without their leading white characters; each of them is a
valid line that holds no `endmacr`. -/
theorem getCommands_accepted (name : List Char) :
    ∀ (rest : List (List Char)) (b : List Char) (n : Nat) (cmds : List (List Char))
      (d : macroData),
      (isValidLine (cstr b) "").1 = true →
      getCommands name (strippedLine b) rest n cmds "" = some d → d.error_str = "" →
      ∃ body endline, b :: rest = body ++ endline :: d.input_file ∧
        d.indicator = true ∧ d.name = name ∧ d.commands = cmds ++ body.map strippedLine ∧
        (∀ x ∈ body, (isValidLine (cstr x) "").1 = true ∧
          strstr (strippedLine x) "endmacr".toList = none) ∧
        (isValidLine (cstr endline) "").1 = true ∧ endsDefinition endline = true := by
  intro rest
  induction rest with
  | nil =>
    intro b n cmds d hv h he
    unfold getCommands at h
    simp only at h
    by_cases h0 : (isEndMacroDeclaration (strippedLine b) "").1 = 0
    · rw [if_pos h0] at h
      obtain ⟨k1, k2⟩ := isEndMacroDeclaration_keeps _ _ h0
      rw [k1, k2] at h
      cases hvs : (isValidLine (strippedLine b) "").1 with
      | true =>
        rw [hvs] at h
        simp at h
      | false =>
        rw [hvs] at h
        simp only [Bool.not_false, if_true, Option.some.injEq] at h
        subst h
        exact absurd he (isValidLine_error _ _ hvs)
    · rw [if_neg h0] at h
      split_ifs at h with h2
      · simp only [Option.some.injEq] at h
        subst h
        exact absurd he (isEndMacroDeclaration_negative _ _ h2)
      · simp only [Option.some.injEq] at h
        subst h
        refine ⟨[], b, rfl, rfl, rfl, by simp, by simp, hv, ?_⟩
        exact isEndMacroDeclaration_accepted _ h0 he
  | cons buf rest ih =>
    intro b n cmds d hv h he
    unfold getCommands at h
    simp only at h
    by_cases h0 : (isEndMacroDeclaration (strippedLine b) "").1 = 0
    · rw [if_pos h0] at h
      obtain ⟨k1, k2⟩ := isEndMacroDeclaration_keeps _ _ h0
      rw [k1, k2] at h
      cases hvs : (isValidLine (cstr buf) "").1 with
      | false =>
        rw [hvs] at h
        simp only [Bool.not_false, if_true, Option.some.injEq] at h
        subst h
        exact absurd he (isValidLine_error _ _ hvs)
      | true =>
        rw [hvs] at h
        simp only [Bool.not_true, Bool.false_eq_true, if_false] at h
        obtain ⟨f1, f2⟩ := isValidLine_fields _ _ hvs
        rw [f1, f2] at h
        obtain ⟨body, endline, e1, e2, e3, e4, e5, e6, e7⟩ := ih buf _ _ d hvs h he
        refine ⟨b :: body, endline, ?_, e2, e3, ?_, ?_, e6, e7⟩
        · rw [e1]
          rfl
        · rw [e4]
          simp
        · intro x hx
          rcases List.mem_cons.mp hx with hx | hx
          · subst hx
            exact ⟨hv, (isEndMacroDeclaration_zero _ _).mp h0⟩
          · exact e5 x hx
    · rw [if_neg h0] at h
      split_ifs at h with h2
      · simp only [Option.some.injEq] at h
        subst h
        exact absurd he (isEndMacroDeclaration_negative _ _ h2)
      · simp only [Option.some.injEq] at h
        subst h
        refine ⟨[], b, rfl, rfl, rfl, by simp, by simp, hv, ?_⟩
        exact isEndMacroDeclaration_accepted _ h0 he

/-- A run of `getMacroData` that leaves no error behind: the name is the word after `macr`
and the body holds the buffers up to a line that starts with `endmacr`. -/
theorem getMacroData_accepted (line : List Char) (n : Nat) (rest : List (List Char))
    (macros : List macroNode) (d : macroData)
    (h : getMacroData line n rest macros "" = some d) (he : d.error_str = "") :
    ∃ body endline, rest = body ++ endline :: d.input_file ∧
      d.indicator = true ∧ d.name = (getWord (skipWord line)).2 ∧
      d.commands = body.map strippedLine ∧
      (∀ x ∈ body, (isValidLine (cstr x) "").1 = true ∧
        strstr (strippedLine x) "endmacr".toList = none) ∧
      (isValidLine (cstr endline) "").1 = true ∧ endsDefinition endline = true := by
  unfold getMacroData getMacroName at h
  simp only at h
  by_cases h1 : (getWord (skipWord line)).2.length ≥ MAX_LENGTH_OF_LABEL
  · rw [if_pos h1] at h
    simp only [Option.some.injEq] at h
    subst h
    simp at he
  · rw [if_neg h1] at h
    cases hw : isWhiteSpaceString (getWord (skipWord line)).1 with
    | false =>
      rw [hw] at h
      simp only [Bool.not_false, if_true, Option.some.injEq] at h
      subst h
      simp at he
    | true =>
      rw [hw] at h
      simp only [Bool.not_true, Bool.false_eq_true, if_false] at h
      cases hv : (isValidName (getWord (skipWord line)).2).1 with
      | false =>
        rw [hv] at h
        simp only [Bool.not_false, if_true, Option.some.injEq] at h
        subst h
        exact absurd he (literal_append_ne _ _ (by decide))
      | true =>
        rw [hv] at h
        simp only [Bool.not_true, Bool.false_eq_true, if_false] at h
        cases hm : isMacroNameExists (getWord (skipWord line)).2 macros with
        | some m =>
          rw [hm] at h
          simp only [Option.isSome_some, if_true, Option.some.injEq] at h
          subst h
          simp at he
        | none =>
          rw [hm] at h
          simp only [Option.isSome_none, Bool.false_eq_true, if_false] at h
          cases rest with
          | nil =>
            simp only [List.tail_nil] at h
            cases hvs : (isValidLine (getWord (skipWord line)).1 "").1 with
            | false =>
              rw [hvs] at h
              simp only [Bool.not_false, if_true, Option.some.injEq] at h
              subst h
              exact absurd he (isValidLine_error _ _ hvs)
            | true =>
              rw [hvs] at h
              simp only [Bool.not_true, Bool.false_eq_true, if_false] at h
              obtain ⟨f1, f2⟩ := isValidLine_fields _ _ hvs
              rw [f1, f2, skipWhiteChar_white _ hw, getCommands_end] at h
              exact Option.noConfusion h
          | cons buf rest =>
            simp only [List.tail_cons] at h
            cases hvs : (isValidLine (cstr buf) "").1 with
            | false =>
              rw [hvs] at h
              simp only [Bool.not_false, if_true, Option.some.injEq] at h
              subst h
              exact absurd he (isValidLine_error _ _ hvs)
            | true =>
              rw [hvs] at h
              simp only [Bool.not_true, Bool.false_eq_true, if_false] at h
              obtain ⟨f1, f2⟩ := isValidLine_fields _ _ hvs
              rw [f1, f2] at h
              obtain ⟨body, endline, e1, e2, e3, e4, e5, e6, e7⟩ :=
                getCommands_accepted _ rest buf _ _ d hvs h he
              exact ⟨body, endline, e1, e2, e3, by rw [e4]; rfl, e5, e6, e7⟩

/-- One round of the first scan that ends without a diagnostic: the line is valid, and
either it holds no `macr ` and the scan goes on behind it, or it starts a definition and
the scan goes on behind the line that ends the definition, with the new macro at the end
of the list. -/
theorem firstScanLoop_step (fuel : Nat) (buf : List Char) (rest : List (List Char))
    (n : Nat) (macros : List macroNode) (f : firstScan)
    (h : firstScanLoop (fuel + 1) (buf :: rest) n macros = some f) (hok : f.ok = true) :
    (isValidLine (cstr buf) "").1 = true ∧
    ((startsDefinition buf = false ∧ strstr (strippedLine buf) "macr ".toList = none ∧
        ∃ k, firstScanLoop fuel rest k macros = some f) ∨
     (startsDefinition buf = true ∧ ∃ body endline tail k,
        rest = body ++ endline :: tail ∧
        (∀ x ∈ body, (isValidLine (cstr x) "").1 = true ∧
          strstr (strippedLine x) "endmacr".toList = none) ∧
        (isValidLine (cstr endline) "").1 = true ∧ endsDefinition endline = true ∧
        firstScanLoop fuel tail k
          (macros ++ [⟨(getWord (skipWord (strippedLine buf))).2, body.map strippedLine⟩])
          = some f)) := by
  simp only [firstScanLoop] at h
  cases hv : (isValidLine (cstr buf) "").1 with
  | false =>
    rw [hv] at h
    simp only [Bool.false_eq_true, if_false, Option.some.injEq] at h
    subst h
    exact Bool.noConfusion hok
  | true =>
    rw [hv] at h
    simp only [if_true] at h
    obtain ⟨f1, f2⟩ := isValidLine_fields _ _ hv
    rw [f1, f2] at h
    refine ⟨rfl, ?_⟩
    by_cases hs : (isStartMacroDeclaration (skipWhiteChar (cstr buf)) "").1 = TRUE
    · rw [if_pos hs, isStartMacroDeclaration_keeps _ _ hs] at h
      right
      refine ⟨(isStartMacroDeclaration_true _ _).mp hs, ?_⟩
      simp only [Option.bind_eq_some] at h
      obtain ⟨r, hr, h⟩ := h
      by_cases hre : r.error_str ≠ ""
      · rw [if_pos hre] at h
        simp only [Option.some.injEq] at h
        subst h
        exact Bool.noConfusion hok
      · rw [if_neg hre] at h
        unfold readNewMacro at hr
        simp only [Option.map_eq_some'] at hr
        obtain ⟨d, hd, hr⟩ := hr
        have hde : d.error_str = "" := by
          have : r.error_str = d.error_str := by
            subst hr
            split_ifs <;> rfl
          rw [← this]
          by_contra hne
          exact hre hne
        obtain ⟨body, endline, e1, e2, e3, e4, e5, e6, e7⟩ :=
          getMacroData_accepted _ _ _ _ d hd hde
        rw [e2] at hr
        simp only [Bool.not_true, Bool.false_and, Bool.false_eq_true, if_false] at hr
        subst hr
        simp only at h
        rw [e3, e4] at h
        exact ⟨body, endline, d.input_file, _, e1, e5, e6, e7, h⟩
    · rw [if_neg hs] at h
      left
      by_cases hse : (isStartMacroDeclaration (skipWhiteChar (cstr buf)) "").2 ≠ ""
      · rw [if_pos hse] at h
        simp only [Option.some.injEq] at h
        subst h
        exact Bool.noConfusion hok
      · rw [if_neg hse] at h
        have hnone := isStartMacroDeclaration_false _ hs (by
          by_contra hne
          exact hse hne)
        refine ⟨?_, hnone, _, h⟩
        cases hp : startsDefinition buf with
        | false => rfl
        | true =>
          have := strstr_start _ _ hp
          unfold strippedLine at this
          rw [hnone] at this
          exact Option.noConfusion this
/-! ## The expansion the second scan writes -/

theorem endsDefinition_false (x : List Char)
    (h : strstr (strippedLine x) "endmacr".toList = none) : endsDefinition x = false := by
  cases hp : endsDefinition x with
  | false => rfl
  | true =>
    have := strstr_start _ _ hp
    rw [h] at this
    exact Option.noConfusion this

theorem isEndMacroDeclaration_buffer (x : List Char) :
    (isEndMacroDeclaration (cstr x) "").1 = 0 ↔
      strstr (strippedLine x) "endmacr".toList = none := by
  rw [isEndMacroDeclaration_zero]
  exact (strstr_skipWhiteChar 'e' "ndmacr".toList (by decide) (cstr x)).symm

/-- The loop that skips a definition stops behind the first line that holds `endmacr`. -/
theorem skipMacroDefinition_block (endline : List Char) (tail : List (List Char))
    (he : endsDefinition endline = true) :
    ∀ (body : List (List Char)) (line0 : List Char),
      (isEndMacroDeclaration line0 "").1 = 0 →
      (∀ x ∈ body, strstr (strippedLine x) "endmacr".toList = none) →
      skipMacroDefinition line0 (body ++ endline :: tail) = some tail := by
  intro body
  induction body with
  | nil =>
    intro line0 h0 _
    unfold skipMacroDefinition
    rw [if_neg (not_not.mpr h0)]
    simp only [List.nil_append]
    unfold skipMacroDefinition
    have : (isEndMacroDeclaration (cstr endline) "").1 ≠ 0 := by
      rw [Ne, isEndMacroDeclaration_buffer]
      intro hn
      rw [endsDefinition_false _ hn] at he
      exact Bool.noConfusion he
    rw [if_pos this]
  | cons x body ih =>
    intro line0 h0 hb
    unfold skipMacroDefinition
    rw [if_neg (not_not.mpr h0)]
    simp only [List.cons_append]
    exact ih (cstr x) ((isEndMacroDeclaration_buffer x).mpr (hb x (List.mem_cons_self _ _)))
      (fun y hy => hb y (List.mem_cons_of_mem _ hy))

theorem definedMacros_block (name : List Char) (endline : List Char)
    (tail : List (List Char)) (he : endsDefinition endline = true) :
    ∀ (body : List (List Char)) (cmds : List (List Char)),
      (∀ x ∈ body, strstr (strippedLine x) "endmacr".toList = none) →
      definedMacros (some (name, cmds)) (body ++ endline :: tail)
        = ⟨name, cmds ++ body.map strippedLine⟩ :: definedMacros none tail := by
  intro body
  induction body with
  | nil =>
    intro cmds _
    simp only [List.nil_append, definedMacros, he, if_true, List.map_nil, List.append_nil]
  | cons x body ih =>
    intro cmds hb
    have hx := endsDefinition_false x (hb x (List.mem_cons_self _ _))
    rw [List.cons_append]
    simp only [definedMacros, hx, Bool.false_eq_true, if_false]
    rw [ih _ (fun y hy => hb y (List.mem_cons_of_mem _ hy))]
    simp

theorem expandedLines_block (macros : List macroNode) (endline : List Char)
    (tail : List (List Char)) (he : endsDefinition endline = true) :
    ∀ (body : List (List Char)),
      (∀ x ∈ body, strstr (strippedLine x) "endmacr".toList = none) →
      expandedLines macros true (body ++ endline :: tail) = expandedLines macros false tail := by
  intro body
  induction body with
  | nil =>
    intro _
    simp only [List.nil_append, expandedLines, he, Bool.not_true]
  | cons x body ih =>
    intro hb
    have hx := endsDefinition_false x (hb x (List.mem_cons_self _ _))
    rw [List.cons_append]
    simp only [expandedLines, hx, Bool.not_false]
    exact ih (fun y hy => hb y (List.mem_cons_of_mem _ hy))

/-- The macros the first scan keeps are the macros the file defines. -/
theorem firstScanLoop_defined :
    ∀ (fuel : Nat) (lines : List (List Char)) (n : Nat) (macros : List macroNode)
      (f : firstScan),
      firstScanLoop fuel lines n macros = some f → f.ok = true →
      f.macros_list = macros ++ definedMacros none lines := by
  intro fuel
  induction fuel with
  | zero =>
    intro lines n macros f h hok
    cases lines with
    | nil =>
      simp only [firstScanLoop, Option.some.injEq] at h
      subst h
      simp [definedMacros]
    | cons buf rest => simp [firstScanLoop] at h
  | succ fuel ih =>
    intro lines n macros f h hok
    cases lines with
    | nil =>
      simp only [firstScanLoop, Option.some.injEq] at h
      subst h
      simp [definedMacros]
    | cons buf rest =>
      obtain ⟨_, hstep⟩ := firstScanLoop_step fuel buf rest n macros f h hok
      rcases hstep with ⟨h1, _, k, hk⟩ | ⟨h1, body, endline, tail, k, e1, e2, _, e4, hk⟩
      · rw [ih rest k macros f hk hok]
        simp only [definedMacros, h1, Bool.false_eq_true, if_false]
      · rw [ih tail k _ f hk hok, e1]
        simp only [definedMacros, h1, if_true]
        rw [definedMacros_block _ endline tail e4 body [] (fun x hx => (e2 x hx).2)]
        simp

theorem startsDefinition_line (buf : List Char) (h : startsDefinition buf = true) :
    (cstr buf).head? ≠ some ';' ∧ isWhiteSpaceString (cstr buf) = false := by
  unfold startsDefinition strippedLine at h
  constructor
  · intro hc
    cases hl : cstr buf with
    | nil =>
      rw [hl] at hc
      exact Option.noConfusion hc
    | cons c cs =>
      rw [hl] at hc h
      simp only [List.head?_cons, Option.some.injEq] at hc
      subst hc
      have : skipWhiteChar (';' :: cs) = ';' :: cs := by
        simp [skipWhiteChar, List.dropWhile, isspace]
      rw [this] at h
      simp [List.isPrefixOf] at h
  · cases hw : isWhiteSpaceString (cstr buf) with
    | false => rfl
    | true =>
      rw [skipWhiteChar_white _ hw] at h
      simp [List.isPrefixOf] at h

theorem printLineToFile_token (buf : List Char) (macros : List macroNode) :
    printLineToFile (skipWhiteChar (cstr buf)) macros =
      (match isMacroNameExists (firstToken buf) macros with
        | some m => m.commands
        | none => [strippedLine buf]) := by
  unfold printLineToFile firstToken strippedLine printMacroCommands
  simp only
  cases isMacroNameExists
    (List.takeWhile (fun c => !isspace c && c != '\n') (skipWhiteChar (cstr buf))) macros <;> rfl

/-- For a file the first scan accepts in which no line that starts a definition holds the
text `endmacr`, the second scan writes the expansion. -/
theorem secondScanLoop_expanded (M : List macroNode) :
    ∀ (fuel : Nat) (lines : List (List Char)) (n : Nat) (macros : List macroNode)
      (f : firstScan),
      firstScanLoop fuel lines n macros = some f → f.ok = true →
      (∀ b ∈ lines, startsDefinition b = true →
        strstr (strippedLine b) "endmacr".toList = none) →
      ∀ fuel2, lines.length ≤ fuel2 →
        secondScanLoop M fuel2 lines = some (expandedLines M false lines) := by
  intro fuel
  induction fuel with
  | zero =>
    intro lines n macros f h hok _ fuel2 _
    cases lines with
    | nil => cases fuel2 <;> simp [secondScanLoop, expandedLines]
    | cons buf rest => simp [firstScanLoop] at h
  | succ fuel ih =>
    intro lines n macros f h hok hname fuel2 hfuel
    cases lines with
    | nil => cases fuel2 <;> simp [secondScanLoop, expandedLines]
    | cons buf rest =>
      cases fuel2 with
      | zero => simp at hfuel
      | succ k =>
        simp only [List.length_cons, Nat.add_le_add_iff_right] at hfuel
        obtain ⟨_, hstep⟩ := firstScanLoop_step fuel buf rest n macros f h hok
        rcases hstep with ⟨h1, h2, j, hj⟩ | ⟨h1, body, endline, tail, j, e1, e2, _, e4, hj⟩
        · have hrec := ih rest j macros f hj hok
            (fun b hb => hname b (List.mem_cons_of_mem _ hb)) k hfuel
          simp only [secondScanLoop, expandedLines, h1, Bool.false_eq_true, if_false]
          have hz : (isStartMacroDeclaration (skipWhiteChar (cstr buf)) "").1 = 0 :=
            (isStartMacroDeclaration_zero _ _).mpr h2
          rw [if_neg (not_not.mpr hz), hrec]
          by_cases hc : (cstr buf).head? = some ';'
          · have : isCommentLine buf = true := by simp [isCommentLine, hc]
            rw [this]
            simp [hc]
          · have hc2 : isCommentLine buf = false := by simp [isCommentLine, hc]
            cases hw : isWhiteSpaceString (cstr buf) with
            | true =>
              have : isBlankLine buf = true := hw
              rw [this]
              simp
            | false =>
              have : isBlankLine buf = false := hw
              rw [this, hc2]
              simp only [Bool.or_self, Bool.false_eq_true, if_false, Bool.not_false,
                and_true, Option.map_some', ne_eq, hc, not_false_eq_true, if_true]
              exact congrArg (fun x => some (x ++ expandedLines M false rest))
                (printLineToFile_token buf M)
        · obtain ⟨c1, c2⟩ := startsDefinition_line buf h1
          have hrec := ih tail j _ f hj hok
            (fun b hb => hname b (by rw [e1]; simp [hb])) k (by
              rw [e1] at hfuel
              simp only [List.length_append, List.length_cons] at hfuel
              omega)
          have hs : (isStartMacroDeclaration (skipWhiteChar (cstr buf)) "").1 ≠ 0 := by
            have := (isStartMacroDeclaration_true (skipWhiteChar (cstr buf)) "").mpr h1
            rw [this]
            decide
          have h0 : (isEndMacroDeclaration (strippedLine buf) "").1 = 0 :=
            (isEndMacroDeclaration_zero _ _).mpr (hname buf (List.mem_cons_self _ _) h1)
          have e2 := fun x hx => (e2 x hx).2
          have hskip := skipMacroDefinition_block endline tail e4 body _ h0 e2
          have hc2 : isCommentLine buf = false := by simp [isCommentLine, c1]
          have hb2 : isBlankLine buf = false := c2
          simp only [secondScanLoop, expandedLines, h1, if_true, hc2, hb2, Bool.or_self,
            Bool.false_eq_true, if_false]
          rw [if_pos ⟨c1, by rw [c2]; rfl⟩, if_pos hs]
          unfold strippedLine at hskip
          rw [e1, hskip, expandedLines_block M endline tail e4 body e2]
          exact hrec

set_option maxRecDepth 100000 in
/-- A definition whose first line holds the text `endmacr` is not skipped as a block by the
second scan: the loop that looks for the end of the definition stops at the first line. -/
theorem expansion_endmacr_name :
    macrosLayout true (fileLines "macr endmacr\n  inc r1\nendmacr\nstop\n".toList)
      = some ⟨TRUE, [⟨"endmacr".toList, ["inc r1\n".toList]⟩], false, [],
          some "inc r1\ninc r1\nstop\n".toList⟩ := by
  decide
/-! ## The buffers of a file -/

theorem fileLinesAux_nil (fuel : Nat) : fileLinesAux fuel [] = [] := by
  cases fuel <;> simp [fileLinesAux, fgets]

/-- The buffer `fgets` fills: a line with its newline, a full buffer, or the rest of the
file. -/
theorem fgetsChunk_shape (s : List Char) (hs : s ≠ []) :
    (fgetsChunk 81 s).1 ++ (fgetsChunk 81 s).2 = s ∧ (fgetsChunk 81 s).1 ≠ [] ∧
    (fullLine (fgetsChunk 81 s).1 ∨ longLine (fgetsChunk 81 s).1 ∨
      (openLine (fgetsChunk 81 s).1 ∧ (fgetsChunk 81 s).2 = [])) := by
  have hsplit : s.takeWhile (fun c => c != '\n') ++ s.dropWhile (fun c => c != '\n') = s :=
    List.takeWhile_append_dropWhile _ _
  have hl : ∀ c ∈ s.takeWhile (fun c => c != '\n'), c ≠ '\n' := by
    intro c hc
    have := List.mem_takeWhile_imp hc
    simpa using this
  generalize hL : s.takeWhile (fun c => c != '\n') = l at hsplit hl
  have hmem : ∀ t : List Char, (∀ c ∈ t, c ≠ '\n') → '\n' ∉ t := fun t ht hn => ht _ hn rfl
  by_cases hk : 81 ≤ l.length
  · generalize hT : s.dropWhile (fun c => c != '\n') = t at hsplit
    subst hsplit
    rw [fgetsChunk_long t 81 l hl hk]
    refine ⟨by simp [← List.append_assoc], ?_, Or.inr (Or.inl ⟨?_, ?_⟩)⟩
    · intro h
      have := congrArg List.length h
      rw [List.length_take] at this
      simp only [List.length_nil] at this
      omega
    · exact hmem _ fun c hc => hl c (List.mem_of_mem_take hc)
    · rw [List.length_take]
      omega
  · cases hT : s.dropWhile (fun c => c != '\n') with
    | nil =>
      rw [hT, List.append_nil] at hsplit
      subst hsplit
      rw [fgetsChunk_end 81 l hl (by omega)]
      exact ⟨by simp, hs, Or.inr (Or.inr ⟨⟨hmem _ hl, by show l.length ≤ 80; omega, hs⟩, rfl⟩)⟩
    | cons c rest =>
      have hc : c = '\n' := by
        have := List.head_dropWhile_not (fun c => c != '\n') s (by rw [hT]; simp)
        simp only [hT, List.head_cons] at this
        simpa using this
      subst hc
      rw [hT] at hsplit
      subst hsplit
      rw [fgetsChunk_line rest 81 l hl (by omega)]
      exact ⟨by simp, by simp, Or.inl ⟨l, rfl, hmem _ hl, by omega⟩⟩

theorem buffersOk_nil : buffersOk [] := by
  intro l1 x l2 h
  cases l1 <;> simp at h

theorem buffersOk_cons (b : List Char) (rest : List (List Char))
    (hb : ∀ c ∈ b, c.toNat ≠ 0)
    (hs : fullLine b ∨ longLine b ∨ (openLine b ∧ rest = []))
    (hr : buffersOk rest) : buffersOk (b :: rest) := by
  intro l1 x l2 h
  cases l1 with
  | nil =>
    simp only [List.nil_append, List.cons.injEq] at h
    obtain ⟨h1, h2⟩ := h
    subst h1 h2
    exact ⟨hb, hs⟩
  | cons a l1 =>
    simp only [List.cons_append, List.cons.injEq] at h
    exact hr l1 x l2 h.2

theorem buffersOk_suffix (l0 lines : List (List Char)) (h : buffersOk (l0 ++ lines)) :
    buffersOk lines := by
  intro l1 x l2 hl
  exact h (l0 ++ l1) x l2 (by rw [hl, List.append_assoc])

theorem buffersOk_tail (b : List Char) (rest : List (List Char)) (h : buffersOk (b :: rest)) :
    buffersOk rest :=
  buffersOk_suffix [b] rest h

/-- The buffers of a file without NUL characters, and the file they make up. -/
theorem fileLinesAux_buffers :
    ∀ (fuel : Nat) (s : List Char), (∀ c ∈ s, c.toNat ≠ 0) → s.length ≤ fuel →
      buffersOk (fileLinesAux fuel s) ∧ (fileLinesAux fuel s).flatten = s := by
  intro fuel
  induction fuel with
  | zero =>
    intro s _ hlen
    have : s = [] := List.length_eq_zero.mp (by omega)
    subst this
    exact ⟨by rw [fileLinesAux_nil]; exact buffersOk_nil, by rw [fileLinesAux_nil]; rfl⟩
  | succ fuel ih =>
    intro s hnul hlen
    by_cases hs : s = []
    · subst hs
      exact ⟨by rw [fileLinesAux_nil]; exact buffersOk_nil, by rw [fileLinesAux_nil]; rfl⟩
    · obtain ⟨h1, h2, h3⟩ := fgetsChunk_shape s hs
      have hf : fileLinesAux (fuel + 1) s
          = (fgetsChunk 81 s).1 :: fileLinesAux fuel (fgetsChunk 81 s).2 := by
        simp only [fileLinesAux, fgets, if_neg hs]
        rfl
      have hlen2 : (fgetsChunk 81 s).2.length ≤ fuel := by
        have := congrArg List.length h1
        rw [List.length_append] at this
        have hpos : 0 < (fgetsChunk 81 s).1.length := List.length_pos.mpr h2
        omega
      have hnul1 : ∀ c ∈ (fgetsChunk 81 s).1, c.toNat ≠ 0 := fun c hc =>
        hnul c (by rw [← h1]; exact List.mem_append_left _ hc)
      have hnul2 : ∀ c ∈ (fgetsChunk 81 s).2, c.toNat ≠ 0 := fun c hc =>
        hnul c (by rw [← h1]; exact List.mem_append_right _ hc)
      obtain ⟨i1, i2⟩ := ih _ hnul2 hlen2
      rw [hf]
      refine ⟨buffersOk_cons _ _ hnul1 ?_ i1, ?_⟩
      · rcases h3 with h3 | h3 | ⟨h3, h4⟩
        · exact Or.inl h3
        · exact Or.inr (Or.inl h3)
        · exact Or.inr (Or.inr ⟨h3, by rw [h4, fileLinesAux_nil]⟩)
      · rw [List.flatten_cons, i2, h1]

theorem fileLines_buffers (s : List Char) (h : ∀ c ∈ s, c.toNat ≠ 0) :
    buffersOk (fileLines s) ∧ (fileLines s).flatten = s :=
  fileLinesAux_buffers s.length s h (Nat.le_refl _)
/-! ## The text of a valid line -/

theorem strchr_length : ∀ (l : List Char) (q : Char) (t : List Char),
    strchr l q = some t → t.length ≤ l.length := by
  intro l
  induction l with
  | nil => intro q t h; simp [strchr] at h
  | cons c cs ih =>
    intro q t h
    simp only [strchr] at h
    split_ifs at h
    · cases h
      exact Nat.le_refl _
    · exact Nat.le_succ_of_le (ih q t h)

theorem strchr_self (l : List Char) (q : Char) (h : strchr l q = some l) :
    l.head? = some q := by
  cases l with
  | nil => simp [strchr] at h
  | cons c cs =>
    simp only [strchr] at h
    split_ifs at h with hc
    · rw [hc]
      rfl
    · have := strchr_length cs q _ h
      simp only [List.length_cons] at this
      omega

theorem strchr_head (l : List Char) (q : Char) (h : l.head? = some q) :
    strchr l q = some l := by
  cases l with
  | nil => simp at h
  | cons c cs =>
    simp only [List.head?_cons, Option.some.injEq] at h
    subst h
    simp [strchr]

/-- What `isValidLine` tests, for a buffer without NUL characters. -/
theorem isValidLine_shape (b : List Char) (hnul : ∀ c ∈ b, c.toNat ≠ 0) :
    (isValidLine (cstr b) "").1 = true ↔
      ¬ (b.length = 81 ∧ b.get? 80 ≠ some '\n') ∧ (';' ∉ b ∨ b.head? = some ';') := by
  rw [cstr_eq_self b hnul]
  unfold isValidLine
  have h1 : MAX_LENGTH_OF_LINE - 1 = 81 := rfl
  have h2 : MAX_LENGTH_OF_LINE - 2 = 80 := rfl
  rw [h1, h2]
  by_cases hc : b.length = 81 ∧ b.get? 80 ≠ some '\n'
  · rw [if_pos hc]
    constructor
    · intro h
      exact Bool.noConfusion h
    · intro h
      exact absurd hc h.1
  · rw [if_neg hc]
    cases hs : strchr b ';' with
    | none =>
      have := (strchr_none b ';').mp hs
      simp only [Option.isSome_none, Bool.false_eq_true, false_and, if_false, true_iff]
      exact ⟨hc, Or.inl fun hm => this _ hm rfl⟩
    | some t =>
      have hmem : ';' ∈ b := by
        by_contra hn
        have := (strchr_none b ';').mpr fun c hc h => hn (h ▸ hc)
        rw [this] at hs
        exact Option.noConfusion hs
      by_cases ht : t = b
      · subst ht
        simp only [Option.isSome_some, ne_eq, not_true_eq_false, and_false, if_false, true_iff]
        exact ⟨hc, Or.inr (strchr_self _ _ hs)⟩
      · have hne : some t ≠ some b := fun h => ht (Option.some.inj h)
        simp only [Option.isSome_some, ne_eq, hne, not_false_eq_true, and_self, if_true,
          Bool.false_eq_true, false_iff, not_and]
        intro _ h
        rcases h with h | h
        · exact h hmem
        · rw [strchr_head b ';' h] at hs
          exact ht (Option.some.inj hs).symm

theorem isValidLine_long_buffer (b : List Char) (hnul : ∀ c ∈ b, c.toNat ≠ 0)
    (hv : (isValidLine (cstr b) "").1 = true) : ¬ longLine b := by
  intro hl
  apply ((isValidLine_shape b hnul).mp hv).1
  refine ⟨hl.2, fun h => hl.1 ?_⟩
  rw [List.get?_eq_getElem?] at h
  exact List.getElem?_mem h

theorem skipWhiteChar_suffix (l : List Char) : skipWhiteChar l <:+ l :=
  List.dropWhile_suffix _

theorem skipWhiteChar_head (l : List Char) (c : Char) (h : (skipWhiteChar l).head? = some c) :
    isspace c = false := by
  unfold skipWhiteChar at h
  cases hd : l.dropWhile isspace with
  | nil =>
    rw [hd] at h
    exact Option.noConfusion h
  | cons a t =>
    have := List.head_dropWhile_not isspace l (by rw [hd]; simp)
    simp only [hd, List.head_cons] at this
    rw [hd] at h
    simp only [List.head?_cons, Option.some.injEq] at h
    subst h
    simpa using this

theorem skipWhiteChar_self (l : List Char) (h : ∀ c, l.head? = some c → isspace c = false) :
    skipWhiteChar l = l := by
  cases l with
  | nil => rfl
  | cons c cs =>
    have := h c rfl
    simp [skipWhiteChar, List.dropWhile, this]

theorem goodText_skipWhiteChar (b : List Char) (hnul : ∀ c ∈ b, c.toNat ≠ 0)
    (hsemi : ';' ∉ b ∨ b.head? = some ';') : goodText (skipWhiteChar b) := by
  have hsub := (skipWhiteChar_suffix b).subset
  refine ⟨fun c hc => hnul c (hsub hc), skipWhiteChar_head b, ?_⟩
  rcases hsemi with h | h
  · exact Or.inl fun hm => h (hsub hm)
  · right
    rw [skipWhiteChar_self b]
    · exact h
    · intro c hc
      rw [h] at hc
      cases hc
      decide

theorem skipWhiteChar_fullLine :
    ∀ body : List Char, skipWhiteChar (body ++ ['\n']) = [] ∨
      ∃ rest, skipWhiteChar (body ++ ['\n']) = rest ++ ['\n'] ∧ rest <:+ body := by
  intro body
  induction body with
  | nil =>
    left
    decide
  | cons c cs ih =>
    cases hc : isspace c with
    | true =>
      have : skipWhiteChar (c :: cs ++ ['\n']) = skipWhiteChar (cs ++ ['\n']) := by
        simp [skipWhiteChar, List.dropWhile, hc]
      rw [this]
      rcases ih with ih | ⟨rest, h1, h2⟩
      · exact Or.inl ih
      · exact Or.inr ⟨rest, h1, h2.trans (List.suffix_cons _ _)⟩
    | false =>
      right
      refine ⟨c :: cs, ?_, List.suffix_refl _⟩
      simp [skipWhiteChar, List.dropWhile, hc]

/-- The text of a valid line with its newline is a string the expansion may write
anywhere. -/
theorem strippedLine_piece (b : List Char) (hnul : ∀ c ∈ b, c.toNat ≠ 0)
    (hv : (isValidLine (cstr b) "").1 = true) (hfull : fullLine b) :
    pieceOk (strippedLine b) := by
  unfold strippedLine
  rw [cstr_eq_self b hnul]
  have hg := goodText_skipWhiteChar b hnul ((isValidLine_shape b hnul).mp hv).2
  obtain ⟨body, hb, h1, h2⟩ := hfull
  subst hb
  rcases skipWhiteChar_fullLine body with h | ⟨rest, h3, h4⟩
  · exact Or.inl h
  · right
    refine ⟨hg, rest, h3, fun hm => h1 (h4.subset hm), ?_⟩
    have := h4.length_le
    omega

/-- The text of a valid last line with no newline is a string the expansion may write at
its end. -/
theorem strippedLine_last (b : List Char) (hnul : ∀ c ∈ b, c.toNat ≠ 0)
    (hv : (isValidLine (cstr b) "").1 = true) (hopen : openLine b) :
    lastPieceOk (strippedLine b) := by
  unfold strippedLine
  rw [cstr_eq_self b hnul]
  have hg := goodText_skipWhiteChar b hnul ((isValidLine_shape b hnul).mp hv).2
  by_cases he : skipWhiteChar b = []
  · exact Or.inl (Or.inl he)
  · right
    refine ⟨hg, fun hm => hopen.1 ((skipWhiteChar_suffix b).subset hm), ?_, he⟩
    have := (skipWhiteChar_suffix b).length_le
    have := hopen.2.1
    omega

/-- The text of a valid line of a file, by its place in the file. -/
theorem strippedLine_buffer (l1 : List (List Char)) (b : List Char) (l2 : List (List Char))
    (hok : buffersOk (l1 ++ b :: l2)) (hv : (isValidLine (cstr b) "").1 = true) :
    lastPieceOk (strippedLine b) ∧ (l2 ≠ [] → pieceOk (strippedLine b)) := by
  obtain ⟨hnul, hs⟩ := hok l1 b l2 rfl
  rcases hs with hs | hs | ⟨hs, h2⟩
  · exact ⟨Or.inl (strippedLine_piece b hnul hv hs), fun _ => strippedLine_piece b hnul hv hs⟩
  · exact absurd hs (isValidLine_long_buffer b hnul hv)
  · exact ⟨strippedLine_last b hnul hv hs, fun h => absurd h2 h⟩
/-! ## The strings the expansion writes -/

/-- In a file without NUL characters that the first scan accepts every line is valid, and
the lines of the bodies of the macros are lines with their newline. -/
theorem firstScanLoop_good :
    ∀ (fuel : Nat) (lines : List (List Char)) (n : Nat) (macros : List macroNode)
      (f : firstScan),
      firstScanLoop fuel lines n macros = some f → f.ok = true → buffersOk lines →
      (∀ m ∈ macros, ∀ c ∈ m.commands, pieceOk c) →
      (∀ m ∈ f.macros_list, ∀ c ∈ m.commands, pieceOk c) ∧
      (∀ b ∈ lines, (isValidLine (cstr b) "").1 = true) := by
  intro fuel
  induction fuel with
  | zero =>
    intro lines n macros f h hok _ hm
    cases lines with
    | nil =>
      simp only [firstScanLoop, Option.some.injEq] at h
      subst h
      exact ⟨hm, by simp⟩
    | cons buf rest => simp [firstScanLoop] at h
  | succ fuel ih =>
    intro lines n macros f h hok hbuf hm
    cases lines with
    | nil =>
      simp only [firstScanLoop, Option.some.injEq] at h
      subst h
      exact ⟨hm, by simp⟩
    | cons buf rest =>
      obtain ⟨hv, hstep⟩ := firstScanLoop_step fuel buf rest n macros f h hok
      rcases hstep with ⟨_, _, k, hk⟩ | ⟨_, body, endline, tail, k, e1, e2, e3, _, hk⟩
      · obtain ⟨i1, i2⟩ := ih rest k macros f hk hok (buffersOk_tail buf rest hbuf) hm
        refine ⟨i1, fun b hb => ?_⟩
        rcases List.mem_cons.mp hb with hb | hb
        · rw [hb]
          exact hv
        · exact i2 b hb
      · subst e1
        have htail : buffersOk tail :=
          buffersOk_suffix (buf :: body ++ [endline]) tail (by simpa using hbuf)
        have hnew : ∀ m ∈ macros ++
            [⟨(getWord (skipWord (strippedLine buf))).2, body.map strippedLine⟩],
            ∀ c ∈ m.commands, pieceOk c := by
          intro m hmem c hc
          rcases List.mem_append.mp hmem with hmem | hmem
          · exact hm m hmem c hc
          · simp only [List.mem_singleton] at hmem
            subst hmem
            simp only [List.mem_map] at hc
            obtain ⟨x, hx, hxc⟩ := hc
            subst hxc
            obtain ⟨s, t, hst⟩ := List.append_of_mem hx
            subst hst
            have hb2 : buffersOk ((buf :: s) ++ x :: (t ++ endline :: tail)) := by
              simpa using hbuf
            exact (strippedLine_buffer _ x _ hb2 (e2 x hx).1).2 (by simp)
        obtain ⟨i1, i2⟩ := ih tail k _ f hk hok htail hnew
        refine ⟨i1, fun b hb => ?_⟩
        simp only [List.mem_cons, List.mem_append] at hb
        rcases hb with hb | hb | hb | hb
        · rw [hb]
          exact hv
        · exact (e2 b hb).1
        · rw [hb]
          exact e3
        · exact i2 b hb

theorem skipMacroDefinition_suffix :
    ∀ (rest : List (List Char)) (line : List Char) (r : List (List Char)),
      skipMacroDefinition line rest = some r → ∃ l0, rest = l0 ++ r := by
  intro rest
  induction rest with
  | nil =>
    intro line r h
    unfold skipMacroDefinition at h
    split_ifs at h
    cases h
    exact ⟨[], rfl⟩
  | cons buf rest ih =>
    intro line r h
    unfold skipMacroDefinition at h
    split_ifs at h
    · cases h
      exact ⟨[], rfl⟩
    · obtain ⟨l0, hl⟩ := ih _ r h
      exact ⟨buf :: l0, by rw [hl]; rfl⟩

theorem isMacroNameExists_mem (name : List Char) :
    ∀ (macros : List macroNode) (m : macroNode),
      isMacroNameExists name macros = some m → m ∈ macros := by
  intro macros
  induction macros with
  | nil => intro m h; simp [isMacroNameExists] at h
  | cons a l ih =>
    intro m h
    simp only [isMacroNameExists] at h
    split_ifs at h
    · cases h
      exact List.mem_cons_self _ _
    · exact List.mem_cons_of_mem _ (ih m h)

theorem piecesOk_cons (p : List Char) (l : List (List Char)) (hp : pieceOk p)
    (hl : piecesOk l) : piecesOk (p :: l) := by
  cases l with
  | nil => exact Or.inl hp
  | cons q rest => exact ⟨hp, hl⟩

theorem piecesOk_append (l1 l2 : List (List Char)) (h1 : ∀ p ∈ l1, pieceOk p)
    (h2 : piecesOk l2) : piecesOk (l1 ++ l2) := by
  induction l1 with
  | nil => exact h2
  | cons p l ih =>
    exact piecesOk_cons p _ (h1 p (List.mem_cons_self _ _))
      (ih fun q hq => h1 q (List.mem_cons_of_mem _ hq))

/-- The strings the second scan writes for a file without NUL characters whose lines are
valid: texts of lines with their newline, and at the end possibly the text of a last line
with no newline. -/
theorem secondScanLoop_pieces (M : List macroNode)
    (hM : ∀ m ∈ M, ∀ c ∈ m.commands, pieceOk c) :
    ∀ (fuel : Nat) (lines : List (List Char)) (out : List (List Char)),
      buffersOk lines → (∀ b ∈ lines, (isValidLine (cstr b) "").1 = true) →
      secondScanLoop M fuel lines = some out → piecesOk out := by
  intro fuel
  induction fuel with
  | zero =>
    intro lines out _ _ h
    cases lines with
    | nil =>
      simp only [secondScanLoop, Option.some.injEq] at h
      subst h
      trivial
    | cons buf rest => simp [secondScanLoop] at h
  | succ fuel ih =>
    intro lines out hbuf hv h
    cases lines with
    | nil =>
      simp only [secondScanLoop, Option.some.injEq] at h
      subst h
      trivial
    | cons buf rest =>
      have hrest := buffersOk_tail buf rest hbuf
      have hvrest : ∀ b ∈ rest, (isValidLine (cstr b) "").1 = true :=
        fun b hb => hv b (List.mem_cons_of_mem _ hb)
      simp only [secondScanLoop] at h
      split_ifs at h with h1 h2
      · simp only [Option.bind_eq_some] at h
        obtain ⟨r, hr, h⟩ := h
        obtain ⟨l0, hl0⟩ := skipMacroDefinition_suffix _ _ _ hr
        subst hl0
        exact ih r out (buffersOk_suffix l0 r hrest)
          (fun b hb => hvrest b (List.mem_append_right _ hb)) h
      · simp only [Option.map_eq_some'] at h
        obtain ⟨o, ho, h⟩ := h
        subst h
        have hrec := ih rest o hrest hvrest ho
        have hline := strippedLine_buffer [] buf rest hbuf (hv buf (List.mem_cons_self _ _))
        unfold printLineToFile printMacroCommands
        simp only
        cases hm : isMacroNameExists
            (List.takeWhile (fun c => !isspace c && c != '\n') (skipWhiteChar (cstr buf))) M with
        | some m => exact piecesOk_append _ _ (hM m (isMacroNameExists_mem _ _ _ hm)) hrec
        | none =>
          cases rest with
          | nil =>
            cases fuel <;>
            · simp only [secondScanLoop, Option.some.injEq] at ho
              subst ho
              exact hline.1
          | cons b2 rest2 =>
            exact piecesOk_cons _ _ (hline.2 (by simp)) hrec
      · exact ih rest out hrest hvrest h
/-! ## The pre-processor on a file it wrote -/

theorem fullLine_ne (p : List Char) (h : fullLine p) : p ≠ [] := by
  obtain ⟨body, hb, _⟩ := h
  rw [hb]
  simp

theorem fileLinesAux_fullLine (p : List Char) (h : fullLine p) (tail : List Char)
    (fuel : Nat) (hfuel : (p ++ tail).length ≤ fuel) :
    fileLinesAux fuel (p ++ tail) = p :: fileLinesAux (fuel - 1) tail := by
  obtain ⟨body, hb, h1, h2⟩ := h
  subst hb
  cases fuel with
  | zero => simp at hfuel
  | succ k =>
    have hne : body ++ ['\n'] ++ tail ≠ [] := by simp
    have hc : fgetsChunk 81 (body ++ ['\n'] ++ tail) = (body ++ ['\n'], tail) := by
      rw [List.append_assoc]
      exact fgetsChunk_line tail 81 body (fun c hc h => h1 (h ▸ hc)) (by omega)
    simp only [fileLinesAux, fgets, if_neg hne]
    have h81 : MAX_LENGTH_OF_LINE - 1 = 81 := rfl
    rw [h81, hc]
    rfl

theorem fileLinesAux_openLine (p : List Char) (h : openLine p) (fuel : Nat)
    (hfuel : p.length ≤ fuel) : fileLinesAux fuel p = [p] := by
  obtain ⟨h1, h2, h3⟩ := h
  cases fuel with
  | zero =>
    exact absurd (List.length_eq_zero.mp (by omega)) h3
  | succ k =>
    have hc : fgetsChunk 81 p = (p, []) :=
      fgetsChunk_end 81 p (fun c hc h => h1 (h ▸ hc)) (by omega)
    simp only [fileLinesAux, fgets, if_neg h3]
    have h81 : MAX_LENGTH_OF_LINE - 1 = 81 := rfl
    rw [h81, hc]
    simp only [fileLinesAux_nil]

/-- The buffers `fgets` fills for the file the expansion wrote are the strings written,
without the empty ones. -/
theorem fileLinesAux_pieces :
    ∀ pieces : List (List Char), piecesOk pieces →
      ∀ fuel, pieces.flatten.length ≤ fuel →
        fileLinesAux fuel pieces.flatten = pieces.filter fun p => !p.isEmpty := by
  intro pieces
  induction pieces with
  | nil =>
    intro _ fuel _
    simp [fileLinesAux_nil]
  | cons p l ih =>
    intro hp fuel hfuel
    have hfull : fullLine p → piecesOk l →
        fileLinesAux fuel (p :: l).flatten = (p :: l).filter fun p => !p.isEmpty := by
      intro hf hl
      have hne := fullLine_ne p hf
      rw [List.flatten_cons] at hfuel ⊢
      rw [fileLinesAux_fullLine p hf _ fuel hfuel, ih hl (fuel - 1) (by
        rw [List.length_append] at hfuel
        have : 0 < p.length := List.length_pos.mpr hne
        omega)]
      cases p with
      | nil => exact absurd rfl hne
      | cons c cs => simp
    have hempty : p = [] → piecesOk l →
        fileLinesAux fuel (p :: l).flatten = (p :: l).filter fun p => !p.isEmpty := by
      intro he hl
      subst he
      rw [List.flatten_cons, List.nil_append] at hfuel ⊢
      rw [ih hl fuel hfuel]
      simp
    cases l with
    | nil =>
      have hp2 : lastPieceOk p := hp
      rcases hp2 with (he | ⟨_, hf⟩) | ⟨_, ho⟩
      · exact hempty he trivial
      · exact hfull hf trivial
      · have hne := ho.2.2
        simp only [List.flatten_cons, List.flatten_nil, List.append_nil] at hfuel ⊢
        rw [fileLinesAux_openLine p ho fuel hfuel]
        cases p with
        | nil => exact absurd rfl hne
        | cons c cs => simp
    | cons q rest =>
      have hp2 : pieceOk p ∧ piecesOk (q :: rest) := hp
      rcases hp2.1 with he | ⟨_, hf⟩
      · exact hempty he hp2.2
      · exact hfull hf hp2.2

theorem piecesOk_mem :
    ∀ pieces : List (List Char), piecesOk pieces → ∀ p ∈ pieces, p ≠ [] →
      goodText p ∧ (fullLine p ∨ openLine p) := by
  intro pieces
  induction pieces with
  | nil => intro _ p hp; simp at hp
  | cons a l ih =>
    intro h p hp hne
    cases l with
    | nil =>
      simp only [List.mem_singleton] at hp
      subst hp
      have h2 : lastPieceOk p := h
      rcases h2 with (he | ⟨hg, hf⟩) | ⟨hg, ho⟩
      · exact absurd he hne
      · exact ⟨hg, Or.inl hf⟩
      · exact ⟨hg, Or.inr ho⟩
    | cons q rest =>
      have h2 : pieceOk a ∧ piecesOk (q :: rest) := h
      rcases List.mem_cons.mp hp with hp | hp
      · subst hp
        rcases h2.1 with he | ⟨hg, hf⟩
        · exact absurd he hne
        · exact ⟨hg, Or.inl hf⟩
      · exact ih h2.2 p hp hne

theorem flatten_filter_isEmpty (l : List (List Char)) :
    (l.filter fun p => !p.isEmpty).flatten = l.flatten := by
  induction l with
  | nil => rfl
  | cons p l ih =>
    cases p with
    | nil => simpa using ih
    | cons c cs => simp [List.filter, ih]

/-- What the tests of the pre-processor say about a plain line. -/
theorem plainLine_tests (b : List Char) (h : plainLine b) :
    cstr b = b ∧ isValidLine b "" = (true, b, "") ∧
    isStartMacroDeclaration b "" = (FALSE, "") ∧ isWhiteSpaceString b = false ∧
    skipWhiteChar b = b := by
  obtain ⟨⟨g1, g2, g3⟩, hshape, hmacr, hsemi⟩ := h
  have hne : b ≠ [] := by
    rcases hshape with hf | ho
    · exact fullLine_ne b hf
    · exact ho.2.2
  have hc := cstr_eq_self b g1
  have hskip := skipWhiteChar_self b g2
  have hv : (isValidLine (cstr b) "").1 = true := by
    rw [isValidLine_shape b g1]
    refine ⟨?_, g3⟩
    rintro ⟨h1, h2⟩
    rcases hshape with ⟨body, hb, _, h4⟩ | ho
    · subst hb
      apply h2
      simp only [List.length_append, List.length_singleton] at h1
      have h80 : body.length = 80 := by omega
      rw [List.get?_eq_getElem?, List.getElem?_append_right (by omega), h80]
      rfl
    · have := ho.2.1
      omega
  obtain ⟨f1, f2⟩ := isValidLine_fields _ _ hv
  rw [hc] at hv f1 f2
  rw [hskip] at f1
  refine ⟨hc, ?_, ?_, ?_, hskip⟩
  · exact Prod.ext hv (Prod.ext f1 f2)
  · unfold isStartMacroDeclaration
    rw [hmacr]
  · cases b with
    | nil => exact absurd rfl hne
    | cons c cs =>
      have := g2 c rfl
      simp [isWhiteSpaceString, this]

theorem firstScanLoop_plain :
    ∀ (lines : List (List Char)) (fuel n : Nat), lines.length ≤ fuel →
      (∀ b ∈ lines, plainLine b) →
      firstScanLoop fuel lines n [] = some ⟨true, [], false, []⟩ := by
  intro lines
  induction lines with
  | nil => intro fuel n _ _; cases fuel <;> rfl
  | cons b rest ih =>
    intro fuel n hfuel hp
    cases fuel with
    | zero => simp at hfuel
    | succ k =>
      obtain ⟨t1, t2, t3, _, _⟩ := plainLine_tests b (hp b (List.mem_cons_self _ _))
      simp only [firstScanLoop, t1, t2, t3, if_true]
      rw [if_neg (show ¬ FALSE = TRUE from by decide), if_neg (by simp)]
      exact ih k _ (by simpa using hfuel) fun x hx => hp x (List.mem_cons_of_mem _ hx)

theorem secondScanLoop_plain :
    ∀ (lines : List (List Char)) (fuel : Nat), lines.length ≤ fuel →
      (∀ b ∈ lines, plainLine b) → secondScanLoop [] fuel lines = some lines := by
  intro lines
  induction lines with
  | nil => intro fuel _ _; cases fuel <;> rfl
  | cons b rest ih =>
    intro fuel hfuel hp
    cases fuel with
    | zero => simp at hfuel
    | succ k =>
      have hb := hp b (List.mem_cons_self _ _)
      obtain ⟨t1, t2, t3, t4, t5⟩ := plainLine_tests b hb
      simp only [secondScanLoop, t1, t5, t3, t4]
      rw [if_pos ⟨hb.2.2.2, rfl⟩, if_neg (show ¬ FALSE ≠ 0 from by decide),
        ih k (by simpa using hfuel) fun x hx => hp x (List.mem_cons_of_mem _ hx)]
      simp [printLineToFile, isMacroNameExists]

/-- A file of plain lines is accepted and written as it is. -/
theorem macrosLayout_plain (lines : List (List Char)) (h : ∀ b ∈ lines, plainLine b) :
    macrosLayout true lines = some ⟨TRUE, [], false, [], some lines.flatten⟩ := by
  unfold macrosLayout
  rw [firstScanLoop_plain lines _ 1 (Nat.le_refl _) h]
  simp only [Option.some_bind, Bool.not_true, Bool.false_eq_true, if_false]
  rw [secondScanLoop_plain lines _ (Nat.le_refl _) h]
  rfl

/-- The output of the pre-processor for a file without NUL characters is made of texts of
lines with their newline, and at the end possibly the text of a line with no newline. -/
theorem macrosLayout_pieces (content : List Char) (hnul : ∀ c ∈ content, c.toNat ≠ 0)
    (m : macrosResult) (out : List Char)
    (hrun : macrosLayout true (fileLines content) = some m) (hout : m.output = some out) :
    ∃ pieces, piecesOk pieces ∧ out = pieces.flatten := by
  unfold macrosLayout at hrun
  simp only [Option.bind_eq_some] at hrun
  obtain ⟨f, hf, h⟩ := hrun
  cases hfo : f.ok with
  | false =>
    rw [hfo] at h
    simp only [Bool.not_false, if_true, Option.some.injEq] at h
    subst h
    exact Option.noConfusion hout
  | true =>
    rw [hfo] at h
    simp only [Bool.not_true, Bool.false_eq_true, if_false, Option.map_eq_some'] at h
    obtain ⟨pieces, hp, h⟩ := h
    subst h
    simp only [Option.some.injEq] at hout
    obtain ⟨hb, _⟩ := fileLines_buffers content hnul
    obtain ⟨g1, g2⟩ := firstScanLoop_good _ _ _ _ f hf hfo hb (by simp)
    exact ⟨pieces, secondScanLoop_pieces f.macros_list g1 _ _ pieces hb g2 hp, hout.symm⟩

/-- The pre-processor on a file it wrote, when no line of that file holds `macr ` or starts
with `;`. -/
theorem macrosLayout_written (pieces : List (List Char)) (hp : piecesOk pieces)
    (hplain : ∀ b ∈ fileLines pieces.flatten,
      strstr b "macr ".toList = none ∧ b.head? ≠ some ';') :
    macrosLayout true (fileLines pieces.flatten)
      = some ⟨TRUE, [], false, [], some pieces.flatten⟩ := by
  have hlines : fileLines pieces.flatten = pieces.filter fun p => !p.isEmpty :=
    fileLinesAux_pieces pieces hp _ (Nat.le_refl _)
  have hall : ∀ b ∈ fileLines pieces.flatten, plainLine b := by
    intro b hb
    have hb2 := hb
    rw [hlines, List.mem_filter] at hb2
    have hne : b ≠ [] := by
      intro he
      rw [he] at hb2
      simp at hb2
    obtain ⟨k1, k2⟩ := piecesOk_mem pieces hp b hb2.1 hne
    exact ⟨k1, k2, (hplain b hb).1, (hplain b hb).2⟩
  rw [macrosLayout_plain _ hall, hlines, flatten_filter_isEmpty]
/-! ## What `readTwoOperands` accepts -/

theorem strchr_mem (l : List Char) (q : Char) : (strchr l q = none) ↔ q ∉ l := by
  rw [strchr_none]
  constructor
  · intro h hm
    exact h q hm rfl
  · intro h c hc hq
    exact h (hq ▸ hc)

/-- The outcome of `readTwoOperands` on a line that comes in without an error: the line
passes exactly when it holds a comma, the text before the first comma holds a character
that is not white, no further comma follows, and one word and nothing else stands behind
the comma. The source operand is the text before the comma without its white characters,
wherever they stand. -/
theorem readTwoOperands_accepted (line : List Char) :
    ((readTwoOperands line none none "").ok = true ↔
      ',' ∈ skipWhiteChar line ∧ (∃ c ∈ beforeComma line, isspace c = false) ∧
      ',' ∉ afterComma line ∧ (getWord (afterComma line)).2 ≠ [] ∧
      isWhiteSpaceString (getWord (afterComma line)).1 = true) ∧
    ((readTwoOperands line none none "").ok = true →
      (readTwoOperands line none none "").source_operand
        = some ((beforeComma line).filter fun c => !isspace c) ∧
      (readTwoOperands line none none "").target_operand
        = some (getWord (afterComma line)).2) := by
  unfold readTwoOperands
  simp only
  have hb : (skipWhiteChar line).takeWhile (fun c => c != ',') = beforeComma line := rfl
  have ha : continueTo (skipWhiteChar line) ((beforeComma line).length + 1)
      = afterComma line := rfl
  rw [hb, ha]
  cases h1 : strchr (skipWhiteChar line) ',' with
  | none =>
    have hm := (strchr_mem _ _).mp h1
    exact ⟨⟨fun h => by simp at h, fun h => absurd h.1 hm⟩, fun h => by simp at h⟩
  | some t =>
    have hm : ',' ∈ skipWhiteChar line := by
      by_contra hn
      rw [(strchr_mem _ _).mpr hn] at h1
      exact Option.noConfusion h1
    simp only
    by_cases h2 : ((beforeComma line).filter fun c => !isspace c).length = 0
    · rw [if_pos h2]
      refine ⟨⟨fun h => by simp at h, fun h => ?_⟩, fun h => by simp at h⟩
      obtain ⟨c, hc, hs⟩ := h.2.1
      have : c ∈ (beforeComma line).filter fun c => !isspace c :=
        List.mem_filter.mpr ⟨hc, by simp [hs]⟩
      rw [List.length_eq_zero.mp h2] at this
      simp at this
    · rw [if_neg h2]
      have hex : ∃ c ∈ beforeComma line, isspace c = false := by
        cases hf : (beforeComma line).filter fun c => !isspace c with
        | nil => rw [hf] at h2; simp at h2
        | cons c cs =>
          have : c ∈ (beforeComma line).filter fun c => !isspace c := by
            rw [hf]
            exact List.mem_cons_self _ _
          obtain ⟨k1, k2⟩ := List.mem_filter.mp this
          exact ⟨c, k1, by simpa using k2⟩
      cases h3 : strchr (afterComma line) ',' with
      | some t2 =>
        simp only
        refine ⟨⟨fun h => by simp at h, fun h => ?_⟩, fun h => by simp at h⟩
        rw [(strchr_mem _ _).mpr h.2.2.1] at h3
        exact Option.noConfusion h3
      | none =>
        have hm2 := (strchr_mem _ _).mp h3
        simp only
        unfold readTargetOperand
        simp only [h3, Bool.false_eq_true, if_false]
        by_cases h4 : (getWord (afterComma line)).2.length = 0
        · rw [if_pos h4]
          refine ⟨⟨fun h => by simp at h, fun h => ?_⟩, fun h => by simp at h⟩
          exact absurd (List.length_eq_zero.mp h4) h.2.2.2.1
        · rw [if_neg h4]
          have hne : (getWord (afterComma line)).2 ≠ [] := fun h => h4 (by rw [h]; rfl)
          cases h5 : isWhiteSpaceString (getWord (afterComma line)).1 with
          | false =>
            simp only [Bool.not_false, if_true]
            exact ⟨⟨fun h => by simp at h, fun h => by simp at h⟩, fun h => by simp at h⟩
          | true =>
            simp only [Bool.not_true, Bool.false_eq_true, if_false]
            exact ⟨⟨fun _ => ⟨hm, hex, hm2, hne, trivial⟩, fun _ => trivial⟩,
              fun _ => ⟨trivial, trivial⟩⟩
/-! ## A line with a label that the first pass accepts -/

theorem endOfLine_errors (st : firstPassState) (e : String) :
    (endOfLine st e).errors = st.errors ↔ e = "" := by
  unfold endOfLine
  by_cases he : e = ""
  · simp [he]
  · simp only [ne_eq, he, not_false_eq_true, if_true, iff_false]
    intro h
    have := congrArg List.length h
    simp at this

theorem getInstructionType_empty (x : List Char) (e : String) (h : skipWhiteChar x = []) :
    (getInstructionType x e).1 = NO_TYPE := by
  rw [getInstructionType_type, h]
  decide

/-- A line that starts with an opcode or a directive is not empty and does not start with
a newline. -/
theorem getInstructionType_line_ne (x : List Char) (e : String)
    (h : (getInstructionType x e).1 ≠ NO_TYPE) :
    skipWhiteChar x ≠ [] ∧ (skipWhiteChar x).head? ≠ some '\n' := by
  constructor
  · intro hn
    exact h (getInstructionType_empty x e hn)
  · intro hn
    have := skipWhiteChar_head x '\n' hn
    exact absurd this (by decide)

theorem readNewDeclaration_line (st : declarationState) (line_num : Nat)
    (macros : List macroNode) :
    (readNewDeclaration st line_num macros).line = afterDeclaredName st.line := by
  unfold readNewDeclaration afterDeclaredName
  simp only [getInstructionType_line]
  split_ifs <;> rfl

theorem declaredName_skipWhiteChar (x : List Char) :
    declaredName (skipWhiteChar x) = declaredName x := by
  unfold declaredName
  rw [skipWhiteChar_idem]

/-- What `readNewLabel` leaves behind when it leaves no message: `getLabelName` accepted the
label, and the list holds the declaration of the label with the counter of its kind, or, before `.entry` and `.extern`, the declaration of
the name behind the directive with the line number, and nothing of the line. -/
theorem readNewLabel_result (st : declarationState) (line_num : Nat)
    (macros : List macroNode) (dc ic : Int) (hclean : st.error_str = "")
    (herr : (readNewLabel st line_num macros dc ic).error_str = "") :
    (getLabelName st.line "" macros).2.2.2 = "" ∧ labelledType st.line ≠ NO_TYPE ∧
    (labelledType st.line = CODE →
      readNewLabel st line_num macros dc ic =
        ⟨skipWhiteChar (skipWord st.line),
          st.declarations_list ++ [creatDeclarationNode ic (beforeColon st.line) CODE], ""⟩) ∧
    (labelledType st.line = DATA ∨ labelledType st.line = STRING →
      readNewLabel st line_num macros dc ic =
        ⟨skipWhiteChar (skipWord st.line),
          st.declarations_list ++
            [creatDeclarationNode dc (beforeColon st.line) (labelledType st.line)], ""⟩) ∧
    (labelledType st.line = ENTRY ∨ labelledType st.line = EXTERN →
      readNewLabel st line_num macros dc ic =
        ⟨[], st.declarations_list ++
          [creatDeclarationNode (Int.ofNat line_num) (declaredName (skipWord st.line))
            (labelledType st.line)], ""⟩) := by
  unfold readNewLabel at herr ⊢
  simp only [hclean] at herr ⊢
  obtain ⟨_, k2⟩ := getLabelName_accepted st.line macros
  generalize getLabelName st.line "" macros = l at k2 herr ⊢
  by_cases c1 : (!l.1 && !st.declarations_list.isEmpty) = true
  · exfalso
    rw [if_pos c1] at herr
    rw [(k2 herr).1] at c1
    simp at c1
  rw [if_neg c1] at herr ⊢
  by_cases c2 : (decide ((getInstructionType l.2.1 l.2.2.2).1 = NO_TYPE) &&
      !st.declarations_list.isEmpty) = true
  · exfalso
    rw [if_pos c2] at herr
    have := ((getInstructionType_error _ _).mp herr).2
    simp [this] at c2
  rw [if_neg c2] at herr ⊢
  have hchk := checkIfLabelNameAlreadyDeclared_error l.2.2.1
    (getInstructionType l.2.1 l.2.2.2).1 st.declarations_list
    (getInstructionType l.2.1 l.2.2.2).2.2
  generalize hd : checkIfLabelNameAlreadyDeclared l.2.2.1 (getInstructionType l.2.1 l.2.2.2).1
    st.declarations_list (getInstructionType l.2.1 l.2.2.2).2.2 = d at hchk herr ⊢
  by_cases c3 : (!d.1 && !st.declarations_list.isEmpty) = true
  · exfalso
    rw [if_pos c3] at herr
    cases hd1 : d.1 with
    | true => rw [hd1] at c3; simp at c3
    | false => exact hchk.2 hd1 herr
  rw [if_neg c3] at herr ⊢
  have hd2 : d.2 = "" := by
    split_ifs at herr
    · exact herr
    · exact ((readNewDeclaration_accepted _ _ _).1.mp herr).1
    · exact herr
  have hd1 : d.1 = true := by
    cases hq : d.1 with
    | true => rfl
    | false => exact absurd hd2 (hchk.2 hq)
  have hg2 : (getInstructionType l.2.1 l.2.2.2).2.2 = "" := by
    rw [← hchk.1 hd1]
    exact hd2
  obtain ⟨hl, hty⟩ := (getInstructionType_error _ _).mp hg2
  obtain ⟨_, b2, b3⟩ := k2 hl
  rw [hl, b2] at hty herr ⊢
  rw [b3, hd2] at herr ⊢
  have hline : (getInstructionType (skipWord st.line) "").2.1
      = skipWhiteChar (skipWord st.line) := getInstructionType_line _ _
  have htype : (getInstructionType (skipWord st.line) "").1 = labelledType st.line := rfl
  rw [hline, htype] at herr ⊢
  rw [htype] at hty
  rw [skipWhiteChar_idem] at herr ⊢
  refine ⟨rfl, hty, fun hc => ?_, fun hc => ?_, fun hc => ?_⟩
  · rw [if_pos hc, hc]
    rfl
  · have h1 : ¬ labelledType st.line = CODE := by
      rcases hc with hc | hc <;> (rw [hc]; decide)
    have h2 : ¬ labelledType st.line ≥ ENTRY := by
      intro h
      rcases hc with hc | hc <;> (rw [hc] at h; exact absurd h (by decide))
    rw [if_neg h1, if_neg h2]
    rfl
  · have h1 : ¬ labelledType st.line = CODE := by
      rcases hc with hc | hc <;> (rw [hc]; decide)
    have h2 : labelledType st.line ≥ ENTRY := by
      have hE : ENTRY ≥ ENTRY := by decide
      have hX : EXTERN ≥ ENTRY := by decide
      rcases hc with hc | hc
      · exact hc.symm ▸ hE
      · exact hc.symm ▸ hX
    rw [if_neg h1, if_pos h2] at herr ⊢
    obtain ⟨a1, a2⟩ := readNewDeclaration_accepted
      ⟨skipWhiteChar (skipWord st.line), st.declarations_list, ""⟩ line_num macros
    have a3 := a2 herr
    have a4 := (a1.mp herr).2.2.2.1
    have a5 := readNewDeclaration_line
      ⟨skipWhiteChar (skipWord st.line), st.declarations_list, ""⟩ line_num macros
    simp only at a3 a4 a5
    have hidem : (getInstructionType (skipWhiteChar (skipWord st.line)) "").1
        = labelledType st.line := by
      rw [← hline]
      exact getInstructionType_idem _ _ _
    rw [hidem, declaredName_skipWhiteChar] at a3
    have hempty : skipWhiteChar (readNewDeclaration
        ⟨skipWhiteChar (skipWord st.line), st.declarations_list, ""⟩ line_num macros).line
        = [] := by
      rw [a5]
      exact skipWhiteChar_white _ a4
    rw [hempty, a3, herr]

/-- A line `readNewInstruction` accepts appends at least one word, and the first one sits
at IC. -/
theorem readNewInstruction_first (st st' : instructionState) (line : List Char)
    (line_num : Nat) (hclean : st.error_str = "")
    (hrun : readNewInstruction st line line_num = some st')
    (haccepted : st'.error_str = "") :
    ∃ n ws, st'.instructions_list = st.instructions_list ++ n :: ws ∧ n.ic = st.ic := by
  obtain ⟨h1, h2, h3⟩ := readNewInstruction_accepted st st' line line_num hclean hrun
    haccepted
  by_cases c1 : (getOpcode line).1 ≤ LEA
  · obtain ⟨_, _, _, hw⟩ := h1 c1
    unfold twoOperandWords at hw
    simp only [Option.bind_eq_some, Option.map_eq_some'] at hw
    obtain ⟨fw, _, n1, hn1, hw⟩ := hw
    have e1 := creatInstructionNode_ic _ _ _ _ _ hn1
    split_ifs at hw
    · simp only [Option.bind_eq_some, Option.map_eq_some'] at hw
      obtain ⟨_, _, _, _, n2, _, hst⟩ := hw
      subst hst
      exact ⟨n1, [n2], rfl, e1⟩
    · simp only [Option.bind_eq_some, Option.map_eq_some'] at hw
      obtain ⟨_, _, _, _, n2, _, n3, _, hst⟩ := hw
      subst hst
      exact ⟨n1, [n2, n3], rfl, e1⟩
  · by_cases c2 : (getOpcode line).1 ≤ JSR
    · obtain ⟨_, _, hw⟩ := h2 c1 c2
      unfold oneOperandWords at hw
      simp only [Option.bind_eq_some, Option.map_eq_some'] at hw
      obtain ⟨_, _, _, _, n1, hn1, n2, _, hst⟩ := hw
      subst hst
      exact ⟨n1, [n2], rfl, creatInstructionNode_ic _ _ _ _ _ hn1⟩
    · obtain ⟨_, hw⟩ := h3 c1 c2
      unfold noOperandWords at hw
      simp only [Option.bind_eq_some, Option.map_eq_some'] at hw
      obtain ⟨_, _, n1, hn1, hst⟩ := hw
      subst hst
      exact ⟨n1, [], rfl, creatInstructionNode_ic _ _ _ _ _ hn1⟩

theorem creatDataNodes_append :
    ∀ (ws : List Int) (dc : Int) (l : List dataNode),
      ∃ more, (creatDataNodes ws dc l).2 = l ++ more := by
  intro ws
  induction ws with
  | nil => intro dc l; exact ⟨[], by simp [creatDataNodes]⟩
  | cons w rest ih =>
    intro dc l
    obtain ⟨more, hm⟩ := ih (toShort (dc + 1)) (l ++ [⟨dc, w⟩])
    refine ⟨⟨dc, w⟩ :: more, ?_⟩
    simp only [creatDataNodes]
    rw [hm, List.append_assoc]
    rfl

theorem stringLineCheck_error (l : List Char) (e : String)
    (h : (stringLineCheck l e).1 = false) : (stringLineCheck l e).2 ≠ "" := by
  revert h
  unfold stringLineCheck
  split
  · split
    · intro _
      dsimp only
      decide
    · split_ifs
      · intro _
        dsimp only
        decide
      · intro h
        simp at h
  · intro _
    dsimp only
    decide

theorem readString_words (x : List Char) (h : (readString x "").2 = "") :
    (readString x "").1 ≠ [] := by
  unfold readString at h ⊢
  simp only at h ⊢
  cases hc : (stringLineCheck (skipWhiteChar x) "").1 with
  | false =>
    exfalso
    rw [hc] at h
    simp only [Bool.not_false, if_true] at h
    exact stringLineCheck_error _ _ hc h
  | true =>
    rw [hc] at h
    simp only [Bool.not_true, Bool.false_eq_true, if_false] at h ⊢
    cases hl : readStringLoop (skipWhiteChar x).tail with
    | none =>
      rw [hl] at h
      simp at h
    | some l => simp

/-- A `.data` or `.string` line `readNewData` accepts appends at least one word, and the
first one sits at DC. -/
theorem readNewData_first (st st' : dataState) (type : Int) (line : List Char)
    (hclean : st.error_str = "") (hrun : readNewData st type line = some st')
    (haccepted : st'.error_str = "") :
    ∃ d ws, st'.data_list = st.data_list ++ d :: ws ∧ d.dc = st.dc := by
  have hw : (if type = DATA then readNumbers (skipWord line) ""
      else readString (skipWord line) "").2 = "" →
      (if type = DATA then readNumbers (skipWord line) ""
        else readString (skipWord line) "").1 ≠ [] := by
    split_ifs
    · intro h
      obtain ⟨_, a2, a3, _⟩ := readNumbers_accepted _ h
      rw [a3]
      intro hn
      exact a2 (List.map_eq_nil_iff.mp hn)
    · exact readString_words _
  unfold readNewData at hrun
  simp only [hclean] at hrun
  generalize (if type = DATA then readNumbers (skipWord line) ""
    else readString (skipWord line) "") = r at hrun hw
  by_cases h1 : type ≠ DATA ∧ type ≠ STRING
  · rw [if_pos h1] at hrun
    exact Option.noConfusion hrun
  rw [if_neg h1] at hrun
  by_cases h2 : r.1.length = 0
  · exfalso
    rw [if_pos h2] at hrun
    split_ifs at hrun
    cases hrun
    exact hw haccepted (List.length_eq_zero.mp h2)
  · rw [if_neg h2] at hrun
    cases hrun
    cases hwords : r.1 with
    | nil => rw [hwords] at h2; exact absurd rfl h2
    | cons w rest =>
      simp only [creatDataNodes]
      obtain ⟨more, hm⟩ := creatDataNodes_append rest (toShort (st.dc + 1))
        (st.data_list ++ [⟨st.dc, w⟩])
      exact ⟨⟨st.dc, w⟩, more, by rw [hm, List.append_assoc]; rfl, rfl⟩
/-! ## One round of the first pass on a line with a label -/

theorem getInstructionType_skipWhiteChar (x : List Char) (e e' : String) :
    (getInstructionType (skipWhiteChar x) e).1 = (getInstructionType x e').1 := by
  rw [getInstructionType_type, getInstructionType_type, skipWhiteChar_idem]

/-- A round of the loop of `firstPass` on a line that holds a colon and gets no
diagnostic: `getLabelName` accepted the text before the colon as a label, and the line
behind the label starts with an opcode or a directive; for an opcode
the label is declared with IC and `readNewInstruction` accepts the line, for `.data` and
`.string` the label is declared with DC and `readNewData` accepts the line, and for
`.entry` and `.extern` the name behind the directive is declared with the line number and
nothing else changes. -/
theorem firstPassLine_labelled (macros : List macroNode) (st st' : firstPassState)
    (buf : List Char) (hrun : firstPassLine macros st buf = some st')
    (hcolon : (strchr (cstr buf) ':').isSome = true) (hacc : st'.errors = st.errors) :
    (getLabelName (cstr buf) "" macros).2.2.2 = "" ∧ labelledType (cstr buf) ≠ NO_TYPE ∧
    (labelledType (cstr buf) = CODE →
      st'.indicator = st.indicator ∧
      st'.declarations_list = st.declarations_list ++
        [creatDeclarationNode st.ic (beforeColon (cstr buf)) CODE] ∧
      st'.dc = st.dc ∧ st'.data_list = st.data_list ∧
      ∃ r, readNewInstruction ⟨st.ic, st.instructions_list, ""⟩
          (skipWhiteChar (skipWord (cstr buf))) st.line_num = some r ∧
        r.error_str = "" ∧ st'.ic = r.ic ∧ st'.instructions_list = r.instructions_list) ∧
    (labelledType (cstr buf) = DATA ∨ labelledType (cstr buf) = STRING →
      st'.indicator = st.indicator ∧
      st'.declarations_list = st.declarations_list ++
        [creatDeclarationNode st.dc (beforeColon (cstr buf)) (labelledType (cstr buf))] ∧
      st'.ic = st.ic ∧ st'.instructions_list = st.instructions_list ∧
      ∃ r, readNewData ⟨st.dc, st.data_list, ""⟩ (labelledType (cstr buf))
          (skipWhiteChar (skipWord (cstr buf))) = some r ∧
        r.error_str = "" ∧ st'.dc = r.dc ∧ st'.data_list = r.data_list) ∧
    (labelledType (cstr buf) = ENTRY ∨ labelledType (cstr buf) = EXTERN →
      st'.indicator = st.indicator ∧
      st'.declarations_list = st.declarations_list ++
        [creatDeclarationNode (Int.ofNat st.line_num) (declaredName (skipWord (cstr buf)))
          (labelledType (cstr buf))] ∧
      st'.ic = st.ic ∧ st'.instructions_list = st.instructions_list ∧
      st'.dc = st.dc ∧ st'.data_list = st.data_list) := by
  unfold firstPassLine at hrun
  simp only [hcolon, if_true] at hrun
  have herr : (readNewLabel ⟨cstr buf, st.declarations_list, ""⟩ st.line_num macros st.dc
      st.ic).error_str = "" := by
    by_cases hc : (readNewLabel ⟨cstr buf, st.declarations_list, ""⟩ st.line_num macros st.dc
        st.ic).error_str = ""
    · exact hc
    · exfalso
      rw [if_neg (fun h => hc h.1)] at hrun
      have hrun := (reportedLine_some _ _ _ hrun).1
      rw [hrun] at hacc
      exact hc ((endOfLine_errors _ _).mp hacc)
  obtain ⟨hlab, hty, rC, rD, rE⟩ := readNewLabel_result ⟨cstr buf, st.declarations_list, ""⟩
    st.line_num macros st.dc st.ic rfl herr
  simp only at hlab hty rC rD rE
  obtain ⟨n1, n2⟩ := getInstructionType_line_ne (skipWord (cstr buf)) "" hty
  have hg1 : ∀ e, (getInstructionType (skipWhiteChar (skipWord (cstr buf))) e).1
      = labelledType (cstr buf) := fun e => getInstructionType_skipWhiteChar _ _ _
  have hg2 : ∀ e, (getInstructionType (skipWhiteChar (skipWord (cstr buf))) e).2.1
      = skipWhiteChar (skipWord (cstr buf)) := by
    intro e
    rw [getInstructionType_line, skipWhiteChar_idem]
  have hg3 : (getInstructionType (skipWhiteChar (skipWord (cstr buf))) "").2.2 = "" :=
    getInstructionType_clean _ _ (by rw [hg1]; exact hty)
  have hind : ∀ s : firstPassState, s.indicator = st.indicator →
      (endOfLine s "").indicator = st.indicator := by
    intro s hs
    unfold endOfLine
    simp [hs]
  have hcases : ∀ (L : declarationState),
      readNewLabel ⟨cstr buf, st.declarations_list, ""⟩ st.line_num macros st.dc st.ic = L →
      L.line = skipWhiteChar (skipWord (cstr buf)) → L.error_str = "" →
      (if L.error_str = "" ∧ L.line ≠ [] ∧ L.line.head? ≠ some '\n' then
        (if (getInstructionType L.line L.error_str).1 = CODE then
          (readNewInstruction ⟨st.ic, st.instructions_list,
            (getInstructionType L.line L.error_str).2.2⟩
            (getInstructionType L.line L.error_str).2.1 st.line_num).bind fun r =>
            reportedLine { st with declarations_list := L.declarations_list, ic := r.ic,
                                   instructions_list := r.instructions_list } r.error_str
        else if (getInstructionType L.line L.error_str).1 ≥ ENTRY then
          reportedLine { st with declarations_list :=
            (readNewDeclaration ⟨(getInstructionType L.line L.error_str).2.1,
              L.declarations_list, (getInstructionType L.line L.error_str).2.2⟩
              st.line_num macros).declarations_list }
            (readNewDeclaration ⟨(getInstructionType L.line L.error_str).2.1,
              L.declarations_list, (getInstructionType L.line L.error_str).2.2⟩
              st.line_num macros).error_str
        else if (getInstructionType L.line L.error_str).1 ≥ DATA then
          (readNewData ⟨st.dc, st.data_list, (getInstructionType L.line L.error_str).2.2⟩
            (getInstructionType L.line L.error_str).1
            (getInstructionType L.line L.error_str).2.1).bind fun r =>
            reportedLine { st with declarations_list := L.declarations_list, dc := r.dc,
                                   data_list := r.data_list } r.error_str
        else reportedLine { st with declarations_list := L.declarations_list }
          (getInstructionType L.line L.error_str).2.2)
      else reportedLine { st with declarations_list := L.declarations_list }
        L.error_str) = some st' →
      (labelledType (cstr buf) = CODE →
        st'.indicator = st.indicator ∧ st'.declarations_list = L.declarations_list ∧
        st'.dc = st.dc ∧ st'.data_list = st.data_list ∧
        ∃ r, readNewInstruction ⟨st.ic, st.instructions_list, ""⟩
            (skipWhiteChar (skipWord (cstr buf))) st.line_num = some r ∧
          r.error_str = "" ∧ st'.ic = r.ic ∧ st'.instructions_list = r.instructions_list) ∧
      (labelledType (cstr buf) = DATA ∨ labelledType (cstr buf) = STRING →
        st'.indicator = st.indicator ∧ st'.declarations_list = L.declarations_list ∧
        st'.ic = st.ic ∧ st'.instructions_list = st.instructions_list ∧
        ∃ r, readNewData ⟨st.dc, st.data_list, ""⟩ (labelledType (cstr buf))
            (skipWhiteChar (skipWord (cstr buf))) = some r ∧
          r.error_str = "" ∧ st'.dc = r.dc ∧ st'.data_list = r.data_list) := by
    intro L _ hline hle hr
    rw [hle, hline] at hr
    rw [if_pos ⟨rfl, n1, n2⟩, hg1, hg2, hg3] at hr
    refine ⟨fun hc => ?_, fun hc => ?_⟩
    · rw [if_pos hc] at hr
      simp only [Option.bind_eq_some] at hr
      obtain ⟨r, hr1, hr2⟩ := hr
      have hr2 := (reportedLine_some _ _ _ hr2).1.symm
      have he : r.error_str = "" := by
        rw [← hr2] at hacc
        exact (endOfLine_errors _ _).mp hacc
      rw [he] at hr2
      obtain ⟨f1, f2, f3, f4, f5, _⟩ := endOfLine_fields
        { st with declarations_list := L.declarations_list, ic := r.ic,
                  instructions_list := r.instructions_list } ""
      rw [hr2] at f1 f2 f3 f4 f5
      exact ⟨by rw [← hr2]; exact hind _ rfl, f5, f2, f4, r, hr1, he, f1, f3⟩
    · have h1 : ¬ labelledType (cstr buf) = CODE := by
        intro h
        rcases hc with hc | hc <;> (rw [hc] at h; exact absurd h (by decide))
      have h2 : ¬ labelledType (cstr buf) ≥ ENTRY := by
        intro h
        rcases hc with hc | hc <;> (rw [hc] at h; exact absurd h (by decide))
      have h3 : labelledType (cstr buf) ≥ DATA := by
        have hD : DATA ≥ DATA := by decide
        have hS : STRING ≥ DATA := by decide
        rcases hc with hc | hc
        · exact hc.symm ▸ hD
        · exact hc.symm ▸ hS
      rw [if_neg h1, if_neg h2, if_pos h3] at hr
      simp only [Option.bind_eq_some] at hr
      obtain ⟨r, hr1, hr2⟩ := hr
      have hr2 := (reportedLine_some _ _ _ hr2).1.symm
      have he : r.error_str = "" := by
        rw [← hr2] at hacc
        exact (endOfLine_errors _ _).mp hacc
      rw [he] at hr2
      obtain ⟨f1, f2, f3, f4, f5, _⟩ := endOfLine_fields
        { st with declarations_list := L.declarations_list, dc := r.dc,
                  data_list := r.data_list } ""
      rw [hr2] at f1 f2 f3 f4 f5
      exact ⟨by rw [← hr2]; exact hind _ rfl, f5, f1, f3, r, hr1, he, f2, f4⟩
  refine ⟨hlab, hty, fun hc => ?_, fun hc => ?_, fun hc => ?_⟩
  · obtain ⟨a1, a2, a3, a4, a5⟩ := (hcases _ rfl (by rw [rC hc]) herr hrun).1 hc
    rw [rC hc] at a2
    exact ⟨a1, a2, a3, a4, a5⟩
  · obtain ⟨a1, a2, a3, a4, a5⟩ := (hcases _ rfl (by rw [rD hc]) herr hrun).2 hc
    rw [rD hc] at a2
    exact ⟨a1, a2, a3, a4, a5⟩
  · rw [rE hc] at hrun
    simp only [List.head?_nil, ne_eq, not_true_eq_false, false_and, and_false, if_false]
      at hrun
    have hrun := (reportedLine_some _ _ _ hrun).1.symm
    obtain ⟨f1, f2, f3, f4, f5, _⟩ := endOfLine_fields
      { st with declarations_list := st.declarations_list ++
        [creatDeclarationNode (Int.ofNat st.line_num) (declaredName (skipWord (cstr buf)))
          (labelledType (cstr buf))] } ""
    rw [hrun] at f1 f2 f3 f4 f5
    exact ⟨by rw [← hrun]; exact hind _ rfl, f5, f1, f3, f2, f4⟩

theorem endOfLine_cases (s : firstPassState) (e : String) :
    (e = "" ∧ (endOfLine s e).errors = s.errors ∧ (endOfLine s e).indicator = s.indicator) ∨
    (e ≠ "" ∧ (endOfLine s e).indicator = false ∧
      (endOfLine s e).errors = s.errors ++ [(toShort (Int.ofNat s.line_num), e)]) := by
  unfold endOfLine
  by_cases he : e = ""
  · left
    simp [he]
  · right
    simp [he]

/-- A round of the loop of `firstPass` either reports nothing and keeps the indicator, or
reports one diagnostic under the number of the line and sets the indicator to FALSE. -/
theorem firstPassLine_reports (macros : List macroNode) (st st' : firstPassState)
    (buf : List Char) (hrun : firstPassLine macros st buf = some st') :
    (st'.errors = st.errors ∧ st'.indicator = st.indicator) ∨
    (st'.indicator = false ∧ ∃ e, e ≠ "" ∧
      st'.errors = st.errors ++ [(toShort (Int.ofNat st.line_num), e)]) := by
  have hend : ∀ (s : firstPassState) (e : String), s.errors = st.errors →
      s.line_num = st.line_num → s.indicator = st.indicator →
      ((endOfLine s e).errors = st.errors ∧ (endOfLine s e).indicator = st.indicator) ∨
      ((endOfLine s e).indicator = false ∧ ∃ e', e' ≠ "" ∧
        (endOfLine s e).errors = st.errors ++ [(toShort (Int.ofNat st.line_num), e')]) := by
    intro s e h1 h2 h3
    rcases endOfLine_cases s e with ⟨_, a2, a3⟩ | ⟨a1, a2, a3⟩
    · exact Or.inl ⟨by rw [a2, h1], by rw [a3, h3]⟩
    · exact Or.inr ⟨a2, e, a1, by rw [a3, h1, h2]⟩
  unfold firstPassLine at hrun
  simp only at hrun
  generalize (if (strchr (cstr buf) ':').isSome = true then
      readNewLabel ⟨cstr buf, st.declarations_list, ""⟩ st.line_num macros st.dc st.ic
    else ⟨cstr buf, st.declarations_list, ""⟩) = l at hrun
  split_ifs at hrun
  · simp only [Option.bind_eq_some] at hrun
    obtain ⟨r, _, hr⟩ := hrun
    have hr := (reportedLine_some _ _ _ hr).1
    rw [hr]
    exact hend _ _ rfl rfl rfl
  · have hrun := (reportedLine_some _ _ _ hrun).1
    rw [hrun]
    exact hend _ _ rfl rfl rfl
  · simp only [Option.bind_eq_some] at hrun
    obtain ⟨r, _, hr⟩ := hrun
    have hr := (reportedLine_some _ _ _ hr).1
    rw [hr]
    exact hend _ _ rfl rfl rfl
  · have hrun := (reportedLine_some _ _ _ hrun).1
    rw [hrun]
    exact hend _ _ rfl rfl rfl
  · have hrun := (reportedLine_some _ _ _ hrun).1
    rw [hrun]
    exact hend _ _ rfl rfl rfl

theorem isalnum_not_isspace (c : Char) (h : isalnum c = true) : isspace c = false := by
  unfold isalnum isalpha isdigit at h
  unfold isspace
  simp only [Bool.or_eq_true, Bool.and_eq_true, decide_eq_true_eq] at h
  simp only [Bool.or_eq_false_iff, beq_eq_false_iff_ne, ne_eq, Bool.and_eq_false_imp,
    decide_eq_true_eq, decide_eq_false_iff_not]
  omega

/-- A line in which a white character stands before the first colon gets a diagnostic:
the text before the colon is taken as a label and is none. -/
theorem firstPassLine_colon (macros : List macroNode) (st st' : firstPassState)
    (buf : List Char) (hrun : firstPassLine macros st buf = some st')
    (hcolon : (strchr (cstr buf) ':').isSome = true)
    (hspace : ∃ c ∈ beforeColon (cstr buf), isspace c = true) :
    st'.indicator = false ∧ ∃ e, e ≠ "" ∧
      st'.errors = st.errors ++ [(toShort (Int.ofNat st.line_num), e)] := by
  rcases firstPassLine_reports macros st st' buf hrun with ⟨h1, _⟩ | h
  · exfalso
    obtain ⟨hlab, _⟩ := firstPassLine_labelled macros st st' buf hrun hcolon h1
    obtain ⟨_, hchk, _⟩ := (getLabelName_accepted (cstr buf) macros).1.mp hlab
    obtain ⟨_, hall, _⟩ := (checkLabelName_iff _ macros "").mp hchk
    obtain ⟨c, hc, hs⟩ := hspace
    have := isalnum_not_isspace c (hall c hc)
    rw [hs] at this
    exact Bool.noConfusion this
  · exact h
/-! ## Where the first scan of the pre-processor stops -/

/-- A valid line that holds no `macr `: the scan goes on with the next line. -/
theorem firstScanLoop_ordinary_step (fuel : Nat) (buf : List Char) (rest : List (List Char))
    (n : Nat) (macros : List macroNode) (hv : (isValidLine (cstr buf) "").1 = true)
    (hm : strstr (strippedLine buf) "macr ".toList = none) :
    firstScanLoop (fuel + 1) (buf :: rest) n macros =
      firstScanLoop fuel rest ((n + 1) % 4294967296) macros := by
  obtain ⟨f1, f2⟩ := isValidLine_fields _ _ hv
  have hval : isStartMacroDeclaration (skipWhiteChar (cstr buf)) "" = (FALSE, "") := by
    unfold isStartMacroDeclaration
    unfold strippedLine at hm
    rw [hm]
  simp only [firstScanLoop, hv, if_true, f1, f2, hval]
  rw [if_neg (show ¬ (FALSE = TRUE) from by decide), if_neg (by simp)]

/-- A line that is not valid: the scan stops with its diagnostic. -/
theorem firstScanLoop_invalid (fuel : Nat) (buf : List Char) (rest : List (List Char))
    (n : Nat) (macros : List macroNode) (hv : (isValidLine (cstr buf) "").1 = false) :
    firstScanLoop (fuel + 1) (buf :: rest) n macros =
      some ⟨false, macros, false,
        [(toShort (Int.ofNat n), (isValidLine (cstr buf) "").2.2)]⟩ := by
  simp only [firstScanLoop, hv, Bool.false_eq_true, if_false]

/-- The scan over valid lines that hold no `macr `. -/
theorem firstScanLoop_ordinary :
    ∀ (pre : List (List Char)) (fuel n : Nat) (macros : List macroNode)
      (tail : List (List Char)), n < 4294967296 →
      (∀ b ∈ pre, (isValidLine (cstr b) "").1 = true ∧
        strstr (strippedLine b) "macr ".toList = none) →
      firstScanLoop (fuel + pre.length) (pre ++ tail) n macros =
        firstScanLoop fuel tail ((n + pre.length) % 4294967296) macros := by
  intro pre
  induction pre with
  | nil =>
    intro fuel n macros tail hn _
    simp only [List.length_nil, Nat.add_zero, List.nil_append]
    rw [Nat.mod_eq_of_lt hn]
  | cons b rest ih =>
    intro fuel n macros tail hn hp
    obtain ⟨hv, hm⟩ := hp b (List.mem_cons_self _ _)
    rw [List.cons_append, List.length_cons, ← Nat.add_assoc,
      firstScanLoop_ordinary_step _ _ _ _ _ hv hm,
      ih fuel _ macros tail (Nat.mod_lt _ (by decide))
        fun x hx => hp x (List.mem_cons_of_mem _ hx)]
    congr 1
    omega

/-- A run of the first scan prints no diagnostic when it reaches the end of the file and
exactly one when it stops before. -/
theorem firstScanLoop_errors :
    ∀ (fuel : Nat) (input : List (List Char)) (n : Nat) (macros : List macroNode)
      (f : firstScan), firstScanLoop fuel input n macros = some f →
      (f.ok = true ∧ f.errors = []) ∨ (f.ok = false ∧ ∃ e, f.errors = [e]) := by
  intro fuel
  induction fuel with
  | zero =>
    intro input n macros f h
    cases input with
    | nil =>
      simp only [firstScanLoop, Option.some.injEq] at h
      subst h
      exact Or.inl ⟨rfl, rfl⟩
    | cons b rest => simp [firstScanLoop] at h
  | succ k ih =>
    intro input n macros f h
    cases input with
    | nil =>
      simp only [firstScanLoop, Option.some.injEq] at h
      subst h
      exact Or.inl ⟨rfl, rfl⟩
    | cons b rest =>
      simp only [firstScanLoop] at h
      by_cases hv : (isValidLine (cstr b) "").1 = true
      · rw [if_pos hv] at h
        by_cases hs : (isStartMacroDeclaration (isValidLine (cstr b) "").2.1
            (isValidLine (cstr b) "").2.2).1 = TRUE
        · rw [if_pos hs] at h
          simp only [Option.bind_eq_some] at h
          obtain ⟨r, _, h⟩ := h
          by_cases hre : r.error_str ≠ ""
          · rw [if_pos hre] at h
            simp only [Option.some.injEq] at h
            subst h
            exact Or.inr ⟨rfl, _, rfl⟩
          · rw [if_neg hre] at h
            exact ih _ _ _ f h
        · rw [if_neg hs] at h
          by_cases hse : (isStartMacroDeclaration (isValidLine (cstr b) "").2.1
              (isValidLine (cstr b) "").2.2).2 ≠ ""
          · rw [if_pos hse] at h
            simp only [Option.some.injEq] at h
            subst h
            exact Or.inr ⟨rfl, _, rfl⟩
          · rw [if_neg hse] at h
            exact ih _ _ _ f h
      · rw [if_neg hv] at h
        simp only [Option.some.injEq] at h
        subst h
        exact Or.inr ⟨rfl, _, rfl⟩

/-- The text of a valid line of at most 81 characters passes `isValidLine` once more. -/
theorem isValidLine_again (l : List Char) (e : String) (hlen : l.length ≤ 81)
    (hv : (isValidLine l e).1 = true) : (isValidLine (skipWhiteChar l) e).1 = true := by
  have h1 : MAX_LENGTH_OF_LINE - 1 = 81 := rfl
  have h2 : MAX_LENGTH_OF_LINE - 2 = 80 := rfl
  have hsuf := skipWhiteChar_suffix l
  unfold isValidLine at hv ⊢
  rw [h1, h2] at hv ⊢
  by_cases hc : l.length = 81 ∧ l.get? 80 ≠ some '\n'
  · rw [if_pos hc] at hv
    exact Bool.noConfusion hv
  · rw [if_neg hc] at hv
    by_cases hq : (strchr l ';').isSome ∧ strchr l ';' ≠ some l
    · rw [if_pos hq] at hv
      exact Bool.noConfusion hv
    · have hc' : ¬ ((skipWhiteChar l).length = 81 ∧
          (skipWhiteChar l).get? 80 ≠ some '\n') := by
        rintro ⟨h3, h4⟩
        have hle := hsuf.length_le
        have heq : skipWhiteChar l = l := hsuf.eq_of_length (by omega)
        rw [heq] at h3 h4
        exact hc ⟨h3, h4⟩
      rw [if_neg hc']
      have hq' : ¬ ((strchr (skipWhiteChar l) ';').isSome ∧
          strchr (skipWhiteChar l) ';' ≠ some (skipWhiteChar l)) := by
        rintro ⟨h3, h4⟩
        have hmem : ';' ∈ skipWhiteChar l := by
          by_contra hn
          rw [(strchr_mem _ _).mpr hn] at h3
          exact Bool.noConfusion h3
        have hmem' : ';' ∈ l := hsuf.subset hmem
        have hsome : (strchr l ';').isSome = true := by
          cases hs : strchr l ';' with
          | none => exact absurd hmem' ((strchr_mem _ _).mp hs)
          | some t => rfl
        have hl : strchr l ';' = some l := by
          by_contra hne
          exact hq ⟨hsome, hne⟩
        have hhead := strchr_self l ';' hl
        have hself : skipWhiteChar l = l := by
          apply skipWhiteChar_self
          intro c hc2
          rw [hhead] at hc2
          cases hc2
          decide
        rw [hself] at h4
        exact h4 hl
      rw [if_neg hq']

/-- At the end of the file `getCommands` never ends when the lines it reads are valid and
none of them holds `endmacr`. -/
theorem getCommands_unterminated (name : List Char) :
    ∀ (rest : List (List Char)) (line : List Char) (n : Nat) (cmds : List (List Char)),
      (isValidLine line "").1 = true → strstr line "endmacr".toList = none →
      (∀ x ∈ rest, (cstr x).length ≤ 81 ∧ (isValidLine (cstr x) "").1 = true ∧
        strstr (strippedLine x) "endmacr".toList = none) →
      getCommands name line rest n cmds "" = none := by
  intro rest
  induction rest with
  | nil =>
    intro line n cmds hv hs _
    have h0 := (isEndMacroDeclaration_zero line "").mpr hs
    obtain ⟨k1, k2⟩ := isEndMacroDeclaration_keeps _ _ h0
    unfold getCommands
    simp only [h0, if_true, k1, k2, hv, Bool.not_true, Bool.false_eq_true, if_false]
  | cons buf rest ih =>
    intro line n cmds hv hs hr
    have h0 := (isEndMacroDeclaration_zero line "").mpr hs
    obtain ⟨k1, k2⟩ := isEndMacroDeclaration_keeps _ _ h0
    obtain ⟨hlen, hvb, hsb⟩ := hr buf (List.mem_cons_self _ _)
    obtain ⟨f1, f2⟩ := isValidLine_fields _ _ hvb
    unfold getCommands
    simp only [h0, if_true, k1, k2, hvb, Bool.not_true, Bool.false_eq_true, if_false, f1, f2]
    exact ih _ _ _ (isValidLine_again _ _ hlen hvb) hsb
      fun x hx => hr x (List.mem_cons_of_mem _ hx)

/-- A line of white characters that is shorter than the line buffer is valid. -/
theorem isValidLine_white (w : List Char) (e : String) (hw : isWhiteSpaceString w = true)
    (hlen : w.length ≤ 80) : isValidLine w e = (true, [], e) := by
  have h1 : MAX_LENGTH_OF_LINE - 1 = 81 := rfl
  have hnot : ';' ∉ w := by
    intro hm
    unfold isWhiteSpaceString at hw
    rw [List.all_eq_true] at hw
    exact absurd (hw _ hm) (by decide)
  unfold isValidLine
  rw [h1, if_neg (by omega), (strchr_mem w ';').mpr hnot, if_neg (by simp),
    skipWhiteChar_white w hw]

/-- What is left of a line behind its first two words is shorter than the line. -/
theorem getWord_skipWord_length (line : List Char) (h : "macr ".toList.isPrefixOf line = true) :
    (getWord (skipWord line)).1.length < line.length := by
  cases line with
  | nil => simp at h
  | cons c t =>
    have hc : c = 'm' := by
      simp only [String.toList, List.isPrefixOf, Bool.and_eq_true, beq_iff_eq] at h
      exact h.1.symm
    subst hc
    have h1 : skipWord ('m' :: t) = t.dropWhile fun c => !isspace c := by
      unfold skipWord skipWhiteChar
      rw [List.dropWhile_cons_of_neg (by decide), List.dropWhile_cons_of_pos (by decide)]
    have h2 : (getWord (skipWord ('m' :: t))).1 <:+ skipWord ('m' :: t) := by
      unfold getWord
      exact (List.dropWhile_suffix _).trans (skipWhiteChar_suffix _)
    have h3 := h2.length_le
    rw [h1] at h3 ⊢
    have h4 := (List.dropWhile_suffix (fun c => !isspace c) : _ <:+ t).length_le
    simp only [List.length_cons]
    omega

/-- A definition whose `macr` line is accepted and whose lines up to the end of the file
are valid and hold no `endmacr`: `getMacroData` never ends. -/
theorem getMacroData_unterminated (buf : List Char) (body : List (List Char)) (n : Nat)
    (macros : List macroNode) (e : String)
    (hlen : (cstr buf).length ≤ 81) (hstart : startsDefinition buf = true)
    (hname : (getMacroName (skipWord (strippedLine buf)) "").1 = true)
    (hvalid : (isValidName (getWord (skipWord (strippedLine buf))).2).1 = true)
    (hnew : isMacroNameExists (getWord (skipWord (strippedLine buf))).2 macros = none)
    (hbody : ∀ x ∈ body, (cstr x).length ≤ 81 ∧ (isValidLine (cstr x) "").1 = true ∧
      strstr (strippedLine x) "endmacr".toList = none)
    (he : e = "") :
    getMacroData (strippedLine buf) n body macros e = none := by
  subst he
  unfold getMacroName at hname
  simp only at hname
  by_cases h1 : (getWord (skipWord (strippedLine buf))).2.length ≥ MAX_LENGTH_OF_LABEL
  · rw [if_pos h1] at hname
    exact Bool.noConfusion hname
  · rw [if_neg h1] at hname
    cases hw : isWhiteSpaceString (getWord (skipWord (strippedLine buf))).1 with
    | false =>
      rw [hw] at hname
      simp at hname
    | true =>
      unfold getMacroData getMacroName
      simp only [if_neg h1, hw, Bool.not_true, Bool.false_eq_true, if_false, hvalid, hnew,
        Option.isSome_none]
      cases body with
      | nil =>
        have hl := getWord_skipWord_length (strippedLine buf) hstart
        have hs := (skipWhiteChar_suffix (cstr buf)).length_le
        have hl2 : (getWord (skipWord (strippedLine buf))).1.length ≤ 80 := by
          unfold strippedLine at hl ⊢
          omega
        simp only [List.tail_nil, isValidLine_white _ _ hw hl2, Bool.not_true,
          Bool.false_eq_true, if_false]
        exact getCommands_end _ _ _
      | cons b rest =>
        obtain ⟨hlb, hvb, hsb⟩ := hbody b (List.mem_cons_self _ _)
        obtain ⟨f1, f2⟩ := isValidLine_fields _ _ hvb
        simp only [List.tail_cons, hvb, Bool.not_true, Bool.false_eq_true, if_false, f1, f2]
        exact getCommands_unterminated _ rest _ _ _ (isValidLine_again _ _ hlb hvb) hsb
          fun x hx => hbody x (List.mem_cons_of_mem _ hx)
/-! ## Files of lines that hold `stop` or `.data 1` alone -/

theorem readNewInstruction_stop (ic : Int) (l : List instructionNode) (line_num : Nat) :
    readNewInstruction ⟨ic, l, ""⟩ "stop\n".toList line_num =
      some ⟨toShort (ic + 1), l ++ [⟨ic, 0, wordType.bmc 30724⟩], ""⟩ := by
  have h1 : getOpcode "stop\n".toList = (15, "\n".toList) := by decide
  have h2 : getFirstWordBMC 15 NO_TYPE NO_TYPE 0 = some 30724 := by decide
  have h3 : isAbsolute 30724 = true := by decide
  have h4 : isWhiteSpaceString "\n".toList = true := by decide
  have h5 : ¬ ((15 : Int) ≤ LEA) := by decide
  have h6 : ¬ ((15 : Int) ≤ JSR) := by decide
  unfold readNewInstruction
  simp only [h1, if_neg h5, if_neg h6, h4, Bool.not_true, Bool.false_eq_true, if_false]
  unfold noOperandWords
  simp only [h2, Option.some_bind, creatInstructionNode, h3, if_true, Option.map_some']

theorem firstPassLine_stop (macros : List macroNode) (st : firstPassState) :
    firstPassLine macros st "stop\n".toList =
      some { st with ic := toShort (st.ic + 1),
                     instructions_list := st.instructions_list ++
                       [⟨st.ic, 0, wordType.bmc 30724⟩],
                     line_num := (st.line_num + 1) % 4294967296 } := by
  have h1 : cstr "stop\n".toList = "stop\n".toList := by decide
  have h2 : (strchr "stop\n".toList ':').isSome = false := by decide
  have h3 : getInstructionType "stop\n".toList "" = (CODE, "stop\n".toList, "") := by decide
  have h4 : ("stop\n".toList ≠ [] ∧ "stop\n".toList.head? ≠ some '\n') := by decide
  unfold firstPassLine
  simp only [h1, h2, Bool.false_eq_true, if_false, true_and, h4, and_self, if_true, h3,
    readNewInstruction_stop, Option.some_bind]
  rfl



theorem stopWords_succ (k : Nat) :
    stopWords (k + 1) = stopWords k ++ [⟨100 + Int.ofNat k, 0, wordType.bmc 30724⟩] := by
  unfold stopWords
  rw [List.range_succ, List.map_append]
  rfl

theorem stopWords_length (k : Nat) : (stopWords k).length = k := by
  unfold stopWords
  rw [List.length_map, List.length_range]

theorem firstPassLoop_cons (macros : List macroNode) (buf : List Char)
    (rest : List (List Char)) (st : firstPassState) :
    firstPassLoop macros (buf :: rest) st =
      (firstPassLine macros st buf).bind (firstPassLoop macros rest) := rfl

/-- The loop of `firstPass` over `n` lines that hold `stop` alone, read after `k` such
lines from the start of a file: each adds one word, and the counter `ic` goes on as a
`short` does. -/
theorem firstPassLoop_stops (macros : List macroNode) (rest : List (List Char)) :
    ∀ (n k : Nat), k + n ≤ 32668 →
      firstPassLoop macros (stopLines n ++ rest)
          ⟨toShort (100 + Int.ofNat k), 0, 1 + k, true, stopWords k, [], [], []⟩ =
        firstPassLoop macros rest
          ⟨toShort (100 + Int.ofNat (k + n)), 0, 1 + (k + n), true, stopWords (k + n), [], [],
            []⟩ := by
  intro n
  induction n with
  | zero => intro k _; rfl
  | succ n ih =>
    intro k hk
    have hic : toShort (100 + Int.ofNat k) = 100 + Int.ofNat k := by
      apply toShort_of_range
      · simp only [Int.ofNat_eq_coe]; omega
      · simp only [Int.ofNat_eq_coe]; omega
    have hline : (1 + k + 1) % 4294967296 = 1 + (k + 1) := by omega
    have hnext : toShort (toShort (100 + Int.ofNat k) + 1) =
        toShort (100 + Int.ofNat (k + 1)) := by
      rw [toShort_add_left]
      have e : (100 : Int) + Int.ofNat k + 1 = 100 + Int.ofNat (k + 1) := by
        show (100 : Int) + (k : Int) + 1 = 100 + ((k + 1 : Nat) : Int)
        omega
      rw [e]
    have hstep : firstPassLine macros
        ⟨toShort (100 + Int.ofNat k), 0, 1 + k, true, stopWords k, [], [], []⟩
        "stop\n".toList =
        some ⟨toShort (100 + Int.ofNat (k + 1)), 0, 1 + (k + 1), true, stopWords (k + 1), [],
          [], []⟩ := by
      rw [firstPassLine_stop, stopWords_succ]
      simp only [hline, hnext]
      rw [hic]
    rw [show stopLines (n + 1) ++ rest = "stop\n".toList :: (stopLines n ++ rest) from rfl,
      firstPassLoop_cons, hstep, Option.some_bind, ih (k + 1) (by omega)]
    have e : k + 1 + n = k + (n + 1) := by omega
    rw [e]

/-- One round of the loop of `firstPass` on the line `.data 1`. -/
theorem firstPassLine_data (macros : List macroNode) (st : firstPassState) :
    firstPassLine macros st ".data 1\n".toList =
      some { st with dc := toShort (st.dc + 1),
                     data_list := st.data_list ++ [⟨st.dc, 1⟩],
                     line_num := (st.line_num + 1) % 4294967296 } := by
  have h1 : cstr ".data 1\n".toList = ".data 1\n".toList := by decide
  have h2 : (strchr ".data 1\n".toList ':').isSome = false := by decide
  have h3 : getInstructionType ".data 1\n".toList "" = (DATA, ".data 1\n".toList, "") := by
    decide
  have h4 : (".data 1\n".toList ≠ [] ∧ ".data 1\n".toList.head? ≠ some '\n') := by decide
  have h5 : readNumbers (skipWord ".data 1\n".toList) "" = ([1], "") := by decide
  have h6 : ¬ (DATA = CODE) := by decide
  have h7 : ¬ (DATA ≥ ENTRY) := by decide
  have h8 : DATA ≥ DATA := by decide
  have h9 : ¬ (DATA ≠ DATA ∧ DATA ≠ STRING) := by decide
  have hdata : readNewData ⟨st.dc, st.data_list, ""⟩ DATA ".data 1\n".toList =
      some ⟨toShort (st.dc + 1), st.data_list ++ [⟨st.dc, 1⟩], ""⟩ := by
    unfold readNewData
    simp only [if_neg h9, if_true]
    rw [h5]
    simp only [List.length_singleton, one_ne_zero, if_false, creatDataNodes]
  unfold firstPassLine
  simp only [h1, h2, Bool.false_eq_true, if_false, true_and, h4, and_self, if_true, h3,
    if_neg h6, if_neg h7, if_pos h8, hdata, Option.some_bind]
  rfl

theorem oneWords_succ (k : Nat) : oneWords (k + 1) = oneWords k ++ [⟨Int.ofNat k, 1⟩] := by
  unfold oneWords
  rw [List.range_succ, List.map_append]
  rfl

theorem oneWords_length (k : Nat) : (oneWords k).length = k := by
  unfold oneWords
  rw [List.length_map, List.length_range]

/-- The loop of `firstPass` over `n` lines that hold `.data 1` alone, read after `k` such
lines from the start of a file: each adds one word, and the counter `dc` goes on as a
`short` does. -/
theorem firstPassLoop_ones (macros : List macroNode) (rest : List (List Char)) :
    ∀ (n k : Nat), k + n ≤ 32768 →
      firstPassLoop macros (oneLines n ++ rest)
          ⟨100, toShort (Int.ofNat k), 1 + k, true, [], oneWords k, [], []⟩ =
        firstPassLoop macros rest
          ⟨100, toShort (Int.ofNat (k + n)), 1 + (k + n), true, [], oneWords (k + n), [],
            []⟩ := by
  intro n
  induction n with
  | zero => intro k _; rfl
  | succ n ih =>
    intro k hk
    have hdc : toShort (Int.ofNat k) = Int.ofNat k := by
      apply toShort_of_range
      · simp only [Int.ofNat_eq_coe]; omega
      · simp only [Int.ofNat_eq_coe]; omega
    have hline : (1 + k + 1) % 4294967296 = 1 + (k + 1) := by omega
    have hnext : toShort (toShort (Int.ofNat k) + 1) = toShort (Int.ofNat (k + 1)) := by
      rw [toShort_add_left]
      have e : Int.ofNat k + 1 = Int.ofNat (k + 1) := by
        show (k : Int) + 1 = ((k + 1 : Nat) : Int)
        omega
      rw [e]
    have hstep : firstPassLine macros
        ⟨100, toShort (Int.ofNat k), 1 + k, true, [], oneWords k, [], []⟩
        ".data 1\n".toList =
        some ⟨100, toShort (Int.ofNat (k + 1)), 1 + (k + 1), true, [], oneWords (k + 1), [],
          []⟩ := by
      rw [firstPassLine_data, oneWords_succ]
      simp only [hline, hnext]
      rw [hdc]
    rw [show oneLines (n + 1) ++ rest = ".data 1\n".toList :: (oneLines n ++ rest) from rfl,
      firstPassLoop_cons, hstep, Option.some_bind, ih (k + 1) (by omega)]
    have e : k + 1 + n = k + (n + 1) := by omega
    rw [e]

theorem stopWords_zero : stopWords 0 = [] := by
  unfold stopWords
  rfl

theorem oneWords_zero : oneWords 0 = [] := by
  unfold oneWords
  rfl

/-- The state at the end of the loop of `firstPass` over a file of `n` lines `stop`. -/
theorem firstPassLoop_stopLines (macros : List macroNode) (n : Nat) (hn : n ≤ 32668)
    (rest : List (List Char)) :
    firstPassLoop macros (stopLines n ++ rest) firstPassInit =
      firstPassLoop macros rest
        ⟨toShort (100 + Int.ofNat n), 0, 1 + n, true, stopWords n, [], [], []⟩ := by
  have h := firstPassLoop_stops macros rest n 0 (by omega)
  rw [stopWords_zero, Nat.zero_add] at h
  exact h

/-- The state at the end of the loop of `firstPass` over a file of `n` lines `.data 1`. -/
theorem firstPassLoop_oneLines (macros : List macroNode) (n : Nat) (hn : n ≤ 32768)
    (rest : List (List Char)) :
    firstPassLoop macros (oneLines n ++ rest) firstPassInit =
      firstPassLoop macros rest
        ⟨100, toShort (Int.ofNat n), 1 + n, true, [], oneWords n, [], []⟩ := by
  have h := firstPassLoop_ones macros rest n 0 (by omega)
  rw [oneWords_zero, Nat.zero_add] at h
  exact h

/-- The state at the end of the loop of `firstPass` over `n` lines `stop` followed by the
line `.data 1`. -/
theorem firstPassLoop_stops_data (macros : List macroNode) (n : Nat) (hn : n ≤ 32668) :
    firstPassLoop macros (stopLines n ++ [".data 1\n".toList]) firstPassInit =
      some ⟨toShort (100 + Int.ofNat n), 1, (1 + n + 1) % 4294967296, true, stopWords n,
        [⟨0, 1⟩], [], []⟩ := by
  rw [firstPassLoop_stopLines macros n hn, firstPassLoop_cons, firstPassLine_data]
  rfl

/-- The first pass over `n` lines `stop` followed by the line `.data 1`: what the loop
leaves to `UpdateDataCounter`. -/
theorem firstPass_stops_data (macros : List macroNode) (n : Nat) (hn : n ≤ 32668) :
    firstPass macros (stopLines n ++ [".data 1\n".toList]) =
      some (firstPassFinish
        ⟨toShort (100 + Int.ofNat n), 1, (1 + n + 1) % 4294967296, true, stopWords n,
          [⟨0, 1⟩], [], []⟩) := by
  unfold firstPass
  rw [firstPassLoop_stops_data macros n hn]
  rfl

/-- The first pass over `n` lines `stop`: what the loop leaves to `UpdateDataCounter`. -/
theorem firstPass_stops (macros : List macroNode) (n : Nat) (hn : n ≤ 32668) :
    firstPass macros (stopLines n) =
      some (firstPassFinish
        ⟨toShort (100 + Int.ofNat n), 0, 1 + n, true, stopWords n, [], [], []⟩) := by
  have h := firstPassLoop_stopLines macros n hn []
  rw [List.append_nil] at h
  unfold firstPass
  rw [h]
  rfl
/-! ## The words `readNewInstruction` builds for a line it accepts -/

theorem getFirstWordBMC_total (o s t : Int) (ho : 0 ≤ o ∧ o ≤ 15) (hs : -1 ≤ s ∧ s ≤ 3)
    (ht : -1 ≤ t ∧ t ≤ 3) : ∃ fw, getFirstWordBMC o s t 0 = some fw ∧ lowBits fw = 4 := by
  have h := lowBits_firstWord o ho.1 ho.2 s hs.1 hs.2 t ht.1 ht.2
  cases hf : getFirstWordBMC o s t 0 with
  | none => rw [hf] at h; exact Option.noConfusion h
  | some fw =>
    rw [hf] at h
    exact ⟨fw, rfl, by simpa using h⟩

theorem creatInstructionNode_absolute (ic fw : Int) (label : Option (List Char))
    (line_num : Nat) (h : lowBits fw = 4) :
    creatInstructionNode ic fw label line_num = some ⟨ic, 0, wordType.bmc fw⟩ := by
  unfold creatInstructionNode
  rw [isAbsolute_of_lowBits fw h]
  rfl

theorem creatInstructionNode_total (ic b : Int) (label : List Char) (line_num : Nat) :
    ∃ n, creatInstructionNode ic b (some label) line_num = some n := by
  unfold creatInstructionNode
  split_ifs <;> exact ⟨_, rfl⟩

theorem registerWord_total (a : List Char) (ha : a ∈ registerTexts) :
    (∃ b, getSourceRegisterBMC a 0 = some b) ∧ (∃ b, getTargetRegisterBMC a 0 = some b) ∧
    ∀ c ∈ registerTexts, ∃ b sb, getSourceRegisterBMC a 0 = some b ∧
      getTargetRegisterBMC c b = some sb := by
  obtain ⟨t1, t2, t3⟩ := lowBits_register a ha
  refine ⟨?_, ?_, fun c hc => ?_⟩
  · cases h : getSourceRegisterBMC a 0 with
    | none => rw [h] at t1; exact Option.noConfusion t1
    | some b => exact ⟨b, rfl⟩
  · cases h : getTargetRegisterBMC a 0 with
    | none => rw [h] at t2; exact Option.noConfusion t2
    | some b => exact ⟨b, rfl⟩
  · have h3 := t3 c hc
    cases h : getSourceRegisterBMC a 0 with
    | none => rw [h] at h3; exact Option.noConfusion h3
    | some b =>
      rw [h] at h3
      simp only [Option.some_bind] at h3
      cases h' : getTargetRegisterBMC c b with
      | none => rw [h'] at h3; exact Option.noConfusion h3
      | some sb => exact ⟨b, sb, rfl, h'⟩

/-- The machine code of an operand that passed the classification is always built. -/
theorem operandBMC_total (operand : List Char) (e : String) ( is_source : Bool)
    (hty : (getOperandAddressingType operand e).1 ≠ NO_TYPE) :
    ∃ b, operandBMC is_source (getOperandAddressingType operand e).1
      (getOperandAddressingType operand e).2.1 = some b := by
  have hreg : ∀ a ∈ registerTexts,
      ∃ b, (if is_source = true then getSourceRegisterBMC a 0 else getTargetRegisterBMC a 0)
        = some b := by
    intro a ha
    obtain ⟨t1, t2, _⟩ := registerWord_total a ha
    cases is_source with
    | true => simpa using t1
    | false => simpa using t2
  revert hty
  apply getOperandAddressingType_cases operand e
    (fun r => r.1 ≠ NO_TYPE → ∃ b, operandBMC is_source r.1 r.2.1 = some b)
  · intro _ _ h; exact absurd rfl h
  · intro rest _ _ _ _ _ _
    refine ⟨getImmediateBMC operand 0, ?_⟩
    unfold operandBMC
    simp only [if_true]
    rw [if_neg (show ¬ IMMEDIATE_ADDRESSING ≥ INDIRECT_REGISTER_ADDRESSING from by decide)]
  · intro rest _ hr _
    have h0 : operandBMC is_source INDIRECT_REGISTER_ADDRESSING rest
        = (if is_source = true then getSourceRegisterBMC rest 0
            else getTargetRegisterBMC rest 0) := by
      unfold operandBMC
      simp only []
      rw [if_neg (show ¬ INDIRECT_REGISTER_ADDRESSING = IMMEDIATE_ADDRESSING from by decide),
        if_pos (show INDIRECT_REGISTER_ADDRESSING ≥ INDIRECT_REGISTER_ADDRESSING
          from by decide)]
    rw [h0]
    exact hreg rest (isRegister_mem rest hr)
  · intro hr _
    have h0 : operandBMC is_source DIRECT_REGISTER_ADDRESSING operand
        = (if is_source = true then getSourceRegisterBMC operand 0
            else getTargetRegisterBMC operand 0) := by
      unfold operandBMC
      simp only []
      rw [if_neg (show ¬ DIRECT_REGISTER_ADDRESSING = IMMEDIATE_ADDRESSING from by decide),
        if_pos (show DIRECT_REGISTER_ADDRESSING ≥ INDIRECT_REGISTER_ADDRESSING
          from by decide)]
    rw [h0]
    exact hreg operand (isRegister_mem operand hr)
  · intro _ _ _
    refine ⟨0, ?_⟩
    unfold operandBMC
    simp only []
    rw [if_neg (show ¬ DIRECT_ADDRESSING = IMMEDIATE_ADDRESSING from by decide),
      if_neg (show ¬ DIRECT_ADDRESSING ≥ INDIRECT_REGISTER_ADDRESSING from by decide)]

/-- The words of a two-operand instruction are always built for an opcode of the table and
operands that passed the classification. -/
theorem twoOperandWords_total (st : instructionState) (opcode : Int) (src tgt : List Char)
    (e : String) (line_num : Nat) (err : String) (ho : 0 ≤ opcode ∧ opcode ≤ 15)
    (hs : (getOperandAddressingType src e).1 ≠ NO_TYPE)
    (ht : (getOperandAddressingType tgt e).1 ≠ NO_TYPE) :
    ∃ st', twoOperandWords st opcode (getOperandAddressingType src e).1
      (getOperandAddressingType tgt e).1 (getOperandAddressingType src e).2.1
      (getOperandAddressingType tgt e).2.1 line_num err = some st' := by
  have hsr := operandType_range (getOperandAddressingType src e) src e rfl
  have htr := operandType_range (getOperandAddressingType tgt e) tgt e rfl
  obtain ⟨fw, hfw, hlow⟩ := getFirstWordBMC_total opcode _ _ ho hsr htr
  unfold twoOperandWords
  rw [hfw, Option.some_bind, creatInstructionNode_absolute _ _ _ _ hlow, Option.some_bind]
  by_cases hb : (getOperandAddressingType src e).1 ≥ INDIRECT_REGISTER_ADDRESSING ∧
      (getOperandAddressingType tgt e).1 ≥ INDIRECT_REGISTER_ADDRESSING
  · rw [if_pos hb]
    obtain ⟨b, sb, h1, h2⟩ := (registerWord_total _
      (getOperandAddressingType_register src e hb.1)).2.2 _
      (getOperandAddressingType_register tgt e hb.2)
    obtain ⟨n2, hn2⟩ := creatInstructionNode_total (toShort (st.ic + 1)) sb
      (getOperandAddressingType src e).2.1 line_num
    rw [h1, Option.some_bind, h2, Option.some_bind, hn2]
    exact ⟨_, rfl⟩
  · rw [if_neg hb]
    obtain ⟨sb, hsb⟩ := operandBMC_total src e true hs
    obtain ⟨tb, htb⟩ := operandBMC_total tgt e false ht
    obtain ⟨n2, hn2⟩ := creatInstructionNode_total (toShort (st.ic + 1)) sb
      (getOperandAddressingType src e).2.1 line_num
    obtain ⟨n3, hn3⟩ := creatInstructionNode_total (toShort (toShort (st.ic + 1) + 1)) tb
      (getOperandAddressingType tgt e).2.1 line_num
    rw [hsb, Option.some_bind, htb, Option.some_bind, hn2, Option.some_bind, hn3]
    exact ⟨_, rfl⟩

theorem oneOperandWords_total (st : instructionState) (opcode : Int) (tgt : List Char)
    (e : String) (line_num : Nat) (err : String) (ho : 0 ≤ opcode ∧ opcode ≤ 15)
    (ht : (getOperandAddressingType tgt e).1 ≠ NO_TYPE) :
    ∃ st', oneOperandWords st opcode (getOperandAddressingType tgt e).1
      (getOperandAddressingType tgt e).2.1 line_num err = some st' := by
  have htr := operandType_range (getOperandAddressingType tgt e) tgt e rfl
  obtain ⟨fw, hfw, hlow⟩ := getFirstWordBMC_total opcode NO_TYPE _ ho (by decide) htr
  obtain ⟨tb, htb⟩ := operandBMC_total tgt e false ht
  obtain ⟨n2, hn2⟩ := creatInstructionNode_total (toShort (st.ic + 1)) tb
    (getOperandAddressingType tgt e).2.1 line_num
  unfold oneOperandWords
  rw [hfw, Option.some_bind, htb, Option.some_bind,
    creatInstructionNode_absolute _ _ _ _ hlow, Option.some_bind, hn2]
  exact ⟨_, rfl⟩

theorem noOperandWords_total (st : instructionState) (opcode : Int) (line_num : Nat)
    (err : String) (ho : 0 ≤ opcode ∧ opcode ≤ 15) :
    ∃ st', noOperandWords st opcode line_num err = some st' := by
  obtain ⟨fw, hfw, hlow⟩ := getFirstWordBMC_total opcode NO_TYPE NO_TYPE ho (by decide)
    (by decide)
  unfold noOperandWords
  rw [hfw, Option.some_bind, creatInstructionNode_absolute _ _ _ _ hlow]
  exact ⟨_, rfl⟩


/-- A line that meets what `readNewInstruction` asks for is read to the end: the function
returns, and it leaves the error buffer empty. -/
theorem readNewInstruction_produces (st : instructionState) (line : List Char)
    (line_num : Nat) (hclean : st.error_str = "") (hacc : instructionAccepted line) :
    ∃ st', readNewInstruction st line line_num = some st' ∧ st'.error_str = "" := by
  obtain ⟨h0, hrest⟩ := hacc
  have hop : 0 ≤ (getOpcode line).1 ∧ (getOpcode line).1 ≤ 15 := by
    rcases isOpcode_range (getWord line).2 with h | h
    · exfalso
      have : (getOpcode line).1 = -1 := h
      omega
    · exact h
  have hsf := isValidSourceOperandType_fields (getOpcode line).1
  have htf := isValidTargetOperandType_fields (getOpcode line).1
  unfold readNewInstruction
  simp only [hclean]
  by_cases h1 : (getOpcode line).1 ≤ LEA
  · rw [if_pos h1] at hrest
    rw [if_pos h1]
    obtain ⟨hok, hs, ht⟩ := hrest
    have hlo : lineOperands line = readTwoOperands (getOpcode line).2 none none "" := by
      unfold lineOperands
      rw [if_pos h1]
    unfold lineSource at hs
    unfold lineTarget at ht
    rw [hlo] at hok hs ht
    obtain ⟨hre, ⟨ws, hws⟩, ⟨wt, hwt⟩⟩ := (readTwoOperands_spec (getOpcode line).2 "").2 hok
    generalize readTwoOperands (getOpcode line).2 none none "" = r at hok hs ht hre hws hwt ⊢
    rw [hws] at hs
    rw [hwt] at ht
    simp only [Option.getD_some] at hs ht
    have hse := (isValidSourceOperandType_error (getOpcode line).1 ws "").2 hs
    have hte := (isValidTargetOperandType_error (getOpcode line).1 wt "").2 ht
    obtain ⟨s1, s2⟩ := hsf ws ""
    obtain ⟨t1, t2⟩ := htf wt ""
    have hgs : (getOperandAddressingType ws "").1 ≠ NO_TYPE := by
      rw [← s2 hs]; exact hs
    have hgt : (getOperandAddressingType wt "").1 ≠ NO_TYPE := by
      rw [← t2 ht]; exact ht
    obtain ⟨st', hst'⟩ := twoOperandWords_total st (getOpcode line).1 ws wt "" line_num ""
      hop hgs hgt
    rw [← s2 hs, ← t2 ht, ← s1, ← t1] at hst'
    refine ⟨st', ?_, twoOperandWords_error _ _ _ _ _ _ _ _ _ hst'⟩
    rw [hok, hws, hwt, hre]
    simp only [Bool.not_true, Bool.false_and, Bool.false_eq_true, if_false, Option.some_bind,
      hse, hte, hs, ht, decide_False, Bool.or_self]
    exact hst'
  · rw [if_neg h1] at hrest
    rw [if_neg h1]
    by_cases h2 : (getOpcode line).1 ≤ JSR
    · rw [if_pos h2] at hrest
      rw [if_pos h2]
      obtain ⟨hok, ht⟩ := hrest
      have hlo : lineOperands line = readTargetOperand (getOpcode line).2 none none "" := by
        unfold lineOperands
        rw [if_neg h1]
      unfold lineTarget at ht
      rw [hlo] at hok ht
      obtain ⟨hre, _, ⟨wt, hwt⟩⟩ :=
        (readTargetOperand_spec (getOpcode line).2 none none "").2 hok
      generalize readTargetOperand (getOpcode line).2 none none "" = r at hok ht hre hwt ⊢
      rw [hwt] at ht
      simp only [Option.getD_some] at ht
      have hte := (isValidTargetOperandType_error (getOpcode line).1 wt "").2 ht
      obtain ⟨t1, t2⟩ := htf wt ""
      have hgt : (getOperandAddressingType wt "").1 ≠ NO_TYPE := by
        rw [← t2 ht]; exact ht
      obtain ⟨st', hst'⟩ := oneOperandWords_total st (getOpcode line).1 wt "" line_num ""
        hop hgt
      rw [← t2 ht, ← t1] at hst'
      refine ⟨st', ?_, oneOperandWords_error _ _ _ _ _ _ _ hst'⟩
      rw [hok, hwt, hre]
      simp only [Bool.not_true, Bool.false_and, Bool.false_eq_true, if_false,
        Option.some_bind, hte, ht, decide_False]
      exact hst'
    · rw [if_neg h2] at hrest
      rw [if_neg h2]
      obtain ⟨st', hst'⟩ := noOperandWords_total st (getOpcode line).1 line_num "" hop
      refine ⟨st', ?_, noOperandWords_error _ _ _ _ _ hst'⟩
      rw [hrest]
      simp only [Bool.not_true, Bool.false_eq_true, if_false]
      exact hst'

/-- The lines `readNewInstruction` reads to the end without a message are the lines that
meet what it asks for. -/
theorem readNewInstruction_accepted_iff (st : instructionState) (line : List Char)
    (line_num : Nat) (hclean : st.error_str = "") :
    instructionAccepted line ↔
      ∃ st', readNewInstruction st line line_num = some st' ∧ st'.error_str = "" := by
  refine ⟨readNewInstruction_produces st line line_num hclean, ?_⟩
  rintro ⟨st', hrun, hacc⟩
  obtain ⟨hA, hB, hC⟩ := readNewInstruction_accepted st st' line line_num hclean hrun hacc
  unfold instructionAccepted
  by_cases h1 : (getOpcode line).1 ≤ LEA
  · obtain ⟨a1, a2, a3, a4⟩ := hA h1
    rw [if_pos h1]
    refine ⟨?_, a1, a2, a3⟩
    unfold twoOperandWords at a4
    simp only [Option.bind_eq_some] at a4
    obtain ⟨fw, hfw, _⟩ := a4
    exact (getOpcode_range line fw _ _ hfw).1
  · rw [if_neg h1]
    by_cases h2 : (getOpcode line).1 ≤ JSR
    · obtain ⟨a1, a2, a3⟩ := hB h1 h2
      rw [if_pos h2]
      refine ⟨?_, a1, a2⟩
      unfold oneOperandWords at a3
      simp only [Option.bind_eq_some] at a3
      obtain ⟨fw, hfw, _⟩ := a3
      exact (getOpcode_range line fw _ _ hfw).1
    · obtain ⟨a1, a2⟩ := hC h1 h2
      rw [if_neg h2]
      refine ⟨?_, a1⟩
      unfold noOperandWords at a2
      simp only [Option.bind_eq_some] at a2
      obtain ⟨fw, hfw, _⟩ := a2
      exact (getOpcode_range line fw _ _ hfw).1


/-! ## The numbering of the code words in every run -/

/-- Whatever `readNewInstruction` makes of a line, the words it appends are numbered from
`ic` on and `ic` moves behind them. -/
theorem readNewInstruction_appends (st st' : instructionState) (line : List Char)
    (line_num : Nat) (hshort : toShort st.ic = st.ic)
    (hrun : readNewInstruction st line line_num = some st') :
    ∃ ws, st'.instructions_list = st.instructions_list ++ ws ∧
      st'.ic = toShort (st.ic + Int.ofNat ws.length) ∧
      ∀ (i : Nat) (n : instructionNode), ws[i]? = some n →
        n.ic = toShort (st.ic + Int.ofNat i) := by
  have key : ∃ ws, st'.instructions_list = st.instructions_list ++ ws ∧
      st'.ic = toShort (toShort st.ic + Int.ofNat ws.length) ∧
      ∀ (i : Nat) (n : instructionNode), ws[i]? = some n →
        n.ic = toShort (toShort st.ic + Int.ofNat i) ∨ (i = 0 ∧ n.ic = st.ic) := by
    have hnil : ∀ e : String, some ({ st with error_str := e } : instructionState) = some st' →
        ∃ ws, st'.instructions_list = st.instructions_list ++ ws ∧
          st'.ic = toShort (toShort st.ic + Int.ofNat ws.length) ∧
          ∀ (i : Nat) (n : instructionNode), ws[i]? = some n →
            n.ic = toShort (toShort st.ic + Int.ofNat i) ∨ (i = 0 ∧ n.ic = st.ic) := by
      intro e h
      simp only [Option.some.injEq] at h
      subst h
      refine ⟨[], by simp, ?_, fun i n hn => by simp at hn⟩
      simp only [List.length_nil, Int.ofNat_eq_coe, Nat.cast_zero, Int.add_zero]
      rw [toShort_idem, hshort]
    unfold readNewInstruction at hrun
    simp only [] at hrun
    by_cases c1 : (getOpcode line).1 ≤ LEA
    · rw [if_pos c1] at hrun
      generalize readTwoOperands (getOpcode line).2 none none st.error_str = r at hrun
      by_cases c2 : (!r.ok && !st.instructions_list.isEmpty) = true
      · rw [if_pos c2] at hrun
        exact hnil _ hrun
      · rw [if_neg c2] at hrun
        simp only [Option.bind_eq_some] at hrun
        obtain ⟨src, _, tgt, _, hrun⟩ := hrun
        split_ifs at hrun
        · exact hnil _ hrun
        · exact twoOperandWords_addresses _ _ _ _ _ _ _ _ _ hrun
    · rw [if_neg c1] at hrun
      by_cases c3 : (getOpcode line).1 ≤ JSR
      · rw [if_pos c3] at hrun
        generalize readTargetOperand (getOpcode line).2 none none st.error_str = r at hrun
        by_cases c2 : (!r.ok && !st.instructions_list.isEmpty) = true
        · rw [if_pos c2] at hrun
          exact hnil _ hrun
        · rw [if_neg c2] at hrun
          simp only [Option.bind_eq_some] at hrun
          obtain ⟨tgt, _, hrun⟩ := hrun
          split_ifs at hrun
          · exact hnil _ hrun
          · exact oneOperandWords_addresses _ _ _ _ _ _ _ hrun
      · rw [if_neg c3] at hrun
        exact noOperandWords_addresses _ _ _ _ _ hrun
  obtain ⟨ws, k1, k2, k3⟩ := key
  rw [hshort] at k2 k3
  refine ⟨ws, k1, k2, fun i n hn => ?_⟩
  rcases k3 i n hn with h | ⟨h0, h⟩
  · exact h
  · rw [h, h0]
    simp only [Int.ofNat_eq_coe, Nat.cast_zero, Int.add_zero]
    exact hshort.symm

/-- One round of the loop of `firstPass` keeps the numbering of the code words, with or
without a diagnostic. -/
theorem firstPassLine_coded (macros : List macroNode) (st st' : firstPassState)
    (buf : List Char) (h : firstPassLine macros st buf = some st')
    (hcode : codeAddressed st.ic st.instructions_list) :
    codeAddressed st'.ic st'.instructions_list := by
  unfold firstPassLine at h
  simp only at h
  generalize (if (strchr (cstr buf) ':').isSome = true then
      readNewLabel ⟨cstr buf, st.declarations_list, ""⟩ st.line_num macros st.dc st.ic
    else ⟨cstr buf, st.declarations_list, ""⟩) = l at h
  split_ifs at h with hc ht1 ht2 ht3
  · simp only [Option.bind_eq_some] at h
    obtain ⟨r, hr, hst⟩ := h
    have hst := (reportedLine_some _ _ _ hst).1
    subst hst
    obtain ⟨f1, _, f3, _, _, _⟩ := endOfLine_fields
      { st with declarations_list := l.declarations_list, ic := r.ic,
                instructions_list := r.instructions_list } r.error_str
    rw [f1, f3]
    have hshort : toShort st.ic = st.ic := by
      rw [hcode.1, toShort_idem]
    obtain ⟨ws, w1, w2, w3⟩ := readNewInstruction_appends
      ⟨st.ic, st.instructions_list, (getInstructionType l.line l.error_str).2.2⟩ r _ _
      hshort hr
    simp only at w1 w2 w3 ⊢
    rw [w1, w2]
    exact codeAddressed_append _ _ _ hcode w3
  · have h := (reportedLine_some _ _ _ h).1
    subst h
    obtain ⟨f1, _, f3, _, _, _⟩ := endOfLine_fields
      { st with declarations_list :=
          (readNewDeclaration ⟨(getInstructionType l.line l.error_str).2.1,
            l.declarations_list, (getInstructionType l.line l.error_str).2.2⟩ st.line_num
            macros).declarations_list }
      (readNewDeclaration ⟨(getInstructionType l.line l.error_str).2.1,
        l.declarations_list, (getInstructionType l.line l.error_str).2.2⟩ st.line_num
        macros).error_str
    rw [f1, f3]
    exact hcode
  · simp only [Option.bind_eq_some] at h
    obtain ⟨r, hr, hst⟩ := h
    have hst := (reportedLine_some _ _ _ hst).1
    subst hst
    obtain ⟨f1, _, f3, _, _, _⟩ := endOfLine_fields
      { st with declarations_list := l.declarations_list, dc := r.dc,
                data_list := r.data_list } r.error_str
    rw [f1, f3]
    exact hcode
  · have h := (reportedLine_some _ _ _ h).1
    subst h
    obtain ⟨f1, _, f3, _, _, _⟩ := endOfLine_fields
      { st with declarations_list := l.declarations_list }
      (getInstructionType l.line l.error_str).2.2
    rw [f1, f3]
    exact hcode
  · have h := (reportedLine_some _ _ _ h).1
    subst h
    obtain ⟨f1, _, f3, _, _, _⟩ := endOfLine_fields
      { st with declarations_list := l.declarations_list } l.error_str
    rw [f1, f3]
    exact hcode

theorem firstPassLoop_coded (macros : List macroNode) :
    ∀ (lines : List (List Char)) (st st' : firstPassState),
      firstPassLoop macros lines st = some st' →
      codeAddressed st.ic st.instructions_list →
      codeAddressed st'.ic st'.instructions_list := by
  intro lines
  induction lines with
  | nil =>
    intro st st' h hc
    simp only [firstPassLoop, Option.some.injEq] at h
    subst h
    exact hc
  | cons buf rest ih =>
    intro st st' h hc
    simp only [firstPassLoop, Option.bind_eq_some] at h
    obtain ⟨mid, hmid, hrest⟩ := h
    exact ih mid st' hrest (firstPassLine_coded macros st mid buf hmid hc)

/-- The state at the end of the loop of any first pass: the code words are numbered from
100 on and the data words from 0 on, as a `short` counts. -/
theorem firstPassLoop_numbered (macros : List macroNode) (lines : List (List Char))
    (st : firstPassState) (hloop : firstPassLoop macros lines firstPassInit = some st) :
    codeAddressed st.ic st.instructions_list ∧ dataAddressed st.dc st.data_list := by
  refine ⟨firstPassLoop_coded macros lines firstPassInit st hloop
    ⟨by decide, fun i n hn => by simp [firstPassInit] at hn⟩, ?_⟩
  exact (firstPassLoop_addressed macros lines firstPassInit st hloop).1
    ⟨by decide, fun i x hx => by simp [firstPassInit] at hx⟩
/-! ## When the message for a label without a declaration fits its buffer -/

theorem fillNode_search (decls : List declarationNode) (n : instructionNode) (s : fillState)
    (label : List Char) (hline : n.line ≠ 0) (hn : n.type = wordType.name label) :
    ((declarationLoop label decls
        ⟨false, false, false, false, s.curr_ins_da, n.line, s.ent_is_length,
          s.ext_is_length⟩).found_label_name = false ↔
      isUndeclaredReference decls n = true) := by
  obtain ⟨f1, _⟩ := declarationLoop_found label decls
    ⟨false, false, false, false, s.curr_ins_da, n.line, s.ent_is_length, s.ext_is_length⟩
    (fun hc => by simp at hc)
  rw [isUndeclaredReference_iff, ← Bool.not_eq_true, f1]
  constructor
  · intro h
    refine ⟨hline, label, hn, fun d hd hl => h (Or.inr ⟨d, hd, hl⟩)⟩
  · rintro ⟨_, label', hn', hno⟩ hc
    rw [hn] at hn'
    cases hn'
    rcases hc with hc | ⟨d, hd, hl⟩
    · exact Bool.noConfusion hc
    · exact hno d hd hl

/-- One round of the outer loop of `fillingMissingBMCofLabel` has a result exactly when the
node holds what its line mark says and the message for it, if any, fits the buffer. -/
theorem fillNode_returns (decls : List declarationNode) (n : instructionNode) (s : fillState)
    (hwf : n.line ≠ 0 → ∃ label, n.type = wordType.name label)
    (hfit : isUndeclaredReference decls n = true → (labelOf n).length ≤ 44) :
    ∃ r, fillNode decls n s = some r := by
  unfold fillNode
  by_cases hline : n.line ≠ 0
  · obtain ⟨label, hl⟩ := hwf hline
    have hs := fillNode_search decls n s label hline hl
    rw [if_pos hline, hl]
    simp only []
    rw [if_neg]
    · exact ⟨_, rfl⟩
    · rintro ⟨hnot, hbig⟩
      have hfalse : (declarationLoop label decls
          ⟨false, false, false, false, s.curr_ins_da, n.line, s.ent_is_length,
            s.ext_is_length⟩).found_label_name = false := by simpa using hnot
      have hlen := hfit (hs.mp hfalse)
      unfold labelOf at hlen
      rw [hl] at hlen
      simp only at hlen
      rw [undefinedLabelMessage_length] at hbig
      have h110 : ERROR_MESSAGE_SIZE = 110 := rfl
      omega
  · rw [if_neg hline]
    exact ⟨_, rfl⟩

/-- A pending word whose label has no declaration and 45 characters or more: the message
does not fit the buffer and the round has no result. -/
theorem fillNode_overflow (decls : List declarationNode) (n : instructionNode) (s : fillState)
    (href : isUndeclaredReference decls n = true) (hlong : 45 ≤ (labelOf n).length) :
    fillNode decls n s = none := by
  obtain ⟨hline, label, hl, _⟩ := (isUndeclaredReference_iff decls n).mp href
  have hs := (fillNode_search decls n s label hline hl).mpr href
  unfold labelOf at hlong
  rw [hl] at hlong
  simp only at hlong
  unfold fillNode
  rw [if_pos hline, hl]
  simp only []
  rw [if_pos]
  refine ⟨by rw [hs]; rfl, ?_⟩
  rw [undefinedLabelMessage_length]
  have h110 : ERROR_MESSAGE_SIZE = 110 := rfl
  omega

theorem fillingLoop_returns (decls : List declarationNode) :
    ∀ (ins : List instructionNode), pendingNamed ins → messagesFit decls ins →
      ∀ s : fillState, ∃ q, fillingLoop decls ins s = some q := by
  intro ins
  induction ins with
  | nil => intro _ _ s; exact ⟨_, rfl⟩
  | cons n rest ih =>
    intro hwf hfit s
    obtain ⟨r, hr⟩ := fillNode_returns decls n s (hwf n (List.mem_cons_self _ _))
      (hfit n (List.mem_cons_self _ _))
    obtain ⟨q, hq⟩ := ih (fun m hm => hwf m (List.mem_cons_of_mem _ hm))
      (fun m hm => hfit m (List.mem_cons_of_mem _ hm)) r.2
    refine ⟨(r.1 :: q.1, q.2), ?_⟩
    simp only [fillingLoop, hr, Option.some_bind, hq, Option.map_some']

theorem fillingLoop_overflow (decls : List declarationNode) :
    ∀ (ins : List instructionNode), ¬ messagesFit decls ins →
      ∀ s : fillState, fillingLoop decls ins s = none := by
  intro ins
  induction ins with
  | nil =>
    intro h
    exact absurd (fun n hn => by simp at hn) h
  | cons n rest ih =>
    intro hnot s
    by_cases hn : isUndeclaredReference decls n = true ∧ 45 ≤ (labelOf n).length
    · simp only [fillingLoop, fillNode_overflow decls n s hn.1 hn.2, Option.none_bind]
    · have hrest : ¬ messagesFit decls rest := by
        intro hfit
        apply hnot
        intro m hm href
        rcases List.mem_cons.mp hm with rfl | hm
        · by_contra hc
          exact hn ⟨href, by omega⟩
        · exact hfit m hm href
      unfold fillingLoop
      cases hr : fillNode decls n s with
      | none => rfl
      | some r =>
        simp only [Option.some_bind, ih hrest r.2, Option.map_none']

theorem messagesFit_resolved (decls : List declarationNode) (ins : List instructionNode) :
    messagesFit (isEntriesDefined decls).2.1 ins ↔ messagesFit decls ins := by
  unfold messagesFit
  constructor
  · intro h n hn href
    exact h n hn (by rw [isUndeclaredReference_resolved]; exact href)
  · intro h n hn href
    rw [isUndeclaredReference_resolved] at href
    exact h n hn href

/-- On a well-formed instruction list in which the labels without a declaration have at
most 44 characters `secondPass` returns, whichever output files can be created. -/
theorem secondPass_returns (files : outputFiles) (garbage : Int) (counter : Int × Int)
    (ins : List instructionNode) (data : List dataNode) (decls : List declarationNode)
    (indicator : Bool) (hwf : codeWellFormed ins) (hfit : messagesFit decls ins) :
    ∃ r, secondPass files garbage counter ins data decls indicator = some r := by
  obtain ⟨q, hq⟩ := fillingLoop_returns (isEntriesDefined decls).2.1 ins
    (codeWellFormed_pendingNamed ins hwf) ((messagesFit_resolved decls ins).mpr hfit)
    ⟨garbage, (0, 0), (0, 0), true, []⟩
  obtain ⟨out, fs⟩ := q
  obtain ⟨p, hp⟩ := printInstructions_total fs.ext_is_length out
    (fillingLoop_printable _ ins _ out fs hwf hq)
  simp only [secondPass, fillingMissingBMCofLabel, hq, Option.some_bind, createObAndExtFiles,
    hp, Option.map_some']
  split_ifs <;> exact ⟨_, rfl⟩

/-- With a label of 45 characters or more that has no declaration `secondPass` has no
result: the message written for it goes behind the end of its buffer. -/
theorem secondPass_overflow (files : outputFiles) (garbage : Int) (counter : Int × Int)
    (ins : List instructionNode) (data : List dataNode) (decls : List declarationNode)
    (indicator : Bool) (hfit : ¬ messagesFit decls ins) :
    secondPass files garbage counter ins data decls indicator = none := by
  have h := fillingLoop_overflow (isEntriesDefined decls).2.1 ins
    (fun hc => hfit ((messagesFit_resolved decls ins).mp hc))
    ⟨garbage, (0, 0), (0, 0), true, []⟩
  simp only [secondPass, fillingMissingBMCofLabel, h, Option.none_bind]
/-! ## A `.data` list written as integer literals -/

theorem dataItem_text_no_comma (x : dataItem) (h : x.wellWritten) :
    ∀ c ∈ x.text, c ≠ ',' := by
  obtain ⟨h1, _, h3, h4⟩ := h
  intro c hc
  unfold dataItem.text at hc
  rcases List.mem_append.mp hc with hc | hc
  · exact isspace_ne_comma c (h1 c hc)
  · exact integerLiteral_no_comma x.negative x.digits x.post h3 h4 c hc

/-- The literal of an item with what follows it starts with a character that is not white
and not a comma, and holds a digit. -/
theorem dataItem_literal_head (x : dataItem) (h : x.wellWritten) :
    ∃ c rest, integerLiteral x.negative x.digits ++ x.post = c :: rest ∧ isspace c = false ∧
      c ≠ ',' := by
  obtain ⟨_, h2, h3, h4⟩ := h
  obtain ⟨c, rest, hlit, hc⟩ := integerLiteral_head x.negative x.digits x.post h2 h3
  refine ⟨c, rest, hlit, hc, ?_⟩
  apply integerLiteral_no_comma x.negative x.digits x.post h3 h4
  rw [hlit]
  exact List.mem_cons_self _ _

theorem dataItem_text_nonwhite (x : dataItem) (h : x.wellWritten) :
    ∃ c ∈ x.text, isspace c = false := by
  obtain ⟨c, rest, hlit, hc, _⟩ := dataItem_literal_head x h
  refine ⟨c, ?_, hc⟩
  unfold dataItem.text
  rw [hlit]
  exact List.mem_append_right _ (List.mem_cons_self _ _)

theorem dataItem_trimmed (x : dataItem) (h : x.wellWritten) :
    x.trimmed.wellWritten ∧ x.trimmed.value = x.value ∧
    skipWhiteChar x.text = x.trimmed.text ∧
    ∀ l, skipWhiteChar (x.text ++ l) = x.trimmed.text ++ l := by
  obtain ⟨c, rest, hlit, hc, _⟩ := dataItem_literal_head x h
  have hskip : ∀ l, skipWhiteChar (x.text ++ l) = x.trimmed.text ++ l := by
    intro l
    unfold skipWhiteChar dataItem.text dataItem.trimmed
    simp only [List.nil_append]
    rw [List.append_assoc, List.dropWhile_append_of_pos h.1, hlit, List.cons_append,
      List.dropWhile_cons_of_neg (by rw [hc]; decide)]
  refine ⟨⟨fun c hc => by simp [dataItem.trimmed] at hc, h.2.1, h.2.2.1, h.2.2.2⟩, rfl, ?_,
    hskip⟩
  have := hskip []
  simpa using this

theorem strtokTokens_piece :
    ∀ (t cur rest : List Char), (∀ c ∈ t, c ≠ ',') → cur.reverse ++ t ≠ [] →
      strtokTokens (t ++ ',' :: rest) cur = (cur.reverse ++ t) :: strtokTokens rest [] := by
  intro t
  induction t with
  | nil =>
    intro cur rest _ hne
    have hcur : cur ≠ [] := by
      intro he
      apply hne
      rw [he]
      rfl
    simp only [List.nil_append, strtokTokens, if_true, if_neg hcur, List.append_nil]
  | cons c cs ih =>
    intro cur rest h _
    rw [List.cons_append]
    conv_lhs => unfold strtokTokens
    rw [if_neg (h c (List.mem_cons_self _ _))]
    rw [ih (c :: cur) rest (fun x hx => h x (List.mem_cons_of_mem _ hx)) (by simp)]
    simp

theorem dataText_cons (x y : dataItem) (rest : List dataItem) :
    dataText (x :: y :: rest) = x.text ++ ',' :: dataText (y :: rest) := rfl

theorem dataItem_text_ne (x : dataItem) (h : x.wellWritten) : x.text ≠ [] := by
  obtain ⟨c, hc, _⟩ := dataItem_text_nonwhite x h
  intro he
  rw [he] at hc
  simp at hc

/-- The pieces `strtok` cuts a `.data` list into are its items. -/
theorem strtokTokens_dataText :
    ∀ (items : List dataItem), (∀ x ∈ items, x.wellWritten) →
      strtokTokens (dataText items) [] = items.map dataItem.text := by
  intro items
  induction items with
  | nil => intro _; rfl
  | cons x rest ih =>
    intro h
    have hx := h x (List.mem_cons_self _ _)
    cases rest with
    | nil =>
      show strtokTokens x.text [] = [x.text]
      rw [strtokTokens_no_comma _ [] (dataItem_text_no_comma x hx)
        (by simpa using dataItem_text_ne x hx)]
      rfl
    | cons y more =>
      rw [dataText_cons, strtokTokens_piece _ [] _ (dataItem_text_no_comma x hx)
        (by simpa using dataItem_text_ne x hx),
        ih (fun z hz => h z (List.mem_cons_of_mem _ hz))]
      rfl

theorem strrchr_append_some (a b : List Char) (q : Char) (t : List Char)
    (h : strrchr b q = some t) : strrchr (a ++ b) q = some t := by
  induction a with
  | nil => exact h
  | cons c cs ih =>
    rw [List.cons_append]
    unfold strrchr
    rw [ih]

theorem isWhiteSpaceString_append (a b : List Char) :
    isWhiteSpaceString (a ++ b) = (isWhiteSpaceString a && isWhiteSpaceString b) := by
  unfold isWhiteSpaceString
  rw [List.all_append]

theorem isWhiteSpaceString_mem (l : List Char) (c : Char) (hc : c ∈ l)
    (hs : isspace c = false) : isWhiteSpaceString l = false := by
  unfold isWhiteSpaceString
  rw [List.all_eq_false]
  exact ⟨c, hc, by rw [hs]; decide⟩

theorem dataText_nonwhite :
    ∀ (items : List dataItem), items ≠ [] → (∀ x ∈ items, x.wellWritten) →
      isWhiteSpaceString (dataText items) = false := by
  intro items hne h
  cases items with
  | nil => exact absurd rfl hne
  | cons x rest =>
    obtain ⟨c, hc, hs⟩ := dataItem_text_nonwhite x (h x (List.mem_cons_self _ _))
    apply isWhiteSpaceString_mem _ c _ hs
    cases rest with
    | nil => exact hc
    | cons y more =>
      rw [dataText_cons]
      exact List.mem_append_left _ hc

/-- No comma of a `.data` list is the last thing on the line. -/
theorem strrchr_dataText :
    ∀ (items : List dataItem), (∀ x ∈ items, x.wellWritten) →
      ∀ tail, strrchr (dataText items) ',' = some tail →
        isWhiteSpaceString tail.tail = false := by
  intro items
  induction items with
  | nil =>
    intro _ tail ht
    exact Option.noConfusion ht
  | cons x rest ih =>
    intro h tail ht
    have hx := h x (List.mem_cons_self _ _)
    cases rest with
    | nil =>
      have hnone : strrchr (dataText [x]) ',' = none :=
        strrchr_no_comma _ (dataItem_text_no_comma x hx)
      rw [hnone] at ht
      exact Option.noConfusion ht
    | cons y more =>
      have hrest := ih (fun z hz => h z (List.mem_cons_of_mem _ hz))
      rw [dataText_cons] at ht
      cases hs : strrchr (dataText (y :: more)) ',' with
      | some t =>
        have h1 : strrchr (',' :: dataText (y :: more)) ',' = some t := by
          conv_lhs => unfold strrchr
          rw [hs]
        rw [strrchr_append_some _ _ _ _ h1] at ht
        cases ht
        exact hrest _ hs
      | none =>
        have h1 : strrchr (',' :: dataText (y :: more)) ','
            = some (',' :: dataText (y :: more)) := by
          conv_lhs => unfold strrchr
          rw [hs]
          simp
        rw [strrchr_append_some _ _ _ _ h1] at ht
        cases ht
        exact dataText_nonwhite (y :: more) (List.cons_ne_nil _ _)
          (fun z hz => h z (List.mem_cons_of_mem _ hz))

theorem consecutiveCommas_piece :
    ∀ (t l : List Char) (j : Nat), (∀ c ∈ t, c ≠ ',') → j ≤ 1 →
      consecutiveCommas (t ++ l) j =
        consecutiveCommas l (if t.all isspace then j else 0) := by
  intro t
  induction t with
  | nil => intro l j _ _; rfl
  | cons c cs ih =>
    intro l j h hj
    have hc := h c (List.mem_cons_self _ _)
    have hrest := fun x hx => h x (List.mem_cons_of_mem _ hx)
    rw [List.cons_append]
    conv_lhs => unfold consecutiveCommas
    simp only [if_neg hc]
    cases hs : isspace c with
    | true =>
      simp only [Bool.not_true, Bool.false_eq_true, if_false]
      rw [if_neg (by omega), ih l j hrest hj]
      simp [List.all_cons, hs]
    | false =>
      simp only [Bool.not_false, if_true]
      rw [if_neg (by omega), ih l 0 hrest (by omega)]
      simp [List.all_cons, hs]

theorem dataItem_text_all (x : dataItem) (h : x.wellWritten) : x.text.all isspace = false := by
  obtain ⟨c, hc, hs⟩ := dataItem_text_nonwhite x h
  rw [List.all_eq_false]
  exact ⟨c, hc, by rw [hs]; decide⟩

/-- A digit stands between any two commas of a `.data` list. -/
theorem consecutiveCommas_dataText :
    ∀ (items : List dataItem), (∀ x ∈ items, x.wellWritten) → ∀ j, j ≤ 1 →
      consecutiveCommas (dataText items) j = false := by
  intro items
  induction items with
  | nil => intro _ j _; rfl
  | cons x rest ih =>
    intro h j hj
    have hx := h x (List.mem_cons_self _ _)
    cases rest with
    | nil => exact consecutiveCommas_no_comma _ j (dataItem_text_no_comma x hx) hj
    | cons y more =>
      rw [dataText_cons, consecutiveCommas_piece _ _ j (dataItem_text_no_comma x hx) hj,
        dataItem_text_all x hx]
      simp only [Bool.false_eq_true, if_false]
      conv_lhs => unfold consecutiveCommas
      simp only [if_true, Nat.zero_add]
      rw [if_neg (by omega)]
      exact ih (fun z hz => h z (List.mem_cons_of_mem _ hz)) 1 (by omega)


theorem atof_white (pre s : List Char) (hpre : ∀ c ∈ pre, isspace c = true) :
    atof (pre ++ s) = atof s := by
  unfold atof
  rw [List.dropWhile_append_of_pos hpre]

/-- What `atof` makes of an item of a `.data` list: the `double` nearest to the number the
digits denote, with the sign of the item. -/
theorem atof_dataItem (x : dataItem) (h : x.wellWritten) :
    atof x.text = roundToDouble x.negative (decimalValue x.digits) 1 := by
  unfold dataItem.text
  rw [atof_white _ _ h.1]
  exact atof_integerLiteral x.negative x.digits x.post h.2.1 h.2.2.1 h.2.2.2

/-- The loop of `readNumbers` over the items of a `.data` list whose values lie in
-16384..16383: every item is stored as its value modulo 2^15. -/
theorem readNumbersLoop_items :
    ∀ (items : List dataItem) (acc : List Int),
      (∀ x ∈ items, x.wellWritten ∧ -16384 ≤ x.value ∧ x.value ≤ 16383) →
      readNumbersLoop (items.map dataItem.text) acc =
        Except.ok (acc ++ items.map fun x => x.value % 32768) := by
  intro items
  induction items with
  | nil => intro acc _; simp [readNumbersLoop]
  | cons x rest ih =>
    intro acc h
    obtain ⟨hw, hlo, hhi⟩ := h x (List.mem_cons_self _ _)
    obtain ⟨ht, e1, e2⟩ := integerLiteral_toInt x.negative x.digits
      ⟨by unfold dataItem.value at hlo; omega, by unfold dataItem.value at hhi; omega⟩
    have hcb : checkBitException (integerValue x.negative x.digits) (BITS_NUM - 1) = true :=
      (checkBitException_data _).mpr ⟨hlo, hhi⟩
    rw [List.map_cons]
    conv_lhs => unfold readNumbersLoop
    simp only [atof_dataItem x hw, e2, e1, ht, hcb, Bool.false_eq_true, if_false,
      Bool.not_true, insertBinaryValueByData_zero]
    rw [ih (acc ++ [integerValue x.negative x.digits % 32768])
      (fun z hz => h z (List.mem_cons_of_mem _ hz)), List.map_cons, List.append_assoc]
    rfl

theorem skipWhiteChar_dataText (x : dataItem) (rest : List dataItem) (h : x.wellWritten) :
    skipWhiteChar (dataText (x :: rest)) = dataText (x.trimmed :: rest) := by
  obtain ⟨_, _, h3, h4⟩ := dataItem_trimmed x h
  cases rest with
  | nil => exact h3
  | cons y more => rw [dataText_cons, dataText_cons, h4]

theorem dataText_head (x : dataItem) (rest : List dataItem) (h : x.wellWritten) :
    ∃ c tail, dataText (x.trimmed :: rest) = c :: tail ∧ isspace c = false ∧ c ≠ ',' := by
  obtain ⟨c, r, hlit, hc, hcomma⟩ := dataItem_literal_head x h
  have ht : x.trimmed.text = c :: r := by
    unfold dataItem.text dataItem.trimmed
    simp only [List.nil_append]
    exact hlit
  cases rest with
  | nil => exact ⟨c, r, ht, hc, hcomma⟩
  | cons y more =>
    refine ⟨c, r ++ ',' :: dataText (y :: more), ?_, hc, hcomma⟩
    rw [dataText_cons, ht]
    rfl

/-- The check of `readNumbers` passes a `.data` list written as integer literals. -/
theorem dataLineCheck_dataText (x : dataItem) (rest : List dataItem) (e : String)
    (h : ∀ z ∈ x :: rest, z.wellWritten) :
    dataLineCheck (dataText (x :: rest)) e = (true, dataText (x.trimmed :: rest), e) := by
  have hx := h x (List.mem_cons_self _ _)
  have hall : ∀ z ∈ x.trimmed :: rest, z.wellWritten := by
    intro z hz
    rcases List.mem_cons.mp hz with rfl | hz
    · exact (dataItem_trimmed x hx).1
    · exact h z (List.mem_cons_of_mem _ hz)
  obtain ⟨c, tail, hhead, hc, hcomma⟩ := dataText_head x rest hx
  have h1 : ¬ (dataText (x.trimmed :: rest) = []) := by
    rw [hhead]
    exact List.cons_ne_nil _ _
  have h2 : ¬ ((dataText (x.trimmed :: rest)).head? = some ',') := by
    rw [hhead]
    intro hh
    have : c = ',' := by simpa using hh
    exact hcomma this
  have h3 := strrchr_dataText _ hall
  unfold dataLineCheck
  simp only []
  rw [skipWhiteChar_dataText x rest hx, consecutiveCommas_dataText _ hall 0 (by omega)]
  cases hs : strrchr (dataText (x.trimmed :: rest)) ',' with
  | none => simp only [if_neg h1, if_neg h2, Bool.false_eq_true, if_false]
  | some t => simp only [if_neg h1, if_neg h2, h3 t hs, Bool.false_eq_true, if_false]

/-- What `readNumbers` makes of a `.data` list written as integer literals whose values lie
in -16384..16383: the values modulo 2^15, in order, and no message. -/
theorem readNumbers_dataText (items : List dataItem) (hne : items ≠ [])
    (h : ∀ x ∈ items, x.wellWritten ∧ -16384 ≤ x.value ∧ x.value ≤ 16383) :
    readNumbers (dataText items) "" = (items.map (fun x => x.value % 32768), "") := by
  cases items with
  | nil => exact absurd rfl hne
  | cons x rest =>
    have hw : ∀ z ∈ x :: rest, z.wellWritten := fun z hz => (h z hz).1
    have hx := hw x (List.mem_cons_self _ _)
    obtain ⟨t1, t2, _, _⟩ := dataItem_trimmed x hx
    have hall : ∀ z ∈ x.trimmed :: rest,
        z.wellWritten ∧ -16384 ≤ z.value ∧ z.value ≤ 16383 := by
      intro z hz
      rcases List.mem_cons.mp hz with rfl | hz
      · exact ⟨t1, by rw [t2]; exact (h x (List.mem_cons_self _ _)).2⟩
      · exact h z (List.mem_cons_of_mem _ hz)
    unfold readNumbers
    simp only []
    rw [dataLineCheck_dataText x rest "" hw]
    simp only [Bool.not_true, Bool.false_eq_true, if_false]
    rw [strtokTokens_dataText _ (fun z hz => (hall z hz).1), readNumbersLoop_items _ [] hall]
    simp only [List.nil_append, List.map_cons, t2]

theorem skipWord_directive (w : List Char) (c : Char) (rest : List Char)
    (hw : ∀ a ∈ w, isspace a = false) (hne : w ≠ []) (hc : isspace c = true) :
    skipWord (w ++ c :: rest) = c :: rest := by
  obtain ⟨a, w', rfl⟩ := List.exists_cons_of_ne_nil hne
  unfold skipWord skipWhiteChar
  rw [List.cons_append, List.dropWhile_cons_of_neg
    (by rw [hw a (List.mem_cons_self _ _)]; decide), ← List.cons_append,
    List.dropWhile_append_of_pos (fun x hx => by rw [hw x hx]; rfl),
    List.dropWhile_cons_of_neg (by rw [hc]; decide)]

/-- A `.data` line whose list is written as integer literals with values in -16384..16383,
white space standing behind the directive: `readNewData` returns, leaves no message and
hands the values modulo 2^15 to `creatDataNodes`. -/
theorem readNewData_dataText (st : dataState) (items : List dataItem)
    (hclean : st.error_str = "") (hne : items ≠ [])
    (h : ∀ x ∈ items, x.wellWritten ∧ -16384 ≤ x.value ∧ x.value ≤ 16383)
    (hfirst : ∀ x, items.head? = some x → x.pre ≠ []) :
    readNewData st DATA (".data".toList ++ dataText items) =
      some ⟨(creatDataNodes (items.map fun x => x.value % 32768) st.dc st.data_list).1,
        (creatDataNodes (items.map fun x => x.value % 32768) st.dc st.data_list).2, ""⟩ := by
  have hskip : skipWord (".data".toList ++ dataText items) = dataText items := by
    cases items with
    | nil => exact absurd rfl hne
    | cons x rest =>
      have hpre := hfirst x rfl
      obtain ⟨c, pre', hp⟩ := List.exists_cons_of_ne_nil hpre
      have hc : isspace c = true := by
        apply (h x (List.mem_cons_self _ _)).1.1
        rw [hp]
        exact List.mem_cons_self _ _
      have hform : ∃ tail, dataText (x :: rest) = c :: tail := by
        cases rest with
        | nil =>
          refine ⟨pre' ++ (integerLiteral x.negative x.digits ++ x.post), ?_⟩
          show x.text = _
          unfold dataItem.text
          rw [hp]
          rfl
        | cons y more =>
          refine ⟨pre' ++ (integerLiteral x.negative x.digits ++ x.post) ++
            ',' :: dataText (y :: more), ?_⟩
          rw [dataText_cons]
          unfold dataItem.text
          rw [hp]
          rfl
      obtain ⟨tail, ht⟩ := hform
      rw [ht]
      exact skipWord_directive _ c tail (by decide) (by decide) hc
  have h9 : ¬ (DATA ≠ DATA ∧ DATA ≠ STRING) := by decide
  have hlen : ¬ ((items.map fun x => x.value % 32768).length = 0) := by
    rw [List.length_map]
    intro h0
    exact hne (List.length_eq_zero.mp h0)
  unfold readNewData
  simp only [if_neg h9, if_true, hskip, hclean, readNumbers_dataText items hne h, if_neg hlen]
/-! ## The number of words of an accepted instruction line -/

/-- When `readNewInstruction` accepts a line with room left in the 16-bit counter, the
opcode is one of the 16 opcodes and the list of instruction nodes grows by the announced
number of words, at the addresses `ic`, `ic + 1`, ... in the order first word, word of the
source, word of the target. -/
theorem readNewInstruction_counted (st st' : instructionState) (line : List Char)
    (line_num : Nat) (hic : -32768 ≤ st.ic ∧ st.ic ≤ 32764)
    (hclean : st.error_str = "")
    (hrun : readNewInstruction st line line_num = some st')
    (haccepted : st'.error_str = "") :
    0 ≤ (getOpcode line).1 ∧ (getOpcode line).1 ≤ STOP ∧
    ∃ words : List instructionNode,
      st'.instructions_list = st.instructions_list ++ words ∧
      words.length = announcedWords line ∧
      st'.ic = st.ic + Int.ofNat words.length ∧
      (∀ (i : Nat) (n : instructionNode), words.get? i = some n → n.ic = st.ic + Int.ofNat i) ∧
      ((getOpcode line).1 > JSR →
        ∃ fw, getFirstWordBMC (getOpcode line).1 NO_TYPE NO_TYPE 0 = some fw ∧
          words = [⟨st.ic, 0, wordType.bmc fw⟩]) ∧
      ((getOpcode line).1 > LEA → (getOpcode line).1 ≤ JSR →
        ∃ fw tb n2, getFirstWordBMC (getOpcode line).1 NO_TYPE (lineTarget line).1 0 = some fw ∧
          operandBMC false (lineTarget line).1 (lineTarget line).2.1 = some tb ∧
          creatInstructionNode (st.ic + 1) tb (some (lineTarget line).2.1) line_num = some n2 ∧
          words = [⟨st.ic, 0, wordType.bmc fw⟩, n2]) ∧
      ((getOpcode line).1 ≤ LEA →
        (lineSource line).1 ≥ INDIRECT_REGISTER_ADDRESSING ∧
          (lineTarget line).1 ≥ INDIRECT_REGISTER_ADDRESSING →
        ∃ fw b sb n2,
          getFirstWordBMC (getOpcode line).1 (lineSource line).1 (lineTarget line).1 0 = some fw ∧
          getSourceRegisterBMC (lineSource line).2.1 0 = some b ∧
          getTargetRegisterBMC (lineTarget line).2.1 b = some sb ∧
          creatInstructionNode (st.ic + 1) sb (some (lineSource line).2.1) line_num = some n2 ∧
          words = [⟨st.ic, 0, wordType.bmc fw⟩, n2]) ∧
      ((getOpcode line).1 ≤ LEA →
        ¬ ((lineSource line).1 ≥ INDIRECT_REGISTER_ADDRESSING ∧
          (lineTarget line).1 ≥ INDIRECT_REGISTER_ADDRESSING) →
        ∃ fw sb tb n2 n3,
          getFirstWordBMC (getOpcode line).1 (lineSource line).1 (lineTarget line).1 0 = some fw ∧
          operandBMC true (lineSource line).1 (lineSource line).2.1 = some sb ∧
          operandBMC false (lineTarget line).1 (lineTarget line).2.1 = some tb ∧
          creatInstructionNode (st.ic + 1) sb (some (lineSource line).2.1) line_num = some n2 ∧
          creatInstructionNode (st.ic + 2) tb (some (lineTarget line).2.1) line_num = some n3 ∧
          words = [⟨st.ic, 0, wordType.bmc fw⟩, n2, n3]) := by
  obtain ⟨hA, hB, hC⟩ := readNewInstruction_accepted st st' line line_num hclean hrun haccepted
  by_cases h1 : (getOpcode line).1 ≤ LEA
  · obtain ⟨_, _, _, hw⟩ := hA h1
    obtain ⟨fw, n1, hfw, hn1, hboth, hsep⟩ := twoOperandWords_spec _ _ _ _ _ _ _ _ _ hic hw
    have hn1' := creatInstructionNode_first _ _ _ _ hn1
    subst hn1'
    have hop : 0 ≤ (getOpcode line).1 ∧ (getOpcode line).1 ≤ STOP := by
      rcases isOpcode_range (getWord line).2 with h | h
      · exfalso
        have : (getOpcode line).1 = NO_OPCODE := h
        rw [this, getFirstWordBMC_no_opcode] at hfw
        simp at hfw
      · exact h
    refine ⟨hop.1, hop.2, ?_⟩
    have hL : LEA = 4 := rfl
    have hJ : JSR = 13 := rfl
    by_cases hb : (lineSource line).1 ≥ INDIRECT_REGISTER_ADDRESSING ∧
        (lineTarget line).1 ≥ INDIRECT_REGISTER_ADDRESSING
    · obtain ⟨b, sb, n2, hb1, hsb, hn2, hst⟩ := hboth hb
      have hi2 := creatInstructionNode_ic _ _ _ _ _ hn2
      refine ⟨[⟨st.ic, 0, wordType.bmc fw⟩, n2], by rw [hst], ?_, by rw [hst]; simp, ?_,
        fun h => ?_, fun h => ?_, fun _ _ => ⟨fw, b, sb, n2, hfw, hb1, hsb, hn2, rfl⟩,
        fun _ h => absurd hb h⟩
      · unfold announcedWords
        rw [if_neg (by omega), if_neg (by omega), if_pos hb]
        rfl
      · intro i n hget
        match i, hget with
        | 0, hget => simp at hget; subst hget; simp
        | 1, hget => simp at hget; subst hget; simpa using hi2
        | i + 2, hget => simp at hget
      · omega
      · omega
    · obtain ⟨sb, tb, n2, n3, hsb, htb, hn2, hn3, hst⟩ := hsep hb
      have hi2 := creatInstructionNode_ic _ _ _ _ _ hn2
      have hi3 := creatInstructionNode_ic _ _ _ _ _ hn3
      refine ⟨[⟨st.ic, 0, wordType.bmc fw⟩, n2, n3], by rw [hst], ?_, by rw [hst]; simp, ?_,
        fun h => ?_, fun h => ?_, fun _ h => absurd h hb,
        fun _ _ => ⟨fw, sb, tb, n2, n3, hfw, hsb, htb, hn2, hn3, rfl⟩⟩
      · unfold announcedWords
        rw [if_neg (by omega), if_neg (by omega), if_neg hb]
        rfl
      · intro i n hget
        match i, hget with
        | 0, hget => simp at hget; subst hget; simp
        | 1, hget => simp at hget; subst hget; simpa using hi2
        | 2, hget => simp at hget; subst hget; simpa using hi3
        | i + 3, hget => simp at hget
      · omega
      · omega
  · have hL : LEA = 4 := rfl
    have hJ : JSR = 13 := rfl
    have hop : 0 ≤ (getOpcode line).1 ∧ (getOpcode line).1 ≤ STOP := by
      rcases isOpcode_range (getWord line).2 with h | h
      · exfalso
        have : (getOpcode line).1 = -1 := h
        omega
      · exact h
    refine ⟨hop.1, hop.2, ?_⟩
    by_cases h2 : (getOpcode line).1 ≤ JSR
    · obtain ⟨_, _, hw⟩ := hB h1 h2
      obtain ⟨fw, n1, tb, n2, hfw, hn1, htb, hn2, hst⟩ := oneOperandWords_spec _ _ _ _ _ _ _ hic hw
      have hn1' := creatInstructionNode_first _ _ _ _ hn1
      subst hn1'
      have hi2 := creatInstructionNode_ic _ _ _ _ _ hn2
      refine ⟨[⟨st.ic, 0, wordType.bmc fw⟩, n2], by rw [hst], ?_, by rw [hst]; simp, ?_,
        fun h => ?_, fun _ _ => ⟨fw, tb, n2, hfw, htb, hn2, rfl⟩,
        fun h => absurd h h1, fun h => absurd h h1⟩
      · unfold announcedWords
        rw [if_neg (by omega), if_pos (by omega)]
        rfl
      · intro i n hget
        match i, hget with
        | 0, hget => simp at hget; subst hget; simp
        | 1, hget => simp at hget; subst hget; simpa using hi2
        | i + 2, hget => simp at hget
      · omega
    · obtain ⟨_, hw⟩ := hC h1 h2
      obtain ⟨fw, n1, hfw, hn1, hst⟩ := noOperandWords_spec _ _ _ _ _ hic hw
      have hn1' := creatInstructionNode_first _ _ _ _ hn1
      subst hn1'
      refine ⟨[⟨st.ic, 0, wordType.bmc fw⟩], by rw [hst], ?_, by rw [hst]; simp, ?_,
        fun _ => ⟨fw, hfw, rfl⟩, fun _ h => absurd h h2,
        fun h => absurd h h1, fun h => absurd h h1⟩
      · unfold announcedWords
        rw [if_pos (by omega)]
        rfl
      · intro i n hget
        match i, hget with
        | 0, hget => simp at hget; subst hget; simp
        | i + 1, hget => simp at hget
/-! ## The addresses of the words at the end of the first pass -/

/-- When the first pass returns TRUE with at most 32667 code words, the counters are the
numbers of code and data words, and the code words followed by the data words carry the
addresses 100, 101, ... in sequence. -/
theorem firstPass_continuous (macros : List macroNode) (lines : List (List Char))
    (r : firstPassResult)
    (hrun : firstPass macros lines = some r)
    (hok : r.indicator = true)
    (hsize : r.instructions_list.length ≤ 32667) :
    r.ic_dc_counter =
      (Int.ofNat r.instructions_list.length, Int.ofNat r.data_list.length) ∧
    r.instructions_list.map (fun n => n.ic) =
      (List.range r.instructions_list.length).map (fun i => 100 + Int.ofNat i) ∧
    r.data_list.map (fun x => x.dc) =
      (List.range r.data_list.length).map
        (fun j => 100 + Int.ofNat r.instructions_list.length + Int.ofNat j) ∧
    r.instructions_list.map (fun n => n.ic) ++ r.data_list.map (fun x => x.dc) =
      (List.range (r.instructions_list.length + r.data_list.length)).map
        (fun k => 100 + Int.ofNat k) := by
  simp only [firstPass, Option.map_eq_some'] at hrun
  obtain ⟨st, hloop, hr⟩ := hrun
  subst hr
  obtain ⟨hd, hind⟩ := firstPassFinish_indicator st hok
  rw [firstPassFinish_ok st hd] at hsize ⊢
  simp only at hsize ⊢
  obtain ⟨hdata, hcode⟩ := firstPassLoop_addressed macros lines firstPassInit st hloop
  have hdata0 : dataAddressed st.dc st.data_list :=
    hdata ⟨by decide, fun i x hx => by simp [firstPassInit] at hx⟩
  have hcode0 : codeAddressed st.ic st.instructions_list :=
    (hcode hind).2 ⟨by decide, fun i n hn => by simp [firstPassInit] at hn⟩
  obtain ⟨d1, d2⟩ := hdata0
  obtain ⟨c1, c2⟩ := hcode0
  have hic : st.ic = 100 + Int.ofNat st.instructions_list.length := by
    rw [c1]
    apply toShort_of_range
    · simp only [Int.ofNat_eq_coe]; omega
    · simp only [Int.ofNat_eq_coe]; omega
  obtain ⟨hiff, hmoved⟩ := updateDataNodes_consecutive st.ic
    (by rw [hic]; simp only [Int.ofNat_eq_coe]; omega) st.data_list 0
    (by rw [hic]; simp only [Int.ofNat_eq_coe, Nat.cast_zero]; omega)
    (by intro i x hx; rw [Nat.zero_add]; exact d2 i x hx)
  obtain ⟨hlist, hdcs⟩ := hmoved hd
  have hlen : ((updateDataNodes st.ic st.data_list).2).length = st.data_list.length := by
    rw [hlist, List.length_map]
  have hn : Int.ofNat st.data_list.length ≤ 4096 := by
    rcases hiff.mp hd with he | hle
    · rw [he]; decide
    · rw [hic] at hle
      simp only [Int.ofNat_eq_coe, Nat.cast_zero] at hle ⊢
      omega
  have hcodes : st.instructions_list.map (fun n => n.ic) =
      (List.range st.instructions_list.length).map (fun i => 100 + Int.ofNat i) := by
    apply map_eq_range_map
    intro i n hni
    rw [c2 i n hni]
    have hi : i < st.instructions_list.length := by
      by_contra hc
      rw [List.getElem?_eq_none (Nat.le_of_not_lt hc)] at hni
      exact Option.noConfusion hni
    apply toShort_of_range
    · simp only [Int.ofNat_eq_coe]; omega
    · simp only [Int.ofNat_eq_coe]; omega
  have hdatas : (updateDataNodes st.ic st.data_list).2.map (fun x => x.dc) =
      (List.range (updateDataNodes st.ic st.data_list).2.length).map
        (fun j => 100 + Int.ofNat st.instructions_list.length + Int.ofNat j) := by
    rw [hlen, hlist, List.map_map]
    apply map_eq_range_map
    intro i x hx
    simp only [Function.comp_apply]
    rw [hdcs i x hx, hic, Nat.zero_add]
  refine ⟨?_, hcodes, hdatas, ?_⟩
  · have e1 : toShort (100 + Int.ofNat st.instructions_list.length - FIRST_MEMORY_CELL) =
        Int.ofNat st.instructions_list.length := by
      rw [toShort_of_range]
      · simp only [FIRST_MEMORY_CELL]; omega
      · simp only [FIRST_MEMORY_CELL, Int.ofNat_eq_coe]; omega
      · simp only [FIRST_MEMORY_CELL, Int.ofNat_eq_coe]; omega
    have e2 : toShort (Int.ofNat st.data_list.length) = Int.ofNat st.data_list.length := by
      apply toShort_of_range
      · simp only [Int.ofNat_eq_coe]; omega
      · simp only [Int.ofNat_eq_coe] at hn ⊢; omega
    rw [hlen, d1, hic, e1, e2]
  · rw [hcodes, hdatas, List.range_add, List.map_append, List.map_map]
    congr 1
    apply List.map_congr_left
    intro j _
    simp only [Function.comp_apply, Int.ofNat_eq_coe, Nat.cast_add]
    omega

/-- What `firstPassFinish` returns when `UpdateDataCounter` succeeds. -/
theorem firstPassFinish_eval (st : firstPassState) (u : updateResult)
    (hu : UpdateDataCounter st.data_list st.declarations_list st.ic st.dc = u)
    (hok : u.ok = true) :
    firstPassFinish st =
      ⟨st.indicator, u.ic_dc_counter, st.instructions_list, u.data_list, u.declarations_list,
        st.errors⟩ := by
  unfold firstPassFinish
  simp only [hu, hok, Bool.not_true, Bool.false_eq_true, if_false]

/-- The first pass over 32668 lines `stop` and the line `.data 1` reports nothing: the
counter `ic` has wrapped to -32768 when `UpdateDataCounter` adds it to the address of the
data word. -/
theorem firstPass_wrapped :
    firstPass [] (stopLines 32668 ++ [".data 1\n".toList]) =
      some ⟨true, (32668, 1), stopWords 32668, [⟨-32768, 1⟩], [], []⟩ := by
  rw [firstPass_stops_data [] 32668 (by decide)]
  have h1 : toShort (100 + Int.ofNat 32668) = -32768 := by decide
  have hu : UpdateDataCounter [⟨0, 1⟩] [] (-32768) 1 = ⟨true, (32668, 1), [⟨-32768, 1⟩], []⟩ := by
    decide
  rw [h1, firstPassFinish_eval _ _ hu rfl]
/-! ## The capacity guard on a run of the first pass -/

/-- A second pass that is handed the indicator FALSE returns when the labels without a
declaration fit the buffer of their message, whichever files can be created. -/
theorem secondPass_failed_returns (files : outputFiles) (garbage : Int) (counter : Int × Int)
    (ins : List instructionNode) (data : List dataNode) (decls : List declarationNode)
    (hwf : pendingNamed ins) (hfit : messagesFit decls ins) :
    ∃ r, secondPass files garbage counter ins data decls false = some r := by
  obtain ⟨q, hq⟩ := fillingLoop_returns (isEntriesDefined decls).2.1 ins hwf
    ((messagesFit_resolved decls ins).mpr hfit) ⟨garbage, (0, 0), (0, 0), true, []⟩
  simp only [secondPass, fillingMissingBMCofLabel, hq, Option.some_bind, Bool.false_and,
    Bool.false_eq_true, if_false]
  exact ⟨_, rfl⟩

/-- At the end of the loop of a first pass that built at most 32667 code words and at least
one data word, `UpdateDataCounter` fails exactly when the words are more than 3996, and the
counter of the code words it hands over is their number. -/
theorem UpdateDataCounter_run (macros : List macroNode) (lines : List (List Char))
    (st : firstPassState) (hloop : firstPassLoop macros lines firstPassInit = some st)
    (hcode : st.instructions_list.length ≤ 32667) (hdata : st.data_list ≠ []) :
    st.ic = 100 + Int.ofNat st.instructions_list.length ∧
    st.dc = toShort (Int.ofNat st.data_list.length) ∧
    ((UpdateDataCounter st.data_list st.declarations_list st.ic st.dc).ok = false ↔
      st.instructions_list.length + st.data_list.length > 3996) := by
  obtain ⟨⟨c1, _⟩, ⟨d1, d2⟩⟩ := firstPassLoop_numbered macros lines st hloop
  have hic : st.ic = 100 + Int.ofNat st.instructions_list.length := by
    rw [c1]
    apply toShort_of_range
    · simp only [Int.ofNat_eq_coe]; omega
    · simp only [Int.ofNat_eq_coe]; omega
  obtain ⟨hiff, _⟩ := updateDataNodes_consecutive st.ic
    (by rw [hic]; simp only [Int.ofNat_eq_coe]; omega) st.data_list 0
    (by rw [hic]; simp only [Int.ofNat_eq_coe, Nat.cast_zero]; omega)
    (by intro i x hx; rw [Nat.zero_add]; exact d2 i x hx)
  refine ⟨hic, d1, ?_⟩
  rw [UpdateDataCounter_ok, ← Bool.not_eq_true, hiff, hic]
  simp only [hdata, false_or, Int.ofNat_eq_coe, Nat.cast_zero]
  omega
/-! ## A `.data` list with a number out of range -/

/-- The loop of `readNumbers` over the items of a `.data` list of which one has a value
outside -16384..16383 ends with a message. -/
theorem readNumbersLoop_rejects :
    ∀ (items : List dataItem) (acc : List Int), (∀ x ∈ items, x.wellWritten) →
      (∃ x ∈ items, ¬ (-16384 ≤ x.value ∧ x.value ≤ 16383)) →
      ∃ e, e ≠ "" ∧ readNumbersLoop (items.map dataItem.text) acc = Except.error e := by
  intro items
  induction items with
  | nil =>
    intro acc _ h
    obtain ⟨x, hx, _⟩ := h
    simp at hx
  | cons x rest ih =>
    intro acc hw hbad
    have hx := hw x (List.mem_cons_self _ _)
    rw [List.map_cons]
    conv => enter [1, e, 2, 1]; unfold readNumbersLoop
    by_cases hin : -16384 ≤ x.value ∧ x.value ≤ 16383
    · obtain ⟨ht, e1, e2⟩ := integerLiteral_toInt x.negative x.digits
        ⟨by unfold dataItem.value at hin; omega, by unfold dataItem.value at hin; omega⟩
      have hcb : checkBitException (integerValue x.negative x.digits) (BITS_NUM - 1) = true :=
        (checkBitException_data _).mpr hin
      simp only [atof_dataItem x hx, e2, e1, ht, hcb, Bool.false_eq_true, if_false,
        Bool.not_true]
      apply ih _ (fun z hz => hw z (List.mem_cons_of_mem _ hz))
      obtain ⟨y, hy, hyb⟩ := hbad
      rcases List.mem_cons.mp hy with rfl | hy
      · exact absurd hin hyb
      · exact ⟨y, hy, hyb⟩
    · by_cases hint : -2147483648 ≤ integerValue x.negative x.digits ∧
          integerValue x.negative x.digits ≤ 2147483647
      · obtain ⟨ht, e1, e2⟩ := integerLiteral_toInt x.negative x.digits hint
        have hcb : checkBitException (integerValue x.negative x.digits) (BITS_NUM - 1)
            = false := by
          cases hc : checkBitException (integerValue x.negative x.digits) (BITS_NUM - 1) with
          | false => rfl
          | true => exact absurd ((checkBitException_data _).mp hc) hin
        simp only [atof_dataItem x hx, e2, e1, hcb, Bool.false_eq_true, if_false,
          Bool.not_false, if_true]
        exact ⟨_, by decide, rfl⟩
      · simp only [atof_dataItem x hx, integerLiteral_neToInt x.negative x.digits hint,
          if_true]
        exact ⟨_, by decide, rfl⟩

/-- A `.data` list written as integer literals of which one has a value outside
-16384..16383 is not accepted: `readNumbers` stores nothing and leaves a message. -/
theorem readNumbers_rejects (items : List dataItem) (hw : ∀ x ∈ items, x.wellWritten)
    (hbad : ∃ x ∈ items, ¬ (-16384 ≤ x.value ∧ x.value ≤ 16383)) :
    (readNumbers (dataText items) "").1 = [] ∧ (readNumbers (dataText items) "").2 ≠ "" := by
  cases items with
  | nil =>
    obtain ⟨x, hx, _⟩ := hbad
    simp at hx
  | cons x rest =>
    have hx := hw x (List.mem_cons_self _ _)
    obtain ⟨t1, t2, _, _⟩ := dataItem_trimmed x hx
    have hall : ∀ z ∈ x.trimmed :: rest, z.wellWritten := by
      intro z hz
      rcases List.mem_cons.mp hz with rfl | hz
      · exact t1
      · exact hw z (List.mem_cons_of_mem _ hz)
    have hbad' : ∃ z ∈ x.trimmed :: rest, ¬ (-16384 ≤ z.value ∧ z.value ≤ 16383) := by
      obtain ⟨y, hy, hyb⟩ := hbad
      rcases List.mem_cons.mp hy with rfl | hy
      · exact ⟨y.trimmed, List.mem_cons_self _ _, by rw [t2]; exact hyb⟩
      · exact ⟨y, List.mem_cons_of_mem _ hy, hyb⟩
    obtain ⟨e, he, hloop⟩ := readNumbersLoop_rejects _ [] hall hbad'
    unfold readNumbers
    simp only []
    rw [dataLineCheck_dataText x rest "" hw]
    simp only [Bool.not_true, Bool.false_eq_true, if_false]
    rw [strtokTokens_dataText _ hall, hloop]
    exact ⟨rfl, he⟩
/-! ## The first word (C1) -/

/-- C1: for every opcode `o` in 0..15 and every pair of a source mode `s` and a target mode
`t`, each in 0..3 or NO_TYPE for an operand that is absent, `getFirstWordBMC` on a zero word
gives `o * 2^11 + 2^2`, plus `2^(3+t)` when there is a target, plus `2^(7+s)` when there is
a source, and that value is below `2^15`; the lines `mov #5, r3`, `add r1, r2` and `stop`
get the first words 196, 5188 and 30724. -/
theorem getFirstWordBMC_value (o s t : Int) (ho : 0 ≤ o ∧ o ≤ 15) (hs : -1 ≤ s ∧ s ≤ 3)
    (ht : -1 ≤ t ∧ t ≤ 3) :
    getFirstWordBMC o s t 0 = some (o * 2 ^ 11 + 2 ^ 2
      + (if t = NO_TYPE then 0 else 2 ^ (3 + t).toNat)
      + (if s = NO_TYPE then 0 else 2 ^ (7 + s).toNat)) ∧
    o * 2 ^ 11 + 2 ^ 2 + (if t = NO_TYPE then 0 else 2 ^ (3 + t).toNat)
      + (if s = NO_TYPE then 0 else 2 ^ (7 + s).toNat) < 2 ^ 15 ∧
    (wordsOfLine "mov #5, r3\n".toList).map List.head? = some (some (wordType.bmc 196)) ∧
    (wordsOfLine "add r1, r2\n".toList).map List.head? = some (some (wordType.bmc 5188)) ∧
    (wordsOfLine "stop\n".toList).map List.head? = some (some (wordType.bmc 30724)) := by
  obtain ⟨h1, h2⟩ := getFirstWordBMC_table o ho.1 ho.2 s hs.1 hs.2 t ht.1 ht.2
  exact ⟨h1, h2, by decide, by decide, by decide⟩

/-- The instance of C1 for `add r1, r2`: opcode 2, both operands direct registers. -/
theorem getFirstWordBMC_value_witness :
    ((0 : Int) ≤ 2 ∧ (2 : Int) ≤ 15) ∧ ((-1 : Int) ≤ 3 ∧ (3 : Int) ≤ 3) ∧
    getFirstWordBMC 2 3 3 0 = some 5188 :=
  ⟨by decide, by decide,
    (getFirstWordBMC_value 2 3 3 (by decide) (by decide) (by decide)).1⟩

/-! ## The words of an instruction line (C2) -/

/-- C2: `readNewInstruction`, started with an empty error buffer, reads a line to the end
without a message exactly when the line meets what it asks for: an opcode of the table, the
number of operands the opcode takes, each of a type the opcode admits. For such a line,
with room left in the 16-bit counter, the function returns and the list of instruction
nodes grows by exactly the announced number of words: one for RTS and STOP, two for a
one-operand opcode, and for a two-operand opcode two when both operands are registers
(direct or indirect) and three otherwise. The new nodes have the addresses `ic`, `ic + 1`,
... in this order: the first word, then the word of the source operand, then the word of
the target operand (or the one word both registers share), and `ic` grows by the number of
words. No check guards the counter, a `short`: the line `stop` read at address 32767, which
is the 32668th line of a file of `stop` lines, is accepted and leaves `ic` at -32768. -/
theorem readNewInstruction_word_count (st : instructionState) (line : List Char)
    (line_num : Nat) (hclean : st.error_str = "") :
    (instructionAccepted line ↔
      ∃ st', readNewInstruction st line line_num = some st' ∧ st'.error_str = "") ∧
    (instructionAccepted line → -32768 ≤ st.ic ∧ st.ic ≤ 32764 →
      ∃ (st' : instructionState) (words : List instructionNode),
        readNewInstruction st line line_num = some st' ∧ st'.error_str = "" ∧
        st'.instructions_list = st.instructions_list ++ words ∧
        words.length = announcedWords line ∧
        st'.ic = st.ic + Int.ofNat words.length ∧
        (∀ (i : Nat) (n : instructionNode), words.get? i = some n →
          n.ic = st.ic + Int.ofNat i) ∧
        ((getOpcode line).1 > JSR →
          ∃ fw, getFirstWordBMC (getOpcode line).1 NO_TYPE NO_TYPE 0 = some fw ∧
            words = [⟨st.ic, 0, wordType.bmc fw⟩]) ∧
        ((getOpcode line).1 > LEA → (getOpcode line).1 ≤ JSR →
          ∃ fw tb n2,
            getFirstWordBMC (getOpcode line).1 NO_TYPE (lineTarget line).1 0 = some fw ∧
            operandBMC false (lineTarget line).1 (lineTarget line).2.1 = some tb ∧
            creatInstructionNode (st.ic + 1) tb (some (lineTarget line).2.1) line_num
              = some n2 ∧
            words = [⟨st.ic, 0, wordType.bmc fw⟩, n2]) ∧
        ((getOpcode line).1 ≤ LEA →
          (lineSource line).1 ≥ INDIRECT_REGISTER_ADDRESSING ∧
            (lineTarget line).1 ≥ INDIRECT_REGISTER_ADDRESSING →
          ∃ fw b sb n2,
            getFirstWordBMC (getOpcode line).1 (lineSource line).1 (lineTarget line).1 0
              = some fw ∧
            getSourceRegisterBMC (lineSource line).2.1 0 = some b ∧
            getTargetRegisterBMC (lineTarget line).2.1 b = some sb ∧
            creatInstructionNode (st.ic + 1) sb (some (lineSource line).2.1) line_num
              = some n2 ∧
            words = [⟨st.ic, 0, wordType.bmc fw⟩, n2]) ∧
        ((getOpcode line).1 ≤ LEA →
          ¬ ((lineSource line).1 ≥ INDIRECT_REGISTER_ADDRESSING ∧
            (lineTarget line).1 ≥ INDIRECT_REGISTER_ADDRESSING) →
          ∃ fw sb tb n2 n3,
            getFirstWordBMC (getOpcode line).1 (lineSource line).1 (lineTarget line).1 0
              = some fw ∧
            operandBMC true (lineSource line).1 (lineSource line).2.1 = some sb ∧
            operandBMC false (lineTarget line).1 (lineTarget line).2.1 = some tb ∧
            creatInstructionNode (st.ic + 1) sb (some (lineSource line).2.1) line_num
              = some n2 ∧
            creatInstructionNode (st.ic + 2) tb (some (lineTarget line).2.1) line_num
              = some n3 ∧
            words = [⟨st.ic, 0, wordType.bmc fw⟩, n2, n3])) ∧
    (instructionAccepted "stop\n".toList ∧
      readNewInstruction ⟨32767, [], ""⟩ "stop\n".toList 1
        = some ⟨-32768, [⟨32767, 0, wordType.bmc 30724⟩], ""⟩ ∧
      firstPassLoop [] (stopLines 32667) firstPassInit
        = some ⟨32767, 0, 32668, true, stopWords 32667, [], [], []⟩ ∧
      firstPassLoop [] (stopLines 32668) firstPassInit
        = some ⟨-32768, 0, 32669, true, stopWords 32668, [], [], []⟩) := by
  have hiff := readNewInstruction_accepted_iff st line line_num hclean
  refine ⟨hiff, fun hacc hic => ?_, ?_, by decide, ?_, ?_⟩
  · obtain ⟨st', hrun, he⟩ := hiff.mp hacc
    obtain ⟨_, _, words, h⟩ :=
      readNewInstruction_counted st st' line line_num hic hclean hrun he
    exact ⟨st', words, hrun, he, h⟩
  · unfold instructionAccepted
    decide
  · have h := firstPassLoop_stopLines [] 32667 (by decide) []
    rw [List.append_nil] at h
    have h1 : toShort (100 + Int.ofNat 32667) = 32767 := by decide
    exact h.trans (by rw [h1]; rfl)
  · have h := firstPassLoop_stopLines [] 32668 (by decide) []
    rw [List.append_nil] at h
    have h1 : toShort (100 + Int.ofNat 32668) = -32768 := by decide
    exact h.trans (by rw [h1]; rfl)

set_option maxRecDepth 100000 in
/-- The instances of C2 for the lines `mov #5, r3`, `mov r1, *r2`, `inc r1` and `stop` read
at address 100: three words, two words, two words and one word. -/
theorem readNewInstruction_word_count_witness :
    (readNewInstruction ⟨100, [], ""⟩ "mov #5, r3\n".toList 1
        = some ⟨103, [⟨100, 0, wordType.bmc 196⟩, ⟨101, 0, wordType.bmc 44⟩,
            ⟨102, 0, wordType.bmc 28⟩], ""⟩ ∧
      announcedWords "mov #5, r3\n".toList = 3 ∧
      instructionAccepted "mov #5, r3\n".toList) ∧
    (readNewInstruction ⟨100, [], ""⟩ "mov r1, *r2\n".toList 1
        = some ⟨102, [⟨100, 0, wordType.bmc 1060⟩, ⟨101, 0, wordType.bmc 84⟩], ""⟩ ∧
      announcedWords "mov r1, *r2\n".toList = 2 ∧
      instructionAccepted "mov r1, *r2\n".toList) ∧
    (readNewInstruction ⟨100, [], ""⟩ "inc r1\n".toList 1
        = some ⟨102, [⟨100, 0, wordType.bmc 14404⟩, ⟨101, 0, wordType.bmc 12⟩], ""⟩ ∧
      announcedWords "inc r1\n".toList = 2 ∧
      instructionAccepted "inc r1\n".toList) ∧
    (readNewInstruction ⟨100, [], ""⟩ "stop\n".toList 1
        = some ⟨101, [⟨100, 0, wordType.bmc 30724⟩], ""⟩ ∧
      announcedWords "stop\n".toList = 1 ∧
      instructionAccepted "stop\n".toList) :=
  ⟨⟨by decide, by decide,
      (readNewInstruction_word_count ⟨100, [], ""⟩ "mov #5, r3\n".toList 1 rfl).1.mpr
        ⟨⟨103, [⟨100, 0, wordType.bmc 196⟩, ⟨101, 0, wordType.bmc 44⟩,
          ⟨102, 0, wordType.bmc 28⟩], ""⟩, by decide, rfl⟩⟩,
    ⟨by decide, by decide,
      (readNewInstruction_word_count ⟨100, [], ""⟩ "mov r1, *r2\n".toList 1 rfl).1.mpr
        ⟨⟨102, [⟨100, 0, wordType.bmc 1060⟩, ⟨101, 0, wordType.bmc 84⟩], ""⟩, by decide,
          rfl⟩⟩,
    ⟨by decide, by decide,
      (readNewInstruction_word_count ⟨100, [], ""⟩ "inc r1\n".toList 1 rfl).1.mpr
        ⟨⟨102, [⟨100, 0, wordType.bmc 14404⟩, ⟨101, 0, wordType.bmc 12⟩], ""⟩, by decide,
          rfl⟩⟩,
    ⟨by decide, by decide,
      (readNewInstruction_word_count ⟨100, [], ""⟩ "stop\n".toList 1 rfl).1.mpr
        ⟨⟨101, [⟨100, 0, wordType.bmc 30724⟩], ""⟩, by decide, rfl⟩⟩⟩
/-! ## Register operand words (C3) -/

/-- C3: for register numbers `s` and `t` in 0..7, the word shared by two register operands
(direct or indirect) is `s * 2^6 + t * 2^3 + 4`, the word of a source register that stands
alone is `s * 2^6 + 4` and the word of a target register that stands alone is
`t * 2^3 + 4`. This holds for the two packing functions and for the words
`readNewInstruction` appends for every two-operand and one-operand mnemonic that takes the
register; `add r1, r2` gives the shared word 84 and the target word of `mov #5, r3` is 28. -/
theorem registerWords_value (s t : Nat) (hs : s ≤ 7) (ht : t ≤ 7) :
    (getSourceRegisterBMC (registerName s) 0).bind (getTargetRegisterBMC (registerName t))
      = some (Int.ofNat s * 2 ^ 6 + Int.ofNat t * 2 ^ 3 + 4) ∧
    getSourceRegisterBMC (registerName s) 0 = some (Int.ofNat s * 2 ^ 6 + 4) ∧
    getTargetRegisterBMC (registerName t) 0 = some (Int.ofNat t * 2 ^ 3 + 4) ∧
    (∀ m ∈ ["mov", "cmp", "add", "sub"], ∀ si ti : Bool,
      wordsOfLine (m.toList ++ [' '] ++ registerOperand si s ++ [',', ' '] ++
        registerOperand ti t ++ ['\n'])
        = (getFirstWordBMC (isOpcode m.toList) (if si then 2 else 3)
            (if ti then 2 else 3) 0).map
          fun fw => [wordType.bmc fw,
            wordType.bmc (Int.ofNat s * 2 ^ 6 + Int.ofNat t * 2 ^ 3 + 4)]) ∧
    (∀ m ∈ ["mov", "cmp", "add", "sub"], ∀ si : Bool,
      wordsOfLine (m.toList ++ [' '] ++ registerOperand si s ++ [',', ' ', 'X', '\n'])
        = (getFirstWordBMC (isOpcode m.toList) (if si then 2 else 3) 1 0).map
          fun fw => [wordType.bmc fw, wordType.bmc (Int.ofNat s * 2 ^ 6 + 4),
            wordType.name ['X']]) ∧
    (∀ m ∈ ["mov", "cmp", "add", "sub", "lea"], ∀ ti : Bool,
      wordsOfLine (m.toList ++ [' ', 'X', ',', ' '] ++ registerOperand ti t ++ ['\n'])
        = (getFirstWordBMC (isOpcode m.toList) 1 (if ti then 2 else 3) 0).map
          fun fw => [wordType.bmc fw, wordType.name ['X'],
            wordType.bmc (Int.ofNat t * 2 ^ 3 + 4)]) ∧
    (∀ m ∈ ["clr", "not", "inc", "dec", "red", "prn"], ∀ ti : Bool,
      wordsOfLine (m.toList ++ [' '] ++ registerOperand ti t ++ ['\n'])
        = (getFirstWordBMC (isOpcode m.toList) NO_TYPE (if ti then 2 else 3) 0).map
          fun fw => [wordType.bmc fw, wordType.bmc (Int.ofNat t * 2 ^ 3 + 4)]) ∧
    (∀ m ∈ ["jmp", "bne", "jsr"],
      wordsOfLine (m.toList ++ [' '] ++ registerOperand true t ++ ['\n'])
        = (getFirstWordBMC (isOpcode m.toList) NO_TYPE 2 0).map
          fun fw => [wordType.bmc fw, wordType.bmc (Int.ofNat t * 2 ^ 3 + 4)]) ∧
    wordsOfLine "add r1, r2\n".toList = some [wordType.bmc 5188, wordType.bmc 84] ∧
    wordsOfLine "mov #5, r3\n".toList
      = some [wordType.bmc 196, wordType.bmc 44, wordType.bmc 28] := by
  have hs' : s < 8 := by omega
  have ht' : t < 8 := by omega
  have hb : ∀ b : Bool, b ∈ [false, true] := by intro b; cases b <;> simp
  obtain ⟨h1, h2, h3⟩ := registerWord_table s hs' t ht'
  refine ⟨h1, h2, h3, ?_, ?_, ?_, ?_, ?_, by decide, by decide⟩
  · intro m hm si ti
    exact sharedWord_lines m hm si (hb si) ti (hb ti) s hs' t ht'
  · intro m hm si
    exact sourceWord_lines m hm si (hb si) s hs'
  · intro m hm ti
    exact targetWord_lines m hm ti (hb ti) t ht'
  · intro m hm ti
    exact singleTargetWord_lines.1 m hm ti (hb ti) t ht'
  · intro m hm
    exact singleTargetWord_lines.2 m hm t ht'

/-- The instance of C3 for registers 1 and 2: the words of `r1` and `r2`. -/
theorem registerWords_value_witness :
    (1 ≤ 7 ∧ 2 ≤ 7) ∧
    (getSourceRegisterBMC (registerName 1) 0).bind (getTargetRegisterBMC (registerName 2))
      = some (Int.ofNat 1 * 2 ^ 6 + Int.ofNat 2 * 2 ^ 3 + 4) :=
  ⟨by decide, (registerWords_value 1 2 (by decide) (by decide)).1⟩

/-! ## Immediate operand words (C4) -/

/-- C4: for every operand that `getOperandAddressingType` accepts as immediate, the value
`n` read after the hash sign lies in -2048..2047 and the word `getImmediateBMC` builds
from a zero word is `(n mod 2^12) * 2^3 + 4`: a value in `0..2^15 - 1` with the 12-bit
two's complement of `n` in the bits 3..14 and only the A bit among the bits 0..2. The
operand `#5` gives 44 and `#-1` gives 32764. -/
theorem getImmediateBMC_value (operand : List Char) (error_str : String)
    (haccepted : (getOperandAddressingType operand error_str).1 = IMMEDIATE_ADDRESSING) :
    operand.head? = some '#' ∧
    -2048 ≤ (atof operand.tail).trunc ∧ (atof operand.tail).trunc ≤ 2047 ∧
    getImmediateBMC operand 0 = (atof operand.tail).trunc % 2 ^ 12 * 2 ^ 3 + 4 ∧
    0 ≤ getImmediateBMC operand 0 ∧ getImmediateBMC operand 0 < 2 ^ 15 ∧
    getImmediateBMC operand 0 % 2 ^ 3 = 4 ∧
    getImmediateBMC operand 0 / 2 ^ 3 = (atof operand.tail).trunc % 2 ^ 12 ∧
    (getOperandAddressingType "#5".toList "").1 = IMMEDIATE_ADDRESSING ∧
    getImmediateBMC "#5".toList 0 = 44 ∧
    (getOperandAddressingType "#-1".toList "").1 = IMMEDIATE_ADDRESSING ∧
    getImmediateBMC "#-1".toList 0 = 32764 := by
  have key : (getOperandAddressingType operand error_str).1 = IMMEDIATE_ADDRESSING →
      operand.head? = some '#' ∧
      -2048 ≤ (atof operand.tail).trunc ∧ (atof operand.tail).trunc ≤ 2047 := by
    apply getOperandAddressingType_cases operand error_str
      (fun r => r.1 = IMMEDIATE_ADDRESSING → operand.head? = some '#' ∧
        -2048 ≤ (atof operand.tail).trunc ∧ (atof operand.tail).trunc ≤ 2047)
    · intro _ _ h; exact absurd h (show NO_TYPE ≠ IMMEDIATE_ADDRESSING by decide)
    · intro rest hop _ _ hne hcb _
      subst hop
      have hr := checkBitException_range _ hcb
      rw [← neToInt_false _ hne] at hr
      exact ⟨rfl, hr.1, hr.2⟩
    · intro _ _ _ h
      exact absurd h (show INDIRECT_REGISTER_ADDRESSING ≠ IMMEDIATE_ADDRESSING by decide)
    · intro _ h
      exact absurd h (show DIRECT_REGISTER_ADDRESSING ≠ IMMEDIATE_ADDRESSING by decide)
    · intro _ _ h
      exact absurd h (show DIRECT_ADDRESSING ≠ IMMEDIATE_ADDRESSING by decide)
  obtain ⟨h0, h1, h2⟩ := key haccepted
  have hv : getImmediateBMC operand 0 = (atof operand.tail).trunc % 2 ^ 12 * 2 ^ 3 + 4 := by
    unfold getImmediateBMC
    simp only []
    rw [toShort_of_range _ (by omega) (by omega)]
    have := immediateWord_table _ h1 h2
    rw [toShort_of_range _ (by omega) (by omega)] at this
    exact this
  refine ⟨h0, h1, h2, hv, ?_, ?_, ?_, ?_, by decide, by decide, by decide, by decide⟩
  · rw [hv]; omega
  · rw [hv]; omega
  · rw [hv]; omega
  · rw [hv]; omega

/-- The instance of C4 for the operand `#-1`. -/
theorem getImmediateBMC_value_witness :
    (getOperandAddressingType "#-1".toList "").1 = IMMEDIATE_ADDRESSING ∧
    getImmediateBMC "#-1".toList 0
      = (atof ("#-1".toList).tail).trunc % 2 ^ 12 * 2 ^ 3 + 4 :=
  ⟨by decide, (getImmediateBMC_value "#-1".toList "" (by decide)).2.2.2.1⟩

/-! ## Operand legality (C5) -/

/-- C5: for an operand of any addressing mode, `isValidSourceOperandType` (for the
two-operand opcodes MOV..LEA) and `isValidTargetOperandType` (for the opcodes MOV..JSR that
take a target) return the mode exactly when the legality table of the specification lists
the mode for the opcode, and NO_TYPE exactly when it does not: as source MOV, CMP, ADD, SUB
take all four modes and LEA takes Direct only; as target CMP and PRN take all four modes,
MOV, ADD, SUB, LEA, CLR, NOT, INC, DEC, RED take all but Immediate, and JMP, BNE, JSR take
Direct and IndirectRegister. -/
theorem operandLegality_table (opcode : Int) (operand : List Char) (error_str : String)
    (hmode : (getOperandAddressingType operand error_str).1 ≠ NO_TYPE) :
    (0 ≤ opcode → opcode ≤ LEA →
      ((isValidSourceOperandType opcode operand error_str).1 =
          (getOperandAddressingType operand error_str).1 ↔
        (getOperandAddressingType operand error_str).1 ∈ tableSourceModes opcode) ∧
      ((isValidSourceOperandType opcode operand error_str).1 = NO_TYPE ↔
        (getOperandAddressingType operand error_str).1 ∉ tableSourceModes opcode)) ∧
    (0 ≤ opcode → opcode ≤ JSR →
      ((isValidTargetOperandType opcode operand error_str).1 =
          (getOperandAddressingType operand error_str).1 ↔
        (getOperandAddressingType operand error_str).1 ∈ tableTargetModes opcode) ∧
      ((isValidTargetOperandType opcode operand error_str).1 = NO_TYPE ↔
        (getOperandAddressingType operand error_str).1 ∉ tableTargetModes opcode)) := by
  have hr := getOperandAddressingType_range operand error_str
  have hm : (getOperandAddressingType operand error_str).1 = 0 ∨
      (getOperandAddressingType operand error_str).1 = 1 ∨
      (getOperandAddressingType operand error_str).1 = 2 ∨
      (getOperandAddressingType operand error_str).1 = 3 := by
    rcases hr with h | h | h | h | h
    · exact absurd h hmode
    · exact Or.inl h
    · exact Or.inr (Or.inl h)
    · exact Or.inr (Or.inr (Or.inl h))
    · exact Or.inr (Or.inr (Or.inr h))
  constructor
  · intro h0 h1
    have h1' : opcode ≤ 4 := h1
    have key := sourceLegality_aux opcode _ h0 h1' hm
    rw [isValidSourceOperandType_type]
    constructor
    · constructor
      · intro h
        by_contra hc
        rw [← key] at hc
        rw [if_neg (fun hh => hc hh.2)] at h
        exact hmode h.symm
      · intro h
        rw [← key] at h
        rw [if_pos ⟨hmode, h⟩]
    · constructor
      · intro h hc
        rw [← key] at hc
        rw [if_pos ⟨hmode, hc⟩] at h
        exact hmode h
      · intro h
        rw [← key] at h
        rw [if_neg (fun hh => h hh.2)]
  · intro h0 h1
    have h1' : opcode ≤ 13 := h1
    have key := targetLegality_aux opcode _ h0 h1' hm
    rw [isValidTargetOperandType_type]
    constructor
    · constructor
      · intro h
        by_contra hc
        rw [← key] at hc
        rw [if_neg (fun hh => hc hh.2)] at h
        exact hmode h.symm
      · intro h
        rw [← key] at h
        rw [if_pos ⟨hmode, h⟩]
    · constructor
      · intro h hc
        rw [← key] at hc
        rw [if_pos ⟨hmode, hc⟩] at h
        exact hmode h
      · intro h
        rw [← key] at h
        rw [if_neg (fun hh => h hh.2)]

/-- The instance of C5 for the immediate operand `#5` with CMP and with LEA: accepted as
the target of CMP, refused as the source of LEA. -/
theorem operandLegality_table_witness :
    (getOperandAddressingType "#5".toList "").1 ≠ NO_TYPE ∧
    ((isValidTargetOperandType CMP "#5".toList "").1 =
        (getOperandAddressingType "#5".toList "").1 ↔
      (getOperandAddressingType "#5".toList "").1 ∈ tableTargetModes CMP) ∧
    ((isValidSourceOperandType LEA "#5".toList "").1 = NO_TYPE ↔
      (getOperandAddressingType "#5".toList "").1 ∉ tableSourceModes LEA) :=
  ⟨by decide,
    ((operandLegality_table CMP "#5".toList "" (by decide)).2 (by decide) (by decide)).1,
    ((operandLegality_table LEA "#5".toList "" (by decide)).1 (by decide) (by decide)).2⟩

/-! ## Relocatable label words (C6) -/

set_option maxRecDepth 100000 in
theorem shiftOr_table : ∀ v : Int, 0 ≤ v → v ≤ 4095 →
    v * 2 ^ 3 + 2 = Int.ofNat ((v.toNat <<< 3) ||| 2) := by
  decide!

/-- C6: take a pending code word whose label `name` has a Data, String or Code declaration
`d` and no Extern declaration, every declaration of the name other than an entry sitting
at the address of `d`, which lies in 0..4095. After entry resolution (`isEntriesDefined`)
followed by `fillingMissingBMCofLabel` the word holds the machine code
`(address << 3) | 2`, wherever `d` stands in the declaration list among the Entry
declarations of the same name, however many they are. -/
theorem label_word_relocatable (garbage : Int) (ins out : List instructionNode)
    (decls : List declarationNode) (ent ext : Int × Int) (fs : fillState) (i : Nat)
    (node : instructionNode) (name : List Char) (d : declarationNode)
    (hrun : fillingMissingBMCofLabel garbage ins (isEntriesDefined decls).2.1 ent ext
      = some (out, fs))
    (hnode : ins[i]? = some node) (hpending : node.line ≠ 0)
    (hname : node.type = wordType.name name)
    (hdef : d ∈ decls ∧ d.label = name ∧ (d.type = DATA ∨ d.type = STRING ∨ d.type = CODE))
    (hnoext : ∀ x ∈ decls, x.label = name → x.type ≠ EXTERN)
    (huniq : ∀ x ∈ decls, x.label = name → x.type ≠ ENTRY →
      x.decimal_address = d.decimal_address)
    (hrange : 0 ≤ d.decimal_address ∧ d.decimal_address ≤ 4095) :
    out[i]? = some ⟨node.ic, 0, wordType.bmc (d.decimal_address * 2 ^ 3 + 2)⟩ ∧
    d.decimal_address * 2 ^ 3 + 2 = Int.ofNat ((d.decimal_address.toNat <<< 3) ||| 2) := by
  refine ⟨?_, shiftOr_table _ hrange.1 hrange.2⟩
  have hnotentry : d.type ≠ ENTRY := by
    rcases hdef.2.2 with h | h | h <;> rw [h] <;> decide
  have hex : ∃ x ∈ decls, x.label = name ∧ x.type ≠ ENTRY := ⟨d, hdef.1, hdef.2.1, hnotentry⟩
  have haddr := resolved_address decls name d.decimal_address hex huniq
  have hall : ∀ x ∈ (isEntriesDefined decls).2.1, x.label = name →
      x.type ≠ EXTERN ∧ x.decimal_address = d.decimal_address := by
    intro x hx hl
    refine ⟨?_, haddr x hx hl⟩
    rw [isEntriesDefined_map] at hx
    obtain ⟨y, hy, rfl⟩ := List.mem_map.mp hx
    rw [(resolveEntry_label decls y).2]
    rw [(resolveEntry_label decls y).1] at hl
    exact hnoext y hy hl
  have hex' : ∃ x ∈ (isEntriesDefined decls).2.1, x.label = name ∧ x.type ≠ ENTRY := by
    refine ⟨resolveEntry decls d, ?_, ?_, ?_⟩
    · rw [isEntriesDefined_map]
      exact List.mem_map_of_mem _ hdef.1
    · rw [(resolveEntry_label decls d).1]; exact hdef.2.1
    · rw [(resolveEntry_label decls d).2]; exact hnotentry
  unfold fillingMissingBMCofLabel at hrun
  obtain ⟨si, r, hfill, hout⟩ := fillingLoop_get _ _ _ _ _ hrun i node hnode
  rw [hout]
  unfold fillNode at hfill
  rw [if_pos hpending, hname] at hfill
  simp only [] at hfill
  split at hfill
  · exact Option.noConfusion hfill
  have hloop := declarationLoop_resolved name d.decimal_address
    (isEntriesDefined decls).2.1
    ⟨false, false, false, false, si.curr_ins_da, node.line, si.ent_is_length,
      si.ext_is_length⟩ rfl hall (fun h => by simp at h)
  obtain ⟨l1, l2, _, l4⟩ := hloop
  rw [l1, l2 (l4 hex')] at hfill
  cases hfill
  simp only [Bool.not_false, if_true]
  rw [getRelocatableBMC_table _ hrange.1 hrange.2]
  rfl

/-- The instance of C6 for `jmp X` with two Entry declarations of `X` before the
definition of `X` at address 102. -/
theorem label_word_relocatable_witness :
    fillingMissingBMCofLabel 0
      [⟨100, 0, wordType.bmc 18452⟩, ⟨101, 1, wordType.name ['X']⟩,
        ⟨102, 0, wordType.bmc 30724⟩]
      (isEntriesDefined [⟨2, ['X'], ENTRY⟩, ⟨3, ['X'], ENTRY⟩, ⟨102, ['X'], CODE⟩]).2.1
      (0, 0) (0, 0)
      = some ([⟨100, 0, wordType.bmc 18452⟩, ⟨101, 0, wordType.bmc 818⟩,
          ⟨102, 0, wordType.bmc 30724⟩], ⟨102, (1, 1), (0, 0), true, []⟩) ∧
    ([⟨100, 0, wordType.bmc 18452⟩, ⟨101, 0, wordType.bmc 818⟩,
        ⟨102, 0, wordType.bmc 30724⟩] : List instructionNode)[1]?
      = some ⟨101, 0, wordType.bmc (102 * 2 ^ 3 + 2)⟩ :=
  ⟨by decide,
    (label_word_relocatable 0
      [⟨100, 0, wordType.bmc 18452⟩, ⟨101, 1, wordType.name ['X']⟩,
        ⟨102, 0, wordType.bmc 30724⟩]
      [⟨100, 0, wordType.bmc 18452⟩, ⟨101, 0, wordType.bmc 818⟩,
        ⟨102, 0, wordType.bmc 30724⟩]
      [⟨2, ['X'], ENTRY⟩, ⟨3, ['X'], ENTRY⟩, ⟨102, ['X'], CODE⟩] (0, 0) (0, 0)
      ⟨102, (1, 1), (0, 0), true, []⟩ 1 ⟨101, 1, wordType.name ['X']⟩ ['X']
      ⟨102, ['X'], CODE⟩ (by decide) (by decide) (by decide) rfl (by decide) (by decide)
      (by decide) (by decide)).1⟩


/-- C7: in a second pass that succeeds on lists in which no name has an Extern declaration
next to a declaration of another kind (what the first pass leaves), every pending word
whose label is declared Extern ends as the word 1, in the list and in the object file; the
external file is created exactly when there is such a word, and then it holds one line for
each of them, in list order, with the label and the address of the word, so in ascending
order of the addresses when the list is. -/
theorem extern_reference_words (files : outputFiles) (garbage : Int) (counter : Int × Int)
    (ins : List instructionNode) (data : List dataNode) (decls : List declarationNode)
    (indicator : Bool) (r : secondPassResult)
    (hinv : externConsistent decls)
    (hrun : secondPass files garbage counter ins data decls indicator = some r)
    (hok : r.indicator = true) :
    (∀ (i : Nat) (n : instructionNode), ins[i]? = some n →
      isExternReference decls n = true →
      r.instructions_list[i]? = some ⟨n.ic, 0, wordType.bmc 1⟩ ∧
      ∃ header lines, r.ob = some (header, lines) ∧ lines[i]? = some (n.ic, 1)) ∧
    (r.ext.isSome = true ↔ ∃ n ∈ ins, isExternReference decls n = true) ∧
    (∀ lines, r.ext = some lines →
      lines.map (fun l => (l.name, l.address)) =
        (ins.filter (isExternReference decls)).map (fun n => (labelOf n, n.ic)) ∧
      ((ins.map fun n => n.ic).Pairwise (fun a b => a < b) →
        (lines.map fun l => l.address).Pairwise (fun a b => a < b))) := by
  have hinv' : ∀ x ∈ (isEntriesDefined decls).2.1, ∀ y ∈ (isEntriesDefined decls).2.1,
      x.label = y.label → x.type = EXTERN → y.type = EXTERN := by
    intro x hx y hy hl ht
    rw [isEntriesDefined_map] at hx hy
    obtain ⟨x0, hx0, rfl⟩ := List.mem_map.mp hx
    obtain ⟨y0, hy0, rfl⟩ := List.mem_map.mp hy
    rw [(resolveEntry_label decls x0).1, (resolveEntry_label decls y0).1] at hl
    rw [(resolveEntry_label decls x0).2] at ht
    rw [(resolveEntry_label decls y0).2]
    exact hinv x0 hx0 y0 hy0 hl ht
  have hsame : isExternReference (isEntriesDefined decls).2.1 = isExternReference decls :=
    funext (isExternReference_resolved decls)
  obtain ⟨out, fs, hf, hcase⟩ := secondPass_cases files garbage counter ins data decls
    indicator r hrun
  obtain ⟨hmark, hsome, hnone⟩ := fillingLoop_extern _ hinv' ins _ out fs hf
  rw [hsame] at hsome hnone
  have hprt : externPrinted (isEntriesDefined decls).2.1 = externPrinted decls := by
    funext n n'
    simp only [externPrinted, hsame]
  rcases hcase with ⟨hind, ob, extl, fin, hp, hr, _⟩ | ⟨_, hr⟩ | ⟨_, hfalse, _⟩
  · obtain ⟨hprinted, hlines, haddr, hwords⟩ :=
      printInstructions_extern _ _ ins out ob extl fin hmark hp
    rw [hprt] at hprinted
    rw [hsame] at hlines
    subst hr
    simp only
    refine ⟨?_, ?_, ?_⟩
    · intro i n hn href
      obtain ⟨n', hn', h1, h2, _, h4⟩ := forall₂_getElem? _ _ _ hprinted i n hn
      have hnode : n' = ⟨n.ic, 0, wordType.bmc 1⟩ := by
        cases n' with
        | mk a b c =>
          simp only at h1 h2 h4
          rw [h1, h2, h4 href]
          rfl
      refine ⟨by rw [hn', hnode], _, _, rfl, ?_⟩
      obtain ⟨w, hw, hwt⟩ := forall₂_getElem?_right _ _ _ hwords i n' hn'
      have hlt : i < ob.length := by
        by_contra hc
        rw [List.getElem?_eq_none (Nat.le_of_not_lt hc)] at hw
        exact absurd hw (by simp)
      rw [List.getElem?_append_left hlt, hw]
      have hfst : (ob.map Prod.fst)[i]? = (ins.map fun n => n.ic)[i]? := by rw [haddr]
      rw [List.getElem?_map, List.getElem?_map, hw, hn] at hfst
      simp only [Option.map_some', Option.some.injEq] at hfst
      rw [hnode] at hwt
      simp only [wordType.bmc.injEq] at hwt
      cases w with
      | mk a b =>
        simp only at hfst hwt
        rw [hfst, ← hwt]
    · by_cases hex : ∃ n ∈ ins, isExternReference decls n = true
      · have h1 := hsome hex
        simp only [h1, hex, iff_true]
        rfl
      · have h0 := hnone hex
        simp only [h0, hex, iff_false]
        simp
    · intro lines hl
      split_ifs at hl with hc
      simp only [Option.some.injEq] at hl
      subst hl
      refine ⟨hlines, fun hp => ?_⟩
      have hmap : (extl.map fun l => l.address) =
          ((ins.filter (isExternReference decls)).map fun n => n.ic) := by
        have := congrArg (List.map Prod.snd) hlines
        simpa [List.map_map, Function.comp_def] using this
      rw [hmap]
      exact List.Pairwise.sublist (List.Sublist.map _ (List.filter_sublist _)) hp
  · subst hr
    simp at hok
  · rw [hfalse] at hok
    exact Bool.noConfusion hok

theorem extern_reference_words_witness :
    secondPass ⟨true, true, true⟩ 0 (4, 0)
      [⟨100, 0, wordType.bmc 18452⟩, ⟨101, 1, wordType.name ['X']⟩,
        ⟨102, 0, wordType.bmc 18452⟩, ⟨103, 2, wordType.name ['X']⟩] []
      [⟨1, ['X'], EXTERN⟩] true
      = some ⟨true, [], [⟨100, 0, wordType.bmc 18452⟩, ⟨101, 0, wordType.bmc 1⟩,
          ⟨102, 0, wordType.bmc 18452⟩, ⟨103, 0, wordType.bmc 1⟩], [⟨1, ['X'], EXTERN⟩],
          some ((4, 0), [(100, 18452), (101, 1), (102, 18452), (103, 1)]),
          some [⟨['X'], 2, 101⟩, ⟨['X'], 2, 103⟩], none, false⟩ ∧
    ([⟨['X'], 2, 101⟩, ⟨['X'], 2, 103⟩] : List outputLine).map (fun l => (l.name, l.address)) =
      (([⟨100, 0, wordType.bmc 18452⟩, ⟨101, 1, wordType.name ['X']⟩,
        ⟨102, 0, wordType.bmc 18452⟩, ⟨103, 2, wordType.name ['X']⟩] :
          List instructionNode).filter
        (isExternReference [⟨1, ['X'], EXTERN⟩])).map (fun n => (labelOf n, n.ic)) :=
  ⟨by decide,
    ((extern_reference_words ⟨true, true, true⟩ 0 (4, 0)
      [⟨100, 0, wordType.bmc 18452⟩, ⟨101, 1, wordType.name ['X']⟩,
        ⟨102, 0, wordType.bmc 18452⟩, ⟨103, 2, wordType.name ['X']⟩] []
      [⟨1, ['X'], EXTERN⟩] true
      ⟨true, [], [⟨100, 0, wordType.bmc 18452⟩, ⟨101, 0, wordType.bmc 1⟩,
          ⟨102, 0, wordType.bmc 18452⟩, ⟨103, 0, wordType.bmc 1⟩], [⟨1, ['X'], EXTERN⟩],
          some ((4, 0), [(100, 18452), (101, 1), (102, 18452), (103, 1)]),
          some [⟨['X'], 2, 101⟩, ⟨['X'], 2, 103⟩], none, false⟩
      (by unfold externConsistent; decide) (by decide) rfl).2.2 _ rfl).1⟩

/-- C9: when the first pass returns TRUE, with at most 32667 code words (so that the 16-bit
counter never wraps), IC_total and DC_total are the numbers of code and data words, the
addresses of the code words in list order are 100, 101, ..., 100 + IC_total - 1, those of
the data words in list order are 100 + IC_total, ..., 100 + IC_total + DC_total - 1, and
so the code words followed by the data words carry exactly the addresses 100, 101, ...,
100 + IC_total + DC_total - 1 in sequence. Beyond that the counter wraps and no check
sees it: for a file of 32668 lines `stop` and the line `.data 1` the first pass reports
nothing, the code words sit at 100..32767 and the data word at -32768. -/
theorem address_continuity (macros : List macroNode) (lines : List (List Char))
    (r : firstPassResult)
    (hrun : firstPass macros lines = some r)
    (hok : r.indicator = true)
    (hsize : r.instructions_list.length ≤ 32667) :
    r.ic_dc_counter =
      (Int.ofNat r.instructions_list.length, Int.ofNat r.data_list.length) ∧
    r.instructions_list.map (fun n => n.ic) =
      (List.range r.instructions_list.length).map (fun i => 100 + Int.ofNat i) ∧
    r.data_list.map (fun x => x.dc) =
      (List.range r.data_list.length).map
        (fun j => 100 + Int.ofNat r.instructions_list.length + Int.ofNat j) ∧
    r.instructions_list.map (fun n => n.ic) ++ r.data_list.map (fun x => x.dc) =
      (List.range (r.instructions_list.length + r.data_list.length)).map
        (fun k => 100 + Int.ofNat k) ∧
    (firstPass [] (stopLines 32668 ++ [".data 1\n".toList]) =
        some ⟨true, (32668, 1), stopWords 32668, [⟨-32768, 1⟩], [], []⟩ ∧
      (stopWords 32668).length = 32668 ∧
      (stopLines 32668 ++ [".data 1\n".toList]).length = 32669) := by
  obtain ⟨h1, h2, h3, h4⟩ := firstPass_continuous macros lines r hrun hok hsize
  refine ⟨h1, h2, h3, h4, firstPass_wrapped, stopWords_length 32668, ?_⟩
  unfold stopLines
  rw [List.length_append, List.length_replicate]
  rfl

set_option maxRecDepth 100000 in
theorem address_continuity_witness :
    firstPass [] ["mov #5, r3\n".toList, "X: .data 7, -3\n".toList, "stop\n".toList]
      = some ⟨true, (4, 2), [⟨100, 0, wordType.bmc 196⟩, ⟨101, 0, wordType.bmc 44⟩,
          ⟨102, 0, wordType.bmc 28⟩, ⟨103, 0, wordType.bmc 30724⟩],
          [⟨104, 7⟩, ⟨105, 32765⟩], [⟨104, ['X'], DATA⟩], []⟩ ∧
    ([100, 101, 102, 103] : List Int) ++ [104, 105] =
      (List.range (4 + 2)).map (fun k => 100 + Int.ofNat k) :=
  ⟨by decide,
    (address_continuity []
      ["mov #5, r3\n".toList, "X: .data 7, -3\n".toList, "stop\n".toList]
      ⟨true, (4, 2), [⟨100, 0, wordType.bmc 196⟩, ⟨101, 0, wordType.bmc 44⟩,
          ⟨102, 0, wordType.bmc 28⟩, ⟨103, 0, wordType.bmc 30724⟩],
          [⟨104, 7⟩, ⟨105, 32765⟩], [⟨104, ['X'], DATA⟩], []⟩
      (by decide) rfl (by decide)).2.2.2.1⟩
/-! ## The capacity guard (C10) -/

/-- C10, as the code has it: at the end of a first pass that built at most 32667 code words
(so that the 16-bit counter did not wrap) and at least one data word, IC_total is the
number of code words, and `UpdateDataCounter` returns FALSE exactly when the code and data
words together are more than 3996, which is when the last address
100 + IC_total + DC_total - 1 is above 4095; the first pass then reports the capacity
error and returns FALSE, a second pass run on its result creates no object, external or
entry file, and it returns whenever the labels without a declaration fit the buffer of
their message. -/
theorem capacity_guard (macros : List macroNode) (lines : List (List Char))
    (st : firstPassState) (hloop : firstPassLoop macros lines firstPassInit = some st)
    (hcode : st.instructions_list.length ≤ 32667) (hdata : st.data_list ≠ []) :
    firstPass macros lines = some (firstPassFinish st) ∧
    (firstPassFinish st).ic_dc_counter.1 = Int.ofNat st.instructions_list.length ∧
    (st.data_list.length ≤ 32767 →
      (firstPassFinish st).ic_dc_counter.2 = Int.ofNat st.data_list.length) ∧
    ((UpdateDataCounter st.data_list st.declarations_list st.ic st.dc).ok = false ↔
      st.instructions_list.length + st.data_list.length > 3996) ∧
    (st.instructions_list.length + st.data_list.length > 3996 →
      (firstPassFinish st).indicator = false ∧
      (firstPassFinish st).errors = st.errors ++ [(toShort (Int.ofNat st.line_num),
        "The system cannot proceed due to insufficient available memory.")] ∧
      (∀ (files : outputFiles) (garbage : Int) (r : secondPassResult),
        secondPass files garbage (firstPassFinish st).ic_dc_counter
          (firstPassFinish st).instructions_list (firstPassFinish st).data_list
          (firstPassFinish st).declarations_list (firstPassFinish st).indicator = some r →
        r.indicator = false ∧ r.ob = none ∧ r.ext = none ∧ r.ent = none ∧
          r.fatal = false) ∧
      (messagesFit (firstPassFinish st).declarations_list
          (firstPassFinish st).instructions_list →
        ∀ (files : outputFiles) (garbage : Int),
          ∃ r, secondPass files garbage (firstPassFinish st).ic_dc_counter
            (firstPassFinish st).instructions_list (firstPassFinish st).data_list
            (firstPassFinish st).declarations_list (firstPassFinish st).indicator
            = some r)) := by
  obtain ⟨hic, hdc, hokiff⟩ := UpdateDataCounter_run macros lines st hloop hcode hdata
  have hwf : pendingNamed st.instructions_list :=
    firstPassLoop_named macros lines firstPassInit st hloop
      (fun n hn => by simp [firstPassInit] at hn)
  have hcount : toShort (st.ic - FIRST_MEMORY_CELL) = Int.ofNat st.instructions_list.length := by
    rw [hic]
    have e : (100 : Int) + Int.ofNat st.instructions_list.length - FIRST_MEMORY_CELL
        = Int.ofNat st.instructions_list.length := by
      simp only [FIRST_MEMORY_CELL]
      omega
    rw [e]
    apply toShort_of_range
    · simp only [Int.ofNat_eq_coe]; omega
    · simp only [Int.ofNat_eq_coe]; omega
  have hcounter : (firstPassFinish st).ic_dc_counter =
      (Int.ofNat st.instructions_list.length, st.dc) := by
    rw [firstPassFinish_counter, hcount]
  refine ⟨?_, by rw [hcounter], fun hlen => ?_, hokiff, fun hbig => ?_⟩
  · unfold firstPass
    rw [hloop]
    rfl
  · rw [hcounter, hdc]
    apply toShort_of_range
    · simp only [Int.ofNat_eq_coe]; omega
    · simp only [Int.ofNat_eq_coe]; omega
  · have hfail := hokiff.mpr hbig
    have hfin : firstPassFinish st =
        ⟨false,
          (UpdateDataCounter st.data_list st.declarations_list st.ic st.dc).ic_dc_counter,
          st.instructions_list,
          (UpdateDataCounter st.data_list st.declarations_list st.ic st.dc).data_list,
          (UpdateDataCounter st.data_list st.declarations_list st.ic
            st.dc).declarations_list,
          st.errors ++ [(toShort (Int.ofNat st.line_num),
            "The system cannot proceed due to insufficient available memory.")]⟩ := by
      unfold firstPassFinish
      simp only [hfail, Bool.not_false, if_true]
    rw [hfin]
    refine ⟨rfl, rfl, fun files garbage r hr => ?_, fun hfit files garbage => ?_⟩
    · exact secondPass_failed files garbage _ _ _ _ r hr
    · exact secondPass_failed_returns files garbage _ _ _ _ hwf hfit

set_option maxRecDepth 100000 in
/-- The instance of C10 for a file of 3996 lines `stop` and the line `.data 1`: 3997 words,
the capacity error. -/
theorem capacity_guard_witness :
    firstPassLoop [] (stopLines 3996 ++ [".data 1\n".toList]) firstPassInit
      = some ⟨4096, 1, 3998, true, stopWords 3996, [⟨0, 1⟩], [], []⟩ ∧
    (UpdateDataCounter [⟨0, 1⟩] [] 4096 1).ok = false ∧
    (firstPassFinish ⟨4096, 1, 3998, true, stopWords 3996, [⟨0, 1⟩], [], []⟩).indicator
      = false :=
  have hloop : firstPassLoop [] (stopLines 3996 ++ [".data 1\n".toList]) firstPassInit
      = some ⟨4096, 1, 3998, true, stopWords 3996, [⟨0, 1⟩], [], []⟩ :=
    (firstPassLoop_stops_data [] 3996 (by decide)).trans
      (by
        have h1 : toShort (100 + Int.ofNat 3996) = 4096 := by decide
        rw [h1])
  have hlen : (stopWords 3996).length + ([⟨0, 1⟩] : List dataNode).length > 3996 := by
    rw [stopWords_length]
    decide
  have h := capacity_guard [] (stopLines 3996 ++ [".data 1\n".toList])
    ⟨4096, 1, 3998, true, stopWords 3996, [⟨0, 1⟩], [], []⟩ hloop
    (by rw [stopWords_length]; decide) (by decide)
  ⟨hloop, h.2.2.2.1.mpr hlen, (h.2.2.2.2 hlen).1⟩

/-- C10 as stated fails: for a file of 3995 lines `stop` and the line `.data 1` the total
is 3996 > 3995, yet `UpdateDataCounter` returns TRUE (the data word lands on address 4095)
and the first pass reports nothing; and for a file of 4000 lines `stop` and no data it
returns TRUE as well. -/
theorem capacity_guard_counterexample :
    (firstPass [] (stopLines 3995 ++ [".data 1\n".toList])
        = some ⟨true, (3995, 1), stopWords 3995, [⟨4095, 1⟩], [], []⟩ ∧
      (3995 : Int) + 1 > 3995 ∧
      (UpdateDataCounter [⟨0, 1⟩] [] 4095 1).ok = true) ∧
    (firstPass [] (stopLines 4000) = some ⟨true, (4000, 0), stopWords 4000, [], [], []⟩ ∧
      (4000 : Int) + 0 > 3995 ∧
      (UpdateDataCounter [] [] 4100 0).ok = true) := by
  refine ⟨⟨?_, by decide, by decide⟩, ?_, by decide, by decide⟩
  · rw [firstPass_stops_data [] 3995 (by decide)]
    have h1 : toShort (100 + Int.ofNat 3995) = 4095 := by decide
    have hu : UpdateDataCounter [⟨0, 1⟩] [] 4095 1 = ⟨true, (3995, 1), [⟨4095, 1⟩], []⟩ := by
      decide
    rw [h1, firstPassFinish_eval _ _ hu rfl]
  · rw [firstPass_stops [] 4000 (by decide)]
    have h1 : toShort (100 + Int.ofNat 4000) = 4100 := by decide
    have hu : UpdateDataCounter [] [] 4100 0 = ⟨true, (4000, 0), [], []⟩ := by decide
    rw [h1, firstPassFinish_eval _ _ hu rfl]
/-! ## The words of a `.data` line (C11) -/

/-- C11: take a `.data` line whose list is written as integer literals v1, ..., vn (decimal
digits behind an optional minus sign, white space around them, commas between them, white
space behind the directive), read by `readNewData` with an empty error buffer. The line is
accepted exactly when every vi lies in -16384..16383; and then `readNewData` returns,
`readNumbers` hands over the words vi mod 2^15, each in 0..32767, and, with room for n more
values in the 16-bit counter, exactly n nodes are appended in that order at DC, DC+1, ...,
DC+n-1 and DC grows by n. The line `LIST: .data 7, -3, 0` gives the words 7, 32765, 0. No
check guards the counter, a `short`: the line `.data 1` read at DC = 32767, which is the
32768th line of a file of such lines, is accepted and leaves DC at -32768. -/
theorem readNewData_data_words (st : dataState) (items : List dataItem)
    (hclean : st.error_str = "") (hne : items ≠ [])
    (hw : ∀ x ∈ items, x.wellWritten)
    (hfirst : ∀ x, items.head? = some x → x.pre ≠ []) :
    ((∃ st', readNewData st DATA (".data".toList ++ dataText items) = some st' ∧
        st'.error_str = "") ↔
      ∀ x ∈ items, -16384 ≤ x.value ∧ x.value ≤ 16383) ∧
    ((∀ x ∈ items, -16384 ≤ x.value ∧ x.value ≤ 16383) →
      ∃ st', readNewData st DATA (".data".toList ++ dataText items) = some st' ∧
        st'.error_str = "" ∧
        (readNumbers (skipWord (".data".toList ++ dataText items)) "").1
          = items.map (fun x => x.value % 32768) ∧
        (∀ x ∈ items, 0 ≤ x.value % 32768 ∧ x.value % 32768 ≤ 32767) ∧
        (-32768 ≤ st.dc ∧ st.dc + Int.ofNat items.length ≤ 32767 →
          st'.dc = st.dc + Int.ofNat items.length ∧
          ∃ new : List dataNode, st'.data_list = st.data_list ++ new ∧
            new.length = items.length ∧
            ∀ (i : Nat) (x : dataItem), items[i]? = some x →
              new[i]? = some ⟨st.dc + Int.ofNat i, x.value % 32768⟩)) ∧
    (readNewData ⟨3, [⟨0, 1⟩, ⟨1, 1⟩, ⟨2, 1⟩], ""⟩ DATA ".data 7, -3, 0\n".toList
        = some ⟨6, [⟨0, 1⟩, ⟨1, 1⟩, ⟨2, 1⟩, ⟨3, 7⟩, ⟨4, 32765⟩, ⟨5, 0⟩], ""⟩ ∧
      firstPass [] ["LIST: .data 7, -3, 0\n".toList]
        = some ⟨true, (0, 3), [], [⟨100, 7⟩, ⟨101, 32765⟩, ⟨102, 0⟩],
            [⟨100, "LIST".toList, DATA⟩], []⟩) ∧
    (readNewData ⟨32767, [], ""⟩ DATA ".data 1\n".toList
        = some ⟨-32768, [⟨32767, 1⟩], ""⟩ ∧
      firstPassLoop [] (oneLines 32767) firstPassInit
        = some ⟨100, 32767, 32768, true, [], oneWords 32767, [], []⟩ ∧
      firstPassLoop [] (oneLines 32768) firstPassInit
        = some ⟨100, -32768, 32769, true, [], oneWords 32768, [], []⟩) := by
  have hskip : ∀ st' : dataState,
      readNewData st DATA (".data".toList ++ dataText items) = some st' →
      st'.error_str = (readNumbers (dataText items) "").2 ∧
      (readNumbers (skipWord (".data".toList ++ dataText items)) "")
        = readNumbers (dataText items) "" := by
    intro st' hrun
    have hsk : skipWord (".data".toList ++ dataText items) = dataText items := by
      cases items with
      | nil => exact absurd rfl hne
      | cons x rest =>
        have hpre := hfirst x rfl
        obtain ⟨c, pre', hp⟩ := List.exists_cons_of_ne_nil hpre
        have hc : isspace c = true := by
          apply (hw x (List.mem_cons_self _ _)).1
          rw [hp]
          exact List.mem_cons_self _ _
        have hform : ∃ tail, dataText (x :: rest) = c :: tail := by
          cases rest with
          | nil =>
            refine ⟨pre' ++ (integerLiteral x.negative x.digits ++ x.post), ?_⟩
            show x.text = _
            unfold dataItem.text
            rw [hp]
            rfl
          | cons y more =>
            refine ⟨pre' ++ (integerLiteral x.negative x.digits ++ x.post) ++
              ',' :: dataText (y :: more), ?_⟩
            rw [dataText_cons]
            unfold dataItem.text
            rw [hp]
            rfl
        obtain ⟨tail, ht⟩ := hform
        rw [ht]
        exact skipWord_directive _ c tail (by decide) (by decide) hc
    refine ⟨?_, by rw [hsk]⟩
    unfold readNewData at hrun
    have h9 : ¬ (DATA ≠ DATA ∧ DATA ≠ STRING) := by decide
    simp only [if_neg h9, if_true, hsk, hclean] at hrun
    split_ifs at hrun <;> (cases hrun; rfl)
  have hgood : (∀ x ∈ items, -16384 ≤ x.value ∧ x.value ≤ 16383) →
      readNewData st DATA (".data".toList ++ dataText items) =
        some ⟨(creatDataNodes (items.map fun x => x.value % 32768) st.dc st.data_list).1,
          (creatDataNodes (items.map fun x => x.value % 32768) st.dc st.data_list).2, ""⟩ :=
    fun hr => readNewData_dataText st items hclean hne (fun x hx => ⟨hw x hx, hr x hx⟩) hfirst
  refine ⟨⟨?_, fun hr => ⟨_, hgood hr, rfl⟩⟩, fun hr => ⟨_, hgood hr, rfl, ?_, ?_, ?_⟩,
    ⟨by decide, by decide⟩, by decide, ?_, ?_⟩
  · rintro ⟨st', hrun, hacc⟩
    by_contra hbad
    have hex : ∃ x ∈ items, ¬ (-16384 ≤ x.value ∧ x.value ≤ 16383) := by
      by_contra hno
      apply hbad
      intro x hx
      by_contra hc
      exact hno ⟨x, hx, hc⟩
    have h2 := (readNumbers_rejects items hw hex).2
    rw [← (hskip st' hrun).1] at h2
    exact h2 hacc
  · rw [(hskip _ (hgood hr)).2, readNumbers_dataText items hne
      (fun x hx => ⟨hw x hx, hr x hx⟩)]
  · intro x _
    exact ⟨Int.emod_nonneg _ (by decide),
      Int.le_of_lt_add_one (Int.emod_lt_of_pos _ (by decide))⟩
  · intro hroom
    obtain ⟨d1, new, d2, d3, d4⟩ := creatDataNodes_spec
      (items.map fun x => x.value % 32768) st.dc st.data_list hroom.1
      (by rw [List.length_map]; exact hroom.2)
    rw [List.length_map] at d1 d3
    refine ⟨d1, new, d2, d3, fun i x hx => ?_⟩
    apply d4
    rw [List.getElem?_map, hx]
    rfl
  · have h := firstPassLoop_oneLines [] 32767 (by decide) []
    rw [List.append_nil] at h
    have h1 : toShort (Int.ofNat 32767) = 32767 := by decide
    exact h.trans (by rw [h1]; rfl)
  · have h := firstPassLoop_oneLines [] 32768 (by decide) []
    rw [List.append_nil] at h
    have h1 : toShort (Int.ofNat 32768) = -32768 := by decide
    exact h.trans (by rw [h1]; rfl)

set_option maxRecDepth 100000 in
/-- The instance of C11 for the line `.data 7, -3, 0` read at DC = 3. -/
theorem readNewData_data_words_witness :
    ".data".toList ++ dataText [⟨" ".toList, false, "7".toList, []⟩,
        ⟨" ".toList, true, "3".toList, []⟩, ⟨" ".toList, false, "0".toList, "\n".toList⟩]
      = ".data 7, -3, 0\n".toList ∧
    ([⟨" ".toList, false, "7".toList, []⟩, ⟨" ".toList, true, "3".toList, []⟩,
        ⟨" ".toList, false, "0".toList, "\n".toList⟩] : List dataItem).map dataItem.value
      = [7, -3, 0] ∧
    ∃ st', readNewData ⟨3, [⟨0, 1⟩, ⟨1, 1⟩, ⟨2, 1⟩], ""⟩ DATA
        (".data".toList ++ dataText [⟨" ".toList, false, "7".toList, []⟩,
          ⟨" ".toList, true, "3".toList, []⟩, ⟨" ".toList, false, "0".toList, "\n".toList⟩])
        = some st' ∧ st'.error_str = "" :=
  ⟨by decide, by decide,
    ((readNewData_data_words ⟨3, [⟨0, 1⟩, ⟨1, 1⟩, ⟨2, 1⟩], ""⟩
      [⟨" ".toList, false, "7".toList, []⟩, ⟨" ".toList, true, "3".toList, []⟩,
        ⟨" ".toList, false, "0".toList, "\n".toList⟩] rfl (by simp)
      (by unfold dataItem.wellWritten; decide) (by simp)).2.1
      (by unfold dataItem.value; decide)).imp fun _ h => ⟨h.1, h.2.1⟩⟩

/-! ## The range of `.data` numbers (C12) -/

/-- C12, as the code has it: on a `.data` tail that holds one integer literal with the
value v between white space, `readNumbers` accepts exactly when v lies in the 15-bit signed
range -16384..16383, and then hands over the word v mod 2^15; outside that range it hands
over nothing and leaves a message, which is the out-of-range message whenever v fits a
32-bit `int`. -/
theorem readNumbers_range (negative : Bool) (pre ds post : List Char) (hne : ds ≠ [])
    (hpre : ∀ c ∈ pre, isspace c = true) (hds : ∀ c ∈ ds, isdigit c = true)
    (hpost : ∀ c ∈ post, isspace c = true) :
    ((readNumbers (pre ++ (integerLiteral negative ds ++ post)) "").2 = "" ↔
      (-16384 ≤ integerValue negative ds ∧ integerValue negative ds ≤ 16383)) ∧
    ((-16384 ≤ integerValue negative ds ∧ integerValue negative ds ≤ 16383) →
      readNumbers (pre ++ (integerLiteral negative ds ++ post)) "" =
        ([integerValue negative ds % 32768], "")) ∧
    (¬ (-16384 ≤ integerValue negative ds ∧ integerValue negative ds ≤ 16383) →
      (readNumbers (pre ++ (integerLiteral negative ds ++ post)) "").1 = [] ∧
      ((-2147483648 ≤ integerValue negative ds ∧ integerValue negative ds ≤ 2147483647) →
        (readNumbers (pre ++ (integerLiteral negative ds ++ post)) "").2 =
          "Invalid data instruction, a number that is too large or too small was detected.")) := by
  obtain ⟨l1, l2, l3⟩ := readNumbersLoop_integerLiteral negative ds post hne hds hpost
  have hrun := readNumbers_single negative pre ds post hne hpre hds hpost
  have hin : (-16384 ≤ integerValue negative ds ∧ integerValue negative ds ≤ 16383) →
      readNumbers (pre ++ (integerLiteral negative ds ++ post)) "" =
        ([integerValue negative ds % 32768], "") := by
    intro h
    rw [hrun, l1 h]
  have hout : ¬ (-16384 ≤ integerValue negative ds ∧ integerValue negative ds ≤ 16383) →
      (readNumbers (pre ++ (integerLiteral negative ds ++ post)) "").1 = [] ∧
      (readNumbers (pre ++ (integerLiteral negative ds ++ post)) "").2 ≠ "" ∧
      ((-2147483648 ≤ integerValue negative ds ∧ integerValue negative ds ≤ 2147483647) →
        (readNumbers (pre ++ (integerLiteral negative ds ++ post)) "").2 =
          "Invalid data instruction, a number that is too large or too small was detected.") := by
    intro h
    by_cases hint : -2147483648 ≤ integerValue negative ds ∧
        integerValue negative ds ≤ 2147483647
    · rw [hrun, l2 h hint]
      exact ⟨rfl, by decide, fun _ => rfl⟩
    · rw [hrun, l3 hint]
      exact ⟨rfl, by decide, fun h2 => absurd h2 hint⟩
  refine ⟨⟨fun hacc => ?_, fun h => ?_⟩, hin, fun h => ⟨(hout h).1, (hout h).2.2⟩⟩
  · by_contra hno
    exact (hout hno).2.1 hacc
  · rw [hin h]

theorem readNumbers_range_witness :
    readNumbers (" ".toList ++ (integerLiteral true "9000".toList ++ "\n".toList)) "" =
      ([integerValue true "9000".toList % 32768], "") ∧
    integerValue true "9000".toList = -9000 ∧
    " ".toList ++ (integerLiteral true "9000".toList ++ "\n".toList) = " -9000\n".toList :=
  ⟨(readNumbers_range true " ".toList "9000".toList "\n".toList (by decide) (by decide)
      (by decide) (by decide)).2.1 (by decide), by decide, by decide⟩

/-- C12 as stated fails: 10000 and -9000 lie outside -8192..8191 and `readNumbers` accepts
both, with the words 10000 and 32768 - 9000. -/
theorem readNumbers_range_counterexample :
    readNumbers " 10000\n".toList "" = ([10000], "") ∧
    ¬ ((-8192 : Int) ≤ 10000 ∧ (10000 : Int) ≤ 8191) ∧
    readNumbers " -9000\n".toList "" = ([23768], "") ∧
    ¬ ((-8192 : Int) ≤ -9000 ∧ (-9000 : Int) ≤ 8191) ∧
    readNumbers " 16383, -16384\n".toList "" = ([16383, 16384], "") ∧
    readNumbers " 16384\n".toList "" = ([],
      "Invalid data instruction, a number that is too large or too small was detected.") ∧
    readNumbers " -16385\n".toList "" = ([],
      "Invalid data instruction, a number that is too large or too small was detected.") := by
  decide

/-! ## Tokens of a `.data` line that are not integer literals (C13) -/

/-- C13 on the code: `readNumbers` rejects an empty tail, a comma before the first number,
a comma after the last one and two commas with only white space between them, each with
its message and without a word; but the tokens `abc`, `5x` and `1 2` pass: `atof` reads 0,
5 and 1 from them and the words 0, 5 and 1 are handed over with no message. A token with a
fractional part, `5.5`, is rejected. -/
theorem readNumbers_tokens_evaluated :
    readNumbers "\n".toList "" = ([],
      "Invalid data instruction, no number was detected after the instruction name.") ∧
    readNumbers " ,5\n".toList "" = ([],
      "Invalid data instruction, a comma was detected before the first number.") ∧
    readNumbers " 5,\n".toList "" = ([],
      "Invalid data instruction, a comma was detected without a number following it.") ∧
    readNumbers " 5, ,6\n".toList "" = ([],
      "Invalid data instruction, two consecutive commas were detected without a digit between them.") ∧
    readNumbers " 5.5\n".toList "" = ([],
      "Invalid data instruction, a non-integer number was detected.") ∧
    readNumbers " abc\n".toList "" = ([0], "") ∧
    readNumbers " 5x\n".toList "" = ([5], "") ∧
    readNumbers " 1 2\n".toList "" = ([1], "") ∧
    readNewData ⟨1, [⟨0, 7⟩], ""⟩ DATA ".data abc\n".toList
      = some ⟨2, [⟨0, 7⟩, ⟨1, 0⟩], ""⟩ := by
  decide

/-! ## The words of a `.string` line (C14) -/

/-- C14: on a tail made of white space, a quotation mark, a body of printable characters
without a quotation mark, a quotation mark and white space, `readString` hands over the
character codes of the body followed by one 0, length(body) + 1 words, and `readNewData`
appends them in order at DC, DC+1, ... and advances DC by length(body) + 1 (with room in
the 16-bit counter). A tail that does not start with a quotation mark after the white
space, has no closing quotation mark, has something else than white space after the
closing mark, or has a non-printable character in the body makes `readString` hand over
nothing and leave its message, and then `readNewData` appends nothing and leaves DC as it
was. The tail ` "ab"` gives 97, 98, 0. -/
theorem readString_contract (e : String) :
    (∀ pre body post : List Char, (∀ c ∈ pre, isspace c = true) →
      (∀ c ∈ body, c ≠ '"' ∧ isprint c = true) → (∀ c ∈ post, isspace c = true) →
      readString (pre ++ '"' :: (body ++ '"' :: post)) e =
        ((body.map fun c => Int.ofNat c.toNat) ++ [0], e) ∧
      (readString (pre ++ '"' :: (body ++ '"' :: post)) e).1.length = body.length + 1 ∧
      ∀ (st : dataState) (line : List Char), st.error_str = e →
        skipWord line = pre ++ '"' :: (body ++ '"' :: post) →
        -32768 ≤ st.dc → st.dc + Int.ofNat (body.length + 1) ≤ 32767 →
        ∃ new : List dataNode,
          readNewData st STRING line =
            some ⟨st.dc + Int.ofNat (body.length + 1), st.data_list ++ new, e⟩ ∧
          new.length = body.length + 1 ∧
          (∀ (i : Nat) (c : Char), body[i]? = some c →
            new[i]? = some ⟨st.dc + Int.ofNat i, Int.ofNat c.toNat⟩) ∧
          new[body.length]? = some ⟨st.dc + Int.ofNat body.length, 0⟩) ∧
    (∀ tail : List Char,
      ((skipWhiteChar tail).head? ≠ some '"' →
        readString tail e = ([],
          "Invalid string instruction, a character was detected before the first quotation mark.")) ∧
      (∀ rest, skipWhiteChar tail = '"' :: rest → (∀ c ∈ rest, c ≠ '"') →
        readString tail e = ([],
          "Invalid string instruction, no closing quotation marks were detected.")) ∧
      (∀ body post, skipWhiteChar tail = '"' :: (body ++ '"' :: post) →
        (∀ c ∈ body, c ≠ '"') → isWhiteSpaceString post = false →
        readString tail e = ([],
          "Invalid string instruction, characters were detected after the second quotation mark.")) ∧
      (∀ body post, skipWhiteChar tail = '"' :: (body ++ '"' :: post) →
        (∀ c ∈ body, c ≠ '"') → isWhiteSpaceString post = true →
        (∃ c ∈ body, isprint c = false) →
        readString tail e = ([],
          "Invalid string instruction, a non-printable character was detected."))) ∧
    (∀ (st st' : dataState) (line : List Char),
      (readString (skipWord line) st.error_str).1 = [] →
      readNewData st STRING line = some st' →
      st'.dc = st.dc ∧ st'.data_list = st.data_list) ∧
    readString " \"ab\"\n".toList e = ([97, 98, 0], e) := by
  refine ⟨?_, ?_, ?_, ?_⟩
  · intro pre body post hpre hbody hpost
    have hacc := readString_accepted pre body post e hpre hbody hpost
    refine ⟨hacc, by rw [hacc]; simp, ?_⟩
    intro st line he htail hlo hhi
    have hlen : ((body.map fun c : Char => Int.ofNat c.toNat) ++ [0]).length =
        body.length + 1 := by
      simp
    obtain ⟨d1, new, d2, d3, d4⟩ := creatDataNodes_spec
      ((body.map fun c : Char => Int.ofNat c.toNat) ++ [0]) st.dc st.data_list hlo
      (by rw [hlen]; exact hhi)
    refine ⟨new, ?_, by rw [d3, hlen], ?_, ?_⟩
    · rw [readNewData_string, htail, he, hacc]
      simp only [hlen, Nat.add_one_ne_zero, if_false]
      rw [d1, d2, hlen]
    · intro i c hc
      apply d4
      have hi : i < body.length := by
        by_contra hcon
        rw [List.getElem?_eq_none (Nat.le_of_not_lt hcon)] at hc
        exact Option.noConfusion hc
      rw [List.getElem?_append_left (by rw [List.length_map]; exact hi), List.getElem?_map,
        hc]
      rfl
    · apply d4
      rw [List.getElem?_append_right (by rw [List.length_map]), List.length_map,
        Nat.sub_self]
      rfl
  · intro tail
    exact ⟨readString_no_quote tail e, fun rest => readString_no_closing tail rest e,
      fun body post => readString_trailing tail body post e,
      fun body post => readString_unprintable tail body post e⟩
  · intro st st' line hr h
    exact readNewData_string_rejected st st' line hr h
  · exact readString_accepted " ".toList "ab".toList "\n".toList e (by decide) (by decide)
      (by decide)

theorem readString_contract_witness :
    readString " \"ab\"\n".toList "" = ([97, 98, 0], "") ∧
    readNewData ⟨3, [⟨0, 1⟩, ⟨1, 1⟩, ⟨2, 1⟩], ""⟩ STRING ".string \"ab\"\n".toList
      = some ⟨6, [⟨0, 1⟩, ⟨1, 1⟩, ⟨2, 1⟩, ⟨3, 97⟩, ⟨4, 98⟩, ⟨5, 0⟩], ""⟩ ∧
    readString " \"a\tb\"\n".toList "" = ([],
      "Invalid string instruction, a non-printable character was detected.") :=
  ⟨(readString_contract "").2.2.2, by decide,
    ((readString_contract "").2.1 " \"a\tb\"\n".toList).2.2.2 "a\tb".toList "\n".toList
      (by decide) (by decide) (by decide) (by decide)⟩

/-! ## Immediate operands that are not integer literals (C15) -/

/-- C15 on the code: `getOperandAddressingType` accepts `#2047` and `#-2048` and rejects
`#2048`, `#-2049` and `#abc`, as the claim says; but it rejects `#0` with the message that
the text after the hash is not a number (a line `mov #0, r1` is refused), and it accepts
`#5x` and `#5.0` as the immediate 5, with the same word 44 as `#5`. -/
theorem getOperandAddressingType_immediate_evaluated :
    (getOperandAddressingType "#2047".toList "").1 = IMMEDIATE_ADDRESSING ∧
    (getOperandAddressingType "#-2048".toList "").1 = IMMEDIATE_ADDRESSING ∧
    getOperandAddressingType "#2048".toList "" = (NO_TYPE, "#2048".toList,
      "Invalid operand, the number is too large or too small.") ∧
    getOperandAddressingType "#-2049".toList "" = (NO_TYPE, "#-2049".toList,
      "Invalid operand, the number is too large or too small.") ∧
    getOperandAddressingType "#abc".toList "" = (NO_TYPE, "#abc".toList,
      "Invalid operand, the character after the hash symbol is not a number.") ∧
    getOperandAddressingType "#0".toList "" = (NO_TYPE, "#0".toList,
      "Invalid operand, the character after the hash symbol is not a number.") ∧
    readNewInstruction ⟨101, [⟨100, 0, wordType.bmc 30724⟩], ""⟩ "mov #0, r1\n".toList 2
      = some ⟨101, [⟨100, 0, wordType.bmc 30724⟩],
          "Invalid operand, the character after the hash symbol is not a number."⟩ ∧
    getOperandAddressingType "#5x".toList "" = (IMMEDIATE_ADDRESSING, "#5x".toList, "") ∧
    getOperandAddressingType "#5.0".toList "" = (IMMEDIATE_ADDRESSING, "#5.0".toList, "") ∧
    getImmediateBMC "#5x".toList 0 = 44 ∧ getImmediateBMC "#5.0".toList 0 = 44 ∧
    getImmediateBMC "#5".toList 0 = 44 ∧
    readNewInstruction ⟨101, [⟨100, 0, wordType.bmc 30724⟩], ""⟩ "mov #5x, r1\n".toList 2
      = readNewInstruction ⟨101, [⟨100, 0, wordType.bmc 30724⟩], ""⟩
          "mov #5, r1\n".toList 2 := by
  decide

/-! ## The operands `PSW` and `PC` (C16) -/

/-- C16 on the code: `getOperandAddressingType` classifies `PSW` and `PC` as direct
register operands and `*PSW` and `*PC` as indirect register operands, without a message;
the lines `mov PSW, r1` and `clr *PC` are accepted and get the words of `mov r0, r1` and
`clr *r0`, because the register number is read with `atoi` from the text after the first
character. -/
theorem getOperandAddressingType_PSW_evaluated :
    getOperandAddressingType "PSW".toList "" =
      (DIRECT_REGISTER_ADDRESSING, "PSW".toList, "") ∧
    getOperandAddressingType "PC".toList "" =
      (DIRECT_REGISTER_ADDRESSING, "PC".toList, "") ∧
    getOperandAddressingType "*PSW".toList "" =
      (INDIRECT_REGISTER_ADDRESSING, "PSW".toList, "") ∧
    getOperandAddressingType "*PC".toList "" =
      (INDIRECT_REGISTER_ADDRESSING, "PC".toList, "") ∧
    isRegister "PSW".toList = 8 ∧ isRegister "PC".toList = 9 ∧
    readNewInstruction ⟨101, [⟨100, 0, wordType.bmc 30724⟩], ""⟩ "mov PSW, r1\n".toList 2
      = some ⟨103, [⟨100, 0, wordType.bmc 30724⟩, ⟨101, 0, wordType.bmc 1092⟩,
          ⟨102, 0, wordType.bmc 12⟩], ""⟩ ∧
    readNewInstruction ⟨101, [⟨100, 0, wordType.bmc 30724⟩], ""⟩ "mov PSW, r1\n".toList 2
      = readNewInstruction ⟨101, [⟨100, 0, wordType.bmc 30724⟩], ""⟩
          "mov r0, r1\n".toList 2 ∧
    readNewInstruction ⟨101, [⟨100, 0, wordType.bmc 30724⟩], ""⟩ "clr *PC\n".toList 2
      = some ⟨103, [⟨100, 0, wordType.bmc 30724⟩, ⟨101, 0, wordType.bmc 10276⟩,
          ⟨102, 0, wordType.bmc 4⟩], ""⟩ ∧
    readNewInstruction ⟨101, [⟨100, 0, wordType.bmc 30724⟩], ""⟩ "clr *PC\n".toList 2
      = readNewInstruction ⟨101, [⟨100, 0, wordType.bmc 30724⟩], ""⟩
          "clr *r0\n".toList 2 := by
  decide

/-! ## Entry resolution (C17) -/

/-- C17: `isEntriesDefined` keeps the length and the order of the list and leaves every
declaration that is not an entry as it is; an entry for whose name the list holds a
declaration that is not an entry gets the value of the first such declaration, name and
kind unchanged; an entry without one stays as it is and is reported with the value it
holds, its line number; the diagnostics are exactly these, in list order; and the function
returns TRUE exactly when every entry has such a declaration. -/
theorem isEntriesDefined_contract (decls : List declarationNode) :
    (isEntriesDefined decls).2.1.length = decls.length ∧
    (∀ (i : Nat) (e : declarationNode), decls[i]? = some e →
      (e.type ≠ ENTRY → (isEntriesDefined decls).2.1[i]? = some e) ∧
      (e.type = ENTRY → ∀ d : declarationNode,
        decls.find? (fun x => decide (e.label = x.label ∧ x.type ≠ ENTRY)) = some d →
        (isEntriesDefined decls).2.1[i]? = some ⟨d.decimal_address, e.label, e.type⟩) ∧
      (e.type = ENTRY →
        decls.find? (fun x => decide (e.label = x.label ∧ x.type ≠ ENTRY)) = none →
        (isEntriesDefined decls).2.1[i]? = some e ∧
        (e.decimal_address, "No definition was found for the entry: " ++ String.mk e.label)
          ∈ (isEntriesDefined decls).2.2)) ∧
    (isEntriesDefined decls).2.2 =
      (decls.filter fun e => decide (e.type = ENTRY) &&
        (decls.find? fun x => decide (e.label = x.label ∧ x.type ≠ ENTRY)).isNone).map
        (fun e => (e.decimal_address,
          "No definition was found for the entry: " ++ String.mk e.label)) ∧
    ((isEntriesDefined decls).1 = true ↔
      ∀ e ∈ decls, e.type = ENTRY → ∃ d ∈ decls, d.label = e.label ∧ d.type ≠ ENTRY) := by
  have herr := isEntriesDefined_errors decls
  have hget : ∀ (i : Nat) (e : declarationNode), decls[i]? = some e →
      (isEntriesDefined decls).2.1[i]? = some (resolveEntry decls e) := by
    intro i e he
    rw [isEntriesDefined_map, List.getElem?_map, he]
    rfl
  refine ⟨by rw [isEntriesDefined_map, List.length_map], ?_, herr, ?_⟩
  · intro i e he
    have hmem : e ∈ decls := List.getElem?_mem he
    refine ⟨fun hne => ?_, fun hen d hd => ?_, fun hen hnone => ?_⟩
    · rw [hget i e he]
      unfold resolveEntry
      rw [if_neg hne]
    · rw [hget i e he]
      unfold resolveEntry
      rw [if_pos hen, findDefinition_find, hd]
    · refine ⟨?_, ?_⟩
      · rw [hget i e he]
        unfold resolveEntry
        rw [if_pos hen, findDefinition_find, hnone]
      · rw [herr]
        apply List.mem_map.mpr
        refine ⟨e, List.mem_filter.mpr ⟨hmem, ?_⟩, rfl⟩
        rw [hnone]
        simp [hen]
  · exact isEntriesDefined_flag decls

theorem isEntriesDefined_contract_witness :
    isEntriesDefined [⟨2, ['X'], ENTRY⟩, ⟨5, ['Y'], ENTRY⟩, ⟨100, ['X'], CODE⟩]
      = (false, [⟨100, ['X'], ENTRY⟩, ⟨5, ['Y'], ENTRY⟩, ⟨100, ['X'], CODE⟩],
          [(5, "No definition was found for the entry: Y")]) ∧
    (isEntriesDefined [⟨2, ['X'], ENTRY⟩, ⟨5, ['Y'], ENTRY⟩, ⟨100, ['X'], CODE⟩]).2.1.length
      = 3 :=
  ⟨by decide,
    (isEntriesDefined_contract
      [⟨2, ['X'], ENTRY⟩, ⟨5, ['Y'], ENTRY⟩, ⟨100, ['X'], CODE⟩]).1⟩

/-! ## When the entry file is created (C18) -/

/-- C18 on the code: in a second pass that succeeds on lists in which no name has an Extern
declaration next to a declaration of another kind (what the first pass leaves), the entry
file is created exactly when some pending word of the instruction list names a label that
has an Entry declaration; and then it holds one line for every Entry declaration, in list
order, with the name and the resolved address. An Entry declaration that no instruction
refers to does not create the file: for the lines `.entry X` and `X: stop` both passes
succeed and no entry file is written, while with `X: jmp X` it is. -/
theorem entry_file_created (files : outputFiles) (garbage : Int) (counter : Int × Int)
    (ins : List instructionNode) (data : List dataNode) (decls : List declarationNode)
    (indicator : Bool) (r : secondPassResult)
    (hinv : externConsistent decls)
    (hrun : secondPass files garbage counter ins data decls indicator = some r)
    (hok : r.indicator = true) :
    (r.ent.isSome = true ↔ ∃ n ∈ ins, isEntryReference decls n = true) ∧
    (∀ lines, r.ent = some lines →
      lines.map (fun l => (l.name, l.address)) =
        ((isEntriesDefined decls).2.1.filter fun d => decide (d.type = ENTRY)).map
          (fun d => (d.label, d.decimal_address))) ∧
    assemble 0 [] [".entry X\n".toList, "X: stop\n".toList]
      = some ⟨true, [], [⟨100, 0, wordType.bmc 30724⟩],
          [⟨100, ['X'], ENTRY⟩, ⟨100, ['X'], CODE⟩],
          some ((1, 0), [(100, 30724)]), none, none, false⟩ ∧
    assemble 0 [] [".entry X\n".toList, "X: jmp X\n".toList]
      = some ⟨true, [], [⟨100, 0, wordType.bmc 18452⟩, ⟨101, 0, wordType.bmc 802⟩],
          [⟨100, ['X'], ENTRY⟩, ⟨100, ['X'], CODE⟩],
          some ((2, 0), [(100, 18452), (101, 802)]), none,
          some [⟨['X'], 1, 100⟩], false⟩ := by
  obtain ⟨out, fs, hf, hcase⟩ := secondPass_cases files garbage counter ins data decls
    indicator r hrun
  have hsame : isEntryReference (isEntriesDefined decls).2.1 = isEntryReference decls :=
    funext (isEntryReference_resolved decls)
  obtain ⟨hsome, hnone⟩ := fillingLoop_entry _ (externConsistent_resolved decls hinv) ins _
    out fs hf
  rw [hsame] at hsome hnone
  rcases hcase with ⟨_, ob, extl, fin, _, hr, _, _, hent⟩ | ⟨_, hr⟩ | ⟨_, hfalse, _⟩
  · subst hr
    simp only []
    refine ⟨?_, ?_, by decide, by decide⟩
    · by_cases hex : ∃ n ∈ ins, isEntryReference decls n = true
      · have h1 := hsome hex
        have hne : fs.ent_is_length.1 ≠ 0 := by rw [h1]; decide
        simp only [hex, iff_true]
        rw [if_pos hne, createEntFile_isSome]
        exact hent hne
      · have h0 := hnone hex
        simp only [h0, hex, iff_false]
        simp
    · intro lines hl
      split_ifs at hl with hc
      exact createEntFile_lines _ _ _ _ hl
  · subst hr
    simp at hok
  · rw [hfalse] at hok
    exact Bool.noConfusion hok

set_option maxRecDepth 100000 in
theorem entry_file_created_witness :
    secondPass ⟨true, true, true⟩ 0 (1, 0) [⟨100, 0, wordType.bmc 30724⟩] []
      [⟨100, ['X'], ENTRY⟩, ⟨100, ['X'], CODE⟩] true
      = some ⟨true, [], [⟨100, 0, wordType.bmc 30724⟩],
          [⟨100, ['X'], ENTRY⟩, ⟨100, ['X'], CODE⟩],
          some ((1, 0), [(100, 30724)]), none, none, false⟩ ∧
    ¬ ∃ n ∈ ([⟨100, 0, wordType.bmc 30724⟩] : List instructionNode),
      isEntryReference [⟨100, ['X'], ENTRY⟩, ⟨100, ['X'], CODE⟩] n = true :=
  ⟨by decide,
    fun h => absurd ((entry_file_created ⟨true, true, true⟩ 0 (1, 0) [⟨100, 0, wordType.bmc 30724⟩] []
      [⟨100, ['X'], ENTRY⟩, ⟨100, ['X'], CODE⟩] true
      ⟨true, [], [⟨100, 0, wordType.bmc 30724⟩],
          [⟨100, ['X'], ENTRY⟩, ⟨100, ['X'], CODE⟩],
          some ((1, 0), [(100, 30724)]), none, none, false⟩
      (by unfold externConsistent; decide) (by decide) rfl).1.mpr h) (by decide)⟩
/-! ## Labels without a declaration (C19) -/

set_option maxRecDepth 100000 in
/-- C19: on a list whose pending nodes hold a label name, `fillingMissingBMCofLabel` runs
to the end exactly when every label without a declaration has at most 44 characters, and
whenever it does, it returns FALSE exactly when some pending word names a label that no
declaration of any kind carries, and TRUE exactly when every pending label has a
declaration; it prints one diagnostic for each pending word with such a label, in list
order, with the source line the node holds. The message is written with `sprintf` into a
buffer of 110 characters that no check guards: for a label of 45 characters without a
declaration, as the first pass hands it over for the line `jmp YYY...Y`, the function
writes behind the end of the buffer and has no result. -/
theorem undeclared_label_reported (garbage : Int) (ins : List instructionNode)
    (decls : List declarationNode) (ent ext : Int × Int) :
    (pendingNamed ins → messagesFit decls ins →
      ∃ p, fillingMissingBMCofLabel garbage ins decls ent ext = some p) ∧
    (¬ messagesFit decls ins → fillingMissingBMCofLabel garbage ins decls ent ext = none) ∧
    (∀ (out : List instructionNode) (fs : fillState),
      fillingMissingBMCofLabel garbage ins decls ent ext = some (out, fs) →
      (fs.no_error = false ↔
        ∃ n ∈ ins, n.line ≠ 0 ∧ ∃ label, n.type = wordType.name label ∧
          ∀ d ∈ decls, d.label ≠ label) ∧
      (fs.no_error = true ↔
        ∀ n ∈ ins, n.line ≠ 0 → ∀ label, n.type = wordType.name label →
          ∃ d ∈ decls, d.label = label) ∧
      fs.errors = (ins.filter (isUndeclaredReference decls)).map
        (fun n => (toShort (Int.ofNat n.line), "The label: " ++ String.mk (labelOf n) ++
          " is illegal, it was not defined or declared as extern."))) ∧
    (firstPass [] [("jmp " ++ String.mk (List.replicate 45 'Y') ++ "\n").toList]
        = some ⟨true, (2, 0), [⟨100, 0, wordType.bmc 18452⟩,
            ⟨101, 1, wordType.name (List.replicate 45 'Y')⟩], [], [], []⟩ ∧
      fillingMissingBMCofLabel 0 [⟨100, 0, wordType.bmc 18452⟩,
          ⟨101, 1, wordType.name (List.replicate 45 'Y')⟩] [] (0, 0) (0, 0) = none ∧
      fillingMissingBMCofLabel 0 [⟨100, 0, wordType.bmc 18452⟩,
          ⟨101, 1, wordType.name (List.replicate 44 'Y')⟩] [] (0, 0) (0, 0)
        = some ([⟨100, 0, wordType.bmc 18452⟩, ⟨101, 0, wordType.bmc 2⟩],
            ⟨0, (0, 0), (0, 0), false,
              [(1, "The label: " ++ String.mk (List.replicate 44 'Y') ++
                " is illegal, it was not defined or declared as extern.")]⟩)) := by
  refine ⟨fun hwf hfit => ?_, fun hfit => ?_, fun out fs hrun => ?_, by decide, by decide,
    by decide⟩
  · exact fillingLoop_returns decls ins hwf hfit _
  · exact fillingLoop_overflow decls ins hfit _
  · obtain ⟨h1, h2⟩ := fillingLoop_found decls ins _ out fs hrun
    simp only [Bool.true_and, List.nil_append] at h1 h2
    have hfalse : fs.no_error = false ↔
        ∃ n ∈ ins, n.line ≠ 0 ∧ ∃ label, n.type = wordType.name label ∧
          ∀ d ∈ decls, d.label ≠ label := by
      rw [h1, List.all_eq_false]
      constructor
      · rintro ⟨n, hn, hc⟩
        have hr : isUndeclaredReference decls n = true := by simpa using hc
        exact ⟨n, hn, (isUndeclaredReference_iff decls n).mp hr⟩
      · rintro ⟨n, hn, hc⟩
        refine ⟨n, hn, ?_⟩
        rw [(isUndeclaredReference_iff decls n).mpr hc]
        decide
    refine ⟨hfalse, ?_, h2⟩
    constructor
    · intro ht n hn hline label hlab
      by_contra hno
      have : fs.no_error = false :=
        hfalse.mpr ⟨n, hn, hline, label, hlab, fun d hd hdl => hno ⟨d, hd, hdl⟩⟩
      rw [ht] at this
      exact Bool.noConfusion this
    · intro hall
      cases hne : fs.no_error with
      | true => rfl
      | false =>
        obtain ⟨n, hn, hline, label, hlab, hno⟩ := hfalse.mp hne
        obtain ⟨d, hd, hdl⟩ := hall n hn hline label hlab
        exact absurd hdl (hno d hd)

set_option maxRecDepth 100000 in
theorem undeclared_label_reported_witness :
    fillingMissingBMCofLabel 0
      [⟨100, 0, wordType.bmc 18452⟩, ⟨101, 7, wordType.name ['Y']⟩]
      [⟨100, ['X'], CODE⟩] (0, 0) (0, 0)
      = some ([⟨100, 0, wordType.bmc 18452⟩, ⟨101, 0, wordType.bmc 2⟩],
          ⟨0, (0, 0), (0, 0), false,
            [(7, "The label: Y is illegal, it was not defined or declared as extern.")]⟩) ∧
    ∃ n ∈ ([⟨100, 0, wordType.bmc 18452⟩, ⟨101, 7, wordType.name ['Y']⟩] :
        List instructionNode),
      n.line ≠ 0 ∧ ∃ label, n.type = wordType.name label ∧
        ∀ d ∈ ([⟨100, ['X'], CODE⟩] : List declarationNode), d.label ≠ label :=
  ⟨by decide,
    (((undeclared_label_reported 0
      [⟨100, 0, wordType.bmc 18452⟩, ⟨101, 7, wordType.name ['Y']⟩]
      [⟨100, ['X'], CODE⟩] (0, 0) (0, 0)).2.2.1
      [⟨100, 0, wordType.bmc 18452⟩, ⟨101, 0, wordType.bmc 2⟩]
      ⟨0, (0, 0), (0, 0), false,
        [(7, "The label: Y is illegal, it was not defined or declared as extern.")]⟩
      (by decide)).1).mp rfl⟩
/-! ## Success and failure of `secondPass` (C20) -/

set_option maxRecDepth 100000 in
/-- C20: on a well-formed instruction list `secondPass` runs to the end exactly when every
label without a declaration has at most 44 characters, and whenever it does, it returns
TRUE or FATAL_ERROR exactly when the indicator handed over by the first pass is TRUE, every
Entry declaration has a declaration of its name that is not an entry, and every pending
word names a label that has a declaration; FATAL_ERROR is returned only when an output file
cannot be created. On success the object file is created, with the header and the data
words after the code words; on FALSE none of the three files is created. The diagnostics
printed are those of `isEntriesDefined` followed by those of `fillingMissingBMCofLabel`.
The message of a label without a declaration is written with `sprintf` into a buffer of 110
characters that no check guards: for the source line `jmp YYY...Y` with a label of 45
characters, which the first pass accepts, `secondPass` writes behind the end of the buffer
and returns nothing, where a label of 44 characters gives FALSE and the diagnostic. -/
theorem secondPass_success_iff (files : outputFiles) (garbage : Int) (counter : Int × Int)
    (ins : List instructionNode) (data : List dataNode) (decls : List declarationNode)
    (indicator : Bool) :
    (codeWellFormed ins → messagesFit decls ins →
      ∃ r, secondPass files garbage counter ins data decls indicator = some r) ∧
    (¬ messagesFit decls ins →
      secondPass files garbage counter ins data decls indicator = none) ∧
    (∀ r : secondPassResult,
      secondPass files garbage counter ins data decls indicator = some r →
      ((r.indicator = true ∨ r.fatal = true) ↔
        (indicator = true ∧
          (∀ e ∈ decls, e.type = ENTRY → ∃ d ∈ decls, d.label = e.label ∧ d.type ≠ ENTRY) ∧
          (∀ n ∈ ins, n.line ≠ 0 → ∀ label, n.type = wordType.name label →
            ∃ d ∈ decls, d.label = label))) ∧
      (r.indicator = true →
        r.fatal = false ∧
        ∃ code : List (Int × Int),
          r.ob = some (counter, code ++ data.map (fun x => (x.dc, x.bmc))) ∧
          code.length = ins.length) ∧
      (r.indicator = false → r.fatal = false →
        r.ob = none ∧ r.ext = none ∧ r.ent = none) ∧
      (r.fatal = true →
        r.indicator = false ∧ r.ent = none ∧
        (files.ob = false ∨ files.ext = false ∨ files.ent = false)) ∧
      ((r.indicator = true ∨ r.fatal = true) ↔ indicator = true ∧ r.errors = []) ∧
      r.errors = (isEntriesDefined decls).2.2 ++
        (ins.filter (isUndeclaredReference decls)).map
          (fun n => (toShort (Int.ofNat n.line), "The label: " ++ String.mk (labelOf n) ++
            " is illegal, it was not defined or declared as extern."))) ∧
    (firstPass [] [("jmp " ++ String.mk (List.replicate 45 'Y') ++ "\n").toList]
        = some ⟨true, (2, 0), [⟨100, 0, wordType.bmc 18452⟩,
            ⟨101, 1, wordType.name (List.replicate 45 'Y')⟩], [], [], []⟩ ∧
      assemble 0 [] [("jmp " ++ String.mk (List.replicate 45 'Y') ++ "\n").toList] = none ∧
      assemble 0 [] [("jmp " ++ String.mk (List.replicate 44 'Y') ++ "\n").toList]
        = some ⟨false, [(1, "The label: " ++ String.mk (List.replicate 44 'Y') ++
              " is illegal, it was not defined or declared as extern.")],
            [⟨100, 0, wordType.bmc 18452⟩, ⟨101, 0, wordType.bmc 2⟩], [],
            none, none, none, false⟩) := by
  refine ⟨secondPass_returns files garbage counter ins data decls indicator,
    secondPass_overflow files garbage counter ins data decls indicator, fun r hrun => ?_,
    by decide, by decide, by decide⟩
  obtain ⟨out, fs, hf, hcase⟩ := secondPass_cases files garbage counter ins data decls indicator
    r hrun
  have hentries_err := isEntriesDefined_errors decls
  have hentries := isEntriesDefined_flag decls
  have hflag : (isEntriesDefined decls).1 = (isEntriesDefined decls).2.2.isEmpty := rfl
  obtain ⟨hno, herrs⟩ := fillingLoop_found _ ins _ out fs hf
  simp only [Bool.true_and, List.nil_append] at hno herrs
  have hsame : isUndeclaredReference (isEntriesDefined decls).2.1 =
      isUndeclaredReference decls := funext (isUndeclaredReference_resolved decls)
  rw [hsame] at hno herrs
  have hlabels : fs.no_error = true ↔
      ∀ n ∈ ins, n.line ≠ 0 → ∀ label, n.type = wordType.name label →
        ∃ d ∈ decls, d.label = label := by
    rw [hno, List.all_eq_true]
    constructor
    · intro h n hn hline label hlab
      have hr := h n hn
      by_contra hc
      have : isUndeclaredReference decls n = true :=
        (isUndeclaredReference_iff decls n).mpr
          ⟨hline, label, hlab, fun d hd hdl => hc ⟨d, hd, hdl⟩⟩
      rw [this] at hr
      exact absurd hr (by decide)
    · intro h n hn
      cases hc : isUndeclaredReference decls n with
      | false => rfl
      | true =>
        obtain ⟨hline, label, hlab, hnone⟩ := (isUndeclaredReference_iff decls n).mp hc
        obtain ⟨d, hd, hdl⟩ := h n hn hline label hlab
        exact absurd hdl (hnone d hd)
  have hnoerr : fs.no_error = true ↔ fs.errors = [] := by
    rw [hno, herrs, List.map_eq_nil_iff, List.filter_eq_nil_iff, List.all_eq_true]
    constructor
    · intro h n hn hc
      have := h n hn
      rw [hc] at this
      exact absurd this (by decide)
    · intro h n hn
      cases hc : isUndeclaredReference decls n with
      | false => rfl
      | true => exact absurd hc (h n hn)
  have hcond : (indicator && (isEntriesDefined decls).1 && fs.no_error) = true ↔
      (indicator = true ∧
        (∀ e ∈ decls, e.type = ENTRY → ∃ d ∈ decls, d.label = e.label ∧ d.type ≠ ENTRY) ∧
        (∀ n ∈ ins, n.line ≠ 0 → ∀ label, n.type = wordType.name label →
          ∃ d ∈ decls, d.label = label)) := by
    rw [Bool.and_eq_true, Bool.and_eq_true, hentries, hlabels, and_assoc]
  have hcond2 : (indicator && (isEntriesDefined decls).1 && fs.no_error) = true ↔
      (indicator = true ∧ (isEntriesDefined decls).2.2 ++ fs.errors = []) := by
    rw [Bool.and_eq_true, Bool.and_eq_true, hflag, List.isEmpty_iff, hnoerr,
      List.append_eq_nil, and_assoc]
  rcases hcase with ⟨hc, ob, extl, fin, hp, hr, _, _, _⟩ | ⟨hc, hr⟩ |
    ⟨hc, hfalse, hfatal, hent, herr, hfile⟩
  · subst hr
    have haddr := printInstructions_length _ out ob extl fin hp
    have hlen := fillingLoop_length _ ins _ out fs hf
    refine ⟨?_, ?_, ?_, ?_, ?_, ?_⟩
    · simp only [true_or, true_iff]
      exact hcond.mp hc
    · intro _
      exact ⟨rfl, ob, rfl, by rw [haddr, hlen]⟩
    · intro h
      exact Bool.noConfusion h
    · intro h
      exact Bool.noConfusion h
    · simp only [true_or, true_iff]
      exact hcond2.mp hc
    · simp only
      rw [herrs]
  · subst hr
    refine ⟨?_, ?_, ?_, ?_, ?_, ?_⟩
    · simp only [Bool.false_eq_true, or_self, false_iff]
      intro h
      rw [hcond.mpr h] at hc
      exact Bool.noConfusion hc
    · intro h
      exact Bool.noConfusion h
    · intro _ _
      exact ⟨rfl, rfl, rfl⟩
    · intro h
      exact Bool.noConfusion h
    · simp only [Bool.false_eq_true, or_self, false_iff]
      intro h
      rw [hcond2.mpr h] at hc
      exact Bool.noConfusion hc
    · simp only
      rw [herrs]
  · refine ⟨?_, ?_, ?_, ?_, ?_, ?_⟩
    · exact ⟨fun _ => hcond.mp hc, fun _ => Or.inr hfatal⟩
    · intro h
      rw [hfalse] at h
      exact Bool.noConfusion h
    · intro _ h
      rw [hfatal] at h
      exact Bool.noConfusion h
    · intro _
      refine ⟨hfalse, hent, ?_⟩
      rcases hfile with h | h | h
      · exact Or.inl h
      · exact Or.inr (Or.inl h.2)
      · exact Or.inr (Or.inr h.2)
    · rw [herr]
      exact ⟨fun _ => hcond2.mp hc, fun _ => Or.inr hfatal⟩
    · rw [herr, herrs]

set_option maxRecDepth 100000 in
theorem secondPass_success_iff_witness :
    secondPass ⟨true, true, true⟩ 0 (2, 0)
      [⟨100, 0, wordType.bmc 18452⟩, ⟨101, 7, wordType.name ['Y']⟩] []
      [⟨100, ['X'], CODE⟩] true
      = some ⟨false,
          [(7, "The label: Y is illegal, it was not defined or declared as extern.")],
          [⟨100, 0, wordType.bmc 18452⟩, ⟨101, 0, wordType.bmc 2⟩], [⟨100, ['X'], CODE⟩],
          none, none, none, false⟩ ∧
    ¬ (true = true ∧
      (∀ e ∈ ([⟨100, ['X'], CODE⟩] : List declarationNode), e.type = ENTRY →
        ∃ d ∈ ([⟨100, ['X'], CODE⟩] : List declarationNode),
          d.label = e.label ∧ d.type ≠ ENTRY) ∧
      (∀ n ∈ ([⟨100, 0, wordType.bmc 18452⟩, ⟨101, 7, wordType.name ['Y']⟩] :
          List instructionNode), n.line ≠ 0 → ∀ label, n.type = wordType.name label →
        ∃ d ∈ ([⟨100, ['X'], CODE⟩] : List declarationNode), d.label = label)) :=
  ⟨by decide,
    fun h => absurd (((secondPass_success_iff ⟨true, true, true⟩ 0 (2, 0)
      [⟨100, 0, wordType.bmc 18452⟩, ⟨101, 7, wordType.name ['Y']⟩] []
      [⟨100, ['X'], CODE⟩] true).2.2.1
      ⟨false, [(7, "The label: Y is illegal, it was not defined or declared as extern.")],
        [⟨100, 0, wordType.bmc 18452⟩, ⟨101, 0, wordType.bmc 2⟩], [⟨100, ['X'], CODE⟩],
        none, none, none, false⟩ (by decide)).1.mpr h) (by decide)⟩
/-! ## Extern against the other kinds (C21) -/

set_option maxRecDepth 100000 in
/-- C21: in the declarations a first pass hands over, with or without diagnostics, a name
that has an Extern declaration has no Data, String, Code or Entry declaration. The second
of two such lines is reported whichever comes first: `X: stop` after `.extern X`,
`.extern X` after `X: stop`, `.entry X` after `.extern X` and `.extern X` after
`.entry X` each give a diagnostic on line 2 and no declaration. -/
theorem extern_exclusive (macros : List macroNode) (lines : List (List Char))
    (p : firstPassResult) (hrun : firstPass macros lines = some p) :
    (∀ x ∈ p.declarations_list, ∀ y ∈ p.declarations_list, x.label = y.label →
      x.type = EXTERN →
      y.type ≠ DATA ∧ y.type ≠ STRING ∧ y.type ≠ CODE ∧ y.type ≠ ENTRY) ∧
    (firstPass [] [".extern X\n".toList, "X: stop\n".toList]).map
        (fun r => (r.indicator, r.declarations_list, r.errors))
      = some (false, [⟨1, ['X'], EXTERN⟩],
          [(2, "Invalid label, the label: X has already been declared as extern.")]) ∧
    (firstPass [] ["X: stop\n".toList, ".extern X\n".toList]).map
        (fun r => (r.indicator, r.declarations_list, r.errors))
      = some (false, [⟨100, ['X'], CODE⟩],
          [(2, "Invalid label, the label: X has already been defined in the current file.")]) ∧
    (firstPass [] [".extern X\n".toList, ".entry X\n".toList]).map
        (fun r => (r.indicator, r.declarations_list, r.errors))
      = some (false, [⟨1, ['X'], EXTERN⟩],
          [(2, "Invalid label, the label: X has already been declared as extern.")]) ∧
    (firstPass [] [".entry X\n".toList, ".extern X\n".toList]).map
        (fun r => (r.indicator, r.declarations_list, r.errors))
      = some (false, [⟨1, ['X'], ENTRY⟩],
          [(2, "Invalid label, the label: X has already been declared as an entry.")]) := by
  refine ⟨fun x hx y hy hl ht => ?_, by decide, by decide, by decide, by decide⟩
  have h := firstPass_externConsistent macros lines p hrun x hx y hy hl ht
  rw [h]
  decide

set_option maxRecDepth 100000 in
/-- The instance of C21 for a file that declares `X` external and defines `Y`. -/
theorem extern_exclusive_witness :
    firstPass [] [".extern X\n".toList, "Y: stop\n".toList]
      = some ⟨true, (1, 0), [⟨100, 0, wordType.bmc 30724⟩], [],
          [⟨1, ['X'], EXTERN⟩, ⟨100, ['Y'], CODE⟩], []⟩ ∧
    ∀ x ∈ [(⟨1, ['X'], EXTERN⟩ : declarationNode), ⟨100, ['Y'], CODE⟩],
      ∀ y ∈ [(⟨1, ['X'], EXTERN⟩ : declarationNode), ⟨100, ['Y'], CODE⟩],
      x.label = y.label → x.type = EXTERN →
      y.type ≠ DATA ∧ y.type ≠ STRING ∧ y.type ≠ CODE ∧ y.type ≠ ENTRY :=
  ⟨by decide,
    (extern_exclusive [] [".extern X\n".toList, "Y: stop\n".toList]
      ⟨true, (1, 0), [⟨100, 0, wordType.bmc 30724⟩], [],
        [⟨1, ['X'], EXTERN⟩, ⟨100, ['Y'], CODE⟩], []⟩ (by decide)).1⟩


/-! ## Repeated declarations of a name (C22) -/

set_option maxRecDepth 100000 in
/-- C22: in the declarations a first pass hands over, with or without diagnostics, two
declarations of one name that are not entries are both Extern: a name has at most one
Data, String or Code declaration, and none beside an Extern declaration. A second
definition of a name is reported (`X: .data 5` after `X: stop`), and a name may have any
number of Entry declarations (two lines `.entry X` before `X: stop` give no diagnostic). -/
theorem single_definition (macros : List macroNode) (lines : List (List Char))
    (p : firstPassResult) (hrun : firstPass macros lines = some p) :
    (∀ (i j : Nat) (x y : declarationNode), i < j →
      p.declarations_list[i]? = some x → p.declarations_list[j]? = some y →
      x.label = y.label → x.type ≠ ENTRY → y.type ≠ ENTRY →
      x.type = EXTERN ∧ y.type = EXTERN) ∧
    (firstPass [] ["X: stop\n".toList, "X: .data 5\n".toList]).map
        (fun r => (r.indicator, r.declarations_list, r.errors))
      = some (false, [⟨100, ['X'], CODE⟩],
          [(2, "Invalid label, the label: X has already been defined in the current file.")]) ∧
    (firstPass [] [".entry X\n".toList, ".entry X\n".toList, "X: stop\n".toList]).map
        (fun r => (r.indicator, r.declarations_list, r.errors))
      = some (true, [⟨1, ['X'], ENTRY⟩, ⟨2, ['X'], ENTRY⟩, ⟨100, ['X'], CODE⟩], []) := by
  refine ⟨fun i j x y hij hx hy => ?_, by decide, by decide⟩
  have h := firstPass_definedOnce macros lines p hrun
  unfold definedOnce at h
  rw [List.pairwise_iff_getElem] at h
  obtain ⟨hi, rfl⟩ := List.getElem?_eq_some.mp hx
  obtain ⟨hj, rfl⟩ := List.getElem?_eq_some.mp hy
  exact h i j hi hj hij

set_option maxRecDepth 100000 in
/-- The instance of C22 for a file with two Entry declarations and one definition of
`X`. -/
theorem single_definition_witness :
    firstPass [] [".entry X\n".toList, ".entry X\n".toList, "X: stop\n".toList]
      = some ⟨true, (1, 0), [⟨100, 0, wordType.bmc 30724⟩], [],
          [⟨1, ['X'], ENTRY⟩, ⟨2, ['X'], ENTRY⟩, ⟨100, ['X'], CODE⟩], []⟩ ∧
    ∀ (i j : Nat) (x y : declarationNode), i < j →
      [(⟨1, ['X'], ENTRY⟩ : declarationNode), ⟨2, ['X'], ENTRY⟩, ⟨100, ['X'], CODE⟩][i]?
        = some x →
      [(⟨1, ['X'], ENTRY⟩ : declarationNode), ⟨2, ['X'], ENTRY⟩, ⟨100, ['X'], CODE⟩][j]?
        = some y →
      x.label = y.label → x.type ≠ ENTRY → y.type ≠ ENTRY →
      x.type = EXTERN ∧ y.type = EXTERN :=
  ⟨by decide,
    (single_definition [] [".entry X\n".toList, ".entry X\n".toList, "X: stop\n".toList]
      ⟨true, (1, 0), [⟨100, 0, wordType.bmc 30724⟩], [],
        [⟨1, ['X'], ENTRY⟩, ⟨2, ['X'], ENTRY⟩, ⟨100, ['X'], CODE⟩], []⟩ (by decide)).1⟩

set_option maxRecDepth 100000 in
/-- Two lines `.extern X` pass without a diagnostic and leave two Extern declarations of
`X`, which are two declarations of one name that are not entries. -/
theorem single_definition_counterexample :
    firstPass [] [".extern X\n".toList, ".extern X\n".toList]
      = some ⟨true, (0, 0), [], [], [⟨1, ['X'], EXTERN⟩, ⟨2, ['X'], EXTERN⟩], []⟩ := by
  decide

/-! ## The rules for a label name (C23) -/

/-- C23: a name of at most 31 characters passes `checkLabelName` exactly when it is within
the rules (not empty, first character alphabetic, all characters alphanumeric, no opcode,
register or directive keyword, no macro name); `getLabelName` accepts the label before a
colon exactly when the text before the colon is within the rules, which include the bound
of 31 characters, a white character follows the colon and the line goes on;
`readNewDeclaration` accepts the name after `.entry` or `.extern` exactly when the name is
within the rules, nothing follows it and it does not clash with a declaration; and every
declaration of a first pass without diagnostics has a name within the rules. The keyword
tables are compared with the case of the letters: `MOV` is a label name, `mov` is not. -/
theorem label_name_rules (macros : List macroNode) :
    (∀ (name : List Char) (e : String), name.length ≤ 31 →
      ((checkLabelName name macros e).1 = true ↔ labelRules macros name)) ∧
    (∀ line : List Char,
      (getLabelName line "" macros).2.2.2 = "" ↔
        labelRules macros (line.takeWhile fun c => c != ':') ∧
        (∃ ch, line.get? ((line.takeWhile fun c => c != ':').length + 1) = some ch ∧
          isspace ch = true) ∧
        isWhiteSpaceString (skipWord line) = false) ∧
    (∀ (st : declarationState) (line_num : Nat), st.error_str = "" →
      ((readNewDeclaration st line_num macros).error_str = "" ↔
        (getInstructionType st.line "").1 ≠ NO_TYPE ∧
        labelRules macros (declaredName st.line) ∧
        isWhiteSpaceString (afterDeclaredName st.line) = true ∧
        (checkIfLabelNameAlreadyDeclared (declaredName st.line)
          (getInstructionType st.line "").1 st.declarations_list "").1 = true)) ∧
    (∀ (lines : List (List Char)) (p : firstPassResult),
      firstPass macros lines = some p → p.indicator = true →
      ∀ d ∈ p.declarations_list, labelRules macros d.label) ∧
    (checkLabelName "MOV".toList [] "").1 = true ∧
    (checkLabelName "mov".toList [] "").1 = false ∧
    (checkLabelName "m1".toList [⟨"m1".toList, []⟩] "").1 = false := by
  have hcheck : ∀ (name : List Char) (e : String), name.length ≤ 31 →
      ((checkLabelName name macros e).1 = true ↔ labelRules macros name) := by
    intro name e hlen
    constructor
    · exact labelRules_of_check name macros e hlen
    · intro h
      exact (checkLabelName_iff name macros e).mpr h.2.2
  refine ⟨hcheck, fun line => ?_, fun st line_num hclean => ?_,
    fun lines p hrun hi => firstPass_namesChecked macros lines p hrun hi,
    by decide, by decide, by decide⟩
  · rw [(getLabelName_accepted line macros).1]
    constructor
    · rintro ⟨a1, a2, a3, a4⟩
      exact ⟨(hcheck _ "" a1).mp a2, a3, a4⟩
    · rintro ⟨a1, a3, a4⟩
      exact ⟨a1.2.1, (hcheck _ "" a1.2.1).mpr a1, a3, a4⟩
  · rw [(readNewDeclaration_accepted st line_num macros).1]
    constructor
    · rintro ⟨_, a2, a3, a4, a5, a6⟩
      exact ⟨a2, (hcheck _ "" a3).mp a5, a4, a6⟩
    · rintro ⟨a2, a1, a4, a6⟩
      exact ⟨hclean, a2, a1.2.1, a4, (hcheck _ "" a1.2.1).mpr a1, a6⟩

set_option maxRecDepth 100000 in
/-- The instance of C23 for the file `.entry LOOP`, `LOOP: stop`: both declarations hold
the name `LOOP`, which is within the rules. -/
theorem label_name_rules_witness :
    firstPass [] [".entry LOOP\n".toList, "LOOP: stop\n".toList]
      = some ⟨true, (1, 0), [⟨100, 0, wordType.bmc 30724⟩], [],
          [⟨1, "LOOP".toList, ENTRY⟩, ⟨100, "LOOP".toList, CODE⟩], []⟩ ∧
    ∀ d ∈ [(⟨1, "LOOP".toList, ENTRY⟩ : declarationNode), ⟨100, "LOOP".toList, CODE⟩],
      labelRules [] d.label :=
  ⟨by decide,
    (label_name_rules []).2.2.2.1 [".entry LOOP\n".toList, "LOOP: stop\n".toList]
      ⟨true, (1, 0), [⟨100, 0, wordType.bmc 30724⟩], [],
        [⟨1, "LOOP".toList, ENTRY⟩, ⟨100, "LOOP".toList, CODE⟩], []⟩ (by decide) rfl⟩

/-! ## Pending words (C30) -/

/-- C30: a line that meets what `readNewInstruction` asks for (an opcode of the table, the
number of operands the opcode takes, each of a type the opcode admits), read at a line
number that is not zero, is read to the end without a message, and in the words built for
it the first word is final with the A bit set; the word of an operand that stands alone in
its word is pending, with the text of the operand as label name and the line number,
exactly when the operand is Direct, and final with the A bit set when the operand is
Immediate or a register; the word two registers share is final with the A bit set. The
machine code prepared for a Direct operand is zero: no bit is set. -/
theorem pending_iff_direct (st : instructionState) (line : List Char)
    (line_num : Nat) (hclean : st.error_str = "") (hacc : instructionAccepted line)
    (hline : line_num ≠ 0) :
    ∃ st', readNewInstruction st line line_num = some st' ∧ st'.error_str = "" ∧
    (∃ fw, isAbsolute fw = true ∧
      (¬ (getOpcode line).1 ≤ LEA → ¬ (getOpcode line).1 ≤ JSR →
        st'.instructions_list = st.instructions_list ++ [⟨st.ic, 0, wordType.bmc fw⟩]) ∧
      (¬ (getOpcode line).1 ≤ LEA → (getOpcode line).1 ≤ JSR →
        ∃ n2, st'.instructions_list =
            st.instructions_list ++ [⟨st.ic, 0, wordType.bmc fw⟩, n2] ∧
          operandNode (lineTarget line) line_num n2) ∧
      ((getOpcode line).1 ≤ LEA →
        (lineSource line).1 ≥ INDIRECT_REGISTER_ADDRESSING ∧
          (lineTarget line).1 ≥ INDIRECT_REGISTER_ADDRESSING →
        ∃ ic2 v, isAbsolute v = true ∧ st'.instructions_list =
          st.instructions_list ++ [⟨st.ic, 0, wordType.bmc fw⟩, ⟨ic2, 0, wordType.bmc v⟩]) ∧
      ((getOpcode line).1 ≤ LEA →
        ¬ ((lineSource line).1 ≥ INDIRECT_REGISTER_ADDRESSING ∧
          (lineTarget line).1 ≥ INDIRECT_REGISTER_ADDRESSING) →
        ∃ n2 n3, st'.instructions_list =
            st.instructions_list ++ [⟨st.ic, 0, wordType.bmc fw⟩, n2, n3] ∧
          operandNode (lineSource line) line_num n2 ∧
          operandNode (lineTarget line) line_num n3)) ∧
    (∀ (o : Int × List Char × String) (n : instructionNode), operandNode o line_num n →
      (n.line ≠ 0 ↔ o.1 = DIRECT_ADDRESSING) ∧
      (o.1 = DIRECT_ADDRESSING → n.line = line_num ∧ n.type = wordType.name o.2.1) ∧
      (o.1 ≠ DIRECT_ADDRESSING →
        n.line = 0 ∧ ∃ v, n.type = wordType.bmc v ∧ isAbsolute v = true)) ∧
    (∀ ( is_source : Bool) (operand : List Char),
      operandBMC is_source DIRECT_ADDRESSING operand = some 0) := by
  obtain ⟨st', hrun, haccepted⟩ := readNewInstruction_produces st line line_num hclean hacc
  obtain ⟨fw, h0, h1, h2, h3, h4⟩ :=
    readNewInstruction_words st st' line line_num hclean hrun haccepted
  refine ⟨st', hrun, haccepted, ⟨fw, isAbsolute_of_lowBits fw h0, h1, h2, fun a b => ?_, h4⟩,
    fun o n hn => ?_, fun is_source operand => ?_⟩
  · obtain ⟨ic2, v, hv, hl⟩ := h3 a b
    exact ⟨ic2, v, isAbsolute_of_lowBits v hv, hl⟩
  · rcases hn with ⟨a1, a2, a3⟩ | ⟨a1, a2, v, a3, a4⟩
    · refine ⟨⟨fun _ => a1, fun _ => by rw [a2]; exact hline⟩, fun _ => ⟨a2, a3⟩,
        fun h => absurd a1 h⟩
    · refine ⟨⟨fun h => absurd a2 h, fun h => absurd h a1⟩, fun h => absurd h a1,
        fun _ => ⟨a2, v, a3, isAbsolute_of_lowBits v a4⟩⟩
  · unfold operandBMC
    simp only []
    rw [if_neg (show ¬ DIRECT_ADDRESSING = IMMEDIATE_ADDRESSING from by decide),
      if_neg (show ¬ DIRECT_ADDRESSING ≥ INDIRECT_REGISTER_ADDRESSING from by decide)]

set_option maxRecDepth 100000 in
/-- The instances of C30 for the lines `mov X, r1`, `jmp X`, `prn #5` and `stop` read as
line 7 at address 100: the words of `X` are pending, every other word is final. -/
theorem pending_iff_direct_witness :
    (readNewInstruction ⟨100, [], ""⟩ "mov X, r1\n".toList 7
        = some ⟨103, [⟨100, 0, wordType.bmc 324⟩, ⟨101, 7, wordType.name ['X']⟩,
            ⟨102, 0, wordType.bmc 12⟩], ""⟩ ∧
      (lineSource "mov X, r1\n".toList).1 = DIRECT_ADDRESSING ∧
      (lineTarget "mov X, r1\n".toList).1 = DIRECT_REGISTER_ADDRESSING ∧
      ∃ st', readNewInstruction ⟨100, [], ""⟩ "mov X, r1\n".toList 7 = some st' ∧
        st'.error_str = "") ∧
    (readNewInstruction ⟨100, [], ""⟩ "jmp X\n".toList 7
        = some ⟨102, [⟨100, 0, wordType.bmc 18452⟩, ⟨101, 7, wordType.name ['X']⟩], ""⟩ ∧
      (lineTarget "jmp X\n".toList).1 = DIRECT_ADDRESSING ∧
      ∃ st', readNewInstruction ⟨100, [], ""⟩ "jmp X\n".toList 7 = some st' ∧
        st'.error_str = "") ∧
    (readNewInstruction ⟨100, [], ""⟩ "prn #5\n".toList 7
        = some ⟨102, [⟨100, 0, wordType.bmc 24588⟩, ⟨101, 0, wordType.bmc 44⟩], ""⟩ ∧
      (lineTarget "prn #5\n".toList).1 = IMMEDIATE_ADDRESSING ∧
      ∃ st', readNewInstruction ⟨100, [], ""⟩ "prn #5\n".toList 7 = some st' ∧
        st'.error_str = "") ∧
    (readNewInstruction ⟨100, [], ""⟩ "stop\n".toList 7
        = some ⟨101, [⟨100, 0, wordType.bmc 30724⟩], ""⟩ ∧
      ∃ st', readNewInstruction ⟨100, [], ""⟩ "stop\n".toList 7 = some st' ∧
        st'.error_str = "") :=
  ⟨⟨by decide, by decide, by decide,
      (pending_iff_direct ⟨100, [], ""⟩ "mov X, r1\n".toList 7 rfl
        (by unfold instructionAccepted; decide) (by decide)).imp fun _ h => ⟨h.1, h.2.1⟩⟩,
    ⟨by decide, by decide,
      (pending_iff_direct ⟨100, [], ""⟩ "jmp X\n".toList 7 rfl
        (by unfold instructionAccepted; decide) (by decide)).imp fun _ h => ⟨h.1, h.2.1⟩⟩,
    ⟨by decide, by decide,
      (pending_iff_direct ⟨100, [], ""⟩ "prn #5\n".toList 7 rfl
        (by unfold instructionAccepted; decide) (by decide)).imp fun _ h => ⟨h.1, h.2.1⟩⟩,
    ⟨by decide,
      (pending_iff_direct ⟨100, [], ""⟩ "stop\n".toList 7 rfl
        (by unfold instructionAccepted; decide) (by decide)).imp fun _ h => ⟨h.1, h.2.1⟩⟩⟩
/-! ## The marks A, R and E of the code words (C28) -/

/-- C28: when the first pass and the second pass of a file both report nothing, the object
file holds one line for every code word, every node of the instruction list ends with
line 0 and the machine code printed, and every code word has exactly one of its three low
bits set: the A bit (word mod 8 = 4) when the first pass built the machine code (first
words, immediate and register words), the E bit (the word is 1) when the word was pending
on a label with an Extern declaration, and the R bit (word mod 8 = 2) when it was pending
on another label. -/
theorem code_words_marked (files : outputFiles) (garbage : Int) (macros : List macroNode)
    (lines : List (List Char)) (p : firstPassResult) (r : secondPassResult)
    (hfirst : firstPass macros lines = some p)
    (hsecond : secondPass files garbage p.ic_dc_counter p.instructions_list p.data_list
      p.declarations_list p.indicator = some r)
    (hok : r.indicator = true) :
    ∃ code : List (Int × Int),
      r.ob = some (p.ic_dc_counter, code ++ p.data_list.map (fun x => (x.dc, x.bmc))) ∧
      r.instructions_list = code.map (fun w => ⟨w.1, 0, wordType.bmc w.2⟩) ∧
      code.length = p.instructions_list.length ∧
      (∀ w ∈ code, lowBits w.2 = 4 ∨ lowBits w.2 = 2 ∨ lowBits w.2 = 1) ∧
      (∀ (i : Nat) (n : instructionNode), p.instructions_list[i]? = some n →
        ∃ w, code[i]? = some w ∧ w.1 = n.ic ∧
          (∀ v, n.type = wordType.bmc v → w.2 = v ∧ lowBits w.2 = 4) ∧
          (∀ label, n.type = wordType.name label →
            (isExternReference p.declarations_list n = true → w.2 = 1 ∧ lowBits w.2 = 1) ∧
            (isExternReference p.declarations_list n = false → lowBits w.2 = 2))) := by
  have hinv := externConsistent_resolved _
    (firstPass_externConsistent macros lines p hfirst)
  obtain ⟨out, fs, hf, hcase⟩ := secondPass_cases files garbage p.ic_dc_counter
    p.instructions_list p.data_list p.declarations_list p.indicator r hsecond
  rcases hcase with ⟨hind, ob, extl, fin, hprint, hr, _, _, _⟩ | ⟨_, hr⟩ |
    ⟨_, hfalse, _⟩
  · have hpi : p.indicator = true := by
      cases hq : p.indicator with
      | true => rfl
      | false => rw [hq] at hind; simp at hind
    have habs := firstPass_codeAbsolute macros lines p hfirst hpi
    obtain ⟨hrel, hfin⟩ := printed_words _ hinv fs.ext_is_length p.instructions_list _ out fs
      hf ob extl fin hprint
    have hword : ∀ (n : instructionNode) (w : Int × Int), n ∈ p.instructions_list →
        finalWord (isEntriesDefined p.declarations_list).2.1 n w →
        w.1 = n.ic ∧
        (∀ v, n.type = wordType.bmc v → w.2 = v ∧ lowBits w.2 = 4) ∧
        (∀ label, n.type = wordType.name label →
          (isExternReference p.declarations_list n = true → w.2 = 1 ∧ lowBits w.2 = 1) ∧
          (isExternReference p.declarations_list n = false → lowBits w.2 = 2)) := by
      intro n w hn hw
      obtain ⟨w1, w2, w3⟩ := hw
      rw [isExternReference_resolved] at w3
      refine ⟨w1, fun v hv => ?_, fun label hl => ⟨fun hx => ?_, fun hx => ?_⟩⟩
      · have h2 := (w2 v hv).2
        exact ⟨h2, by rw [h2]; exact habs n hn v hv⟩
      · have h2 := (w3 label hl).2.1 hx
        exact ⟨h2, by rw [h2]; decide⟩
      · obtain ⟨da, h2⟩ := (w3 label hl).2.2 hx
        rw [h2]
        exact lowBits_relocatable da
    refine ⟨ob, by rw [hr], by rw [hr, hfin]; rfl, hrel.length_eq.symm, fun w hw => ?_,
      fun i n hn => ?_⟩
    · obtain ⟨i, hi⟩ := List.getElem?_of_mem hw
      obtain ⟨n, hn, hrn⟩ := forall₂_getElem?_right _ _ _ hrel i w hi
      obtain ⟨_, k2, k3⟩ := hword n w (List.getElem?_mem hn) hrn
      cases ht : n.type with
      | bmc v => exact Or.inl (k2 v ht).2
      | name label =>
        cases hx : isExternReference p.declarations_list n with
        | true => exact Or.inr (Or.inr ((k3 label ht).1 hx).2)
        | false => exact Or.inr (Or.inl ((k3 label ht).2 hx))
    · obtain ⟨w, hw, hrn⟩ := forall₂_getElem? _ _ _ hrel i n hn
      exact ⟨w, hw, hword n w (List.getElem?_mem hn) hrn⟩
  · rw [hr] at hok
    exact Bool.noConfusion hok
  · rw [hfalse] at hok
    exact Bool.noConfusion hok

set_option maxRecDepth 100000 in
/-- The instance of C28 for a file with a first word, a reference to an external label, a
reference to a label of the file and a register word. -/
theorem code_words_marked_witness :
    firstPass [] [".extern E\n".toList, "L: jmp E\n".toList, "mov L, r1\n".toList]
      = some ⟨true, (5, 0),
          [⟨100, 0, wordType.bmc 18452⟩, ⟨101, 2, wordType.name ['E']⟩,
            ⟨102, 0, wordType.bmc 324⟩, ⟨103, 3, wordType.name ['L']⟩,
            ⟨104, 0, wordType.bmc 12⟩], [],
          [⟨1, ['E'], EXTERN⟩, ⟨100, ['L'], CODE⟩], []⟩ ∧
    ∃ code : List (Int × Int),
      some ((5, 0), [((100 : Int), (18452 : Int)), (101, 1), (102, 324), (103, 802), (104, 12)])
        = some (((5 : Int), (0 : Int)),
            code ++ ([] : List dataNode).map (fun x => (x.dc, x.bmc))) ∧
      (∀ w ∈ code, lowBits w.2 = 4 ∨ lowBits w.2 = 2 ∨ lowBits w.2 = 1) := by
  refine ⟨by decide, ?_⟩
  obtain ⟨code, h1, _, _, h4, _⟩ := code_words_marked ⟨true, true, true⟩ 0 []
    [".extern E\n".toList, "L: jmp E\n".toList, "mov L, r1\n".toList]
    ⟨true, (5, 0),
      [⟨100, 0, wordType.bmc 18452⟩, ⟨101, 2, wordType.name ['E']⟩,
        ⟨102, 0, wordType.bmc 324⟩, ⟨103, 3, wordType.name ['L']⟩,
        ⟨104, 0, wordType.bmc 12⟩], [],
      [⟨1, ['E'], EXTERN⟩, ⟨100, ['L'], CODE⟩], []⟩
    ⟨true, [], [⟨100, 0, wordType.bmc 18452⟩, ⟨101, 0, wordType.bmc 1⟩,
        ⟨102, 0, wordType.bmc 324⟩, ⟨103, 0, wordType.bmc 802⟩, ⟨104, 0, wordType.bmc 12⟩],
      [⟨1, ['E'], EXTERN⟩, ⟨100, ['L'], CODE⟩],
      some ((5, 0), [(100, 18452), (101, 1), (102, 324), (103, 802), (104, 12)]),
      some [⟨['E'], 2, 101⟩], none, false⟩
    (by decide) (by decide) rfl
  exact ⟨code, h1, h4⟩

/-! ## Lines of more than 80 characters (C27) -/

/-- C27: take a line of the file, `l` without its newline, that holds no NUL character.
Whether the line ends with a newline or with the file, `isValidLine` reports "The line
contains more than 80 characters." for the buffer `fgets` fills exactly when `l` has more
than 80 characters; a line of at most 80 characters is read whole, with its newline. A
line of 80 letters is accepted with and without a newline, and 81 letters are rejected. -/
theorem overlong_line (l rest : List Char) (hl : ∀ c ∈ l, c ≠ '\n' ∧ c.toNat ≠ 0) :
    (∃ chunk after, fgets MAX_LENGTH_OF_LINE (l ++ '\n' :: rest) = some (chunk, after) ∧
      (isValidLine (cstr chunk) ""
          = (false, cstr chunk, "The line contains more than 80 characters.") ↔
        80 < l.length) ∧
      (l.length ≤ 80 → chunk = l ++ ['\n'] ∧ after = rest)) ∧
    (l ≠ [] → ∃ chunk after, fgets MAX_LENGTH_OF_LINE l = some (chunk, after) ∧
      (isValidLine (cstr chunk) ""
          = (false, cstr chunk, "The line contains more than 80 characters.") ↔
        80 < l.length) ∧
      (l.length ≤ 80 → chunk = l ∧ after = [])) ∧
    isValidLine (List.replicate 80 'a' ++ ['\n']) ""
      = (true, List.replicate 80 'a' ++ ['\n'], "") ∧
    isValidLine (List.replicate 80 'a') "" = (true, List.replicate 80 'a', "") ∧
    isValidLine (List.replicate 81 'a') ""
      = (false, List.replicate 81 'a', "The line contains more than 80 characters.") := by
  refine ⟨?_, fun hne => ?_, by decide, by decide, by decide⟩
  · obtain ⟨chunk, after, h1, h2, h3⟩ := fgets_isValidLine l ('\n' :: rest) hl
      (Or.inr ⟨rest, rfl⟩) (by simp)
    exact ⟨chunk, after, h1, h2, h3⟩
  · obtain ⟨chunk, after, h1, h2, h3⟩ := fgets_isValidLine l [] hl (Or.inl rfl)
      (by simpa using hne)
    rw [List.append_nil] at h1
    refine ⟨chunk, after, h1, h2, fun h => ?_⟩
    have h4 := h3 h
    simpa using h4

set_option maxRecDepth 100000 in
/-- The instance of C27 for a line of 81 letters followed by a newline: the buffer holds
the 81 letters and the line is rejected. -/
theorem overlong_line_witness :
    (∀ c ∈ List.replicate 81 'a', c ≠ '\n' ∧ c.toNat ≠ 0) ∧
    fgets MAX_LENGTH_OF_LINE (List.replicate 81 'a' ++ '\n' :: "stop\n".toList)
      = some (List.replicate 81 'a', "\nstop\n".toList) ∧
    ∃ chunk after,
      fgets MAX_LENGTH_OF_LINE (List.replicate 81 'a' ++ '\n' :: "stop\n".toList)
        = some (chunk, after) ∧
      (isValidLine (cstr chunk) ""
          = (false, cstr chunk, "The line contains more than 80 characters.") ↔
        80 < (List.replicate 81 'a').length) := by
  have hl : ∀ c ∈ List.replicate 81 'a', c ≠ '\n' ∧ c.toNat ≠ 0 := by
    intro c hc
    rw [(List.mem_replicate.mp hc).2]
    decide
  obtain ⟨chunk, after, h1, h2, _⟩ :=
    (overlong_line (List.replicate 81 'a') "stop\n".toList hl).1
  exact ⟨hl, by decide, chunk, after, h1, h2⟩

/-! ## The exit status (C29) -/

/-- C29: a run of `main` that comes to its end, by `return` or by `exit`, has the exit
status 0 or EXIT_FAILURE; the status is 0 exactly when no file ended with a fatal error,
whatever diagnostics the pre-processor, the first pass or the second pass printed; when the
`.am` file and the output files of every input can be created the status is 0. A run whose
first file name does not fit the blocks allocated for the names of the `.as` and the `.am`
file writes behind their end and has no such status. -/
theorem exit_status (usable : Nat → Nat) (files : List inputFile) :
    (∀ r : Int × List fileReport, main usable files = some r →
      (r.1 = 0 ∨ r.1 = EXIT_FAILURE) ∧
      (r.1 = 0 ↔ fileReport.fatal ∉ r.2) ∧
      ((∀ f ∈ files, f.writable = true ∧ f.files.ob = true ∧ f.files.ext = true ∧
          f.files.ent = true) → r.1 = 0)) ∧
    (∀ (f : inputFile) (rest : List inputFile), files = f :: rest →
      nameBuffersFit usable f.name = false → main usable files = none) := by
  refine ⟨fun r hrun => ?_, fun f rest hfiles hfit => ?_⟩
  · have hloop : mainLoop usable files = some r := by
      unfold main at hrun
      split_ifs at hrun with h
      · subst h
        exact hrun
      · exact hrun
    rcases mainLoop_status usable files r hloop with ⟨a1, a2⟩ | ⟨a1, a2, g, hg, a3⟩
    · exact ⟨Or.inl a1, ⟨fun _ => a2, fun _ => a1⟩, fun _ => a1⟩
    · refine ⟨Or.inr a1, ⟨fun h => ?_, fun h => absurd a2 h⟩, fun h => ?_⟩
      · rw [a1] at h
        exact absurd h (by decide)
      · obtain ⟨h1, h2, h3, h4⟩ := h g hg
        rw [h1, h2, h3, h4] at a3
        simp at a3
  · subst hfiles
    unfold main
    rw [if_neg (List.cons_ne_nil f rest)]
    unfold mainLoop
    rw [hfit]
    rfl

set_option maxRecDepth 100000 in
/-- The instance of C29 for two files under the allocator of glibc: `prog`, which defines
the macro `m` and uses it, and `gone`, which is missing; and a file whose name of 21
characters does not fit the blocks allocated for it. -/
theorem exit_status_witness :
    main mallocUsableSize
        [⟨"prog".toList, some "macr m\nstop\nendmacr\nm\n".toList, true, true,
          ⟨true, true, true⟩, 0⟩,
         ⟨"gone".toList, none, true, true, ⟨true, true, true⟩, 0⟩]
      = some (0, [fileReport.assembled "stop\n".toList
          ⟨true, (1, 0), [⟨100, 0, wordType.bmc 30724⟩], [], [], []⟩
          ⟨true, [], [⟨100, 0, wordType.bmc 30724⟩], [], some ((1, 0), [(100, 30724)]),
            none, none, false⟩, fileReport.missing]) ∧
    ((0 : Int) = 0 ↔ fileReport.fatal ∉ [fileReport.assembled "stop\n".toList
      ⟨true, (1, 0), [⟨100, 0, wordType.bmc 30724⟩], [], [], []⟩
      ⟨true, [], [⟨100, 0, wordType.bmc 30724⟩], [], some ((1, 0), [(100, 30724)]),
        none, none, false⟩, fileReport.missing]) ∧
    main mallocUsableSize
        [⟨List.replicate 21 'p', some "stop\n".toList, true, true, ⟨true, true, true⟩, 0⟩]
      = none :=
  ⟨by decide,
    ((exit_status mallocUsableSize
      [⟨"prog".toList, some "macr m\nstop\nendmacr\nm\n".toList, true, true,
        ⟨true, true, true⟩, 0⟩,
       ⟨"gone".toList, none, true, true, ⟨true, true, true⟩, 0⟩]).1
      (0, [fileReport.assembled "stop\n".toList
        ⟨true, (1, 0), [⟨100, 0, wordType.bmc 30724⟩], [], [], []⟩
        ⟨true, [], [⟨100, 0, wordType.bmc 30724⟩], [], some ((1, 0), [(100, 30724)]),
          none, none, false⟩, fileReport.missing]) (by decide)).2.1,
    (exit_status mallocUsableSize
      [⟨List.replicate 21 'p', some "stop\n".toList, true, true, ⟨true, true, true⟩, 0⟩]).2
      _ _ rfl (by decide)⟩

set_option maxRecDepth 100000 in
/-- A file `prog` whose only line is `foo` gets a diagnostic from the first pass, a file
with text before a semicolon gets one from the pre-processor, and `main` returns the exit
status 0 for both. -/
theorem exit_status_counterexample :
    main mallocUsableSize
        [⟨"prog".toList, some "foo\n".toList, true, true, ⟨true, true, true⟩, 0⟩]
      = some (0, [fileReport.assembled "foo\n".toList
          ⟨false, (0, 0), [], [], [],
            [(1, "Invalid instruction, the word: foo is not recognized by the system.")]⟩
          ⟨false, [], [], [], none, none, none, false⟩]) ∧
    main mallocUsableSize
        [⟨"prog".toList, some "stop ;c\n".toList, true, true, ⟨true, true, true⟩, 0⟩]
      = some (0, [fileReport.notExpanded
          [(1, "Extra characters were detected before the character: ';'")]]) := by
  decide
/-! ## The names of macros (C24) -/

set_option maxRecDepth 100000 in
/-- C24: every macro the first scan of `macrosLayout` keeps has a name of at most 31
characters that is no opcode, register or directive keyword, and no two macros have the
same name; a definition `getMacroData` accepts has the word after `macr` as its name, with
nothing but white characters behind it. A keyword as name, a name defined before and a
name of 32 characters are reported on the line of the definition. -/
theorem macro_names (writable : Bool) (input_file : List (List Char)) (m : macrosResult)
    (hrun : macrosLayout writable input_file = some m) :
    (∀ x ∈ m.macros_list, x.name.length ≤ 31 ∧ isOpcode x.name = NO_OPCODE ∧
      isRegister x.name = NO_REGISTER ∧ isInstruction x.name = NO_TYPE) ∧
    (m.macros_list.map fun x => x.name).Nodup ∧
    (∀ (line : List Char) (line_num : Nat) (file : List (List Char))
      (macros : List macroNode) (e : String) (d : macroData),
      getMacroData line line_num file macros e = some d → d.indicator = true →
      d.name = (getWord (skipWord line)).2 ∧
      isWhiteSpaceString (getWord (skipWord line)).1 = true ∧
      d.name.length ≤ 31 ∧ (isValidName d.name).1 = true ∧
      isMacroNameExists d.name macros = none) ∧
    (macrosLayout true (fileLines "macr mov x\nstop\nendmacr\n".toList)).map
        (fun r => (r.indicator, r.errors))
      = some (FALSE, [(1, "Characters were detected after the macro name")]) ∧
    (macrosLayout true (fileLines "macr m\nstop\nendmacr\nmacr stop\nendmacr\n".toList)).map
        (fun r => (r.indicator, r.errors))
      = some (FALSE, [(4, "Invalid macro name, the word: stop is used as an opcode.")]) ∧
    (macrosLayout true (fileLines "macr m\nstop\nendmacr\nmacr m\nendmacr\n".toList)).map
        (fun r => (r.indicator, r.errors))
      = some (FALSE,
          [(4, "The macro name has already been defined in the current file.")]) ∧
    (macrosLayout true
        (fileLines ("macr ".toList ++ List.replicate 32 'a' ++ "\nendmacr\n".toList))).map
        (fun r => (r.indicator, r.errors))
      = some (FALSE, [(1, "A too long macro name was detected.")]) := by
  have hm : ∃ f, firstScanLoop input_file.length input_file 1 [] = some f ∧
      m.macros_list = f.macros_list := by
    unfold macrosLayout at hrun
    simp only [Option.bind_eq_some] at hrun
    obtain ⟨f, hf, h⟩ := hrun
    refine ⟨f, hf, ?_⟩
    split_ifs at h
    · cases h; rfl
    · cases h; rfl
    · simp only [Option.map_eq_some'] at h
      obtain ⟨out, _, h⟩ := h
      subst h
      rfl
  obtain ⟨f, hf, hmf⟩ := hm
  have hinv := firstScanLoop_names _ _ _ _ f hf ⟨by intro x hx; simp at hx, by simp⟩
  rw [← hmf] at hinv
  exact ⟨hinv.1, hinv.2,
    fun line line_num file macros e d hd hi => getMacroData_name line line_num file macros e d hd hi,
    by decide, by decide, by decide, by decide⟩

set_option maxRecDepth 100000 in
/-- The instance of C24 for a file that defines the macros `m1` and `m2`. -/
theorem macro_names_witness :
    macrosLayout true (fileLines "macr m1\ninc r1\nendmacr\nmacr m2\nendmacr\nm1\n".toList)
      = some ⟨TRUE, [⟨"m1".toList, ["inc r1\n".toList]⟩, ⟨"m2".toList, []⟩], false, [],
          some "inc r1\n".toList⟩ ∧
    (([⟨"m1".toList, ["inc r1\n".toList]⟩, ⟨"m2".toList, []⟩] : List macroNode).map
      fun x => x.name).Nodup :=
  ⟨by decide,
    (macro_names true (fileLines "macr m1\ninc r1\nendmacr\nmacr m2\nendmacr\nm1\n".toList)
      ⟨TRUE, [⟨"m1".toList, ["inc r1\n".toList]⟩, ⟨"m2".toList, []⟩], false, [],
        some "inc r1\n".toList⟩ (by decide)).2.1⟩

set_option maxRecDepth 100000 in
/-- The definitions `macr 1x` and `macr a_b` are accepted, and so is `macr ` with no name
at all: the first scan reports nothing, keeps the macros and the second scan expands
them. -/
theorem macro_names_counterexample :
    macrosLayout true (fileLines "macr 1x\ninc r1\nendmacr\n1x\n".toList)
      = some ⟨TRUE, [⟨"1x".toList, ["inc r1\n".toList]⟩], false, [],
          some "inc r1\n".toList⟩ ∧
    macrosLayout true (fileLines "macr a_b\ninc r1\nendmacr\na_b\n".toList)
      = some ⟨TRUE, [⟨"a_b".toList, ["inc r1\n".toList]⟩], false, [],
          some "inc r1\n".toList⟩ ∧
    macrosLayout true (fileLines "macr \ninc r1\nendmacr\nstop\n".toList)
      = some ⟨TRUE, [⟨[], ["inc r1\n".toList]⟩], false, [], some "stop\n".toList⟩ := by
  decide

/-! ## The expansion of macros (C25) -/

/-- C25: for a file the first scan accepts in which no line that starts a definition holds
the text `endmacr`, the macros kept are the macros the file defines, and the second scan
writes nothing for comment lines, blank lines and definition blocks, the body of the macro
for a line whose first token is the name of a macro (before or behind the definition), and
every other line; the lines of a body and the lines copied stand without their leading
white characters. -/
theorem expansion_written (input_file : List (List Char)) (m : macrosResult)
    (hrun : macrosLayout true input_file = some m) (hok : m.indicator = TRUE)
    (hname : ∀ b ∈ input_file, startsDefinition b = true →
      strstr (strippedLine b) "endmacr".toList = none) :
    m.macros_list = definedMacros none input_file ∧
    m.output = some (expandedLines m.macros_list false input_file).flatten := by
  unfold macrosLayout at hrun
  simp only [Option.bind_eq_some] at hrun
  obtain ⟨f, hf, h⟩ := hrun
  cases hfo : f.ok with
  | false =>
    rw [hfo] at h
    simp only [Bool.not_false, if_true, Option.some.injEq] at h
    subst h
    exact absurd hok (by dsimp only; decide)
  | true =>
    rw [hfo] at h
    simp only [Bool.not_true, Bool.false_eq_true, if_false, Option.map_eq_some'] at h
    obtain ⟨out, hout, h⟩ := h
    subst h
    have hd := firstScanLoop_defined _ _ _ _ f hf hfo
    rw [List.nil_append] at hd
    have hs := secondScanLoop_expanded f.macros_list _ _ _ _ f hf hfo hname
      input_file.length (Nat.le_refl _)
    rw [hs] at hout
    simp only [Option.some.injEq] at hout
    subst hout
    exact ⟨hd, rfl⟩

set_option maxRecDepth 100000 in
/-- The instance of C25 for a file with a definition, a comment line, a blank line, an
indented line and an invocation. -/
theorem expansion_written_witness :
    (expandedLines [⟨"m1".toList, ["inc r1\n".toList, "prn r1\n".toList]⟩] false
      (fileLines
        "m1\nmacr m1\n  inc r1\n\tprn r1\nendmacr\n; c\n\n  mov r1, r2\n m1 \nstop\n".toList)).flatten
      = "inc r1\nprn r1\nmov r1, r2\ninc r1\nprn r1\nstop\n".toList ∧
    (⟨TRUE, [⟨"m1".toList, ["inc r1\n".toList, "prn r1\n".toList]⟩], false, [],
        some "inc r1\nprn r1\nmov r1, r2\ninc r1\nprn r1\nstop\n".toList⟩ :
          macrosResult).macros_list
      = definedMacros none (fileLines
        "m1\nmacr m1\n  inc r1\n\tprn r1\nendmacr\n; c\n\n  mov r1, r2\n m1 \nstop\n".toList) :=
  ⟨by decide,
    (expansion_written
      (fileLines
        "m1\nmacr m1\n  inc r1\n\tprn r1\nendmacr\n; c\n\n  mov r1, r2\n m1 \nstop\n".toList)
      ⟨TRUE, [⟨"m1".toList, ["inc r1\n".toList, "prn r1\n".toList]⟩], false, [],
        some "inc r1\nprn r1\nmov r1, r2\ninc r1\nprn r1\nstop\n".toList⟩
      (by decide) (by decide) (by decide)).1⟩

set_option maxRecDepth 100000 in
/-- An indented line is written without its leading white characters, and so are the lines
of the body of a macro. -/
theorem expansion_written_counterexample :
    macrosLayout true (fileLines "  mov r1, r2\n".toList)
      = some ⟨TRUE, [], false, [], some "mov r1, r2\n".toList⟩ ∧
    macrosLayout true (fileLines "macr m\n  inc r1\nendmacr\nm\n".toList)
      = some ⟨TRUE, [⟨"m".toList, ["inc r1\n".toList]⟩], false, [],
          some "inc r1\n".toList⟩ := by
  decide
/-! ## The pre-processor on its own output (C26) -/

/-- C26: for a file without NUL characters on which the pre-processor succeeds, when no
line of the output holds the text `macr ` or starts with `;`, the pre-processor succeeds on
the output as well, keeps no macro and writes the output again. -/
theorem expansion_idempotent (content out : List Char) (m : macrosResult)
    (hnul : ∀ c ∈ content, c.toNat ≠ 0)
    (hrun : macrosLayout true (fileLines content) = some m) (hout : m.output = some out)
    (hplain : ∀ b ∈ fileLines out, strstr b "macr ".toList = none ∧ b.head? ≠ some ';') :
    macrosLayout true (fileLines out) = some ⟨TRUE, [], false, [], some out⟩ := by
  obtain ⟨pieces, hp, ho⟩ := macrosLayout_pieces content hnul m out hrun hout
  subst ho
  exact macrosLayout_written pieces hp hplain

set_option maxRecDepth 100000 in
/-- The instance of C26 for a file with a definition, an indented line, an invocation and a
last line with no newline. -/
theorem expansion_idempotent_witness :
    macrosLayout true (fileLines "mov r1, r2\ninc r1\nstop".toList)
      = some ⟨TRUE, [], false, [], some "mov r1, r2\ninc r1\nstop".toList⟩ :=
  expansion_idempotent "macr m1\n  inc r1\nendmacr\n  mov r1, r2\n m1\nstop".toList
    "mov r1, r2\ninc r1\nstop".toList
    ⟨TRUE, [⟨"m1".toList, ["inc r1\n".toList]⟩], false, [],
      some "mov r1, r2\ninc r1\nstop".toList⟩
    (by decide) (by decide) rfl (by decide)

set_option maxRecDepth 100000 in
/-- A comment line in the body of a macro is written by the expansion and dropped when the
output is expanded again; a line of a body that holds `macr ` behind other text is written
by the expansion, and the pre-processor rejects the output. -/
theorem expansion_idempotent_counterexample :
    macrosLayout true (fileLines "macr m\n;c\nendmacr\nm\n".toList)
      = some ⟨TRUE, [⟨"m".toList, [";c\n".toList]⟩], false, [], some ";c\n".toList⟩ ∧
    macrosLayout true (fileLines ";c\n".toList) = some ⟨TRUE, [], false, [], some []⟩ ∧
    macrosLayout true (fileLines "macr m\n.string \"macr x\"\nendmacr\nm\n".toList)
      = some ⟨TRUE, [⟨"m".toList, [".string \"macr x\"\n".toList]⟩], false, [],
          some ".string \"macr x\"\n".toList⟩ ∧
    macrosLayout true (fileLines ".string \"macr x\"\n".toList)
      = some ⟨FALSE, [], false,
          [(1, "Extra characters were detected before the start of the macro declaration line.")],
          none⟩ := by
  decide
/-! ## The value of a label (C31) -/

/-- C31: in a round of the loop of `firstPass` on a line that holds a colon and gets no
diagnostic, with IC and DC within the range of the 16-bit counters: when an opcode stands
behind the label, the text before the colon is declared with kind Code and the value of IC
before the line, and the first word appended for the line sits at that address; when
`.data` or `.string` stands behind the label, the text before the colon is declared with
that kind and the value of DC before the line, and the first data word appended for the
line sits at that value. -/
theorem label_value (macros : List macroNode) (st st' : firstPassState) (buf : List Char)
    (hrun : firstPassLine macros st buf = some st')
    (hcolon : (strchr (cstr buf) ':').isSome = true) (hacc : st'.errors = st.errors)
    (hic : -32768 ≤ st.ic ∧ st.ic ≤ 32767) (hdc : -32768 ≤ st.dc ∧ st.dc ≤ 32767) :
    (labelledType (cstr buf) = CODE →
      st'.declarations_list =
        st.declarations_list ++ [⟨st.ic, beforeColon (cstr buf), CODE⟩] ∧
      ∃ n ws, st'.instructions_list = st.instructions_list ++ n :: ws ∧ n.ic = st.ic) ∧
    (labelledType (cstr buf) = DATA ∨ labelledType (cstr buf) = STRING →
      st'.declarations_list =
        st.declarations_list ++ [⟨st.dc, beforeColon (cstr buf), labelledType (cstr buf)⟩] ∧
      ∃ d ws, st'.data_list = st.data_list ++ d :: ws ∧ d.dc = st.dc) := by
  obtain ⟨_, _, hC, hD, _⟩ := firstPassLine_labelled macros st st' buf hrun hcolon hacc
  refine ⟨fun hc => ?_, fun hc => ?_⟩
  · obtain ⟨_, a2, _, _, r, r1, r2, _, r4⟩ := hC hc
    refine ⟨?_, ?_⟩
    · rw [a2]
      unfold creatDeclarationNode
      rw [toShort_of_range _ hic.1 hic.2]
    · rw [r4]
      exact readNewInstruction_first ⟨st.ic, st.instructions_list, ""⟩ r _ _ rfl r1 r2
  · obtain ⟨_, a2, _, _, r, r1, r2, _, r4⟩ := hD hc
    refine ⟨?_, ?_⟩
    · rw [a2]
      unfold creatDeclarationNode
      rw [toShort_of_range _ hdc.1 hdc.2]
    · rw [r4]
      exact readNewData_first ⟨st.dc, st.data_list, ""⟩ r _ _ rfl r1 r2

set_option maxRecDepth 100000 in
/-- The instance of C31 for the line `STR: .string "ab"` read as line 2 behind two code
words: `STR` is declared with the value 0 of DC and the word of `a` sits at 0. -/
theorem label_value_witness :
    firstPassLine []
        ⟨102, 0, 2, true, [⟨100, 0, wordType.bmc 1092⟩, ⟨101, 0, wordType.bmc 84⟩], [], [], []⟩
        "STR: .string \"ab\"\n".toList
      = some ⟨102, 3, 3, true, [⟨100, 0, wordType.bmc 1092⟩, ⟨101, 0, wordType.bmc 84⟩],
          [⟨0, 97⟩, ⟨1, 98⟩, ⟨2, 0⟩], [⟨0, "STR".toList, STRING⟩], []⟩ ∧
    labelledType (cstr "STR: .string \"ab\"\n".toList) = STRING ∧
    beforeColon (cstr "STR: .string \"ab\"\n".toList) = "STR".toList ∧
    ∃ d ws, ([⟨0, 97⟩, ⟨1, 98⟩, ⟨2, 0⟩] : List dataNode) = [] ++ d :: ws ∧ d.dc = 0 :=
  ⟨by decide, by decide, by decide,
    ((label_value []
      ⟨102, 0, 2, true, [⟨100, 0, wordType.bmc 1092⟩, ⟨101, 0, wordType.bmc 84⟩], [], [], []⟩
      ⟨102, 3, 3, true, [⟨100, 0, wordType.bmc 1092⟩, ⟨101, 0, wordType.bmc 84⟩],
        [⟨0, 97⟩, ⟨1, 98⟩, ⟨2, 0⟩], [⟨0, "STR".toList, STRING⟩], []⟩
      "STR: .string \"ab\"\n".toList (by decide) (by decide) rfl (by decide) (by decide)).2
      (Or.inr (by decide))).2⟩
/-! ## Where the first pass sees a label (C32) -/

set_option maxRecDepth 100000 in
/-- C32 on the code: `firstPass` hands every line that holds a colon to `readNewLabel`,
which takes the text before the first colon as a label; when a white character stands
before the first colon the round ends with a diagnostic under the number of the line and
the indicator FALSE. The line `.string "a:b"` is reported so, although `readNewData`
accepts it as it is and the first pass accepts it behind a label. -/
theorem colon_behind_space (macros : List macroNode) (st st' : firstPassState)
    (buf : List Char) (hrun : firstPassLine macros st buf = some st')
    (hcolon : (strchr (cstr buf) ':').isSome = true)
    (hspace : ∃ c ∈ beforeColon (cstr buf), isspace c = true) :
    (st'.indicator = false ∧ ∃ e, e ≠ "" ∧
      st'.errors = st.errors ++ [(toShort (Int.ofNat st.line_num), e)]) ∧
    (firstPass [] ["stop\n".toList, ".string \"a:b\"\n".toList]).map
        (fun r => (r.indicator, r.data_list, r.errors))
      = some (false, [], [(2,
          "Invalid label name, the label name: .string \"a starts with an invalid character.")]) ∧
    readNewData ⟨0, [], ""⟩ STRING ".string \"a:b\"\n".toList
      = some ⟨4, [⟨0, 97⟩, ⟨1, 58⟩, ⟨2, 98⟩, ⟨3, 0⟩], ""⟩ ∧
    firstPass [] ["stop\n".toList, "L: .string \"a:b\"\n".toList]
      = some ⟨true, (1, 4), [⟨100, 0, wordType.bmc 30724⟩],
          [⟨101, 97⟩, ⟨102, 58⟩, ⟨103, 98⟩, ⟨104, 0⟩], [⟨101, "L".toList, STRING⟩], []⟩ :=
  ⟨firstPassLine_colon macros st st' buf hrun hcolon hspace, by decide, by decide, by decide⟩

set_option maxRecDepth 100000 in
/-- The instance of C32 for the line `.string "a:b"` read as the second line of a file. -/
theorem colon_behind_space_witness :
    firstPassLine [] ⟨101, 0, 2, true, [⟨100, 0, wordType.bmc 30724⟩], [], [], []⟩
        ".string \"a:b\"\n".toList
      = some ⟨101, 0, 3, false, [⟨100, 0, wordType.bmc 30724⟩], [],
          [⟨0, ".string \"a".toList, STRING⟩],
          [(2, "Invalid label name, the label name: .string \"a starts with an invalid character.")]⟩ ∧
    (false = false ∧ ∃ e, e ≠ "" ∧
      [((2 : Int),
          "Invalid label name, the label name: .string \"a starts with an invalid character.")]
        = [] ++ [(toShort (Int.ofNat 2), e)]) :=
  ⟨by decide,
    (colon_behind_space [] ⟨101, 0, 2, true, [⟨100, 0, wordType.bmc 30724⟩], [], [], []⟩
      ⟨101, 0, 3, false, [⟨100, 0, wordType.bmc 30724⟩], [],
        [⟨0, ".string \"a".toList, STRING⟩],
        [(2, "Invalid label name, the label name: .string \"a starts with an invalid character.")]⟩
      ".string \"a:b\"\n".toList (by decide) (by decide) ⟨' ', by decide, by decide⟩).1⟩
/-! ## The start of a macro definition (C33) -/

/-- C33: one round of the first scan on a valid line. When the text of the line starts
with `macr ` the line is handed to `readNewMacro` as the start of a definition; when it
holds `macr ` elsewhere the scan stops with the diagnostic "Extra characters were detected
before the start of the macro declaration line."; when it holds no `macr ` at all the scan
goes on with the next line. -/
theorem definition_start (fuel : Nat) (buf : List Char) (rest : List (List Char)) (n : Nat)
    (macros : List macroNode) (hv : (isValidLine (cstr buf) "").1 = true) :
    (startsDefinition buf = true →
      firstScanLoop (fuel + 1) (buf :: rest) n macros =
        (readNewMacro (strippedLine buf) n rest macros "").bind fun r =>
          if r.error_str ≠ "" then
            some ⟨false, r.macros_list, r.broken,
              [(toShort (Int.ofNat r.line_num), r.error_str)]⟩
          else
            firstScanLoop fuel r.input_file ((r.line_num + 1) % 4294967296)
              r.macros_list) ∧
    (startsDefinition buf = false → strstr (strippedLine buf) "macr ".toList ≠ none →
      firstScanLoop (fuel + 1) (buf :: rest) n macros =
        some ⟨false, macros, false, [(toShort (Int.ofNat n),
          "Extra characters were detected before the start of the macro declaration line.")]⟩) ∧
    (strstr (strippedLine buf) "macr ".toList = none →
      firstScanLoop (fuel + 1) (buf :: rest) n macros =
        firstScanLoop fuel rest ((n + 1) % 4294967296) macros) := by
  obtain ⟨f1, f2⟩ := isValidLine_fields _ _ hv
  have hloop : firstScanLoop (fuel + 1) (buf :: rest) n macros =
      if (isStartMacroDeclaration (strippedLine buf) "").1 = TRUE then
        (readNewMacro (strippedLine buf) n rest macros
          (isStartMacroDeclaration (strippedLine buf) "").2).bind fun r =>
          if r.error_str ≠ "" then
            some ⟨false, r.macros_list, r.broken,
              [(toShort (Int.ofNat r.line_num), r.error_str)]⟩
          else
            firstScanLoop fuel r.input_file ((r.line_num + 1) % 4294967296) r.macros_list
      else if (isStartMacroDeclaration (strippedLine buf) "").2 ≠ "" then
        some ⟨false, macros, false,
          [(toShort (Int.ofNat n), (isStartMacroDeclaration (strippedLine buf) "").2)]⟩
      else firstScanLoop fuel rest ((n + 1) % 4294967296) macros := by
    simp only [firstScanLoop, hv, if_true, f1, f2]
    rfl
  rw [hloop]
  refine ⟨fun hs => ?_, fun hs hm => ?_, fun hm => ?_⟩
  · have h1 := (isStartMacroDeclaration_true (strippedLine buf) "").mpr hs
    rw [if_pos h1, isStartMacroDeclaration_keeps _ _ h1]
  · have hval : isStartMacroDeclaration (strippedLine buf) "" =
        (-1, "Extra characters were detected before the start of the macro declaration line.") := by
      unfold isStartMacroDeclaration
      cases hq : strstr (strippedLine buf) "macr ".toList with
      | none => exact absurd hq hm
      | some t =>
        have hne : t ≠ strippedLine buf := by
          intro ht
          rw [ht] at hq
          have := strstr_self _ _ hq
          unfold startsDefinition at hs
          rw [hs] at this
          exact Bool.noConfusion this
        simp only [ne_eq, hne, not_false_eq_true, if_true]
    rw [hval]
    rw [if_neg (show ¬ ((-1 : Int) = TRUE) from by decide), if_pos (by decide)]
  · have hval : isStartMacroDeclaration (strippedLine buf) "" = (FALSE, "") := by
      unfold isStartMacroDeclaration
      rw [hm]
    rw [hval]
    rw [if_neg (show ¬ (FALSE = TRUE) from by decide), if_neg (by simp)]

set_option maxRecDepth 100000 in
/-- The instance of C33 for the line `.string "macr x"`: it is valid, does not start with
`macr ` and is reported. -/
theorem definition_start_witness :
    firstScanLoop 2 [".string \"macr x\"\n".toList, "stop\n".toList] 1 [] =
      some ⟨false, [], false, [(toShort (Int.ofNat 1),
        "Extra characters were detected before the start of the macro declaration line.")]⟩ :=
  (definition_start 1 ".string \"macr x\"\n".toList ["stop\n".toList] 1 [] (by decide)).2.1
    (by decide) (by decide)

set_option maxRecDepth 100000 in
/-- A line whose first token is `.string` and a line whose first token is `jmp` are
reported as wrong starts of a macro definition, and the line `macr`, tab, `m` starts no
definition: the three lines of the definition are copied to the output. -/
theorem definition_start_counterexample :
    macrosLayout true (fileLines ".string \"macr x\"\n".toList)
      = some ⟨FALSE, [], false, [(1,
          "Extra characters were detected before the start of the macro declaration line.")],
          none⟩ ∧
    macrosLayout true (fileLines "macr: stop\njmp macr \n".toList)
      = some ⟨FALSE, [], false, [(2,
          "Extra characters were detected before the start of the macro declaration line.")],
          none⟩ ∧
    macrosLayout true (fileLines "macr\tm\ninc r1\nendmacr\n".toList)
      = some ⟨TRUE, [], false, [], some "macr\tm\ninc r1\nendmacr\n".toList⟩ := by
  decide
/-! ## The end of a macro definition (C34) -/

set_option maxRecDepth 100000 in
/-- C34: `isEndMacroDeclaration` returns TRUE exactly for a line that starts with the
characters `endmacr` and holds only white characters behind its first word, whatever that
word is. So `endmacrX` is taken as the end of a definition although `endmacr X` is reported
with "Extra characters were detected after the end of the macro declaration line.", and the
file `macr m`, `inc r1`, `endmacrX`, `m` is expanded like the one with `endmacr`. -/
theorem definition_end (line : List Char) (e : String) :
    ((isEndMacroDeclaration line e).1 = TRUE ↔
      "endmacr".toList.isPrefixOf line = true ∧ isWhiteSpaceString (skipWord line) = true) ∧
    isEndMacroDeclaration "endmacrX\n".toList "" = (TRUE, "\n".toList, "") ∧
    isEndMacroDeclaration "endmacr X\n".toList "" = (-1, " X\n".toList,
      "Extra characters were detected after the end of the macro declaration line.") ∧
    macrosLayout true (fileLines "macr m\ninc r1\nendmacrX\nm\n".toList) =
      some ⟨TRUE, [⟨"m".toList, ["inc r1\n".toList]⟩], false, [], some "inc r1\n".toList⟩ ∧
    macrosLayout true (fileLines "macr m\ninc r1\nendmacr\nm\n".toList) =
      some ⟨TRUE, [⟨"m".toList, ["inc r1\n".toList]⟩], false, [], some "inc r1\n".toList⟩ := by
  refine ⟨?_, by decide, by decide, by decide, by decide⟩
  constructor
  · intro h
    unfold isEndMacroDeclaration at h
    cases hs : strstr line "endmacr".toList with
    | none =>
      rw [hs] at h
      simp [FALSE, TRUE] at h
    | some t =>
      rw [hs] at h
      simp only at h
      by_cases h1 : t ≠ line
      · rw [if_pos h1] at h
        simp [TRUE] at h
      · rw [if_neg h1] at h
        have ht : t = line := by
          by_contra hne
          exact h1 hne
        rw [ht] at hs
        refine ⟨strstr_self line _ hs, ?_⟩
        cases hw : isWhiteSpaceString (skipWord line) with
        | true => rfl
        | false =>
          rw [hw] at h
          simp [TRUE] at h
  · rintro ⟨hp, hw⟩
    unfold isEndMacroDeclaration
    rw [strstr_start line _ hp]
    simp [hw]
/-! ## The padding of the entry file (C35) -/

set_option maxRecDepth 100000 in
/-- C35 on the code: every line of the entry file holds the name of an Entry declaration,
`spacesCount 16 longest name 1` spaces and the address, where `longest` is the second cell
of `ent_is_length`. For a name that is not longer than `longest` these are
`longest - len(name) + 1` spaces; for a name that is longer by two or more characters the
16-bit counter wraps around and `65537 + longest - len(name)` spaces are printed.
`fillingMissingBMCofLabel` raises the cell only for the Entry names that an instruction
refers to: with the lines `.entry A`, `.entry LONGNAME`, `A: jmp A`, `LONGNAME: stop` the
cell is 1 and the line of `LONGNAME` gets 65530 spaces, while with `A: jmp LONGNAME` the
lines get 8 and 1 spaces. -/
theorem entry_padding (decls : List declarationNode) (ent_is_length : Int × Int)
    (m : Nat) (name : List Char) :
    (∀ files : outputFiles, files.ent = true →
      ∃ lines, createEntFile files decls ent_is_length = some lines ∧
        ∀ l ∈ lines, ∃ d ∈ decls, d.type = ENTRY ∧
          l = ⟨d.label, spacesCount 16 ent_is_length.2 d.label 1, d.decimal_address⟩) ∧
    (name.length ≤ m → m ≤ 32767 →
      spacesCount 16 (Int.ofNat m) name 1 = m - name.length + 1) ∧
    (m + 1 < name.length → name.length ≤ 32767 →
      spacesCount 16 (Int.ofNat m) name 1 = 65537 + m - name.length) ∧
    assemble 0 [] [".entry A\n".toList, ".entry LONGNAME\n".toList, "A: jmp A\n".toList,
        "LONGNAME: stop\n".toList]
      = some ⟨true, [],
          [⟨100, 0, wordType.bmc 18452⟩, ⟨101, 0, wordType.bmc 802⟩,
            ⟨102, 0, wordType.bmc 30724⟩],
          [⟨100, "A".toList, ENTRY⟩, ⟨102, "LONGNAME".toList, ENTRY⟩,
            ⟨100, "A".toList, CODE⟩, ⟨102, "LONGNAME".toList, CODE⟩],
          some ((3, 0), [(100, 18452), (101, 802), (102, 30724)]), none,
          some [⟨"A".toList, 1, 100⟩, ⟨"LONGNAME".toList, 65530, 102⟩], false⟩ ∧
    assemble 0 [] [".entry A\n".toList, ".entry LONGNAME\n".toList,
        "A: jmp LONGNAME\n".toList, "LONGNAME: stop\n".toList]
      = some ⟨true, [],
          [⟨100, 0, wordType.bmc 18452⟩, ⟨101, 0, wordType.bmc 818⟩,
            ⟨102, 0, wordType.bmc 30724⟩],
          [⟨100, "A".toList, ENTRY⟩, ⟨102, "LONGNAME".toList, ENTRY⟩,
            ⟨100, "A".toList, CODE⟩, ⟨102, "LONGNAME".toList, CODE⟩],
          some ((3, 0), [(100, 18452), (101, 818), (102, 30724)]), none,
          some [⟨"A".toList, 8, 100⟩, ⟨"LONGNAME".toList, 1, 102⟩], false⟩ := by
  refine ⟨?_, ?_, ?_, by decide, by decide⟩
  · intro files hfiles
    unfold createEntFile
    rw [if_neg (by rw [hfiles]; exact Bool.noConfusion)]
    refine ⟨_, rfl, fun l hl => ?_⟩
    rw [List.mem_map] at hl
    obtain ⟨d, hd, rfl⟩ := hl
    rw [List.mem_filter] at hd
    exact ⟨d, hd.1, of_decide_eq_true hd.2, rfl⟩
  · intro h1 h2
    unfold spacesCount
    have hb : ((Int.ofNat m - Int.ofNat name.length + 1) % 18446744073709551616).toNat
        = m - name.length + 1 := by
      have h0 : (0 : Int) ≤ Int.ofNat m - Int.ofNat name.length + 1 := by
        simp only [Int.ofNat_eq_coe]
        omega
      have h3 : Int.ofNat m - Int.ofNat name.length + 1 < 18446744073709551616 := by
        simp only [Int.ofNat_eq_coe]
        omega
      rw [Int.emod_eq_of_lt h0 h3]
      simp only [Int.ofNat_eq_coe]
      omega
    simp only [hb]
    rw [if_pos]
    norm_num
    omega
  · intro h1 h2
    unfold spacesCount
    have hb : ((Int.ofNat m - Int.ofNat name.length + 1) % 18446744073709551616).toNat
        = 18446744073709551617 + m - name.length := by
      have h4 : (Int.ofNat m - Int.ofNat name.length + 1) % 18446744073709551616
          = Int.ofNat m - Int.ofNat name.length + 1 + 18446744073709551616 := by
        rw [← Int.add_emod_self]
        apply Int.emod_eq_of_lt
        · simp only [Int.ofNat_eq_coe]
          omega
        · simp only [Int.ofNat_eq_coe]
          omega
      rw [h4]
      simp only [Int.ofNat_eq_coe]
      omega
    simp only [hb]
    rw [if_neg, if_neg]
    · norm_num
      omega
    · norm_num
      omega
    · norm_num
      omega
/-! ## The operands of a two-operand instruction (C36) -/

set_option maxRecDepth 100000 in
/-- C36 on the code: `readTwoOperands` accepts a tail exactly when it holds a comma, the
text before the first comma holds a character that is not white, no further comma follows,
and one word and nothing else stands behind the comma; the source operand is the text
before the comma with every white character taken out, the target operand is the word
behind the comma. A missing operand, a third operand, a second comma and two words behind
the comma are rejected; two words before the comma are not: `r 1, r2` is read as the
operands `r1` and `r2`, and the line `mov r 1, r2` gives the words of `mov r1, r2`. -/
theorem readTwoOperands_contract (line : List Char) :
    ((readTwoOperands line none none "").ok = true ↔
      ',' ∈ skipWhiteChar line ∧ (∃ c ∈ beforeComma line, isspace c = false) ∧
      ',' ∉ afterComma line ∧ (getWord (afterComma line)).2 ≠ [] ∧
      isWhiteSpaceString (getWord (afterComma line)).1 = true) ∧
    ((readTwoOperands line none none "").ok = true →
      (readTwoOperands line none none "").source_operand
        = some ((beforeComma line).filter fun c => !isspace c) ∧
      (readTwoOperands line none none "").target_operand
        = some (getWord (afterComma line)).2) ∧
    readTwoOperands " r1 , r2\n".toList none none ""
      = ⟨true, "\n".toList, some "r1".toList, some "r2".toList, ""⟩ ∧
    (readTwoOperands " r1\n".toList none none "").error_str
      = "The number of operands does not match the opcode type." ∧
    (readTwoOperands " , r2\n".toList none none "").error_str
      = "The source operand is missing." ∧
    (readTwoOperands " r1, \n".toList none none "").error_str
      = "The target operand is missing." ∧
    (readTwoOperands " r1, r2, r3\n".toList none none "").error_str
      = "Two commas were detected on the command line." ∧
    (readTwoOperands " r1, r 2\n".toList none none "").error_str
      = "Extra characters was detected after the target operand." ∧
    readTwoOperands " r 1, r2\n".toList none none ""
      = ⟨true, "\n".toList, some "r1".toList, some "r2".toList, ""⟩ ∧
    readNewInstruction ⟨100, [], ""⟩ "mov r 1, r2\n".toList 1
      = some ⟨102, [⟨100, 0, wordType.bmc 1092⟩, ⟨101, 0, wordType.bmc 84⟩], ""⟩ ∧
    readNewInstruction ⟨100, [], ""⟩ "mov r1, r2\n".toList 1
      = some ⟨102, [⟨100, 0, wordType.bmc 1092⟩, ⟨101, 0, wordType.bmc 84⟩], ""⟩ :=
  ⟨(readTwoOperands_accepted line).1, (readTwoOperands_accepted line).2,
    by decide, by decide, by decide, by decide, by decide, by decide, by decide, by decide,
    by decide⟩
/-! ## The first error ends the first scan of the pre-processor (C37) -/

/-- C37 on the code: behind lines that are valid and hold no `macr `, the first line that
`isValidLine` rejects ends the first scan. `macrosLayout` returns FALSE with the diagnostic
of that line under its line number, whatever the lines behind it hold, and no output file
is written; the macro list is still empty. And no run of `macrosLayout`, on any input,
leaves more than one diagnostic. -/
theorem first_error_stops (writable : Bool) (pre : List (List Char)) (buf : List Char)
    (rest : List (List Char))
    (hpre : ∀ b ∈ pre, (isValidLine (cstr b) "").1 = true ∧
      strstr (strippedLine b) "macr ".toList = none)
    (hbuf : (isValidLine (cstr buf) "").1 = false) :
    macrosLayout writable (pre ++ buf :: rest) =
      some ⟨FALSE, [], false,
        [(toShort (Int.ofNat ((1 + pre.length) % 4294967296)),
          (isValidLine (cstr buf) "").2.2)], none⟩ ∧
    ∀ (input : List (List Char)) (m : macrosResult),
      macrosLayout writable input = some m → m.errors.length ≤ 1 := by
  refine ⟨?_, ?_⟩
  swap
  · intro input m hm
    unfold macrosLayout at hm
    simp only [Option.bind_eq_some] at hm
    obtain ⟨f, hf, hm⟩ := hm
    have herr := firstScanLoop_errors _ _ _ _ f hf
    cases hok : f.ok with
    | false =>
      rw [hok] at hm
      simp only [Bool.not_false, if_true, Option.some.injEq] at hm
      subst hm
      rcases herr with ⟨_, h0⟩ | ⟨_, e, h1⟩
      · simp [h0]
      · simp [h1]
    | true =>
      rw [hok] at hm
      simp only [Bool.not_true, Bool.false_eq_true, if_false] at hm
      cases hwr : writable with
      | false =>
        rw [hwr] at hm
        simp only [Bool.not_false, if_true, Option.some.injEq] at hm
        subst hm
        simp
      | true =>
        rw [hwr] at hm
        simp only [Bool.not_true, Bool.false_eq_true, if_false, Option.map_eq_some'] at hm
        obtain ⟨out, _, hm⟩ := hm
        subst hm
        simp
  unfold macrosLayout
  have hl : (pre ++ buf :: rest).length = (rest.length + 1) + pre.length := by
    simp only [List.length_append, List.length_cons]
    omega
  rw [hl, firstScanLoop_ordinary pre (rest.length + 1) 1 [] (buf :: rest) (by decide) hpre,
    firstScanLoop_invalid _ _ _ _ _ hbuf]
  rfl

set_option maxRecDepth 100000 in
/-- The instance of C37 for the lines `stop`, `inc r1 ;c`, `mov ;d`: the diagnostic of the
second line is the only one. -/
theorem first_error_stops_witness :
    macrosLayout true ["stop\n".toList, "inc r1 ;c\n".toList, "mov ;d\n".toList] =
      some ⟨FALSE, [], false,
        [(2, "Extra characters were detected before the character: ';'")], none⟩ :=
  (first_error_stops true ["stop\n".toList] "inc r1 ;c\n".toList ["mov ;d\n".toList]
    (by decide) (by decide)).1

set_option maxRecDepth 100000 in
/-- Two lines that are each in error, and one diagnostic: for a line of 85 characters
followed by a line with a stray `;`, for two lines with a stray `;`, and for a definition
with the name `mov` followed by a line with a stray `;`. -/
theorem first_error_stops_counterexample :
    macrosLayout true
        (fileLines (List.replicate 85 'a' ++ "\nstop ;c\n".toList))
      = some ⟨FALSE, [], false, [(1, "The line contains more than 80 characters.")],
          none⟩ ∧
    macrosLayout true (fileLines "stop ;c\nmov ;d\n".toList)
      = some ⟨FALSE, [], false,
          [(1, "Extra characters were detected before the character: ';'")], none⟩ ∧
    macrosLayout true (fileLines "macr mov\ninc r1\nendmacr\nstop ;c\n".toList)
      = some ⟨FALSE, [], true,
          [(1, "Invalid macro name, the word: mov is used as an opcode.")], none⟩ := by
  decide
/-! ## A definition that the end of the file cuts (C38) -/

set_option maxRecDepth 100000 in
/-- C38 on the code: when the first scan meets a `macr` line that it accepts (a valid line
that starts with `macr `, with a name that `getMacroName` and `isValidName` accept and that
no macro has yet) and every line from there to the end of the file is valid and holds no
`endmacr`, the scan neither rejects the input nor ends: at the end of the file
`getCommands` goes on with the line it read last, which never ends its loop. This is so
for the files `macr m`, `inc r1` and `stop`, `macr m`, and after a definition that is
complete. -/
theorem unterminated_definition (fuel : Nat) (buf : List Char) (body : List (List Char))
    (n : Nat) (macros : List macroNode)
    (hlen : (cstr buf).length ≤ 81)
    (hline : (isValidLine (cstr buf) "").1 = true)
    (hstart : startsDefinition buf = true)
    (hname : (getMacroName (skipWord (strippedLine buf)) "").1 = true)
    (hvalid : (isValidName (getWord (skipWord (strippedLine buf))).2).1 = true)
    (hnew : isMacroNameExists (getWord (skipWord (strippedLine buf))).2 macros = none)
    (hbody : ∀ x ∈ body, (cstr x).length ≤ 81 ∧ (isValidLine (cstr x) "").1 = true ∧
      strstr (strippedLine x) "endmacr".toList = none) :
    firstScanLoop (fuel + 1) (buf :: body) n macros = none ∧
    macrosLayout true (fileLines "macr m\ninc r1\n".toList) = none ∧
    macrosLayout true (fileLines "stop\nmacr m\n".toList) = none ∧
    macrosLayout true (fileLines "macr m\ninc r1\nendmacr\nmacr k\nstop\n".toList) = none := by
  refine ⟨?_, by decide, by decide, by decide⟩
  obtain ⟨f1, f2⟩ := isValidLine_fields _ _ hline
  have hs := (isStartMacroDeclaration_true (strippedLine buf) "").mpr hstart
  have hk := isStartMacroDeclaration_keeps _ _ hs
  unfold strippedLine at hs hk
  have hd := getMacroData_unterminated buf body n macros "" hlen hstart hname hvalid hnew
    hbody rfl
  unfold strippedLine at hd
  simp only [firstScanLoop, hline, if_true, f1, f2, hs, hk, readNewMacro, hd, Option.map_none',
    Option.none_bind]

set_option maxRecDepth 100000 in
/-- The instance of C38 for the lines `macr m`, `inc r1`. -/
theorem unterminated_definition_witness :
    firstScanLoop 2 ["macr m\n".toList, "inc r1\n".toList] 1 [] = none :=
  (unterminated_definition 1 "macr m\n".toList ["inc r1\n".toList] 1 [] (by decide)
    (by decide) (by decide) (by decide) (by decide) (by decide) (by decide)).1
/-! ## A label before `.entry` or `.extern` (C39) -/

/-- C39: in a round of the loop of `firstPass` on a line that holds a colon, has `.entry`
or `.extern` behind the label and gets no diagnostic, within the first 32767 lines of the
file: one declaration is appended, with the name behind the directive, the kind of the
directive and the number of the line as value; the label before the colon gets no
declaration of its own, and IC, DC, the code words, the data words and the indicator stay
as they were. The two warnings are printed and leave no trace in the state. -/
theorem labelled_declaration (macros : List macroNode) (st st' : firstPassState)
    (buf : List Char) (hrun : firstPassLine macros st buf = some st')
    (hcolon : (strchr (cstr buf) ':').isSome = true) (hacc : st'.errors = st.errors)
    (hline : st.line_num ≤ 32767)
    (hkind : labelledType (cstr buf) = ENTRY ∨ labelledType (cstr buf) = EXTERN) :
    st'.declarations_list = st.declarations_list ++
      [⟨Int.ofNat st.line_num, declaredName (skipWord (cstr buf)),
        labelledType (cstr buf)⟩] ∧
    st'.indicator = st.indicator ∧ st'.ic = st.ic ∧ st'.dc = st.dc ∧
    st'.instructions_list = st.instructions_list ∧ st'.data_list = st.data_list := by
  obtain ⟨_, _, _, _, hE⟩ := firstPassLine_labelled macros st st' buf hrun hcolon hacc
  obtain ⟨a1, a2, a3, a4, a5, a6⟩ := hE hkind
  refine ⟨?_, a1, a3, a5, a4, a6⟩
  rw [a2]
  unfold creatDeclarationNode
  rw [toShort_of_range _ (by simp only [Int.ofNat_eq_coe]; omega)
    (by simp only [Int.ofNat_eq_coe]; omega)]

set_option maxRecDepth 100000 in
/-- The instance of C39 for the line `L: .entry N` read as line 2 behind two code
words. -/
theorem labelled_declaration_witness :
    firstPassLine []
        ⟨102, 0, 2, true, [⟨100, 0, wordType.bmc 1092⟩, ⟨101, 0, wordType.bmc 84⟩], [], [], []⟩
        "L: .entry N\n".toList
      = some ⟨102, 0, 3, true, [⟨100, 0, wordType.bmc 1092⟩, ⟨101, 0, wordType.bmc 84⟩],
          [], [⟨2, "N".toList, ENTRY⟩], []⟩ ∧
    declaredName (skipWord (cstr "L: .entry N\n".toList)) = "N".toList ∧
    labelledType (cstr "L: .entry N\n".toList) = ENTRY ∧
    ([⟨2, "N".toList, ENTRY⟩] : List declarationNode) = [] ++
      [⟨Int.ofNat 2, declaredName (skipWord (cstr "L: .entry N\n".toList)),
        labelledType (cstr "L: .entry N\n".toList)⟩] :=
  ⟨by decide, by decide, by decide,
    (labelled_declaration []
      ⟨102, 0, 2, true, [⟨100, 0, wordType.bmc 1092⟩, ⟨101, 0, wordType.bmc 84⟩], [], [], []⟩
      ⟨102, 0, 3, true, [⟨100, 0, wordType.bmc 1092⟩, ⟨101, 0, wordType.bmc 84⟩],
        [], [⟨2, "N".toList, ENTRY⟩], []⟩
      "L: .entry N\n".toList (by decide) (by decide) rfl (by decide)
      (Or.inl (by decide))).1⟩
/-! ## Rejected instruction lines (C40) -/

/-- C40: when `readNewInstruction` leaves a message for a line of the two-operand or the
one-operand group and the list of code words is not empty, the list and IC are as they were
before the line. A line of the third group with text behind the opcode gets its message
and still appends its first word at IC and moves IC on by one. -/
theorem rejected_instruction (st st' : instructionState) (line : List Char) (line_num : Nat)
    (hclean : st.error_str = "")
    (hrun : readNewInstruction st line line_num = some st')
    (hrejected : st'.error_str ≠ "") :
    ((getOpcode line).1 ≤ JSR → st.instructions_list ≠ [] →
      st'.ic = st.ic ∧ st'.instructions_list = st.instructions_list) ∧
    (¬ (getOpcode line).1 ≤ JSR →
      isWhiteSpaceString (getOpcode line).2 = false ∧ st'.ic = toShort (st.ic + 1) ∧
      ∃ n, st'.instructions_list = st.instructions_list ++ [n] ∧ n.ic = st.ic) := by
  unfold readNewInstruction at hrun
  simp only [hclean] at hrun
  have hgroups : ∀ x : Int, x ≤ LEA → x ≤ JSR := by
    intro x hx
    simp only [LEA, JSR] at hx ⊢
    omega
  refine ⟨fun hj hne => ?_, fun hj => ?_⟩
  · have hcurr : (!st.instructions_list.isEmpty) = true := by
      cases hl : st.instructions_list with
      | nil => exact absurd hl hne
      | cons a l => rfl
    rw [hcurr] at hrun
    by_cases h1 : (getOpcode line).1 ≤ LEA
    · rw [if_pos h1] at hrun
      have hsp := readTwoOperands_spec (getOpcode line).2 ""
      generalize readTwoOperands (getOpcode line).2 none none "" = r at hrun hsp
      split_ifs at hrun with hc1
      · cases hrun
        exact ⟨rfl, rfl⟩
      · simp only [Option.bind_eq_some] at hrun
        obtain ⟨src, _, tgt, _, hrun⟩ := hrun
        have hok : r.ok = true := by
          cases hr : r.ok with
          | true => rfl
          | false => rw [hr] at hc1; simp at hc1
        have hre := (hsp.2 hok).1
        rw [hre] at hrun
        split_ifs at hrun with hc2
        · cases hrun
          exact ⟨rfl, rfl⟩
        · exfalso
          simp only [Bool.and_true, Bool.or_eq_true, decide_eq_true_eq, not_or] at hc2
          have he := twoOperandWords_error _ _ _ _ _ _ _ _ _ hrun
          rw [(isValidTargetOperandType_error _ _ _).2 hc2.2,
            (isValidSourceOperandType_error _ _ _).2 hc2.1] at he
          exact hrejected he
    · rw [if_neg h1, if_pos hj] at hrun
      have hsp := readTargetOperand_spec (getOpcode line).2 none none ""
      generalize readTargetOperand (getOpcode line).2 none none "" = r at hrun hsp
      split_ifs at hrun with hc1
      · cases hrun
        exact ⟨rfl, rfl⟩
      · simp only [Option.bind_eq_some] at hrun
        obtain ⟨tgt, _, hrun⟩ := hrun
        have hok : r.ok = true := by
          cases hr : r.ok with
          | true => rfl
          | false => rw [hr] at hc1; simp at hc1
        have hre := (hsp.2 hok).1
        rw [hre] at hrun
        split_ifs at hrun with hc2
        · cases hrun
          exact ⟨rfl, rfl⟩
        · exfalso
          simp only [Bool.and_true, decide_eq_true_eq] at hc2
          have he := oneOperandWords_error _ _ _ _ _ _ _ hrun
          rw [(isValidTargetOperandType_error _ _ _).2 hc2] at he
          exact hrejected he
  · have h1 : ¬ (getOpcode line).1 ≤ LEA := fun h => hj (hgroups _ h)
    rw [if_neg h1, if_neg hj] at hrun
    have he := noOperandWords_error _ _ _ _ _ hrun
    have hw : isWhiteSpaceString (getOpcode line).2 = false := by
      cases hq : isWhiteSpaceString (getOpcode line).2 with
      | false => rfl
      | true =>
        rw [hq] at he
        simp only [Bool.not_true, Bool.false_eq_true, if_false] at he
        exact absurd he hrejected
    refine ⟨hw, ?_⟩
    unfold noOperandWords at hrun
    simp only [Option.bind_eq_some, Option.map_eq_some'] at hrun
    obtain ⟨fw, _, n1, hn1, hst⟩ := hrun
    subst hst
    exact ⟨rfl, n1, rfl, creatInstructionNode_ic _ _ _ _ _ hn1⟩

set_option maxRecDepth 100000 in
/-- The instance of C40 for the line `mov r1, #2`, whose target may not be immediate, read
behind one code word. -/
theorem rejected_instruction_witness :
    readNewInstruction ⟨101, [⟨100, 0, wordType.bmc 30724⟩], ""⟩ "mov r1, #2\n".toList 1
      = some ⟨101, [⟨100, 0, wordType.bmc 30724⟩],
          "Invalid target operand type, the operand type does not match the opcode type."⟩ ∧
    ((getOpcode "mov r1, #2\n".toList).1 ≤ JSR →
      ([⟨100, 0, wordType.bmc 30724⟩] : List instructionNode) ≠ [] →
      (101 : Int) = 101 ∧
      ([⟨100, 0, wordType.bmc 30724⟩] : List instructionNode)
        = [⟨100, 0, wordType.bmc 30724⟩]) :=
  ⟨by decide,
    (rejected_instruction ⟨101, [⟨100, 0, wordType.bmc 30724⟩], ""⟩
      ⟨101, [⟨100, 0, wordType.bmc 30724⟩],
        "Invalid target operand type, the operand type does not match the opcode type."⟩
      "mov r1, #2\n".toList 1 rfl (by decide) (by decide)).1⟩

set_option maxRecDepth 100000 in
/-- The line `stop x` is reported and its word is appended all the same; and while the
list of code words is empty the line `mov r1, #2` is reported and its three words are
appended. -/
theorem rejected_instruction_counterexample :
    readNewInstruction ⟨101, [⟨100, 0, wordType.bmc 30724⟩], ""⟩ "stop x\n".toList 1
      = some ⟨102, [⟨100, 0, wordType.bmc 30724⟩, ⟨101, 0, wordType.bmc 30724⟩],
          "The number of operands does not match the opcode type."⟩ ∧
    readNewInstruction ⟨100, [], ""⟩ "mov r1, #2\n".toList 1
      = some ⟨103, [⟨100, 0, wordType.bmc 1028⟩, ⟨101, 0, wordType.bmc 68⟩,
            ⟨102, 1, wordType.name "#2".toList⟩],
          "Invalid target operand type, the operand type does not match the opcode type."⟩ := by
  decide
end Assembler
